import Mathlib

/-! Vectrexy core: shallow embedding of the 6809 CPU interpreter (`src/src/Cpu.cpp`), of the
VIA (`src/src/Via.cpp`), of the PSG (`src/src/Psg.cpp`) and of the breakpoint set
(`src/src/Breakpoints.h`)

Machine integers are natural numbers; every assignment to a `uint8_t` / `uint16_t`
location is written with an explicit `% 256` / `% 65536`.  Signed quantities
(`int8_t`, `int16_t`) are integers.  A `FAIL` or a failed `assert` is `none`.  Where the
language leaves the order of two argument evaluations unspecified and the order can be
observed, the order is a parameter (`ArgumentOrder`).
-/

namespace Vectrexy

/-! ## Helpers from headers that are not among the sources -/

/-- Modelled from the spec: the `BITS(n)` helper of `Base.h` (not among the sources),
the mask with only bit `n` set, as in "bit 7 distinguishing the short 5-bit-offset form". -/
def BITS (n : Nat) : Nat := 1 <<< n

/-- Modelled from the spec: `U8(v)` of `CpuHelpers.h` (not among the sources), the cast of a
value to `uint8_t`. -/
def U8 (v : Nat) : Nat := v % 256

/-- Modelled from the spec: `U16(v)` of `CpuHelpers.h` (not among the sources), the cast of a
value to `uint16_t`. -/
def U16 (v : Nat) : Nat := v % 65536

/-- Modelled from the spec: `CombineToU16(msb, lsb)` of `CpuHelpers.h` (not among the
sources); "all memory is big-endian for 16-bit accesses", the first byte is the high byte. -/
def CombineToU16 (msb lsb : Nat) : Nat := (U8 msb <<< 8) ||| U8 lsb

/-- Value of an `int8_t` holding the bit pattern `v`. -/
def toS8 (v : Nat) : Int := if v % 256 < 128 then (v % 256 : Nat) else (v % 256 : Nat) - 256

/-- Value of an `int16_t` holding the bit pattern `v`. -/
def toS16 (v : Nat) : Int :=
  if v % 65536 < 32768 then (v % 65536 : Nat) else (v % 65536 : Nat) - 65536

/-- The value of `--v` (or `v -= 1`) for a `uint16_t` `v`, before it is stored back. -/
def dec16 (v : Nat) : Nat := if v = 0 then 65535 else v - 1

/-- Conversion of a signed result back to a `uint16_t` location. -/
def wrap16 (i : Int) : Nat := (i % 65536).toNat

/-- Modelled from the spec: `CombineToS16(msb, lsb)` of `CpuHelpers.h` (not among the
sources), the big-endian word read as a signed 16-bit offset. -/
def CombineToS16 (msb lsb : Nat) : Int := toS16 (CombineToU16 msb lsb)

/-- Modelled from the spec: `S16(v)` of `CpuHelpers.h` (not among the sources) applied to an
8-bit register or offset byte; the spec's indexed table reads these as signed
("B,R (signed B)", "8-bit offset"). -/
def S16of8 (v : Nat) : Int := toS8 v

/-- Modelled from the spec: `S16(D)` of `CpuHelpers.h` (not among the sources), the
16-bit accumulator read as signed ("D,R (signed D)"). -/
def S16of16 (v : Nat) : Int := toS16 v

/-! ## Condition codes -/

/-- Modelled from the spec: `ConditionCode` of `Cpu.h` (not among the sources), the bit
fields `{Carry, Overflow, Zero, Negative, InterruptMask, HalfCarry, FastInterruptMask,
Entire}`, one bit each, sharing storage with the byte `Value` (Carry is bit 0). -/
structure ConditionCode where
  Carry : Bool
  Overflow : Bool
  Zero : Bool
  Negative : Bool
  InterruptMask : Bool
  HalfCarry : Bool
  FastInterruptMask : Bool
  Entire : Bool
deriving DecidableEq, Repr

/-- Assignment of an integer to a one-bit field keeps the low bit. -/
def bit1 (n : Nat) : Bool := n % 2 == 1

/-- The byte `CC.Value` that shares storage with the eight flags. -/
def ConditionCode.Value (c : ConditionCode) : Nat :=
  c.Carry.toNat + 2 * c.Overflow.toNat + 4 * c.Zero.toNat + 8 * c.Negative.toNat
    + 16 * c.InterruptMask.toNat + 32 * c.HalfCarry.toNat
    + 64 * c.FastInterruptMask.toNat + 128 * c.Entire.toNat

/-- Assignment `CC.Value = v`. -/
def ConditionCode.ofValue (v : Nat) : ConditionCode :=
  { Carry := bit1 v
    Overflow := bit1 (v / 2)
    Zero := bit1 (v / 4)
    Negative := bit1 (v / 8)
    InterruptMask := bit1 (v / 16)
    HalfCarry := bit1 (v / 32)
    FastInterruptMask := bit1 (v / 64)
    Entire := bit1 (v / 128) }

/-! ## Flag computations (anonymous namespace of `Cpu.cpp`) -/

/-- Source: `CalcZero`. -/
def CalcZero (v : Nat) : Nat := if v = 0 then 1 else 0

/-- Source: `CalcNegative(uint8_t)`. -/
def CalcNegative8 (v : Nat) : Nat := if v &&& BITS 7 ≠ 0 then 1 else 0

/-- Source: `CalcNegative(uint16_t)`. -/
def CalcNegative16 (v : Nat) : Nat := if v &&& BITS 15 ≠ 0 then 1 else 0

/-- Source: `CalcCarry(uint16_t)`. -/
def CalcCarry16 (r : Nat) : Nat := if r &&& 0xFF00 ≠ 0 then 1 else 0

/-- Source: `CalcCarry(uint32_t)`. -/
def CalcCarry32 (r : Nat) : Nat := if r &&& 0xFFFF0000 ≠ 0 then 1 else 0

/-- Source: `CalcHalfCarryFromAdd(uint8_t, uint8_t)`. -/
def CalcHalfCarryFromAdd (a b : Nat) : Nat :=
  if ((a &&& 0x0F) + (b &&& 0x0F)) &&& 0xF0 ≠ 0 then 1 else 0

/-- Source: `CalcOverflow(uint8_t, uint8_t, uint16_t)`. -/
def CalcOverflow8 (a b r : Nat) : Nat :=
  if (a ^^^ r) &&& (b ^^^ r) &&& BITS 7 ≠ 0 then 1 else 0

/-- Source: `CalcOverflow(uint16_t, uint16_t, uint32_t)`. -/
def CalcOverflow16 (a b r : Nat) : Nat :=
  if (a ^^^ r) &&& (b ^^^ r) &&& BITS 15 ≠ 0 then 1 else 0

/-- Source: `NumBitsSet`, the loop `while (value) { if ((value & 0x1) != 0) ++count;
value >>= 1; }` with `count` as accumulator; `fuel` bounds the number of iterations. -/
def NumBitsSetLoop : Nat → Nat → Nat → Nat
  | 0, _, count => count
  | fuel + 1, value, count =>
    if value = 0 then count
    else NumBitsSetLoop fuel (value >>> 1) (if value &&& 0x1 ≠ 0 then count + 1 else count)

/-- Source: `NumBitsSet`.  Every iteration with `value ≠ 0` makes `value` smaller, so
`value` iterations are enough for the loop to reach `value = 0`. -/
def NumBitsSet (value : Nat) : Nat := NumBitsSetLoop value value 0

/-! ## Addition and subtraction cores -/

/-- Source: `AddImpl(uint8_t, uint8_t, uint8_t, ConditionCode&, UpdateHalfCarry)`.
Returns the 8-bit result and the updated flags. -/
def AddImpl8 (a b carry : Nat) (CC : ConditionCode) (updateHalfCarry : Bool) :
    Nat × ConditionCode :=
  let r16 := U16 (a + b + carry)
  let CC := if updateHalfCarry then
      { CC with HalfCarry := bit1 (CalcHalfCarryFromAdd a b) } else CC
  let CC := { CC with Carry := bit1 (CalcCarry16 r16) }
  let CC := { CC with Overflow := bit1 (CalcOverflow8 a b r16) }
  let r := U8 r16
  let CC := { CC with Zero := bit1 (CalcZero r) }
  let CC := { CC with Negative := bit1 (CalcNegative8 r) }
  (r, CC)

/-- Source: `AddImpl(uint16_t, uint16_t, uint16_t, ConditionCode&, UpdateHalfCarry)`.
The `assert(updateHalfCarry == UpdateHalfCarry::False)` is the `none` branch. -/
def AddImpl16 (a b carry : Nat) (CC : ConditionCode) (updateHalfCarry : Bool) :
    Option (Nat × ConditionCode) :=
  if updateHalfCarry then none
  else
    let r32 := (a + b + carry) % 4294967296
    let CC := { CC with Carry := bit1 (CalcCarry32 r32) }
    let CC := { CC with Overflow := bit1 (CalcOverflow16 a b r32) }
    let r := U16 r32
    let CC := { CC with Zero := bit1 (CalcZero r) }
    let CC := { CC with Negative := bit1 (CalcNegative16 r) }
    some (r, CC)

/-- Source: `SubtractImpl(uint8_t, uint8_t, ConditionCode&)`; `~b` converted to the
`uint8_t` parameter is `255 - b`. -/
def SubtractImpl8 (a b : Nat) (CC : ConditionCode) : Nat × ConditionCode :=
  let (result, CC) := AddImpl8 a (U8 (255 - U8 b)) 1 CC false
  (result, { CC with Carry := !CC.Carry })

/-- Source: `SubtractImpl(uint16_t, uint16_t, ConditionCode&)`; `~b` converted to the
`uint16_t` parameter is `65535 - b`. -/
def SubtractImpl16 (a b : Nat) (CC : ConditionCode) : Option (Nat × ConditionCode) :=
  match AddImpl16 a (U16 (65535 - U16 b)) 1 CC false with
  | none => none
  | some (result, CC) => some (result, { CC with Carry := !CC.Carry })

/-! ## Registers, memory bus and CPU state -/

/-- Modelled from the spec: the memory bus of `MemoryBus.h` (not among the sources), with
the contract "`read8(addr) → byte` and `write8(addr, byte)`".  `M` is the state of the bus
and of the devices behind it; `Read` is a `const` member function. -/
class MemoryBus (M : Type) where
  Read : M → Nat → Nat
  Write : M → Nat → Nat → M

/-- Modelled from the spec: `CpuRegisters` of `Cpu.h` (not among the sources).  "`D` is not
stored: reads synthesize `(A<<8)|B`; writes to `D` update both." -/
structure CpuRegisters where
  X : Nat
  Y : Nat
  U : Nat
  S : Nat
  PC : Nat
  DP : Nat
  A : Nat
  B : Nat
  CC : ConditionCode
deriving DecidableEq, Repr

/-- Source: `class CpuImpl : public CpuRegisters` with its members `m_memoryBus` and
`m_cycles`. -/
structure CpuImpl (M : Type) extends CpuRegisters where
  m_memoryBus : M
  m_cycles : Nat

/-- Every register holds a value of its width. -/
def CpuRegisters.WF (r : CpuRegisters) : Prop :=
  r.X < 65536 ∧ r.Y < 65536 ∧ r.U < 65536 ∧ r.S < 65536 ∧ r.PC < 65536 ∧
    r.DP < 256 ∧ r.A < 256 ∧ r.B < 256

instance (r : CpuRegisters) : Decidable r.WF := by
  unfold CpuRegisters.WF; infer_instance

/-- Modelled from the spec: read of the accumulator pair `D`, "`(A<<8)|B`". -/
def CpuRegisters.D (r : CpuRegisters) : Nat := CombineToU16 r.A r.B

/-- The 8-bit locations that the interpreter passes by reference. -/
inductive Reg8 where
  | A | B | CCValue | DP
deriving DecidableEq, Repr

/-- The 16-bit locations that the interpreter passes by reference. -/
inductive Reg16 where
  | D | X | Y | U | S | PC
deriving DecidableEq, Repr

variable {M : Type}

/-- Read through a `uint8_t&`. -/
def CpuImpl.get8 (s : CpuImpl M) : Reg8 → Nat
  | .A => s.A
  | .B => s.B
  | .CCValue => s.CC.Value
  | .DP => s.DP

/-- Write through a `uint8_t&`. -/
def CpuImpl.set8 (s : CpuImpl M) (r : Reg8) (v : Nat) : CpuImpl M :=
  match r with
  | .A => { s with A := U8 v }
  | .B => { s with B := U8 v }
  | .CCValue => { s with CC := ConditionCode.ofValue (U8 v) }
  | .DP => { s with DP := U8 v }

/-- Read through a `uint16_t&`. -/
def CpuImpl.get16 (s : CpuImpl M) : Reg16 → Nat
  | .D => s.D
  | .X => s.X
  | .Y => s.Y
  | .U => s.U
  | .S => s.S
  | .PC => s.PC

/-- Write through a `uint16_t&`; modelled from the spec for `D`: "writes to `D` update
both" halves, `A` the high byte. -/
def CpuImpl.set16 (s : CpuImpl M) (r : Reg16) (v : Nat) : CpuImpl M :=
  match r with
  | .D => { s with A := U8 (U16 v >>> 8), B := U8 (U16 v) }
  | .X => { s with X := U16 v }
  | .Y => { s with Y := U16 v }
  | .U => { s with U := U16 v }
  | .S => { s with S := U16 v }
  | .PC => { s with PC := U16 v }

/-- Assignment to the flags, `CC = ...` or `CC.Flag = ...` on the whole record. -/
def CpuImpl.setCC (s : CpuImpl M) (c : ConditionCode) : CpuImpl M := { s with CC := c }

/-- The statement `m_cycles += n`. -/
def CpuImpl.addCycles (s : CpuImpl M) (n : Nat) : CpuImpl M :=
  { s with m_cycles := s.m_cycles + n }

/-- Source: `CpuImpl::Reset`. -/
def Reset (s : CpuImpl M) (initialPC : Nat) : CpuImpl M :=
  let s := { s with X := 0 }
  let s := { s with Y := 0 }
  let s := { s with U := 0 }
  let s := { s with S := 0 }
  let s := { s with PC := U16 initialPC }
  let s := { s with DP := 0 }
  let s := { s with CC := ConditionCode.ofValue 0 }
  let s := s.setCC { s.CC with InterruptMask := true }
  s.setCC { s.CC with FastInterruptMask := true }

variable [MemoryBus M]

/-- Source: `CpuImpl::Read8`; the bus returns a `uint8_t`. -/
def Read8 (s : CpuImpl M) (address : Nat) : Nat :=
  U8 (MemoryBus.Read s.m_memoryBus (U16 address))

/-- Write of a byte through the bus, `m_memoryBus->Write(address, value)`. -/
def Write8 (s : CpuImpl M) (address value : Nat) : CpuImpl M :=
  { s with m_memoryBus := MemoryBus.Write s.m_memoryBus (U16 address) (U8 value) }

/-- Source: `CpuImpl::Read16`. -/
def Read16 (s : CpuImpl M) (address : Nat) : Nat :=
  let high := U8 (MemoryBus.Read s.m_memoryBus (U16 address))
  let address := U16 (U16 address + 1)
  let low := U8 (MemoryBus.Read s.m_memoryBus address)
  CombineToU16 high low

/-- Source: `CpuImpl::ReadPC8`. -/
def ReadPC8 (s : CpuImpl M) : Nat × CpuImpl M :=
  (Read8 s s.PC, s.set16 .PC (s.PC + 1))

/-- Source: `CpuImpl::ReadPC16`. -/
def ReadPC16 (s : CpuImpl M) : Nat × CpuImpl M :=
  let value := Read16 s s.PC
  (value, s.set16 .PC (s.PC + 2))

/-- Source: `CpuImpl::Push8`, on the stack pointer `stackPointer`. -/
def Push8 (stackPointer : Reg16) (value : Nat) (s : CpuImpl M) : CpuImpl M :=
  let s := s.set16 stackPointer (dec16 (s.get16 stackPointer))
  Write8 s (s.get16 stackPointer) value

/-- Source: `CpuImpl::Pop8`. -/
def Pop8 (stackPointer : Reg16) (s : CpuImpl M) : Nat × CpuImpl M :=
  let value := U8 (MemoryBus.Read s.m_memoryBus (U16 (s.get16 stackPointer)))
  (value, s.set16 stackPointer (s.get16 stackPointer + 1))

/-- Source: `CpuImpl::Push16`. -/
def Push16 (stackPointer : Reg16) (value : Nat) (s : CpuImpl M) : CpuImpl M :=
  let s := s.set16 stackPointer (dec16 (s.get16 stackPointer))
  let s := Write8 s (s.get16 stackPointer) (U8 (value &&& 0xFF))
  let s := s.set16 stackPointer (dec16 (s.get16 stackPointer))
  Write8 s (s.get16 stackPointer) (U8 (value >>> 8))

/-- Source: `CpuImpl::Pop16`. -/
def Pop16 (stackPointer : Reg16) (s : CpuImpl M) : Nat × CpuImpl M :=
  let high := U8 (MemoryBus.Read s.m_memoryBus (U16 (s.get16 stackPointer)))
  let s := s.set16 stackPointer (s.get16 stackPointer + 1)
  let low := U8 (MemoryBus.Read s.m_memoryBus (U16 (s.get16 stackPointer)))
  let s := s.set16 stackPointer (s.get16 stackPointer + 1)
  (CombineToU16 high low, s)

/-! ## Addressing modes -/

/-- Modelled from the spec: `AddressingMode` of `CpuOpCodes.h` (not among the sources): the
five modes of the spec, the inherent mode of operand-less opcodes, and the two markers
`Illegal` and `Variant` that `ExecuteInstruction` asserts against. -/
inductive AddressingMode where
  | Relative | Inherent | Immediate | Direct | Indexed | Extended | Illegal | Variant
deriving DecidableEq, Repr

/-- Modelled from the spec: an entry of the static opcode table of `CpuOpCodes.h` (not among
the sources), "`{name, addressing-mode, base-cycles, operand-size}`"; only the fields that
`Cpu.cpp` reads are kept. -/
structure CpuOp where
  opCode : Nat
  addrMode : AddressingMode
  cycles : Nat
deriving DecidableEq, Repr

/-- Source: `CpuImpl::ReadDirectEA`. -/
def ReadDirectEA (s : CpuImpl M) : Nat × CpuImpl M :=
  let (lo, s') := ReadPC8 s
  (CombineToU16 s.DP lo, s')

/-- Source: the lambda `RegisterSelect` of `CpuImpl::ReadIndexedEA`. -/
def RegisterSelect (postbyte : Nat) : Reg16 :=
  match (postbyte >>> 5) &&& 0b11 with
  | 0b00 => .X
  | 0b01 => .Y
  | 0b10 => .U
  | _ => .S

/-- Source: `CpuImpl::ReadIndexedEA`, the part before the indirection: the effective
address, `supportsIndirect`, `extraCycles` and the state after the side effects. -/
def ReadIndexedEABase (postbyte : Nat) (s : CpuImpl M) :
    Option (Nat × Bool × Nat × CpuImpl M) :=
  if postbyte &&& BITS 7 = 0 then
    let offset := postbyte &&& 0b00001111
    let offset := if postbyte &&& BITS 4 ≠ 0 then offset ||| 0b11100000 else offset
    some (wrap16 (s.get16 (RegisterSelect postbyte) + S16of8 offset), false, 1, s)
  else
    match postbyte &&& 0b1111 with
    | 0b0000 =>
      let reg := RegisterSelect postbyte
      some (s.get16 reg, false, 2, s.set16 reg (s.get16 reg + 1))
    | 0b0001 =>
      let reg := RegisterSelect postbyte
      some (s.get16 reg, true, 3, s.set16 reg (s.get16 reg + 2))
    | 0b0010 =>
      let reg := RegisterSelect postbyte
      let s := s.set16 reg (dec16 (s.get16 reg))
      some (s.get16 reg, false, 2, s)
    | 0b0011 =>
      let reg := RegisterSelect postbyte
      let s := s.set16 reg (dec16 (U16 (dec16 (s.get16 reg))))
      some (s.get16 reg, true, 3, s)
    | 0b0100 => some (s.get16 (RegisterSelect postbyte), true, 0, s)
    | 0b0101 => some (wrap16 (s.get16 (RegisterSelect postbyte) + S16of8 s.B), true, 1, s)
    | 0b0110 => some (wrap16 (s.get16 (RegisterSelect postbyte) + S16of8 s.A), true, 1, s)
    | 0b0111 => none
    | 0b1000 =>
      let (postbyte2, s) := ReadPC8 s
      some (wrap16 (s.get16 (RegisterSelect postbyte) + S16of8 postbyte2), true, 1, s)
    | 0b1001 =>
      let (postbyte2, s) := ReadPC8 s
      let (postbyte3, s) := ReadPC8 s
      some (wrap16 (s.get16 (RegisterSelect postbyte) + CombineToS16 postbyte2 postbyte3),
        true, 4, s)
    | 0b1010 => none
    | 0b1011 => some (wrap16 (s.get16 (RegisterSelect postbyte) + S16of16 s.D), true, 4, s)
    | 0b1100 =>
      let (postbyte2, s) := ReadPC8 s
      some (wrap16 (s.PC + S16of8 postbyte2), true, 1, s)
    | 0b1101 =>
      let (postbyte2, s) := ReadPC8 s
      let (postbyte3, s) := ReadPC8 s
      some (wrap16 (s.PC + CombineToS16 postbyte2 postbyte3), true, 5, s)
    | 0b1110 => none
    | 0b1111 =>
      let (postbyte2, s) := ReadPC8 s
      let (postbyte3, s) := ReadPC8 s
      some (wrap16 (CombineToS16 postbyte2 postbyte3), true, 5, s)
    | _ => none

/-- Source: `CpuImpl::ReadIndexedEA`. -/
def ReadIndexedEA (s : CpuImpl M) : Option (Nat × CpuImpl M) :=
  let (postbyte, s) := ReadPC8 s
  match ReadIndexedEABase postbyte s with
  | none => none
  | some (EA, supportsIndirect, extraCycles, s) =>
    if supportsIndirect && decide (postbyte &&& BITS 4 ≠ 0) then
      let msb := Read8 s EA
      let lsb := Read8 s (EA + 1)
      some (CombineToU16 msb lsb, s.addCycles (extraCycles + 3))
    else
      some (EA, s.addCycles extraCycles)

/-- Source: `CpuImpl::ReadExtendedEA`. -/
def ReadExtendedEA (s : CpuImpl M) : Nat × CpuImpl M :=
  let (msb, s) := ReadPC8 s
  let (lsb, s) := ReadPC8 s
  (CombineToU16 msb lsb, s)

/-- Source: `CpuImpl::ReadEA16<addressingMode>`; the unspecialised template is
`assert(false)`. -/
def ReadEA16 (addressingMode : AddressingMode) (s : CpuImpl M) : Option (Nat × CpuImpl M) :=
  match addressingMode with
  | .Indexed => ReadIndexedEA s
  | .Extended => some (ReadExtendedEA s)
  | .Direct => some (ReadDirectEA s)
  | _ => none

/-- Source: `CpuImpl::ReadOperandValue16<addressingMode>`. -/
def ReadOperandValue16 (addressingMode : AddressingMode) (s : CpuImpl M) :
    Option (Nat × CpuImpl M) :=
  match addressingMode with
  | .Immediate => some (ReadPC16 s)
  | mode =>
    match ReadEA16 mode s with
    | none => none
    | some (EA, s) => some (Read16 s EA, s)

/-- Source: `CpuImpl::ReadOperandValue8<addressingMode>`. -/
def ReadOperandValue8 (addressingMode : AddressingMode) (s : CpuImpl M) :
    Option (Nat × CpuImpl M) :=
  match addressingMode with
  | .Immediate => some (ReadPC8 s)
  | mode =>
    match ReadEA16 mode s with
    | none => none
    | some (EA, s) => some (Read8 s EA, s)

/-- Source: `CpuImpl::ReadRelativeOffset8`. -/
def ReadRelativeOffset8 (s : CpuImpl M) : Int × CpuImpl M :=
  let (v, s) := ReadPC8 s
  (toS8 v, s)

/-- Source: `CpuImpl::ReadRelativeOffset16`. -/
def ReadRelativeOffset16 (s : CpuImpl M) : Int × CpuImpl M :=
  let (v, s) := ReadPC16 s
  (toS16 v, s)

/-! ## Instruction handlers -/

/-- Source: `CpuImpl::OpLD(uint8_t&)`. -/
def OpLD8 (mode : AddressingMode) (targetReg : Reg8) (s : CpuImpl M) : Option (CpuImpl M) :=
  match ReadOperandValue8 mode s with
  | none => none
  | some (value, s) =>
    let s := s.setCC { s.CC with Negative := decide (value &&& BITS 7 ≠ 0) }
    let s := s.setCC { s.CC with Zero := decide (value = 0) }
    let s := s.setCC { s.CC with Overflow := bit1 0 }
    some (s.set8 targetReg value)

/-- Source: `CpuImpl::OpLD(uint16_t&)`. -/
def OpLD16 (mode : AddressingMode) (targetReg : Reg16) (s : CpuImpl M) :
    Option (CpuImpl M) :=
  match ReadOperandValue16 mode s with
  | none => none
  | some (value, s) =>
    let s := s.setCC { s.CC with Negative := decide (value &&& BITS 15 ≠ 0) }
    let s := s.setCC { s.CC with Zero := decide (value = 0) }
    let s := s.setCC { s.CC with Overflow := bit1 0 }
    some (s.set16 targetReg value)

/-- Source: `CpuImpl::OpST(const uint8_t&)`. -/
def OpST8 (mode : AddressingMode) (sourceReg : Reg8) (s : CpuImpl M) : Option (CpuImpl M) :=
  match ReadEA16 mode s with
  | none => none
  | some (EA, s) =>
    let s := Write8 s EA (s.get8 sourceReg)
    let s := s.setCC { s.CC with Negative := decide (s.get8 sourceReg &&& BITS 7 ≠ 0) }
    let s := s.setCC { s.CC with Zero := decide (s.get8 sourceReg = 0) }
    some (s.setCC { s.CC with Overflow := bit1 0 })

/-- Source: `CpuImpl::OpST(const uint16_t&)`. -/
def OpST16 (mode : AddressingMode) (sourceReg : Reg16) (s : CpuImpl M) :
    Option (CpuImpl M) :=
  match ReadEA16 mode s with
  | none => none
  | some (EA, s) =>
    let s := Write8 s EA (U8 (s.get16 sourceReg >>> 8))
    let s := Write8 s (EA + 1) (U8 (s.get16 sourceReg &&& 0xFF))
    let s := s.setCC { s.CC with Negative := decide (s.get16 sourceReg &&& BITS 7 ≠ 0) }
    let s := s.setCC { s.CC with Zero := decide (s.get16 sourceReg = 0) }
    some (s.setCC { s.CC with Overflow := bit1 0 })

/-- Source: `CpuImpl::OpLEA`. -/
def OpLEA (mode : AddressingMode) (reg : Reg16) (s : CpuImpl M) : Option (CpuImpl M) :=
  match ReadEA16 mode s with
  | none => none
  | some (EA, s) =>
    let s := s.set16 reg EA
    if reg = .X ∨ reg = .Y then
      some (s.setCC { s.CC with Zero := decide (s.get16 reg = 0) })
    else some s

/-- Source: `CpuImpl::OpJSR`. -/
def OpJSR (mode : AddressingMode) (s : CpuImpl M) : Option (CpuImpl M) :=
  match ReadEA16 mode s with
  | none => none
  | some (EA, s) =>
    let s := Push16 .S s.PC s
    some (s.set16 .PC EA)

/-- The flag updates shared by both forms of `OpCLR`. -/
def clrFlags (CC : ConditionCode) : ConditionCode :=
  let CC := { CC with Negative := bit1 0 }
  let CC := { CC with Zero := bit1 1 }
  let CC := { CC with Overflow := bit1 0 }
  { CC with Carry := bit1 0 }

/-- Source: `CpuImpl::OpCLR<page, opCode>()`, the memory form. -/
def OpCLRm (mode : AddressingMode) (s : CpuImpl M) : Option (CpuImpl M) :=
  match ReadEA16 mode s with
  | none => none
  | some (EA, s) =>
    let s := Write8 s EA 0
    some (s.setCC (clrFlags s.CC))

/-- Source: `CpuImpl::OpCLR(uint8_t&)`. -/
def OpCLR8 (reg : Reg8) (s : CpuImpl M) : Option (CpuImpl M) :=
  let s := s.set8 reg 0
  some (s.setCC (clrFlags s.CC))

/-- Source: `CpuImpl::OpADD(uint8_t&)` (ADDA, ADDB). -/
def OpADD8 (mode : AddressingMode) (reg : Reg8) (s : CpuImpl M) : Option (CpuImpl M) :=
  match ReadOperandValue8 mode s with
  | none => none
  | some (b, s) =>
    let (r, CC) := AddImpl8 (s.get8 reg) b 0 s.CC true
    some ((s.setCC CC).set8 reg r)

/-- Source: `CpuImpl::OpADD(uint16_t&)` (ADDD). -/
def OpADD16 (mode : AddressingMode) (reg : Reg16) (s : CpuImpl M) : Option (CpuImpl M) :=
  match ReadOperandValue16 mode s with
  | none => none
  | some (b, s) =>
    match AddImpl16 (s.get16 reg) b 0 s.CC false with
    | none => none
    | some (r, CC) => some ((s.setCC CC).set16 reg r)

/-- Source: `CpuImpl::OpSUB(uint8_t&)` (SUBA, SUBB).  The operand fetch never writes an
8-bit register, so the order in which `reg` and the operand are evaluated is immaterial. -/
def OpSUB8 (mode : AddressingMode) (reg : Reg8) (s : CpuImpl M) : Option (CpuImpl M) :=
  match ReadOperandValue8 mode s with
  | none => none
  | some (b, s) =>
    let (r, CC) := SubtractImpl8 (s.get8 reg) b s.CC
    some ((s.setCC CC).set8 reg r)

/-- Source: `CpuImpl::OpSUB(uint16_t&)` (SUBD):
`reg = SubtractImpl(reg, ReadOperandValue16<...>(), CC)`.  The first argument is passed by
value and the order of the two argument evaluations is unspecified: `registerFirst` says
whether `reg` is read before the operand fetch (state `s`) or after it (state `s1`). -/
def OpSUB16 (registerFirst : Bool) (mode : AddressingMode) (reg : Reg16) (s : CpuImpl M) :
    Option (CpuImpl M) :=
  match ReadOperandValue16 mode s with
  | none => none
  | some (b, s1) =>
    match SubtractImpl16 (if registerFirst then s.get16 reg else s1.get16 reg) b s1.CC with
    | none => none
    | some (r, CC) => some ((s1.setCC CC).set16 reg r)

/-- Source: `CpuImpl::OpADC` (ADCA, ADCB). -/
def OpADC (mode : AddressingMode) (reg : Reg8) (s : CpuImpl M) : Option (CpuImpl M) :=
  match ReadOperandValue8 mode s with
  | none => none
  | some (b, s) =>
    let (r, CC) := AddImpl8 (s.get8 reg) b s.CC.Carry.toNat s.CC true
    some ((s.setCC CC).set8 reg r)

/-- Source: `CpuImpl::OpNEG(uint8_t& value)`, on the value and the flags. -/
def NegValue (value : Nat) (CC : ConditionCode) : Nat × ConditionCode :=
  let origValue := value
  let value := U8 (256 - U8 value)
  let CC := { CC with Overflow := decide (origValue = 0b10000000) }
  let CC := { CC with Zero := decide (value = 0) }
  let CC := { CC with Negative := decide (value &&& BITS 7 ≠ 0) }
  let CC := { CC with Carry := decide (origValue ≠ 0) }
  (value, CC)

/-- Source: `CpuImpl::OpASR(uint8_t& value)`, on the value and the flags. -/
def AsrValue (value : Nat) (CC : ConditionCode) : Nat × ConditionCode :=
  let origValue := value
  let value := U8 ((origValue &&& 0b10000000) ||| (value >>> 1))
  let CC := { CC with Zero := decide (value = 0) }
  let CC := { CC with Negative := decide (value &&& BITS 7 ≠ 0) }
  let CC := { CC with Carry := bit1 (origValue &&& 0b00000001) }
  (value, CC)

/-- Source: `CpuImpl::OpLSR(uint8_t& value)`, on the value and the flags. -/
def LsrValue (value : Nat) (CC : ConditionCode) : Nat × ConditionCode :=
  let origValue := value
  let value := U8 (value >>> 1)
  let CC := { CC with Zero := decide (value = 0) }
  let CC := { CC with Negative := bit1 0 }
  let CC := { CC with Carry := bit1 (origValue &&& 0b00000001) }
  (value, CC)

/-- Source: `CpuImpl::OpCOM(uint8_t& value)`, on the value and the flags. -/
def ComValue (value : Nat) (CC : ConditionCode) : Nat × ConditionCode :=
  let value := U8 (255 - U8 value)
  let CC := { CC with Negative := bit1 (CalcNegative8 value) }
  let CC := { CC with Zero := bit1 (CalcZero value) }
  let CC := { CC with Overflow := bit1 0 }
  let CC := { CC with Carry := bit1 1 }
  (value, CC)

/-- Source: `CpuImpl::OpASL(uint8_t& value)`, on the value and the flags. -/
def AslValue (value : Nat) (CC : ConditionCode) : Nat × ConditionCode :=
  let origValue := value
  let value := U8 (value <<< 1)
  let CC := { CC with Zero := decide (value = 0) }
  let CC := { CC with Negative := decide (value &&& BITS 7 ≠ 0) }
  let CC := { CC with Carry := bit1 (origValue &&& 0b10000000) }
  let CC := { CC with Overflow := bit1 ((origValue >>> 7) ^^^ (origValue >>> 6)) }
  (value, CC)

/-- A handler `Op(uint8_t& value)` applied to a register. -/
def onReg8 (f : Nat → ConditionCode → Nat × ConditionCode) (reg : Reg8) (s : CpuImpl M) :
    Option (CpuImpl M) :=
  let (v, CC) := f (s.get8 reg) s.CC
  some ((s.setCC CC).set8 reg v)

/-- Source: the memory forms `OpNEG()`, `OpASR()`, `OpLSR()`, `OpCOM()`, `OpASL()`: read the
byte at the effective address, apply the register form to it, write it back. -/
def onMem8 (f : Nat → ConditionCode → Nat × ConditionCode) (mode : AddressingMode)
    (s : CpuImpl M) : Option (CpuImpl M) :=
  match ReadEA16 mode s with
  | none => none
  | some (EA, s) =>
    let value := Read8 s EA
    let (v, CC) := f value s.CC
    some (Write8 (s.setCC CC) EA v)

/-- Source: `CpuImpl::OpINC(uint8_t&)` (INCA, INCB). -/
def OpINC8 (reg : Reg8) (s : CpuImpl M) : Option (CpuImpl M) :=
  let s := s.set8 reg (s.get8 reg + 1)
  let s := s.setCC { s.CC with Overflow := decide (s.get8 reg = 0) }
  let s := s.setCC { s.CC with Zero := decide (s.get8 reg = 0) }
  some (s.setCC { s.CC with Negative := decide (s.get8 reg &&& BITS 7 ≠ 0) })

/-- Source: `CpuImpl::OpINC<page, opCode>()`, the memory form. -/
def OpINCm (mode : AddressingMode) (s : CpuImpl M) : Option (CpuImpl M) :=
  match ReadEA16 mode s with
  | none => none
  | some (EA, s) =>
    let value := Read8 s EA
    let value := U8 (value + 1)
    let s := Write8 s EA value
    let s := s.setCC { s.CC with Overflow := decide (value = 0) }
    let s := s.setCC { s.CC with Zero := decide (value = 0) }
    some (s.setCC { s.CC with Negative := decide (value &&& BITS 7 ≠ 0) })

/-- Source: `CpuImpl::OpDEC(uint8_t&)` (DECA, DECB). -/
def OpDEC8 (reg : Reg8) (s : CpuImpl M) : Option (CpuImpl M) :=
  let origReg := s.get8 reg
  let s := s.set8 reg (s.get8 reg + 255)
  let s := s.setCC { s.CC with Overflow := decide (origReg = 0b10000000) }
  let s := s.setCC { s.CC with Zero := decide (s.get8 reg = 0) }
  some (s.setCC { s.CC with Negative := decide (s.get8 reg &&& BITS 7 ≠ 0) })

/-- Source: `CpuImpl::OpDEC<page, opCode>()`, the memory form. -/
def OpDECm (mode : AddressingMode) (s : CpuImpl M) : Option (CpuImpl M) :=
  match ReadEA16 mode s with
  | none => none
  | some (EA, s) =>
    let value := Read8 s EA
    let origValue := value
    let value := U8 (value + 255)
    let s := Write8 s EA value
    let s := s.setCC { s.CC with Overflow := decide (origValue = 0b10000000) }
    let s := s.setCC { s.CC with Zero := decide (value = 0) }
    some (s.setCC { s.CC with Negative := decide (value &&& BITS 7 ≠ 0) })

/-- Source: `CpuImpl::OpJMP`. -/
def OpJMP (mode : AddressingMode) (s : CpuImpl M) : Option (CpuImpl M) :=
  match ReadEA16 mode s with
  | none => none
  | some (EA, s) => some (s.set16 .PC EA)

/-- A push step of `OpPSH`: `Push8(stackReg, source)`. -/
def pushReg8 (stackReg : Reg16) (source : Reg8) (s : CpuImpl M) : CpuImpl M :=
  Push8 stackReg (s.get8 source) s

/-- A push step of `OpPSH`: `Push16(stackReg, source)`. -/
def pushReg16 (stackReg source : Reg16) (s : CpuImpl M) : CpuImpl M :=
  Push16 stackReg (s.get16 source) s

/-- Source: the eight conditional pushes of `CpuImpl::OpPSH` for the post-byte `value`, in
the order of the source. -/
def pushAll (stackReg : Reg16) (value : Nat) (s : CpuImpl M) : CpuImpl M :=
  let s := if value &&& BITS 7 ≠ 0 then pushReg16 stackReg .PC s else s
  let s := if value &&& BITS 6 ≠ 0 then
      pushReg16 stackReg (if stackReg = .S then .U else .S) s else s
  let s := if value &&& BITS 5 ≠ 0 then pushReg16 stackReg .Y s else s
  let s := if value &&& BITS 4 ≠ 0 then pushReg16 stackReg .X s else s
  let s := if value &&& BITS 3 ≠ 0 then pushReg8 stackReg .DP s else s
  let s := if value &&& BITS 2 ≠ 0 then pushReg8 stackReg .B s else s
  let s := if value &&& BITS 1 ≠ 0 then pushReg8 stackReg .A s else s
  if value &&& BITS 0 ≠ 0 then pushReg8 stackReg .CCValue s else s

/-- Source: `CpuImpl::OpPSH`; the `assert` admits only `S` and `U` as `stackReg`. -/
def OpPSH (mode : AddressingMode) (stackReg : Reg16) (s : CpuImpl M) : Option (CpuImpl M) :=
  if stackReg = .S ∨ stackReg = .U then
    match ReadOperandValue8 mode s with
    | none => none
    | some (value, s) => some ((pushAll stackReg value s).addCycles (NumBitsSet value))
  else none

/-- A pull step of `OpPUL`: `target = Pop8(stackReg)`. -/
def pull8 (stackReg : Reg16) (target : Reg8) (s : CpuImpl M) : CpuImpl M :=
  let (v, s) := Pop8 stackReg s
  s.set8 target v

/-- A pull step of `OpPUL`: `target = Pop16(stackReg)`. -/
def pull16 (stackReg target : Reg16) (s : CpuImpl M) : CpuImpl M :=
  let (v, s) := Pop16 stackReg s
  s.set16 target v

/-- Source: the eight conditional pulls of `CpuImpl::OpPUL` for the post-byte `value`, in
the order of the source. -/
def pullAll (stackReg : Reg16) (value : Nat) (s : CpuImpl M) : CpuImpl M :=
  let s := if value &&& BITS 0 ≠ 0 then pull8 stackReg .CCValue s else s
  let s := if value &&& BITS 1 ≠ 0 then pull8 stackReg .A s else s
  let s := if value &&& BITS 2 ≠ 0 then pull8 stackReg .B s else s
  let s := if value &&& BITS 3 ≠ 0 then pull8 stackReg .DP s else s
  let s := if value &&& BITS 4 ≠ 0 then pull16 stackReg .X s else s
  let s := if value &&& BITS 5 ≠ 0 then pull16 stackReg .Y s else s
  let s := if value &&& BITS 6 ≠ 0 then
      pull16 stackReg (if stackReg = .S then .U else .S) s else s
  if value &&& BITS 7 ≠ 0 then pull16 stackReg .PC s else s

/-- Source: `CpuImpl::OpPUL`; the `assert` admits only `S` and `U` as `stackReg`. -/
def OpPUL (mode : AddressingMode) (stackReg : Reg16) (s : CpuImpl M) : Option (CpuImpl M) :=
  if stackReg = .S ∨ stackReg = .U then
    match ReadOperandValue8 mode s with
    | none => none
    | some (value, s) => some ((pullAll stackReg value s).addCycles (NumBitsSet value))
  else none

/-- Source: `CpuImpl::OpTST(const uint8_t& value)`, the flag updates. -/
def tstFlags (value : Nat) (CC : ConditionCode) : ConditionCode :=
  let CC := { CC with Negative := decide (value &&& BITS 7 ≠ 0) }
  let CC := { CC with Zero := decide (value = 0) }
  { CC with Overflow := bit1 0 }

/-- Source: `CpuImpl::OpTST(const uint8_t&)` on a register (TSTA, TSTB). -/
def OpTST8 (reg : Reg8) (s : CpuImpl M) : Option (CpuImpl M) :=
  some (s.setCC (tstFlags (s.get8 reg) s.CC))

/-- Source: `CpuImpl::OpTST<page, opCode>()`, the memory form. -/
def OpTSTm (mode : AddressingMode) (s : CpuImpl M) : Option (CpuImpl M) :=
  match ReadOperandValue8 mode s with
  | none => none
  | some (value, s) => some (s.setCC (tstFlags value s.CC))

/-- Source: `CpuImpl::OpOR`. -/
def OpOR (mode : AddressingMode) (reg : Reg8) (s : CpuImpl M) : Option (CpuImpl M) :=
  match ReadOperandValue8 mode s with
  | none => none
  | some (value, s) =>
    let s := s.set8 reg (s.get8 reg ||| value)
    if reg ≠ .CCValue then
      let s := s.setCC { s.CC with Negative := decide (value &&& BITS 7 ≠ 0) }
      let s := s.setCC { s.CC with Zero := decide (value = 0) }
      some (s.setCC { s.CC with Overflow := bit1 0 })
    else some s

/-- Source: `CpuImpl::OpAND`. -/
def OpAND (mode : AddressingMode) (reg : Reg8) (s : CpuImpl M) : Option (CpuImpl M) :=
  match ReadOperandValue8 mode s with
  | none => none
  | some (value, s) =>
    let s := s.set8 reg (s.get8 reg &&& value)
    if reg ≠ .CCValue then
      let s := s.setCC { s.CC with Negative := decide (value &&& BITS 7 ≠ 0) }
      let s := s.setCC { s.CC with Zero := decide (value = 0) }
      some (s.setCC { s.CC with Overflow := bit1 0 })
    else some s

/-- Source: `CpuImpl::OpCMP(const uint8_t&)`.  The operand fetch never writes an 8-bit
register, so the order in which `reg` and the operand are evaluated is immaterial. -/
def OpCMP8 (mode : AddressingMode) (reg : Reg8) (s : CpuImpl M) : Option (CpuImpl M) :=
  match ReadOperandValue8 mode s with
  | none => none
  | some (b, s) => some (s.setCC (SubtractImpl8 (s.get8 reg) b s.CC).2)

/-- Source: `CpuImpl::OpCMP(const uint16_t&)`:
`SubtractImpl(reg, ReadOperandValue16<...>(), CC)` with the result discarded.  `SubtractImpl`
takes its first argument by value and the order of the two argument evaluations is
unspecified: `registerFirst` says whether `reg` is read before the operand fetch (state `s`)
or after it (state `s1`); the two differ when an indexed post-byte auto-increments or
decrements the compared register. -/
def OpCMP16 (registerFirst : Bool) (mode : AddressingMode) (reg : Reg16) (s : CpuImpl M) :
    Option (CpuImpl M) :=
  match ReadOperandValue16 mode s with
  | none => none
  | some (b, s1) =>
    match SubtractImpl16 (if registerFirst then s.get16 reg else s1.get16 reg) b s1.CC with
    | none => none
    | some (_, CC) => some (s1.setCC CC)

/-- Source: `CpuImpl::OpBIT`. -/
def OpBIT (mode : AddressingMode) (reg : Reg8) (s : CpuImpl M) : Option (CpuImpl M) :=
  match ReadOperandValue8 mode s with
  | none => none
  | some (value, s) =>
    let result := s.get8 reg &&& value
    let s := s.setCC { s.CC with Negative := decide (result &&& BITS 7 ≠ 0) }
    let s := s.setCC { s.CC with Zero := decide (result = 0) }
    some (s.setCC { s.CC with Overflow := bit1 0 })

/-- Source: `CpuImpl::OpBranch`; `condFunc` is the lambda of the opcode, a function of the
flags. -/
def OpBranch (condFunc : ConditionCode → Bool) (s : CpuImpl M) : Option (CpuImpl M) :=
  let (offset, s) := ReadRelativeOffset8 s
  if condFunc s.CC then
    let s := s.set16 .PC (wrap16 (s.PC + offset))
    some (s.addCycles 1)
  else some s

/-- Source: `CpuImpl::OpBSR`. -/
def OpBSR (s : CpuImpl M) : Option (CpuImpl M) :=
  let (offset, s) := ReadRelativeOffset8 s
  let s := Push16 .S s.PC s
  some (s.set16 .PC (wrap16 (s.PC + offset)))

/-- Source: `CpuImpl::OpLBSR`. -/
def OpLBSR (s : CpuImpl M) : Option (CpuImpl M) :=
  let (offset, s) := ReadRelativeOffset16 s
  let s := Push16 .S s.PC s
  some (s.set16 .PC (wrap16 (s.PC + offset)))

/-- Source: `CpuImpl::OpRTS`. -/
def OpRTS (s : CpuImpl M) : Option (CpuImpl M) :=
  some (pull16 .S .PC s)

/-- The table `reg[]` of the 8-bit branch of `ExchangeOrTransfer`. -/
def exgReg8 : Nat → Option Reg8
  | 0 => some .A
  | 1 => some .B
  | 2 => some .CCValue
  | 3 => some .DP
  | _ => none

/-- The table `reg[]` of the 16-bit branch of `ExchangeOrTransfer`. -/
def exgReg16 : Nat → Option Reg16
  | 0 => some .D
  | 1 => some .X
  | 2 => some .Y
  | 3 => some .U
  | 4 => some .S
  | 5 => some .PC
  | _ => none

/-- Source: `CpuImpl::ExchangeOrTransfer`, from the first `assert` on: the effect of the
post-byte on the registers.  `std::swap(*reg[dst], *reg[src])` saves `*reg[dst]`, copies
`*reg[src]` into it and stores the saved value into `*reg[src]`. -/
def ExchangeOrTransferRegs (exchange : Bool) (postbyte : Nat) (s : CpuImpl M) :
    Option (CpuImpl M) :=
  if decide (postbyte &&& BITS 3 ≠ 0) ≠ decide (postbyte &&& BITS 7 ≠ 0) then none
  else
    let src := (postbyte >>> 4) &&& 0b111
    let dst := postbyte &&& 0b111
    if postbyte &&& BITS 3 ≠ 0 then
      match exgReg8 src, exgReg8 dst with
      | some rs, some rd =>
        if exchange then
          let tmp := s.get8 rd
          let s := s.set8 rd (s.get8 rs)
          some (s.set8 rs tmp)
        else some (s.set8 rd (s.get8 rs))
      | _, _ => none
    else
      match exgReg16 src, exgReg16 dst with
      | some rs, some rd =>
        if exchange then
          let tmp := s.get16 rd
          let s := s.set16 rd (s.get16 rs)
          some (s.set16 rs tmp)
        else some (s.set16 rd (s.get16 rs))
      | _, _ => none

/-- Source: `CpuImpl::ExchangeOrTransfer`. -/
def ExchangeOrTransfer (exchange : Bool) (s : CpuImpl M) : Option (CpuImpl M) :=
  let (postbyte, s) := ReadPC8 s
  ExchangeOrTransferRegs exchange postbyte s

/-- Source: `CpuImpl::OpEXG`. -/
def OpEXG (s : CpuImpl M) : Option (CpuImpl M) := ExchangeOrTransfer true s

/-- Source: `CpuImpl::OpTFR`. -/
def OpTFR (s : CpuImpl M) : Option (CpuImpl M) := ExchangeOrTransfer false s

/-! ## Opcode dispatch -/

/-- The handler calls that occur in the `switch` of `CpuImpl::ExecuteInstruction`, with the
register argument of the call. -/
inductive Handler where
  | NOP | JSR | BSR | LBSR | EXG | TFR | RTS | JMP
  | LD8 (r : Reg8) | LD16 (r : Reg16) | ST8 (r : Reg8) | ST16 (r : Reg16) | LEA (r : Reg16)
  | Branch (condFunc : ConditionCode → Bool)
  | CLR8 (r : Reg8) | CLRm
  | ADD8 (r : Reg8) | ADD16 (r : Reg16) | SUB8 (r : Reg8) | SUB16 (r : Reg16) | ADC (r : Reg8)
  | NEG8 (r : Reg8) | NEGm | INC8 (r : Reg8) | INCm | DEC8 (r : Reg8) | DECm
  | ASR8 (r : Reg8) | ASRm | ASL8 (r : Reg8) | ASLm | LSR8 (r : Reg8) | LSRm
  | COM8 (r : Reg8) | COMm
  | PSH (r : Reg16) | PUL (r : Reg16)
  | TST8 (r : Reg8) | TSTm
  | OR (r : Reg8) | AND (r : Reg8) | CMP8 (r : Reg8) | CMP16 (r : Reg16) | BIT (r : Reg8)

/-- Source: the `case 0:` branch of the `switch (cpuOpPage)` in `ExecuteInstruction`;
`none` is the `default:` label (`UnhandledOp`). -/
def dispatchPage0 (opCode : Nat) : Option Handler :=
  match opCode with
  | 0x12 => some (.NOP)
  | 0x9D => some (.JSR)
  | 0xAD => some (.JSR)
  | 0xBD => some (.JSR)
  | 0x86 => some (.LD8 .A)
  | 0x96 => some (.LD8 .A)
  | 0xA6 => some (.LD8 .A)
  | 0xB6 => some (.LD8 .A)
  | 0xC6 => some (.LD8 .B)
  | 0xD6 => some (.LD8 .B)
  | 0xE6 => some (.LD8 .B)
  | 0xF6 => some (.LD8 .B)
  | 0x8E => some (.LD16 .X)
  | 0x9E => some (.LD16 .X)
  | 0xAE => some (.LD16 .X)
  | 0xBE => some (.LD16 .X)
  | 0xCC => some (.LD16 .D)
  | 0xDC => some (.LD16 .D)
  | 0xEC => some (.LD16 .D)
  | 0xFC => some (.LD16 .D)
  | 0xCE => some (.LD16 .U)
  | 0xDE => some (.LD16 .U)
  | 0xEE => some (.LD16 .U)
  | 0xFE => some (.LD16 .U)
  | 0x97 => some (.ST8 .A)
  | 0xA7 => some (.ST8 .A)
  | 0xB7 => some (.ST8 .A)
  | 0xD7 => some (.ST8 .B)
  | 0xE7 => some (.ST8 .B)
  | 0xF7 => some (.ST8 .B)
  | 0x9F => some (.ST16 .X)
  | 0xAF => some (.ST16 .X)
  | 0xBF => some (.ST16 .X)
  | 0xDD => some (.ST16 .D)
  | 0xDF => some (.ST16 .U)
  | 0xED => some (.ST16 .D)
  | 0xEF => some (.ST16 .U)
  | 0xFD => some (.ST16 .D)
  | 0xFF => some (.ST16 .U)
  | 0x30 => some (.LEA .X)
  | 0x31 => some (.LEA .Y)
  | 0x32 => some (.LEA .S)
  | 0x33 => some (.LEA .U)
  | 0x8D => some (.BSR)
  | 0x17 => some (.LBSR)
  | 0x24 => some (.Branch (fun CC => decide (CC.Carry.toNat = 0)))
  | 0x25 => some (.Branch (fun CC => decide (CC.Carry.toNat ≠ 0)))
  | 0x27 => some (.Branch (fun CC => decide (CC.Zero.toNat ≠ 0)))
  | 0x2C => some (.Branch (fun CC => decide ((CC.Negative.toNat ^^^ CC.Overflow.toNat) = 0)))
  | 0x2E => some (.Branch (fun CC => decide ((CC.Zero.toNat ||| (CC.Negative.toNat ^^^ CC.Overflow.toNat)) = 0)))
  | 0x22 => some (.Branch (fun CC => decide ((CC.Carry.toNat ||| CC.Zero.toNat) = 0)))
  | 0x2F => some (.Branch (fun CC => decide ((CC.Zero.toNat ||| (CC.Negative.toNat ^^^ CC.Overflow.toNat)) ≠ 0)))
  | 0x23 => some (.Branch (fun CC => decide ((CC.Carry.toNat ||| CC.Zero.toNat) ≠ 0)))
  | 0x2D => some (.Branch (fun CC => decide ((CC.Negative.toNat ^^^ CC.Overflow.toNat) ≠ 0)))
  | 0x2B => some (.Branch (fun CC => decide (CC.Negative.toNat ≠ 0)))
  | 0x26 => some (.Branch (fun CC => decide (CC.Zero.toNat = 0)))
  | 0x2A => some (.Branch (fun CC => decide (CC.Negative.toNat = 0)))
  | 0x20 => some (.Branch (fun _ => true))
  | 0x21 => some (.Branch (fun _ => false))
  | 0x28 => some (.Branch (fun CC => decide (CC.Overflow.toNat = 0)))
  | 0x29 => some (.Branch (fun CC => decide (CC.Overflow.toNat ≠ 0)))
  | 0x1E => some (.EXG)
  | 0x1F => some (.TFR)
  | 0x39 => some (.RTS)
  | 0x4F => some (.CLR8 .A)
  | 0x5F => some (.CLR8 .B)
  | 0x0F => some (.CLRm)
  | 0x6F => some (.CLRm)
  | 0x7F => some (.CLRm)
  | 0x8B => some (.ADD8 .A)
  | 0x9B => some (.ADD8 .A)
  | 0xAB => some (.ADD8 .A)
  | 0xBB => some (.ADD8 .A)
  | 0xC3 => some (.ADD16 .D)
  | 0xCB => some (.ADD8 .B)
  | 0xD3 => some (.ADD16 .D)
  | 0xDB => some (.ADD8 .B)
  | 0xE3 => some (.ADD16 .D)
  | 0xEB => some (.ADD8 .B)
  | 0xF3 => some (.ADD16 .D)
  | 0xFB => some (.ADD8 .B)
  | 0x80 => some (.SUB8 .A)
  | 0x83 => some (.SUB16 .D)
  | 0x90 => some (.SUB8 .A)
  | 0x93 => some (.SUB16 .D)
  | 0xA0 => some (.SUB8 .A)
  | 0xA3 => some (.SUB16 .D)
  | 0xB0 => some (.SUB8 .A)
  | 0xB3 => some (.SUB16 .D)
  | 0xC0 => some (.SUB8 .B)
  | 0xD0 => some (.SUB8 .B)
  | 0xE0 => some (.SUB8 .B)
  | 0xF0 => some (.SUB8 .B)
  | 0x89 => some (.ADC .A)
  | 0x99 => some (.ADC .A)
  | 0xA9 => some (.ADC .A)
  | 0xB9 => some (.ADC .A)
  | 0xC9 => some (.ADC .B)
  | 0xD9 => some (.ADC .B)
  | 0xE9 => some (.ADC .B)
  | 0xF9 => some (.ADC .B)
  | 0x00 => some (.NEGm)
  | 0x40 => some (.NEG8 .A)
  | 0x50 => some (.NEG8 .B)
  | 0x60 => some (.NEGm)
  | 0x70 => some (.NEGm)
  | 0x0C => some (.INCm)
  | 0x4C => some (.INC8 .A)
  | 0x5C => some (.INC8 .B)
  | 0x6C => some (.INCm)
  | 0x7C => some (.INCm)
  | 0x0A => some (.DECm)
  | 0x4A => some (.DEC8 .A)
  | 0x5A => some (.DEC8 .B)
  | 0x6A => some (.DECm)
  | 0x7A => some (.DECm)
  | 0x07 => some (.ASRm)
  | 0x47 => some (.ASR8 .A)
  | 0x57 => some (.ASR8 .B)
  | 0x67 => some (.ASRm)
  | 0x77 => some (.ASRm)
  | 0x08 => some (.ASLm)
  | 0x48 => some (.ASL8 .A)
  | 0x58 => some (.ASL8 .B)
  | 0x68 => some (.ASLm)
  | 0x78 => some (.ASLm)
  | 0x04 => some (.LSRm)
  | 0x44 => some (.LSR8 .A)
  | 0x54 => some (.LSR8 .B)
  | 0x64 => some (.LSRm)
  | 0x74 => some (.LSRm)
  | 0x03 => some (.COMm)
  | 0x43 => some (.COM8 .A)
  | 0x53 => some (.COM8 .B)
  | 0x63 => some (.COMm)
  | 0x73 => some (.COMm)
  | 0x0E => some (.JMP)
  | 0x6E => some (.JMP)
  | 0x7E => some (.JMP)
  | 0x34 => some (.PSH .S)
  | 0x35 => some (.PUL .S)
  | 0x36 => some (.PSH .U)
  | 0x37 => some (.PUL .U)
  | 0x0D => some (.TSTm)
  | 0x4D => some (.TST8 .A)
  | 0x5D => some (.TST8 .B)
  | 0x6D => some (.TSTm)
  | 0x7D => some (.TSTm)
  | 0x8A => some (.OR .A)
  | 0x9A => some (.OR .A)
  | 0xAA => some (.OR .A)
  | 0xBA => some (.OR .A)
  | 0xCA => some (.OR .B)
  | 0xDA => some (.OR .B)
  | 0xEA => some (.OR .B)
  | 0xFA => some (.OR .B)
  | 0x1A => some (.OR .CCValue)
  | 0x1C => some (.AND .CCValue)
  | 0x84 => some (.AND .A)
  | 0x94 => some (.AND .A)
  | 0xA4 => some (.AND .A)
  | 0xB4 => some (.AND .A)
  | 0xC4 => some (.AND .B)
  | 0xD4 => some (.AND .B)
  | 0xE4 => some (.AND .B)
  | 0xF4 => some (.AND .B)
  | 0x81 => some (.CMP8 .A)
  | 0x8C => some (.CMP16 .X)
  | 0x91 => some (.CMP8 .A)
  | 0x9C => some (.CMP16 .X)
  | 0xA1 => some (.CMP8 .A)
  | 0xAC => some (.CMP16 .X)
  | 0xB1 => some (.CMP8 .A)
  | 0xBC => some (.CMP16 .X)
  | 0xC1 => some (.CMP8 .B)
  | 0xD1 => some (.CMP8 .B)
  | 0xE1 => some (.CMP8 .B)
  | 0xF1 => some (.CMP8 .B)
  | 0x85 => some (.BIT .A)
  | 0x95 => some (.BIT .A)
  | 0xA5 => some (.BIT .A)
  | 0xB5 => some (.BIT .A)
  | 0xC5 => some (.BIT .B)
  | 0xD5 => some (.BIT .B)
  | 0xE5 => some (.BIT .B)
  | 0xF5 => some (.BIT .B)
  | _ => none

/-- Source: the `case 1:` branch of the `switch (cpuOpPage)` in `ExecuteInstruction`. -/
def dispatchPage1 (opCode : Nat) : Option Handler :=
  match opCode with
  | 0x8E => some (.LD16 .Y)
  | 0x9E => some (.LD16 .Y)
  | 0xAE => some (.LD16 .Y)
  | 0xBE => some (.LD16 .Y)
  | 0xCE => some (.LD16 .S)
  | 0xDE => some (.LD16 .S)
  | 0xEE => some (.LD16 .S)
  | 0xFE => some (.LD16 .S)
  | 0x9F => some (.ST16 .Y)
  | 0xAF => some (.ST16 .Y)
  | 0xBF => some (.ST16 .Y)
  | 0xDF => some (.ST16 .S)
  | 0xEF => some (.ST16 .S)
  | 0xFF => some (.ST16 .S)
  | 0x83 => some (.CMP16 .D)
  | 0x8C => some (.CMP16 .Y)
  | 0x93 => some (.CMP16 .D)
  | 0x9C => some (.CMP16 .Y)
  | 0xA3 => some (.CMP16 .D)
  | 0xAC => some (.CMP16 .Y)
  | 0xB3 => some (.CMP16 .D)
  | 0xBC => some (.CMP16 .Y)
  | _ => none

/-- Source: the `case 2:` branch of the `switch (cpuOpPage)` in `ExecuteInstruction`;
`case 0x00` calls `UnhandledOp` like the `default:` label. -/
def dispatchPage2 (opCode : Nat) : Option Handler :=
  match opCode with
  | 0x83 => some (.CMP16 .U)
  | 0x8C => some (.CMP16 .S)
  | 0x93 => some (.CMP16 .U)
  | 0x9C => some (.CMP16 .S)
  | 0xA3 => some (.CMP16 .U)
  | 0xAC => some (.CMP16 .S)
  | 0xB3 => some (.CMP16 .U)
  | 0xBC => some (.CMP16 .S)
  | _ => none

/-- Source: `switch (cpuOpPage)`; a page other than 0, 1, 2 does not occur. -/
def dispatch (cpuOpPage opCode : Nat) : Option Handler :=
  match cpuOpPage with
  | 0 => dispatchPage0 opCode
  | 1 => dispatchPage1 opCode
  | 2 => dispatchPage2 opCode
  | _ => none

/-- The order in which the compiled emulator evaluates the two value arguments of the calls
`SubtractImpl(reg, ReadOperandValue16<...>(), CC)` in `OpSUB` and `OpCMP`.  The language
leaves it unspecified whether `reg` is read before the operand fetch (`registerFirst = true`)
or after it, and an indexed fetch with auto-increment or auto-decrement may change the
register in between.  The order is fixed by the build, not by the source, and may differ
from one instantiation of the templates to the next, so it is a parameter that depends on the
handler call and its addressing mode; it comes with the machine type. -/
class ArgumentOrder (M : Type) where
  registerFirst : Handler → AddressingMode → Bool

variable [ArgumentOrder M]

/-- The call that a handler stands for; `mode` is the template argument
`LookupCpuOp(page, opCode).addrMode`. -/
def Handler.run (h : Handler) (mode : AddressingMode) (s : CpuImpl M) : Option (CpuImpl M) :=
  match h with
  | .NOP => some s
  | .JSR => OpJSR mode s
  | .BSR => OpBSR s
  | .LBSR => OpLBSR s
  | .EXG => OpEXG s
  | .TFR => OpTFR s
  | .RTS => OpRTS s
  | .JMP => OpJMP mode s
  | .LD8 r => OpLD8 mode r s
  | .LD16 r => OpLD16 mode r s
  | .ST8 r => OpST8 mode r s
  | .ST16 r => OpST16 mode r s
  | .LEA r => OpLEA mode r s
  | .Branch condFunc => OpBranch condFunc s
  | .CLR8 r => OpCLR8 r s
  | .CLRm => OpCLRm mode s
  | .ADD8 r => OpADD8 mode r s
  | .ADD16 r => OpADD16 mode r s
  | .SUB8 r => OpSUB8 mode r s
  | .SUB16 r => OpSUB16 (ArgumentOrder.registerFirst M (.SUB16 r) mode) mode r s
  | .ADC r => OpADC mode r s
  | .NEG8 r => onReg8 NegValue r s
  | .NEGm => onMem8 NegValue mode s
  | .INC8 r => OpINC8 r s
  | .INCm => OpINCm mode s
  | .DEC8 r => OpDEC8 r s
  | .DECm => OpDECm mode s
  | .ASR8 r => onReg8 AsrValue r s
  | .ASRm => onMem8 AsrValue mode s
  | .ASL8 r => onReg8 AslValue r s
  | .ASLm => onMem8 AslValue mode s
  | .LSR8 r => onReg8 LsrValue r s
  | .LSRm => onMem8 LsrValue mode s
  | .COM8 r => onReg8 ComValue r s
  | .COMm => onMem8 ComValue mode s
  | .PSH r => OpPSH mode r s
  | .PUL r => OpPUL mode r s
  | .TST8 r => OpTST8 r s
  | .TSTm => OpTSTm mode s
  | .OR r => OpOR mode r s
  | .AND r => OpAND mode r s
  | .CMP8 r => OpCMP8 mode r s
  | .CMP16 r => OpCMP16 (ArgumentOrder.registerFirst M (.CMP16 r) mode) mode r s
  | .BIT r => OpBIT mode r s

/-- Modelled from the spec: `IsOpCodePage1` of `CpuOpCodes.h` (not among the sources): "if
the first byte is `0x10` or `0x11`, the real opcode lives on page 1 or 2 respectively". -/
def IsOpCodePage1 (opCodeByte : Nat) : Bool := opCodeByte == 0x10

/-- Modelled from the spec: `IsOpCodePage2` of `CpuOpCodes.h` (not among the sources). -/
def IsOpCodePage2 (opCodeByte : Nat) : Bool := opCodeByte == 0x11

/-- Source: the opcode fetch at the head of `CpuImpl::ExecuteInstruction`: the page, the
opcode byte on that page and the state after the one or two `ReadPC8()` calls. -/
def FetchOpCode (s : CpuImpl M) : Nat × Nat × CpuImpl M :=
  let (opCodeByte, s) := ReadPC8 s
  if IsOpCodePage1 opCodeByte then
    let (opCodeByte, s) := ReadPC8 s
    (1, opCodeByte, s)
  else if IsOpCodePage2 opCodeByte then
    let (opCodeByte, s) := ReadPC8 s
    (2, opCodeByte, s)
  else (0, opCodeByte, s)

/-- Source: `CpuImpl::ExecuteInstruction`.  `LookupCpuOp` is the static opcode table of
`CpuOpCodes.h` (not among the sources), used for `LookupCpuOpRuntime(page, opCode)` and for
the template arguments `LookupCpuOp(page, opCode).addrMode`.  Returns the cycle count and
the state after the instruction; a failed `assert` and `UnhandledOp` are `none`. -/
def ExecuteInstruction (LookupCpuOp : Nat → Nat → CpuOp) (s : CpuImpl M) :
    Option (Nat × CpuImpl M) :=
  let s := { s with m_cycles := 0 }
  let (cpuOpPage, opCodeByte, s) := FetchOpCode s
  let cpuOp := LookupCpuOp cpuOpPage opCodeByte
  if cpuOp.cycles = 0 then none
  else
    let s := s.addCycles cpuOp.cycles
    if cpuOp.addrMode = .Illegal ∨ cpuOp.addrMode = .Variant then none
    else
      match dispatch cpuOpPage cpuOp.opCode with
      | none => none
      | some h =>
        match h.run (LookupCpuOp cpuOpPage cpuOp.opCode).addrMode s with
        | none => none
        | some s => some (s.m_cycles, s)

/-! ## A concrete machine for runs on explicit inputs -/

/-- Modelled from the spec: a bus with a single RAM device over the whole address space,
"byte-addressable storage regions bound to the bus". -/
structure FlatRam where
  bytes : Nat → Nat

instance : MemoryBus FlatRam where
  Read m a := m.bytes a
  Write m a v := { bytes := fun x => if x = a then v else m.bytes x }

/-- The witness machines read the register after the operand fetch. -/
instance : ArgumentOrder FlatRam where
  registerFirst := fun _ _ => false

/-- Modelled from the spec: rows of the static opcode table of `CpuOpCodes.h` (not among
the sources) for the opcodes of the spec's scenarios and of the register-transfer and
branch groups, with the base cycle counts of the 6809 data sheet; every other entry is
marked `Illegal` with no cycle count. -/
def sampleOps (page opCode : Nat) : CpuOp :=
  if page = 0 then
    if opCode = 0x12 then { opCode := opCode, addrMode := .Inherent, cycles := 2 }
    else if opCode = 0x80 then { opCode := opCode, addrMode := .Immediate, cycles := 2 }
    else if opCode = 0x86 then { opCode := opCode, addrMode := .Immediate, cycles := 2 }
    else if opCode = 0x8B then { opCode := opCode, addrMode := .Immediate, cycles := 2 }
    else if opCode = 0x9B then { opCode := opCode, addrMode := .Direct, cycles := 4 }
    else if opCode = 0xA6 then { opCode := opCode, addrMode := .Indexed, cycles := 4 }
    else if opCode = 0xCC then { opCode := opCode, addrMode := .Immediate, cycles := 3 }
    else if opCode = 0x1E then { opCode := opCode, addrMode := .Inherent, cycles := 8 }
    else if opCode = 0x1F then { opCode := opCode, addrMode := .Inherent, cycles := 6 }
    else if opCode = 0x34 then { opCode := opCode, addrMode := .Immediate, cycles := 5 }
    else if opCode = 0x35 then { opCode := opCode, addrMode := .Immediate, cycles := 5 }
    else if 0x20 ≤ opCode ∧ opCode ≤ 0x2F then
      { opCode := opCode, addrMode := .Relative, cycles := 3 }
    else { opCode := opCode, addrMode := .Illegal, cycles := 0 }
  else { opCode := opCode, addrMode := .Illegal, cycles := 0 }

/-- A register file with every register 0 and every flag clear. -/
def zeroRegs : CpuRegisters :=
  { X := 0, Y := 0, U := 0, S := 0, PC := 0, DP := 0, A := 0, B := 0,
    CC := ConditionCode.ofValue 0 }

/-- A machine over `FlatRam` whose memory holds the bytes `prog` from address `org` on and
0 elsewhere. -/
def machine (regs : CpuRegisters) (org : Nat) (prog : List Nat) : CpuImpl FlatRam :=
  { toCpuRegisters := regs
    m_memoryBus := { bytes := fun a => if org ≤ a then prog.getD (a - org) 0 else 0 }
    m_cycles := 0 }

/-! ## Definitions used to state the properties -/

/-- The registers that operand fetching leaves alone: accumulators, direct page and flags, as
well as the bus; the cycle counter may only grow. -/
def OperandFrame (s t : CpuImpl M) : Prop :=
  t.A = s.A ∧ t.B = s.B ∧ t.DP = s.DP ∧ t.CC = s.CC ∧ t.m_memoryBus = s.m_memoryBus ∧
    s.m_cycles ≤ t.m_cycles

/-- The step invariant of the interpreter: register widths are kept and the cycle counter
does not decrease. -/
def StepOK (s t : CpuImpl M) : Prop :=
  (s.toCpuRegisters.WF → t.toCpuRegisters.WF) ∧ s.m_cycles ≤ t.m_cycles

/-- The state in which the handler of a page-0 opcode starts: the cycle counter reset, the
opcode byte consumed, the base cycle count added. -/
def afterFetch (s : CpuImpl M) (cycles : Nat) : CpuImpl M :=
  (ReadPC8 ({ s with m_cycles := 0 } : CpuImpl M)).2.addCycles cycles

/-- The table of §4.2 of the spec ("Branch predicates"), by opcode: BRA, BRN, BHI, BLS, BCC,
BCS, BNE, BEQ, BVC, BVS, BPL, BMI, BGE, BLT, BGT, BLE for `0x20` to `0x2F`. -/
def specBranchTaken (opCode : Nat) (CC : ConditionCode) : Bool :=
  match opCode with
  | 0x20 => true
  | 0x21 => false
  | 0x22 => (CC.Carry || CC.Zero) == false
  | 0x23 => (CC.Carry || CC.Zero) == true
  | 0x24 => CC.Carry == false
  | 0x25 => CC.Carry == true
  | 0x26 => CC.Zero == false
  | 0x27 => CC.Zero == true
  | 0x28 => CC.Overflow == false
  | 0x29 => CC.Overflow == true
  | 0x2A => CC.Negative == false
  | 0x2B => CC.Negative == true
  | 0x2C => (xor CC.Negative CC.Overflow) == false
  | 0x2D => (xor CC.Negative CC.Overflow) == true
  | 0x2E => (CC.Zero || xor CC.Negative CC.Overflow) == false
  | 0x2F => (CC.Zero || xor CC.Negative CC.Overflow) == true
  | _ => false

/-- A machine about to execute `BEQ *` (`0x27 0xFE`) at `0x100` with only `Z` set. -/
def beqMachine : CpuImpl FlatRam :=
  machine { zeroRegs with PC := 0x100, CC := ConditionCode.ofValue 0x04 } 0x100 [0x27, 0xFE]

/-- The valid EXG/TFR post-bytes of the spec: "Bit 3 must equal bit 7 (same width).  High
nibble = source register index, low nibble = destination.  8-bit indices 0..3 =
{A,B,CC,DP}; 16-bit indices 0..5 = {D,X,Y,U,S,PC}." -/
def specValidTransferPostbyte (p : Nat) : Bool :=
  (p.testBit 3 == p.testBit 7) &&
    (if p.testBit 3 then decide (p / 16 % 8 < 4) && decide (p % 8 < 4)
     else decide (p / 16 % 8 < 6) && decide (p % 8 < 6))

/-- A machine with distinct values in all registers. -/
def mixedRegs : CpuRegisters :=
  { X := 0x3344, Y := 0x5566, U := 0x7788, S := 0xC000, PC := 0x0100, DP := 0xC8,
    A := 0x11, B := 0x22, CC := ConditionCode.ofValue 0x5A }

/-- Address `a` lies in the `n` bytes below the stack pointer `sp` (addresses modulo
`65536`). -/
def InStack (sp n a : Nat) : Prop := (sp + 65535 - a) % 65536 < n

/-- Address `a` is one of the `n` bytes from `pc` on (addresses modulo `65536`). -/
def InCode (pc n a : Nat) : Prop := (a + 65536 - pc) % 65536 < n

/-- The `n` bytes below `sp` are writable memory that reads back what was written: they
belong to the addresses `keep` under observation, and a write to one of them stores the
byte there and changes no other observed address. -/
def StackOK (M : Type) [MemoryBus M] (keep : Nat → Prop) (sp n : Nat) : Prop :=
  ∀ a, a < 65536 → InStack sp n a →
    keep a ∧ ∀ (b : M) (v : Nat), v < 256 →
      MemoryBus.Read (MemoryBus.Write b a v) a = v ∧
      ∀ a', a' < 65536 → keep a' → a' ≠ a →
        MemoryBus.Read (MemoryBus.Write b a v) a' = MemoryBus.Read b a'

/-- All registers but `PC` agree. -/
def EqExceptPC (x y : CpuImpl M) : Prop :=
  y.X = x.X ∧ y.Y = x.Y ∧ y.U = x.U ∧ y.S = x.S ∧ y.DP = x.DP ∧ y.A = x.A ∧ y.B = x.B ∧
    y.CC = x.CC

/-- The transformer `f` gives back every register but `PC` and leaves the observed memory
outside the `n` bytes below the stack pointer as it was. -/
def Restores (keep : Nat → Prop) (n : Nat) (f : CpuImpl M → CpuImpl M) : Prop :=
  ∀ x : CpuImpl M, x.toCpuRegisters.WF → StackOK M keep x.S n →
    EqExceptPC x (f x) ∧
    ∀ a, a < 65536 → keep a → ¬ InStack x.S n a →
      MemoryBus.Read (f x).m_memoryBus a = MemoryBus.Read x.m_memoryBus a

/-- The invariant of the pushes of `OpPSH`: `PC` is kept, the stack pointer has not left
the 12 bytes below `sp`, `left` of which are still free below it, and the observed memory
outside these 12 bytes is as in `x`. -/
def PushInv (keep : Nat → Prop) (sp : Nat) (x : CpuImpl M) (left : Nat) (y : CpuImpl M) :
    Prop :=
  y.PC = x.PC ∧ y.S < 65536 ∧
    (∀ a, a < 65536 → InStack y.S left a → InStack sp 12 a) ∧
    ∀ a, a < 65536 → keep a → ¬ InStack sp 12 a →
      MemoryBus.Read y.m_memoryBus a = MemoryBus.Read x.m_memoryBus a

/-- What happens between the last push of a `PSHS` and the first pull of the `PULS` that
follows it: the cycles of the pushes are added, and the next `ExecuteInstruction` resets
the cycle counter, consumes the opcode byte, adds the base cycles `c` and consumes the
post-byte. -/
def betweenPushAndPull (k c : Nat) (y : CpuImpl M) : CpuImpl M :=
  (ReadPC8 (afterFetch (y.addCycles k) c)).2

/-- The machine of the spec's scenario "PSHS then PULS": `A=0x11, B=0x22, X=0x3344,
S=0xC000`, about to execute `0x34 0x16` then `0x35 0x16` at `0x0100`. -/
def pshsMachine : CpuImpl FlatRam :=
  machine { zeroRegs with A := 0x11, B := 0x22, X := 0x3344, S := 0xC000, PC := 0x0100 }
    0x0100 [0x34, 0x16, 0x35, 0x16]

/-- A machine with non-zero accumulators, as `Reset` may find it. -/
def usedMachine : CpuImpl FlatRam :=
  machine { zeroRegs with A := 0x12, B := 0x34, X := 0x5678, DP := 0xC8,
                          CC := ConditionCode.ofValue 0xFF } 0 []

/-- A machine about to execute `LDD #$1234` (`0xCC 0x12 0x34`). -/
def lddMachine : CpuImpl FlatRam := machine mixedRegs 0x0100 [0xCC, 0x12, 0x34]

/-- The state of `lddMachine` after the `LDD #$1234`. -/
def lddResult : CpuImpl FlatRam :=
  { lddMachine with A := 0x12, B := 0x34, PC := 0x0103, m_cycles := 3,
                    CC := ConditionCode.ofValue 0x50 }

/-! ## Definitions for the indexed post-byte, the logic and the store instructions -/

/-- Bits 4-0 of an indexed post-byte read as a 5-bit two's-complement number, in
`[-16, 15]`: the "5-bit signed offset" of the spec's table. -/
def specOffset5 (postbyte : Nat) : Int :=
  if postbyte % 32 < 16 then ((postbyte % 32 : Nat) : Int)
  else ((postbyte % 32 : Nat) : Int) - 32

/-- The index register that the spec selects "from bits 6–5" of the post-byte: `X`, `Y`,
`U`, `S` for `00`, `01`, `10`, `11`. -/
def specIndexRegister (postbyte : Nat) : Reg16 :=
  if postbyte / 32 % 4 = 0 then .X
  else if postbyte / 32 % 4 = 1 then .Y
  else if postbyte / 32 % 4 = 2 then .U
  else .S

/-- A machine with `X = 0x1000` whose next byte is the indexed post-byte `0x1F`
(`-1,X` in the 5-bit form). -/
def offset5Machine : CpuImpl FlatRam :=
  machine { zeroRegs with X := 0x1000, PC := 0x0100 } 0x0100 [0x1F]

/-- A machine whose next bytes are the post-byte `0x9F` and the address `0x0200`, with the
word `0x1234` stored at `0x0200`. -/
def extIndirectMachine : CpuImpl FlatRam :=
  Write8 (Write8 (machine { zeroRegs with PC := 0x0100 } 0x0100 [0x9F, 0x02, 0x00])
    0x0200 0x12) 0x0201 0x34

/-- As `extIndirectMachine`, with bit 4 of the post-byte clear (`0x8F`). -/
def extDirectMachine : CpuImpl FlatRam :=
  Write8 (Write8 (machine { zeroRegs with PC := 0x0100 } 0x0100 [0x8F, 0x02, 0x00])
    0x0200 0x12) 0x0201 0x34

/-- A machine with `A = 0x80` about to fetch the immediate operand `0x01`. -/
def oraMachine : CpuImpl FlatRam :=
  machine { zeroRegs with A := 0x80, PC := 0x0100 } 0x0100 [0x01]

/-- A machine with `A = 0x0F` about to fetch the immediate operand `0xF0`. -/
def andaMachine : CpuImpl FlatRam :=
  machine { zeroRegs with A := 0x0F, PC := 0x0100 } 0x0100 [0xF0]

/-- A machine with `X = 0x8000` about to fetch the extended address `0x0200`. -/
def stxMachine : CpuImpl FlatRam :=
  machine { zeroRegs with X := 0x8000, PC := 0x0100 } 0x0100 [0x02, 0x00]

/-- A machine with `A = 0x80`, all flags clear. -/
def aslMachine : CpuImpl FlatRam := machine { zeroRegs with A := 0x80 } 0 []

/-- The machine of the spec's scenario "Indexed post-increment": `X = 0x1000`, RAM
`$1000 = 0xAA`, about to execute `0xA6 0x80` (`LDA ,X+`). -/
def postIncMachine : CpuImpl FlatRam :=
  Write8 (machine { zeroRegs with X := 0x1000, PC := 0x0100 } 0x0100 [0xA6, 0x80])
    0x1000 0xAA

/-- The column "Extra cycles" of the spec's table of indexed submodes (bit 7 set), by bits
3-0 of the post-byte. -/
def specIndexedExtraCycles (submode : Nat) : Nat :=
  match submode with
  | 0b0000 => 2
  | 0b0001 => 3
  | 0b0010 => 2
  | 0b0011 => 3
  | 0b0100 => 0
  | 0b0101 => 1
  | 0b0110 => 1
  | 0b1000 => 1
  | 0b1001 => 4
  | 0b1011 => 4
  | 0b1100 => 1
  | 0b1101 => 5
  | 0b1111 => 5
  | _ => 0

/-- The submodes (bit 7 set) whose row of the spec's table says "Indirect allowed: yes". -/
def specIndirectAllowed (submode : Nat) : Bool :=
  submode == 0b0001 || submode == 0b0011 || submode == 0b0100 || submode == 0b0101 ||
    submode == 0b0110 || submode == 0b1000 || submode == 0b1001 || submode == 0b1011 ||
    submode == 0b1100 || submode == 0b1101

/-- A machine with `X = 0x0200` and the word `0x1234` at `0x0200`, whose next byte is the
post-byte `0x94` (`[,X]`). -/
def indirectMachine : CpuImpl FlatRam :=
  Write8 (Write8 (machine { zeroRegs with X := 0x0200, PC := 0x0100 } 0x0100 [0x94])
    0x0200 0x12) 0x0201 0x34

/-- A machine with distinct register values about to read the post-byte `0x89`
(`TFR A,B` once the opcode `0x1F` has been fetched). -/
def tfrMachine : CpuImpl FlatRam := machine mixedRegs 0x0100 [0x89]

/-- A machine with `A = 0x11`, `X = 0x3344` about to fetch the immediate operand
`0x20` (8-bit) or `0x2030` (16-bit). -/
def cmpMachine : CpuImpl FlatRam := machine mixedRegs 0x0100 [0x20, 0x30]

/-! ## Definitions for the order of pushes and pulls -/

/-- What a push or a pull moves: an 8-bit or a 16-bit register. -/
inductive StackItem where
  | r8 (q : Reg8)
  | r16 (q : Reg16)
deriving DecidableEq, Repr

/-- The bytes of a register as they lie in memory, a 16-bit value big-endian. -/
def StackItem.bytes (s : CpuImpl M) : StackItem → List Nat
  | .r8 q => [s.get8 q]
  | .r16 q => [s.get16 q / 256, s.get16 q % 256]

/-- The push of one register, as in `OpPSH`. -/
def pushItem (stackReg : Reg16) : StackItem → CpuImpl M → CpuImpl M
  | .r8 q => pushReg8 stackReg q
  | .r16 q => pushReg16 stackReg q

/-- The pull of one register, as in `OpPUL`. -/
def pullItem (stackReg : Reg16) : StackItem → CpuImpl M → CpuImpl M
  | .r8 q => pull8 stackReg q
  | .r16 q => pull16 stackReg q

/-- The canonical order of the spec, "PC, U/S, Y, X, DP, B, A, CC", read from its end: the
order of the pulls, each register with its bit of the post-byte. -/
def specPullOrder (stackReg : Reg16) : List (Nat × StackItem) :=
  [(0, .r8 .CCValue), (1, .r8 .A), (2, .r8 .B), (3, .r8 .DP), (4, .r16 .X), (5, .r16 .Y),
   (6, .r16 (if stackReg = .S then .U else .S)), (7, .r16 .PC)]

/-- The pushes of the spec: the registers selected by the mask, pushed in the canonical
order `PC, U/S, Y, X, DP, B, A, CC`. -/
def specPushAll (stackReg : Reg16) (m : Nat) (s : CpuImpl M) : CpuImpl M :=
  (specPullOrder stackReg).reverse.foldl
    (fun acc p => if m.testBit p.1 then pushItem stackReg p.2 acc else acc) s

/-- The pulls of the spec: the registers selected by the mask, pulled in the reverse of the
canonical order, `CC` first and `PC` last. -/
def specPullAll (stackReg : Reg16) (m : Nat) (s : CpuImpl M) : CpuImpl M :=
  (specPullOrder stackReg).foldl
    (fun acc p => if m.testBit p.1 then pullItem stackReg p.2 acc else acc) s

/-- The bytes that the registers selected by the mask `m` from the list `ps` occupy, in the
order of the list, with the register values of `s`. -/
def stackImage (ps : List (Nat × StackItem)) (m : Nat) (s : CpuImpl M) : List Nat :=
  match ps with
  | [] => []
  | p :: ps => (if m.testBit p.1 then p.2.bytes s else []) ++ stackImage ps m s

/-- The `n` bytes of memory from the address `a` on, addresses taken modulo `65536`. -/
def readBytes (s : CpuImpl M) : Nat → Nat → List Nat
  | _, 0 => []
  | a, n + 1 => Read8 s a :: readBytes s (a + 1) n

/-- All registers but the stack pointer `stackReg` agree. -/
def SameExceptStack (stackReg : Reg16) (s t : CpuImpl M) : Prop :=
  t.A = s.A ∧ t.B = s.B ∧ t.DP = s.DP ∧ t.CC = s.CC ∧ t.X = s.X ∧ t.Y = s.Y ∧ t.PC = s.PC ∧
    t.get16 (if stackReg = .S then .U else .S) = s.get16 (if stackReg = .S then .U else .S)

/-- Writes to the address `a0` are stored there and change no other address. -/
def RamAt (M : Type) [MemoryBus M] (a0 : Nat) : Prop :=
  ∀ (b : M) (v : Nat), v < 256 →
    MemoryBus.Read (MemoryBus.Write b a0 v) a0 = v ∧
    ∀ a', a' < 65536 → a' ≠ a0 → MemoryBus.Read (MemoryBus.Write b a0 v) a' = MemoryBus.Read b a'

/-- The value of a register that a push or a pull moves. -/
def StackItem.value (s : CpuImpl M) : StackItem → Nat
  | .r8 q => s.get8 q
  | .r16 q => s.get16 q

/-! ## Definitions for increments, calls and long branches -/

/-- The row `INC` of the spec: the result `(v + 1) mod 256`, "N,Z; V=(result==0 for INC)",
"C unchanged". -/
def specINC (v : Nat) (CC : ConditionCode) : Nat × ConditionCode :=
  let result := (v + 1) % 256
  (result, { CC with
    Overflow := decide (result = 0), Zero := decide (result = 0),
    Negative := result.testBit 7 })

/-- The row `DEC` of the spec: the result `(v - 1) mod 256`, "N,Z; V=(pre==0x80 for DEC)",
"C unchanged". -/
def specDEC (v : Nat) (CC : ConditionCode) : Nat × ConditionCode :=
  let result := (((v : Int) - 1) % 256).toNat
  (result, { CC with
    Overflow := decide (v = 0x80), Zero := decide (result = 0),
    Negative := result.testBit 7 })

/-- Modelled from the spec: rows of the static opcode table of `CpuOpCodes.h` (not among
the sources) for the subroutine calls and the return, the increments and decrements and
the long branches of page 1, with the cycle counts of the 6809 data sheet; every other
entry is marked `Illegal` with no cycle count. -/
def callOps (page opCode : Nat) : CpuOp :=
  if page = 0 then
    if opCode = 0x8D then { opCode := opCode, addrMode := .Relative, cycles := 7 }
    else if opCode = 0x17 then { opCode := opCode, addrMode := .Relative, cycles := 9 }
    else if opCode = 0x9D then { opCode := opCode, addrMode := .Direct, cycles := 7 }
    else if opCode = 0xAD then { opCode := opCode, addrMode := .Indexed, cycles := 7 }
    else if opCode = 0xBD then { opCode := opCode, addrMode := .Extended, cycles := 8 }
    else if opCode = 0x39 then { opCode := opCode, addrMode := .Inherent, cycles := 5 }
    else if opCode = 0x4C ∨ opCode = 0x5C ∨ opCode = 0x4A ∨ opCode = 0x5A then
      { opCode := opCode, addrMode := .Inherent, cycles := 2 }
    else if opCode = 0x0C ∨ opCode = 0x0A then
      { opCode := opCode, addrMode := .Direct, cycles := 6 }
    else if opCode = 0x7C ∨ opCode = 0x7A then
      { opCode := opCode, addrMode := .Extended, cycles := 7 }
    else { opCode := opCode, addrMode := .Illegal, cycles := 0 }
  else if page = 1 then
    if 0x21 ≤ opCode ∧ opCode ≤ 0x2F then
      { opCode := opCode, addrMode := .Relative, cycles := 5 }
    else { opCode := opCode, addrMode := .Illegal, cycles := 0 }
  else { opCode := opCode, addrMode := .Illegal, cycles := 0 }

/-- Modelled from the spec: the addressing modes of the call opcodes in the table of
`CpuOpCodes.h` (not among the sources): `BSR` and `LBSR` relative, `JSR` direct, indexed
and extended. -/
def callMode (opCode : Nat) : AddressingMode :=
  if opCode = 0x9D then .Direct
  else if opCode = 0xAD then .Indexed
  else if opCode = 0xBD then .Extended
  else .Relative

/-- The operand read that opens `OpBSR` (`0x8D`), `OpLBSR` (`0x17`) and `OpJSR` (`0x9D`,
`0xAD`, `0xBD`): the call target and the state after the read, whose `PC` is the address of
the byte after the last operand byte. -/
def callOperand (opCode : Nat) (s : CpuImpl M) : Option (Nat × CpuImpl M) :=
  match opCode with
  | 0x8D =>
    let (offset, s) := ReadRelativeOffset8 s
    some (wrap16 (s.PC + offset), s)
  | 0x17 =>
    let (offset, s) := ReadRelativeOffset16 s
    some (wrap16 (s.PC + offset), s)
  | 0x9D => ReadEA16 .Direct s
  | 0xAD => ReadEA16 .Indexed s
  | 0xBD => ReadEA16 .Extended s
  | _ => none

/-- A machine with a `BSR` over two `NOP`s to an `RTS`. -/
def callMachine : CpuImpl FlatRam :=
  machine { zeroRegs with S := 0xC000, PC := 0x0100 } 0x0100 [0x8D, 0x02, 0x12, 0x12, 0x39]

/-- A machine at a long branch `LBEQ` (`0x10 0x27`) with the offset `0x0010`, `Z` set. -/
def lbeqMachine : CpuImpl FlatRam :=
  machine { zeroRegs with S := 0xC000, PC := 0x0100, CC := ConditionCode.ofValue 0x04 }
    0x0100 [0x10, 0x27, 0x00, 0x10]

/-! ## The VIA (`src/src/Via.cpp`) -/

/-- Modelled from the spec: the `float` type of the VIA's analog state ("beam position
`(pos_x, pos_y) ∈ ℝ²`", velocity, offset and brightness), declared in `Via.h` (not among the
sources).  `Via.cpp` only assigns to it: the literal `0.f` and the conversion of a
`uint8_t`. -/
class FloatLike (F : Type) where
  zero : F
  ofU8 : Nat → F

/-- Modelled from the spec: the `Timer` class of `Via.h` (not among the sources), "a generic
one-shot 16-bit down-counter"; `Via.cpp` uses these four members. -/
class TimerLike (T : Type) where
  Update : T → Nat → T
  InterruptEnabled : T → Bool
  SetCounterLow : T → Nat → T
  SetCounterHigh : T → Nat → T

/-- Modelled from the spec: `Vector2` of `Via.h` (not among the sources), a pair of
`float`s. -/
structure Vector2 (F : Type) where
  x : F
  y : F
deriving DecidableEq, Repr

/-- Modelled from the spec: `Line` of `Via.h` (not among the sources), a segment of the line
buffer, "from the previous position to the new position". -/
structure Line (F : Type) where
  p0 : Vector2 F
  p1 : Vector2 F
deriving DecidableEq, Repr

/-- Modelled from the spec: the members of `class Via` (`Via.h`, not among the sources) that
`Via.cpp` reads and writes: the sixteen registers of the register map, the timer, and the
analog state "beam position, velocity, xy offset, brightness, blank" with the line buffer. -/
structure Via (F T : Type) where
  B : Nat
  A : Nat
  DataDirB : Nat
  DataDirA : Nat
  Timer1Low : Nat
  Timer1High : Nat
  Timer1LatchLow : Nat
  Timer1LatchHigh : Nat
  Timer2Low : Nat
  Timer2High : Nat
  Shift : Nat
  AuxCntl : Nat
  PeriphCntl : Nat
  InterruptFlag : Nat
  InterruptEnable : Nat
  m_timer1 : T
  m_pos : Vector2 F
  m_lines : List (Line F)
  m_velocity : Vector2 F
  m_xyOffset : F
  m_brightness : F
  m_blank : Bool

/-- The result of a `void` member function that may reach `FAIL`, `FAIL_MSG` or a failed
`ASSERT_MSG` ("fatal emulator faults ... abort the emulator"): either it returns, or it
stops at the fault, in both cases with the state reached so far. -/
inductive Outcome (σ : Type) where
  | done (s : σ)
  | fault (s : σ)

/-- The state in which the call ended. -/
def Outcome.state {σ : Type} : Outcome σ → σ
  | .done s => s
  | .fault s => s

/-- Whether the call ended in a fault. -/
def Outcome.faulted {σ : Type} : Outcome σ → Bool
  | .done _ => false
  | .fault _ => true

/-- Modelled from the spec: `MemoryMap::Via.MapAddress` of `MemoryMap.h` (not among the
sources): the "index within VIA page" of the register map, the sixteen registers being
"mirrored" over `$D000–$D7FF`. -/
def Via.MapAddress (address : Nat) : Nat := address % 16

variable {F T : Type}

/-- Source: `Via::Update`.  The statements of the integrator are comments in the source,
only the timer and the interrupt flag are updated. -/
def Via.Update [TimerLike T] (s : Via F T) (cycles : Nat) : Via F T :=
  let s := { s with m_timer1 := TimerLike.Update s.m_timer1 cycles }
  let flag := if TimerLike.InterruptEnabled s.m_timer1 then 1 <<< 6 else 0
  { s with InterruptFlag := U8 (s.InterruptFlag ||| flag) }

/-- Source: `Via::Read`; `none` is a `FAIL_MSG`. -/
def Via.Read (s : Via F T) (address : Nat) : Option Nat :=
  let index := Via.MapAddress (U16 address)
  match index with
  | 0 => some s.B
  | 1 => some s.A
  | 2 => some s.DataDirB
  | 3 => some s.DataDirA
  | 4 => some s.Timer1Low
  | 5 => some s.Timer1High
  | 6 => none
  | 7 => none
  | 8 => none
  | 9 => none
  | 10 => some s.Shift
  | 11 => some s.AuxCntl
  | 12 => some s.PeriphCntl
  | 13 => some s.InterruptFlag
  | 14 => none
  | 15 => none
  | _ => some 0

/-- Source: the label `UPDATE_INTEGRATORS` in `Via::Write`, reached from the cases 0 and 1. -/
def Via.updateIntegrators [FloatLike F] (s : Via F T) : Outcome (Via F T) :=
  if s.B &&& 0b00000001 = 0 then
    match (s.B &&& 0b00000110) >>> 1 with
    | 0 => .done { s with m_velocity := { s.m_velocity with y := FloatLike.ofU8 s.A } }
    | 1 => .done { s with m_xyOffset := FloatLike.ofU8 s.A }
    | 2 => .done { s with m_brightness := FloatLike.ofU8 s.A }
    | 3 => .done s
    | _ => .fault s
  else
    .done { s with m_velocity := { s.m_velocity with x := FloatLike.ofU8 s.A } }

/-- Source: `case 12` of `Via::Write`, after `PeriphCntl = value`. -/
def Via.writePeriphCntl [FloatLike F] (s : Via F T) : Outcome (Via F T) :=
  let CA2 := (s.PeriphCntl &&& 0b00001110) >>> 1
  if CA2 = 0b110 ∨ CA2 = 0b111 then
    let s := if CA2 = 0b110 then
        { s with m_pos := { x := FloatLike.zero, y := FloatLike.zero }, m_lines := [] }
      else s
    let CB2 := (s.PeriphCntl &&& 0b11100000) >>> 5
    if CB2 = 0b110 then .done s
    else if CB2 = 0b111 then .done { s with m_blank := false }
    else .fault s
  else .fault s

/-- Source: `Via::Write`. -/
def Via.Write [FloatLike F] [TimerLike T] (s : Via F T) (address value : Nat) :
    Outcome (Via F T) :=
  let index := Via.MapAddress (U16 address)
  let value := U8 value
  match index with
  | 0 => Via.updateIntegrators { s with B := value }
  | 1 => Via.updateIntegrators { s with A := value }
  | 2 => .done { s with DataDirB := value }
  | 3 => .done { s with DataDirA := value }
  | 4 => .done { s with Timer1Low := value }
  | 5 => .done { s with Timer1High := value }
  | 6 => .done { s with Timer1LatchLow := value }
  | 7 => .done { s with Timer1LatchHigh := value }
  | 8 => .done { s with m_timer1 := TimerLike.SetCounterLow s.m_timer1 value }
  | 9 => .done { s with m_timer1 := TimerLike.SetCounterHigh s.m_timer1 value }
  | 10 => .done { s with Shift := value }
  | 11 => if value &&& 0b01100000 = 0 then .done { s with AuxCntl := value } else .fault s
  | 12 => Via.writePeriphCntl { s with PeriphCntl := value }
  | 13 => .fault s
  | 14 => .fault s
  | 15 => .fault s
  | _ => .done s

/-- A timer for the examples, modelled from the spec: "`Update(cycles)` subtracts `cycles`
and, on underflow, sets its interrupt latch". -/
structure CounterTimer where
  counter : Nat
  interrupt : Bool
deriving DecidableEq, Repr

instance : TimerLike CounterTimer where
  Update t cycles :=
    if t.counter < cycles then { counter := 0, interrupt := true }
    else { t with counter := t.counter - cycles }
  InterruptEnabled t := t.interrupt
  SetCounterLow t v := { t with counter := t.counter / 256 * 256 + v % 256 }
  SetCounterHigh t v := { t with counter := v % 256 * 256 + t.counter % 256 }

/-- Integer-valued analog quantities for the examples. -/
instance : FloatLike Int where
  zero := 0
  ofU8 v := (v : Int)

/-- The VIA of the spec's scenario "VIA /ZERO": all registers 0, the beam at `(100, 100)`,
one segment in the line buffer, brightness 80, the beam on. -/
def sampleVia : Via Int CounterTimer :=
  { B := 0, A := 0, DataDirB := 0, DataDirA := 0, Timer1Low := 0, Timer1High := 0,
    Timer1LatchLow := 0, Timer1LatchHigh := 0, Timer2Low := 0, Timer2High := 0, Shift := 0,
    AuxCntl := 0, PeriphCntl := 0, InterruptFlag := 0, InterruptEnable := 0,
    m_timer1 := { counter := 0, interrupt := false },
    m_pos := { x := 100, y := 100 },
    m_lines := [{ p0 := { x := 0, y := 0 }, p1 := { x := 100, y := 100 } }],
    m_velocity := { x := 128, y := 128 }, m_xyOffset := 0, m_brightness := 80,
    m_blank := false }

/-! ## Definitions for signed overflow and the count of mask bits -/

/-- Whether a true signed result lies outside the range of an 8-bit two's complement
number, `[-128, 127]`. -/
def specOverflow8 (i : Int) : Bool := decide (¬ (-128 ≤ i ∧ i ≤ 127))

/-- Whether a true signed result lies outside the range of a 16-bit two's complement
number, `[-32768, 32767]`. -/
def specOverflow16 (i : Int) : Bool := decide (¬ (-32768 ≤ i ∧ i ≤ 32767))

/-- The number of 1 bits of an 8-bit mask, "1 per register moved". -/
def specPopCount (m : Nat) : Nat := ((List.range 8).filter (fun i => m.testBit i)).length

/-! ## The PSG (`src/src/Psg.cpp`) -/

/-- Modelled from the spec: `Psg::PsgMode` of `Psg.h` (not among the sources), "one of
`{Inactive, Read, Write, LatchAddress}`", in the order of the table of the mode pins, where
BDIR is bit 1 and BC1 bit 0 of the enumerator's value. -/
inductive PsgMode where
  | Inactive | Read | Write | LatchAddress
deriving DecidableEq, Repr

/-- The conversion `static_cast<Psg::PsgMode>(value)`; values above 3 do not occur. -/
def PsgMode.ofValue : Nat → PsgMode
  | 0 => .Inactive
  | 1 => .Read
  | 2 => .Write
  | _ => .LatchAddress

/-- Modelled from the spec: `ReadBits(target, mask)` of `BitOps.h` (not among the sources),
the bits of `target` under `mask`: "latch low 4 bits of DA" for `ReadBits(m_DA, 0b1111)`. -/
def ReadBits (target mask : Nat) : Nat := target &&& mask

/-- Modelled from the spec: `SetBits(target, mask, enable)` of `BitOps.h` (not among the
sources).  Like `ReadBits` and `TestBits`, which `Psg.cpp` calls with the masks `0b1111`,
`0b1100'0000` and `BITS(4)`, it takes a mask: the bits of `mask` are set in the `uint8_t`
`target` when `enable` holds and cleared otherwise. -/
def SetBits (target mask : Nat) (enable : Bool) : Nat :=
  if enable then U8 (target ||| mask) else U8 (target &&& (255 - U8 mask))

/-- Source: the lambda `ModeFromBDIRandBC1` of `Psg::Clock`. -/
def ModeFromBDIRandBC1 (BDIR BC1 : Bool) : PsgMode :=
  let value := 0
  let value := SetBits value 1 BDIR
  let value := SetBits value 0 BC1
  PsgMode.ofValue value

/-- The table of the spec for the mode pins: "0 0 Inactive, 0 1 Read, 1 0 Write,
1 1 LatchAddress". -/
def specMode (BDIR BC1 : Bool) : PsgMode :=
  match BDIR, BC1 with
  | false, false => .Inactive
  | false, true => .Read
  | true, false => .Write
  | true, true => .LatchAddress

/-- Modelled from the spec: `ToneGenerator` of `Psg.h` (not among the sources), "a
down-counter with a 12-bit period and a square-wave output bit", the period being "low 8
bits + high 4 bits"; "when a generator's internal counter reaches zero it toggles its output
bit and reloads to `P`". -/
structure ToneGenerator where
  m_period : Nat
  m_counter : Nat
  m_value : Bool
deriving DecidableEq, Repr

/-- Modelled from the spec: the value-initialised `ToneGenerator`. -/
def ToneGenerator.initial : ToneGenerator := { m_period := 0, m_counter := 0, m_value := false }

/-- Modelled from the spec: `ToneGenerator::SetPeriodHigh`, the "high 4 bits" of the
period. -/
def ToneGenerator.SetPeriodHigh (g : ToneGenerator) (high : Nat) : ToneGenerator :=
  { g with m_period := ((high &&& 0x0F) <<< 8) ||| (g.m_period &&& 0x0FF) }

/-- Modelled from the spec: `ToneGenerator::SetPeriodLow`, the "low 8 bits" of the
period. -/
def ToneGenerator.SetPeriodLow (g : ToneGenerator) (low : Nat) : ToneGenerator :=
  { g with m_period := (g.m_period &&& 0xF00) ||| U8 low }

/-- Modelled from the spec: `ToneGenerator::PeriodHigh`. -/
def ToneGenerator.PeriodHigh (g : ToneGenerator) : Nat := (g.m_period >>> 8) &&& 0x0F

/-- Modelled from the spec: `ToneGenerator::PeriodLow`. -/
def ToneGenerator.PeriodLow (g : ToneGenerator) : Nat := g.m_period &&& 0xFF

/-- Modelled from the spec: `ToneGenerator::Clock`: the counter counts down, at zero the
output bit toggles and the counter reloads to the period. -/
def ToneGenerator.Clock (g : ToneGenerator) : ToneGenerator :=
  if g.m_counter = 0 then { g with m_value := !g.m_value, m_counter := g.m_period }
  else { g with m_counter := g.m_counter - 1 }

/-- Modelled from the spec: the divider of `Psg.h` (not among the sources), "a master /16
divider". -/
structure Divider where
  m_counter : Nat
deriving DecidableEq, Repr

/-- Modelled from the spec: `Divider::Reset`. -/
def Divider.Reset (_d : Divider) : Divider := { m_counter := 0 }

/-- Modelled from the spec: `Divider::Clock`, true on every sixteenth input clock. -/
def Divider.Clock (d : Divider) : Bool × Divider :=
  if 16 ≤ d.m_counter + 1 then (true, { m_counter := 0 })
  else (false, { m_counter := d.m_counter + 1 })

/-- The three tone generators, `m_toneGenerators[0]` to `m_toneGenerators[2]`. -/
structure ToneGenerators where
  g0 : ToneGenerator
  g1 : ToneGenerator
  g2 : ToneGenerator
deriving DecidableEq, Repr

/-- Modelled from the spec: the members of `class Psg` (`Psg.h`, not among the sources) that
`Psg.cpp` reads and writes: "sixteen 8-bit registers", "three tone generators", "a master /16
divider", "latched address", the "BDIR/BC1 mode pins" and the mode, and the data lines
`DA`. -/
structure Psg where
  m_mode : PsgMode
  m_DA : Nat
  m_registers : List Nat
  m_masterDivider : Divider
  m_toneGenerators : ToneGenerators
  m_latchedAddress : Nat
  m_BDIR : Bool
  m_BC1 : Bool
deriving DecidableEq, Repr

/-- How a member function of the PSG can fail: a failed `ASSERT_MSG`, or an index outside
the sixteen entries of `m_registers`. -/
inductive PsgFault where
  | assertion
  | outOfRange
deriving DecidableEq, Repr

/-- Source: `Psg::WriteDA`. -/
def Psg.WriteDA (s : Psg) (value : Nat) : Psg := { s with m_DA := U8 value }

/-- Source: `Psg::ReadDA`. -/
def Psg.ReadDA (s : Psg) : Nat := s.m_DA

/-- Modelled from the spec: the setter of the BDIR pin of `Psg.h` (not among the
sources). -/
def Psg.SetBDIR (s : Psg) (value : Bool) : Psg := { s with m_BDIR := value }

/-- Modelled from the spec: the setter of the BC1 pin of `Psg.h` (not among the sources). -/
def Psg.SetBC1 (s : Psg) (value : Bool) : Psg := { s with m_BC1 := value }

/-- Source: `Psg::Reset`. -/
def Psg.Reset (s : Psg) : Psg :=
  let s := { s with m_mode := PsgMode.ofValue 0 }
  let s := { s with m_DA := 0 }
  let s := { s with m_registers := List.replicate 16 0 }
  let s := { s with m_masterDivider := s.m_masterDivider.Reset }
  { s with m_toneGenerators :=
      { g0 := ToneGenerator.initial, g1 := ToneGenerator.initial, g2 := ToneGenerator.initial } }

/-- The access `m_registers[address]` for reading. -/
def Psg.registerAt (s : Psg) (address : Nat) : Except PsgFault Nat :=
  if address < 16 then .ok (s.m_registers.getD address 0) else .error .outOfRange

/-- The assignment `m_registers[address] = value`. -/
def Psg.setRegisterAt (s : Psg) (address value : Nat) : Except PsgFault Psg :=
  if address < 16 then .ok { s with m_registers := s.m_registers.set address (U8 value) }
  else .error .outOfRange

/-- Source: `Psg::Read`. -/
def Psg.Read (s : Psg) (address : Nat) : Except PsgFault Nat :=
  match s.m_latchedAddress with
  | 1 => .ok s.m_toneGenerators.g0.PeriodHigh
  | 0 => .ok s.m_toneGenerators.g0.PeriodLow
  | 3 => .ok s.m_toneGenerators.g1.PeriodHigh
  | 2 => .ok s.m_toneGenerators.g1.PeriodLow
  | 5 => .ok s.m_toneGenerators.g2.PeriodHigh
  | 4 => .ok s.m_toneGenerators.g2.PeriodLow
  | _ => s.registerAt address

/-- Source: `Psg::Write`. -/
def Psg.Write (s : Psg) (address value : Nat) : Except PsgFault Psg :=
  let tg := s.m_toneGenerators
  match s.m_latchedAddress with
  | 1 => .ok { s with m_toneGenerators := { tg with g0 := tg.g0.SetPeriodHigh value } }
  | 0 => .ok { s with m_toneGenerators := { tg with g0 := tg.g0.SetPeriodLow value } }
  | 3 => .ok { s with m_toneGenerators := { tg with g1 := tg.g1.SetPeriodHigh value } }
  | 2 => .ok { s with m_toneGenerators := { tg with g1 := tg.g1.SetPeriodLow value } }
  | 5 => .ok { s with m_toneGenerators := { tg with g2 := tg.g2.SetPeriodHigh value } }
  | 4 => .ok { s with m_toneGenerators := { tg with g2 := tg.g2.SetPeriodLow value } }
  | 7 =>
    if ReadBits value 0b11000000 = 0 then s.setRegisterAt address value
    else .error .assertion
  | _ => s.setRegisterAt address value

/-- Source: the `switch (m_mode)` of `Psg::Clock`, with `lastMode` the mode before this
clock. -/
def Psg.modeSwitch (lastMode : PsgMode) (s : Psg) : Except PsgFault Psg :=
  match s.m_mode with
  | .Inactive => .ok s
  | .Read =>
    if lastMode = .Inactive then
      match s.Read s.m_latchedAddress with
      | .ok v => .ok { s with m_DA := v }
      | .error e => .error e
    else .ok s
  | .Write =>
    if lastMode = .Inactive then s.Write s.m_latchedAddress s.m_DA else .ok s
  | .LatchAddress =>
    if lastMode = .Inactive then .ok { s with m_latchedAddress := ReadBits s.m_DA 0b1111 }
    else .ok s

/-- Source: the end of `Psg::Clock`, "clock generators every 16 input clocks"; the lambdas
that follow in the source are never called. -/
def Psg.clockGenerators (s : Psg) : Psg :=
  let (tick, divider) := s.m_masterDivider.Clock
  let s := { s with m_masterDivider := divider }
  if tick then
    { s with m_toneGenerators :=
        { g0 := s.m_toneGenerators.g0.Clock, g1 := s.m_toneGenerators.g1.Clock,
          g2 := s.m_toneGenerators.g2.Clock } }
  else s

/-- Source: `Psg::Clock`. -/
def Psg.Clock (s : Psg) : Except PsgFault Psg :=
  let lastMode := s.m_mode
  let s := { s with m_mode := ModeFromBDIRandBC1 s.m_BDIR s.m_BC1 }
  match s.modeSwitch lastMode with
  | .ok s => .ok s.clockGenerators
  | .error e => .error e

/-- Source: `Psg::Update`, `cycles` calls of `Clock`. -/
def Psg.Update (s : Psg) : Nat → Except PsgFault Psg
  | 0 => .ok s
  | cycles + 1 =>
    match s.Clock with
    | .ok s => s.Update cycles
    | .error e => .error e

/-- The value of the register `i` as `Psg::Read` gives it when `i` is the latched
address. -/
def Psg.register (s : Psg) (i : Nat) : Except PsgFault Nat :=
  Psg.Read { s with m_latchedAddress := i } i

/-- One step of the use of the PSG: a `WriteDA`, a change of a pin, or a `Clock` that
returns. -/
inductive PsgStep : Psg → Psg → Prop where
  | writeDA (s : Psg) (value : Nat) : PsgStep s (s.WriteDA value)
  | setBDIR (s : Psg) (value : Bool) : PsgStep s (s.SetBDIR value)
  | setBC1 (s : Psg) (value : Bool) : PsgStep s (s.SetBC1 value)
  | clock (s t : Psg) (h : s.Clock = .ok t) : PsgStep s t

/-- The states reached by a sequence of steps. -/
inductive PsgReachable (s : Psg) : Psg → Prop where
  | start : PsgReachable s s
  | step (t u : Psg) (h : PsgReachable s t) (hstep : PsgStep t u) : PsgReachable s u

/-- A PSG as `Reset` leaves it, with both pins low. -/
def samplePsg : Psg :=
  { m_mode := .Inactive, m_DA := 0, m_registers := List.replicate 16 0,
    m_masterDivider := { m_counter := 0 },
    m_toneGenerators :=
      { g0 := ToneGenerator.initial, g1 := ToneGenerator.initial, g2 := ToneGenerator.initial },
    m_latchedAddress := 0, m_BDIR := false, m_BC1 := false }

/-- A PSG in use: register 5 latched, a write in progress, non-zero registers. -/
def usedPsg : Psg :=
  { m_mode := .Write, m_DA := 0x42, m_registers := List.replicate 16 0x11,
    m_masterDivider := { m_counter := 7 },
    m_toneGenerators :=
      { g0 := { m_period := 0x123, m_counter := 5, m_value := true },
        g1 := ToneGenerator.initial, g2 := ToneGenerator.initial },
    m_latchedAddress := 5, m_BDIR := true, m_BC1 := false }

/-- The state of `samplePsg` after `WriteDA(5)`, BDIR raised and one `Clock`. -/
def clockedPsg : Psg :=
  match ((samplePsg.WriteDA 5).SetBDIR true).Clock with
  | .ok t => t
  | .error _ => samplePsg

/-! ## Breakpoints (`src/src/Breakpoints.h`) -/

/-- Source: `struct Breakpoint`. -/
structure Breakpoint where
  address : Nat
  enabled : Bool
  autoDelete : Bool
deriving DecidableEq, Repr

/-- The default member initialisers of `struct Breakpoint`. -/
def Breakpoint.initial : Breakpoint := { address := 0, enabled := true, autoDelete := false }

/-- Source: `class Breakpoints`, its member `std::map<uint16_t, Breakpoint> m_breakpoints`:
the entries of the map, key and value, in the order of iteration, which for a `std::map` is
the ascending order of the keys. -/
structure Breakpoints where
  m_breakpoints : List (Nat × Breakpoint)
deriving DecidableEq, Repr

/-- The invariant of the `std::map<uint16_t, Breakpoint>` as the class keeps it: the keys
are `uint16_t` values in strictly ascending order, and every breakpoint carries its key as
address, as `Add` stores it. -/
def Breakpoints.WF (b : Breakpoints) : Prop :=
  b.m_breakpoints.Pairwise (fun x y => x.1 < y.1) ∧
    ∀ e, e ∈ b.m_breakpoints → e.1 < 65536 ∧ e.2.address = e.1

instance (b : Breakpoints) : Decidable b.WF := by
  unfold Breakpoints.WF
  infer_instance

/-- The iterator `m_breakpoints.find(address)` as a position in the order of iteration;
`end()` is the number of entries. -/
def Breakpoints.find (b : Breakpoints) (address : Nat) : Nat :=
  b.m_breakpoints.findIdx (fun e => e.1 == address)

/-- The map after `m_breakpoints[address]`: an entry with a value-initialised breakpoint is
inserted at its place in the key order unless the key is present. -/
def insertKey (address : Nat) : List (Nat × Breakpoint) → List (Nat × Breakpoint)
  | [] => [(address, Breakpoint.initial)]
  | e :: es =>
    if address < e.1 then (address, Breakpoint.initial) :: e :: es
    else if address = e.1 then e :: es
    else e :: insertKey address es

/-- Source: `Breakpoints::Add`; the breakpoint returned is the one stored. -/
def Breakpoints.Add (b : Breakpoints) (address : Nat) : Breakpoint × Breakpoints :=
  let address := U16 address
  let entries := insertKey address b.m_breakpoints
  let iter := entries.findIdx (fun e => e.1 == address)
  let bp := { (entries.getD iter (address, Breakpoint.initial)).2 with address := address }
  (bp, { m_breakpoints := entries.set iter (address, bp) })

/-- Source: `Breakpoints::Num`. -/
def Breakpoints.Num (b : Breakpoints) : Nat := b.m_breakpoints.length

/-- Source: `Breakpoints::GetBreakpointIterAtIndex`.  An iterator is a position, `begin()`
is 0 and `end()` the number of entries.  `std::advance(iter, index)` may move an iterator up
to `end()`; to move it further is undefined behaviour, `none`. -/
def Breakpoints.GetBreakpointIterAtIndex (b : Breakpoints) (index : Nat) : Option Nat :=
  let iter := 0
  if iter ≠ b.m_breakpoints.length then
    if iter + index ≤ b.m_breakpoints.length then some (iter + index) else none
  else some iter

/-- Source: `Breakpoints::Remove`. -/
def Breakpoints.Remove (b : Breakpoints) (address : Nat) : Option Breakpoint × Breakpoints :=
  let iter := b.find (U16 address)
  if iter ≠ b.m_breakpoints.length then
    (b.m_breakpoints[iter]?.map Prod.snd, { m_breakpoints := b.m_breakpoints.eraseIdx iter })
  else (none, b)

/-- Source: `Breakpoints::RemoveAtIndex`; the outer `none` is undefined behaviour. -/
def Breakpoints.RemoveAtIndex (b : Breakpoints) (index : Nat) :
    Option (Option Breakpoint × Breakpoints) :=
  match b.GetBreakpointIterAtIndex index with
  | none => none
  | some iter =>
    if iter ≠ b.m_breakpoints.length then
      some (b.m_breakpoints[iter]?.map Prod.snd,
        { m_breakpoints := b.m_breakpoints.eraseIdx iter })
    else some (none, b)

/-- Source: `Breakpoints::Get`; the breakpoint pointed to, `none` for `nullptr`. -/
def Breakpoints.Get (b : Breakpoints) (address : Nat) : Option Breakpoint :=
  let iter := b.find (U16 address)
  if iter ≠ b.m_breakpoints.length then b.m_breakpoints[iter]?.map Prod.snd else none

/-- Source: `Breakpoints::GetAtIndex`; the breakpoint pointed to, `some none` for `nullptr`;
the outer `none` is undefined behaviour. -/
def Breakpoints.GetAtIndex (b : Breakpoints) (index : Nat) : Option (Option Breakpoint) :=
  match b.GetBreakpointIterAtIndex index with
  | none => none
  | some iter =>
    if iter ≠ b.m_breakpoints.length then some (b.m_breakpoints[iter]?.map Prod.snd)
    else some none

/-- Source: `Breakpoints::GetIndex`; `std::distance(begin(), iter)` is the position. -/
def Breakpoints.GetIndex (b : Breakpoints) (address : Nat) : Option Nat :=
  let iter := b.find (U16 address)
  if iter ≠ b.m_breakpoints.length then some iter else none

/-- The number of stored addresses strictly smaller than `a`. -/
def Breakpoints.rank (b : Breakpoints) (a : Nat) : Nat :=
  (b.m_breakpoints.filter (fun e => e.1 < a)).length

/-- The set after `Add(0x2000)`, `Add(0x1000)`, `Add(0x3000)` on the empty set. -/
def sampleBreakpoints : Breakpoints :=
  ((((Breakpoints.mk []).Add 0x2000).2.Add 0x1000).2.Add 0x3000).2

/-! ## Definitions for the side effects of the indexed mode -/

/-- The change that an indexed post-byte makes to its index register, by the spec's table of
indexed submodes: `,R+` adds 1, `,R++` adds 2, `,-R` subtracts 1 and `,--R` subtracts 2
(bit 7 set, bits 3-0 equal to 0, 1, 2, 3); every other submode leaves the register alone. -/
def specAutoStep (postbyte : Nat) : Int :=
  if postbyte / 128 % 2 = 1 then
    if postbyte % 16 = 0 then 1
    else if postbyte % 16 = 1 then 2
    else if postbyte % 16 = 2 then -1
    else if postbyte % 16 = 3 then -2
    else 0
  else 0

/-- The value of the register `reg` after the indexed mode has processed the post-byte, from
its value `r` before: the index register that the post-byte selects moves by the
auto-increment or auto-decrement (modulo `65536`), every other register keeps its value. -/
def specIndexAfter (postbyte : Nat) (reg : Reg16) (r : Nat) : Nat :=
  if specIndexRegister postbyte = reg then (((r : Int) + specAutoStep postbyte) % 65536).toNat
  else r

/-- The number of operand bytes that follow an indexed post-byte, by the spec's table of
indexed submodes: one for the 8-bit offsets (`n,R` and `n,PCR`, bits 3-0 equal to 8 and 12),
two for the 16-bit offsets and the extended indirect form (9, 13 and 15), none otherwise. -/
def specExtraOperandBytes (postbyte : Nat) : Nat :=
  if postbyte / 128 % 2 = 1 then
    if postbyte % 16 = 8 ∨ postbyte % 16 = 12 then 1
    else if postbyte % 16 = 9 ∨ postbyte % 16 = 13 ∨ postbyte % 16 = 15 then 2
    else 0
  else 0

/-- A machine inside `CMPX ,X++` (`0xAC 0x81`), the opcode byte consumed and `PC` at the
post-byte, with `X = 0x1000` and the word `0x1000` stored at the address `0x1000`. -/
def cmpxMachine : CpuImpl FlatRam :=
  { toCpuRegisters := { zeroRegs with X := 0x1000, S := 0xC000, PC := 0x0101 }
    m_memoryBus :=
      { bytes := fun a =>
          if a = 0x0100 then 0xAC else if a = 0x0101 then 0x81
          else if a = 0x1000 then 0x10 else 0 }
    m_cycles := 0 }

/-- A machine at `JSR ,--S` (`0xAD 0xE3`) with `S = 0xC000` and an `RTS` (`0x39`) at the
call target `0xBFFE`. -/
def jsrMachine : CpuImpl FlatRam :=
  { toCpuRegisters := { zeroRegs with S := 0xC000, PC := 0x0100 }
    m_memoryBus :=
      { bytes := fun a =>
          if a = 0x0100 then 0xAD else if a = 0x0101 then 0xE3
          else if a = 0xBFFE then 0x39 else 0 }
    m_cycles := 0 }

/-- The VIA `sampleVia` with the velocity `(200, 60)`: bit 7 of Port B clear, the beam on, and
a non-zero integrator input `velocity - 128 - offset` on both axes. -/
def rampVia : Via Int CounterTimer :=
  { sampleVia with m_velocity := { x := 200, y := 60 } }

/-- The register `i` of the register map in the words of the spec: the registers 0 to 5 are
the "low 8 bits + high 4 bits" of the 12-bit periods of the tone generators A, B and C, the
other registers are stored bytes. -/
def specRegister (s : Psg) (i : Nat) : Nat :=
  match i with
  | 0 => s.m_toneGenerators.g0.m_period % 256
  | 1 => s.m_toneGenerators.g0.m_period / 256 % 16
  | 2 => s.m_toneGenerators.g1.m_period % 256
  | 3 => s.m_toneGenerators.g1.m_period / 256 % 16
  | 4 => s.m_toneGenerators.g2.m_period % 256
  | 5 => s.m_toneGenerators.g2.m_period / 256 % 16
  | _ => s.m_registers.getD i 0

/-- The value that the register `i` holds after the byte `v` is stored into it: the
period-high registers 1, 3 and 5 hold "the high 4 bits" of a period, every other register
the byte. -/
def specStored (i v : Nat) : Nat := if i = 1 ∨ i = 3 ∨ i = 5 then v % 16 else v

/-- The PSG `usedPsg` with register 8 latched: mode `Write`, `DA = 0x42`. -/
def writePsg : Psg := { usedPsg with m_latchedAddress := 8 }

/-! ## Lemmas on bit operations -/

theorem and_bit7_ne_zero : ∀ v, v < 256 → ((v &&& 128 ≠ 0) ↔ 128 ≤ v) := by decide!

theorem and_FF00_ne_zero : ∀ v, v < 512 → ((v &&& 0xFF00 ≠ 0) ↔ 256 ≤ v) := by decide!

theorem and_F0_ne_zero : ∀ v, v < 32 → ((v &&& 0xF0 ≠ 0) ↔ 16 ≤ v) := by decide!

theorem and_0F (a : Nat) : a &&& 0x0F = a % 16 := Nat.and_pow_two_sub_one_eq_mod a 4

theorem and_FF (a : Nat) : a &&& 0xFF = a % 256 := Nat.and_pow_two_sub_one_eq_mod a 8

theorem shl8_or (h l : Nat) (hl : l < 256) : (h <<< 8) ||| l = h * 256 + l := by
  rw [Nat.shiftLeft_eq, Nat.mul_comm]
  exact (Nat.mul_add_lt_is_or (i := 8) hl h).symm

theorem testBit7_eq (v : Nat) (hv : v < 256) : v.testBit 7 = decide (128 ≤ v) := by
  rw [Nat.testBit, Nat.shiftRight_eq_div_pow]
  have h01 : v / 2 ^ 7 = 0 ∨ v / 2 ^ 7 = 1 := by omega
  rcases h01 with h | h
  · rw [h]
    have : ¬ 128 ≤ v := by omega
    simp [this]
  · rw [h]
    have : 128 ≤ v := by omega
    simp [this]

theorem CombineToU16_eq (msb lsb : Nat) :
    CombineToU16 msb lsb = (msb % 256) * 256 + lsb % 256 := by
  unfold CombineToU16 U8
  exact shl8_or _ _ (Nat.mod_lt _ (by decide))

theorem CombineToU16_lt (msb lsb : Nat) : CombineToU16 msb lsb < 65536 := by
  rw [CombineToU16_eq]
  omega

theorem wrap16_lt (i : Int) : wrap16 i < 65536 := by
  unfold wrap16
  omega

theorem wrap16_natCast (n : Nat) : wrap16 (n : Int) = n % 65536 := by
  unfold wrap16
  omega

/-! ## Lemmas on casts, flags and register access -/

theorem U8_lt (v : Nat) : U8 v < 256 := Nat.mod_lt _ (by decide)

theorem U16_lt (v : Nat) : U16 v < 65536 := Nat.mod_lt _ (by decide)

theorem U16_U16 (v : Nat) : U16 (U16 v) = U16 v := by
  simp only [U16, Nat.mod_mod]

theorem U8_U8 (v : Nat) : U8 (U8 v) = U8 v := by
  simp only [U8, Nat.mod_mod]

theorem U16_CombineToU16 (a b : Nat) : U16 (CombineToU16 a b) = CombineToU16 a b :=
  Nat.mod_eq_of_lt (CombineToU16_lt a b)

theorem CombineToU16_high (a b : Nat) : U8 (CombineToU16 a b >>> 8) = U8 a := by
  rw [CombineToU16_eq, Nat.shiftRight_eq_div_pow]
  simp only [U8]
  omega

theorem CombineToU16_low (a b : Nat) : U8 (CombineToU16 a b) = U8 b := by
  rw [CombineToU16_eq]
  simp only [U8]
  omega

theorem CombineToU16_split (v : Nat) : CombineToU16 (U8 (v >>> 8)) (U8 v) = U16 v := by
  rw [CombineToU16_eq, Nat.shiftRight_eq_div_pow]
  simp only [U8, U16]
  omega

theorem ofValue_Value (c : ConditionCode) : ConditionCode.ofValue (U8 c.Value) = c := by
  rcases c with ⟨c, v, z, n, i, h, f, e⟩
  cases c <;> cases v <;> cases z <;> cases n <;> cases i <;> cases h <;> cases f <;>
    cases e <;> rfl

theorem Value_lt (c : ConditionCode) : c.Value < 256 := by
  rcases c with ⟨c, v, z, n, i, h, f, e⟩
  cases c <;> cases v <;> cases z <;> cases n <;> cases i <;> cases h <;> cases f <;>
    cases e <;> decide

theorem Value_ofValue : ∀ v, v < 256 → (ConditionCode.ofValue v).Value = v := by
  decide!

theorem U8_U8_Value (c : ConditionCode) : U8 c.Value = c.Value :=
  Nat.mod_eq_of_lt (Value_lt c)

theorem shr4_and7 (p : Nat) : (p >>> 4) &&& 0b111 = p / 16 % 8 := by
  rw [Nat.shiftRight_eq_div_pow]
  exact Nat.and_pow_two_sub_one_eq_mod _ 3

theorem and7 (p : Nat) : p &&& 0b111 = p % 8 := Nat.and_pow_two_sub_one_eq_mod _ 3

theorem dec16_spec (v : Nat) :
    U16 (dec16 v) < 65536 ∧ (v < 65536 → (U16 (dec16 v) + 1) % 65536 = v) := by
  unfold dec16 U16
  split <;> omega

/-! ## Operand fetch leaves accumulators, flags and memory alone -/

theorem OperandFrame_refl (s : CpuImpl M) : OperandFrame s s :=
  ⟨rfl, rfl, rfl, rfl, rfl, Nat.le_refl _⟩

theorem OperandFrame_trans {s t u : CpuImpl M} (h1 : OperandFrame s t) (h2 : OperandFrame t u) :
    OperandFrame s u := by
  obtain ⟨a1, b1, c1, d1, e1, f1⟩ := h1
  obtain ⟨a2, b2, c2, d2, e2, f2⟩ := h2
  exact ⟨a2.trans a1, b2.trans b1, c2.trans c1, d2.trans d1, e2.trans e1, Nat.le_trans f1 f2⟩

theorem ReadPC8_frame (s : CpuImpl M) : OperandFrame s (ReadPC8 s).2 :=
  ⟨rfl, rfl, rfl, rfl, rfl, Nat.le_refl _⟩

theorem ReadPC16_frame (s : CpuImpl M) : OperandFrame s (ReadPC16 s).2 :=
  ⟨rfl, rfl, rfl, rfl, rfl, Nat.le_refl _⟩

theorem RegisterSelect_cases (p : Nat) :
    RegisterSelect p = .X ∨ RegisterSelect p = .Y ∨ RegisterSelect p = .U ∨
      RegisterSelect p = .S := by
  unfold RegisterSelect
  split <;> simp

theorem set16_index_frame (s : CpuImpl M) (p v : Nat) :
    OperandFrame s (s.set16 (RegisterSelect p) v) := by
  rcases RegisterSelect_cases p with h | h | h | h <;> rw [h] <;>
    exact ⟨rfl, rfl, rfl, rfl, rfl, Nat.le_refl _⟩

theorem ReadIndexedEABase_frame (p : Nat) (s t : CpuImpl M) (EA : Nat) (ind : Bool) (c : Nat)
    (h : ReadIndexedEABase p s = some (EA, ind, c, t)) : OperandFrame s t := by
  unfold ReadIndexedEABase at h
  split at h
  · simp at h; rw [← h.2.2.2]; exact OperandFrame_refl s
  · split at h <;> simp at h <;> (try rw [← h.2.2.2]) <;>
      first
      | exact OperandFrame_refl s
      | exact set16_index_frame s p _

theorem ReadIndexedEA_frame (s t : CpuImpl M) (EA : Nat)
    (h : ReadIndexedEA s = some (EA, t)) : OperandFrame s t := by
  unfold ReadIndexedEA at h
  simp only at h
  split at h
  · exact absurd h (by simp)
  · rename_i EA0 ind c t0 hb
    have hf := OperandFrame_trans (ReadPC8_frame s) (ReadIndexedEABase_frame _ _ _ _ _ _ hb)
    split at h <;> simp at h <;> rw [← h.2] <;>
      exact OperandFrame_trans hf ⟨rfl, rfl, rfl, rfl, rfl, by simp [CpuImpl.addCycles]⟩

theorem ReadEA16_frame (mode : AddressingMode) (s t : CpuImpl M) (EA : Nat)
    (h : ReadEA16 mode s = some (EA, t)) : OperandFrame s t := by
  unfold ReadEA16 at h
  split at h
  · exact ReadIndexedEA_frame s t EA h
  · simp [ReadExtendedEA] at h
    rw [← h.2]
    exact OperandFrame_trans (ReadPC8_frame s) (ReadPC8_frame _)
  · simp [ReadDirectEA] at h
    rw [← h.2]
    exact ReadPC8_frame s
  · exact absurd h (by simp)

theorem ReadOperandValue8_frame (mode : AddressingMode) (s t : CpuImpl M) (v : Nat)
    (h : ReadOperandValue8 mode s = some (v, t)) : OperandFrame s t ∧ v < 256 := by
  unfold ReadOperandValue8 at h
  split at h
  · simp only [Option.some.injEq] at h
    have h1 : (ReadPC8 s).1 = v := by rw [h]
    have h2 : (ReadPC8 s).2 = t := by rw [h]
    rw [← h1, ← h2]
    exact ⟨ReadPC8_frame s, Nat.mod_lt _ (by decide)⟩
  · split at h
    · exact absurd h (by simp)
    · rename_i EA t0 he
      simp at h
      rw [← h.1, ← h.2]
      exact ⟨ReadEA16_frame _ _ _ _ he, Nat.mod_lt _ (by decide)⟩

theorem ReadOperandValue16_frame (mode : AddressingMode) (s t : CpuImpl M) (v : Nat)
    (h : ReadOperandValue16 mode s = some (v, t)) : OperandFrame s t ∧ v < 65536 := by
  unfold ReadOperandValue16 at h
  split at h
  · simp only [Option.some.injEq] at h
    have h1 : (ReadPC16 s).1 = v := by rw [h]
    have h2 : (ReadPC16 s).2 = t := by rw [h]
    rw [← h1, ← h2]
    exact ⟨ReadPC16_frame s, CombineToU16_lt _ _⟩
  · split at h
    · exact absurd h (by simp)
    · rename_i EA t0 he
      simp at h
      rw [← h.1, ← h.2]
      exact ⟨ReadEA16_frame _ _ _ _ he, CombineToU16_lt _ _⟩

/-! ## Addition and subtraction -/

theorem AddImpl8_result (a b c : Nat) (cc : ConditionCode) (u : Bool) :
    (AddImpl8 a b c cc u).1 = (a + b + c) % 256 := by
  simp only [AddImpl8, U8, U16]
  omega

theorem AddImpl8_carry (a b c : Nat) (cc : ConditionCode) (u : Bool)
    (h : a + b + c < 512) :
    (AddImpl8 a b c cc u).2.Carry = decide (256 ≤ a + b + c) := by
  have h1 : (a + b + c) % 65536 = a + b + c := Nat.mod_eq_of_lt (by omega)
  simp only [AddImpl8, U16, h1, CalcCarry16, bit1]
  by_cases hc : 256 ≤ a + b + c
  · simp [(and_FF00_ne_zero _ h).2 hc, hc]
  · have : ¬ ((a + b + c) &&& 0xFF00 ≠ 0) := fun hh => hc ((and_FF00_ne_zero _ h).1 hh)
    simp only [this, hc]
    simp

theorem AddImpl8_zero (a b c : Nat) (cc : ConditionCode) (u : Bool) :
    (AddImpl8 a b c cc u).2.Zero = decide ((AddImpl8 a b c cc u).1 = 0) := by
  simp only [AddImpl8, CalcZero, bit1]
  split <;> simp_all

theorem AddImpl8_negative (a b c : Nat) (cc : ConditionCode) (u : Bool) :
    (AddImpl8 a b c cc u).2.Negative = (AddImpl8 a b c cc u).1.testBit 7 := by
  have hlt : (AddImpl8 a b c cc u).1 < 256 := by
    rw [AddImpl8_result]; exact Nat.mod_lt _ (by decide)
  rw [testBit7_eq _ hlt]
  have key := and_bit7_ne_zero _ hlt
  simp only [AddImpl8, CalcNegative8, bit1, BITS] at *
  by_cases hc : 128 ≤ U8 (U16 (a + b + c))
  · simp [key.2 hc, hc]
  · have : ¬ (U8 (U16 (a + b + c)) &&& 128 ≠ 0) := fun hh => hc (key.1 hh)
    simp only [Nat.reduceShiftLeft, this, hc]
    simp

theorem AddImpl8_halfCarry (a b c : Nat) (cc : ConditionCode) :
    (AddImpl8 a b c cc true).2.HalfCarry = decide (0xF < (a &&& 0xF) + (b &&& 0xF)) := by
  have hlt : (a &&& 0xF) + (b &&& 0xF) < 32 := by
    rw [and_0F, and_0F]; omega
  have key := and_F0_ne_zero _ hlt
  simp only [AddImpl8, CalcHalfCarryFromAdd, bit1] at *
  by_cases hc : 16 ≤ (a &&& 0xF) + (b &&& 0xF)
  · have h2 : 0xF < (a &&& 0xF) + (b &&& 0xF) := hc
    simp [key.2 hc, h2]
  · have h2 : ¬ 0xF < (a &&& 0xF) + (b &&& 0xF) := hc
    have : ¬ (((a &&& 0xF) + (b &&& 0xF)) &&& 0xF0 ≠ 0) := fun hh => hc (key.1 hh)
    simp only [this, h2]
    simp

theorem SubtractImpl8_result (a b : Nat) (cc : ConditionCode) :
    ((SubtractImpl8 a b cc).1 : Int) = ((a : Int) - b) % 256 := by
  simp only [SubtractImpl8, AddImpl8_result, U8]
  omega

theorem SubtractImpl8_carry (a b : Nat) (cc : ConditionCode) (ha : a < 256) (hb : b < 256) :
    (SubtractImpl8 a b cc).2.Carry = decide (a < b) := by
  have hs : a + U8 (255 - U8 b) + 1 < 512 := by simp only [U8]; omega
  simp only [SubtractImpl8, AddImpl8_carry _ _ _ _ _ hs]
  simp only [U8]
  by_cases h : a < b
  · have : ¬ 256 ≤ a + (255 - b % 256) % 256 + 1 := by omega
    simp [this, h]
  · have : 256 ≤ a + (255 - b % 256) % 256 + 1 := by omega
    simp [this, h]

/-! ## Every handler keeps register widths and never lowers the cycle counter -/

theorem StepOK_refl (s : CpuImpl M) : StepOK s s := ⟨id, Nat.le_refl _⟩

theorem StepOK_trans {s t u : CpuImpl M} (h1 : StepOK s t) (h2 : StepOK t u) : StepOK s u :=
  ⟨fun h => h2.1 (h1.1 h), Nat.le_trans h1.2 h2.2⟩

theorem StepOK_set8_self (x : CpuImpl M) (r : Reg8) (v : Nat) : StepOK x (x.set8 r v) := by
  refine ⟨fun h => ?_, ?_⟩
  · obtain ⟨hX, hY, hU, hS, hPC, hDP, hA, hB⟩ := h
    cases r
    · exact ⟨hX, hY, hU, hS, hPC, hDP, U8_lt _, hB⟩
    · exact ⟨hX, hY, hU, hS, hPC, hDP, hA, U8_lt _⟩
    · exact ⟨hX, hY, hU, hS, hPC, hDP, hA, hB⟩
    · exact ⟨hX, hY, hU, hS, hPC, U8_lt _, hA, hB⟩
  · cases r <;> exact Nat.le_refl _

theorem StepOK_set16_self (x : CpuImpl M) (r : Reg16) (v : Nat) : StepOK x (x.set16 r v) := by
  refine ⟨fun h => ?_, ?_⟩
  · obtain ⟨hX, hY, hU, hS, hPC, hDP, hA, hB⟩ := h
    cases r
    · exact ⟨hX, hY, hU, hS, hPC, hDP, U8_lt _, U8_lt _⟩
    · exact ⟨U16_lt _, hY, hU, hS, hPC, hDP, hA, hB⟩
    · exact ⟨hX, U16_lt _, hU, hS, hPC, hDP, hA, hB⟩
    · exact ⟨hX, hY, U16_lt _, hS, hPC, hDP, hA, hB⟩
    · exact ⟨hX, hY, hU, U16_lt _, hPC, hDP, hA, hB⟩
    · exact ⟨hX, hY, hU, hS, U16_lt _, hDP, hA, hB⟩
  · cases r <;> exact Nat.le_refl _

theorem StepOK_set8 {s x : CpuImpl M} {r : Reg8} {v : Nat} (h : StepOK s x) :
    StepOK s (x.set8 r v) := StepOK_trans h (StepOK_set8_self x r v)

theorem StepOK_set16 {s x : CpuImpl M} {r : Reg16} {v : Nat} (h : StepOK s x) :
    StepOK s (x.set16 r v) := StepOK_trans h (StepOK_set16_self x r v)

theorem StepOK_setCC {s x : CpuImpl M} {c : ConditionCode} (h : StepOK s x) :
    StepOK s (x.setCC c) := StepOK_trans h ⟨id, Nat.le_refl _⟩

theorem StepOK_addCycles {s x : CpuImpl M} {n : Nat} (h : StepOK s x) :
    StepOK s (x.addCycles n) := StepOK_trans h ⟨id, Nat.le_add_right _ _⟩

theorem StepOK_Write8 {s x : CpuImpl M} {a v : Nat} (h : StepOK s x) :
    StepOK s (Write8 x a v) := StepOK_trans h ⟨id, Nat.le_refl _⟩

theorem StepOK_ite {s a b : CpuImpl M} {c : Prop} [Decidable c] (ha : StepOK s a)
    (hb : StepOK s b) : StepOK s (if c then a else b) := by
  split <;> assumption

theorem StepOK_Push8 {s x : CpuImpl M} {r : Reg16} {v : Nat} (h : StepOK s x) :
    StepOK s (Push8 r v x) := by
  unfold Push8
  exact StepOK_Write8 (StepOK_set16 h)

theorem StepOK_Push16 {s x : CpuImpl M} {r : Reg16} {v : Nat} (h : StepOK s x) :
    StepOK s (Push16 r v x) := by
  unfold Push16
  exact StepOK_Write8 (StepOK_set16 (StepOK_Write8 (StepOK_set16 h)))

theorem StepOK_pushReg8 {s x : CpuImpl M} {r : Reg16} {q : Reg8} (h : StepOK s x) :
    StepOK s (pushReg8 r q x) := StepOK_Push8 h

theorem StepOK_pushReg16 {s x : CpuImpl M} {r q : Reg16} (h : StepOK s x) :
    StepOK s (pushReg16 r q x) := StepOK_Push16 h

theorem StepOK_pull8 {s x : CpuImpl M} {r : Reg16} {t : Reg8} (h : StepOK s x) :
    StepOK s (pull8 r t x) := by
  unfold pull8 Pop8
  exact StepOK_set8 (StepOK_set16 h)

theorem StepOK_pull16 {s x : CpuImpl M} {r t : Reg16} (h : StepOK s x) :
    StepOK s (pull16 r t x) := by
  unfold pull16 Pop16
  exact StepOK_set16 (StepOK_set16 (StepOK_set16 h))

theorem StepOK_ReadPC8 {s x : CpuImpl M} (h : StepOK s x) :
    StepOK s (ReadPC8 x).2 := by
  unfold ReadPC8
  exact StepOK_set16 h

theorem StepOK_ReadPC16 {s x : CpuImpl M} (h : StepOK s x) :
    StepOK s (ReadPC16 x).2 := by
  unfold ReadPC16
  exact StepOK_set16 h

theorem ReadIndexedEABase_step (p : Nat) (s t : CpuImpl M) (EA : Nat) (ind : Bool) (c : Nat)
    (h : ReadIndexedEABase p s = some (EA, ind, c, t)) : StepOK s t := by
  unfold ReadIndexedEABase at h
  split at h
  · simp at h; rw [← h.2.2.2]; exact StepOK_refl s
  · split at h <;> simp at h <;> (try rw [← h.2.2.2]) <;>
      apply_rules [StepOK_set16, StepOK_ReadPC8, StepOK_refl]

theorem ReadIndexedEA_step (s t : CpuImpl M) (EA : Nat)
    (h : ReadIndexedEA s = some (EA, t)) : StepOK s t := by
  unfold ReadIndexedEA at h
  simp only at h
  split at h
  · exact absurd h (by simp)
  · rename_i EA0 ind c t0 hb
    have hf : StepOK s t0 :=
      StepOK_trans (StepOK_ReadPC8 (StepOK_refl s)) (ReadIndexedEABase_step _ _ _ _ _ _ hb)
    split at h <;> simp at h <;> rw [← h.2] <;> exact StepOK_addCycles hf

theorem ReadEA16_step (mode : AddressingMode) (s t : CpuImpl M) (EA : Nat)
    (h : ReadEA16 mode s = some (EA, t)) : StepOK s t := by
  unfold ReadEA16 at h
  split at h
  · exact ReadIndexedEA_step s t EA h
  · simp [ReadExtendedEA] at h
    rw [← h.2]
    apply_rules [StepOK_set16, StepOK_ReadPC8, StepOK_refl]
  · simp [ReadDirectEA] at h
    rw [← h.2]
    apply_rules [StepOK_set16, StepOK_ReadPC8, StepOK_refl]
  · exact absurd h (by simp)

theorem ReadOperandValue8_step (mode : AddressingMode) (s t : CpuImpl M) (v : Nat)
    (h : ReadOperandValue8 mode s = some (v, t)) : StepOK s t := by
  unfold ReadOperandValue8 at h
  split at h
  · simp only [Option.some.injEq] at h
    have h2 : (ReadPC8 s).2 = t := by rw [h]
    rw [← h2]
    exact StepOK_ReadPC8 (StepOK_refl s)
  · split at h
    · exact absurd h (by simp)
    · rename_i EA t0 he
      simp at h
      rw [← h.2]
      exact ReadEA16_step _ _ _ _ he

theorem ReadOperandValue16_step (mode : AddressingMode) (s t : CpuImpl M) (v : Nat)
    (h : ReadOperandValue16 mode s = some (v, t)) : StepOK s t := by
  unfold ReadOperandValue16 at h
  split at h
  · simp only [Option.some.injEq] at h
    have h2 : (ReadPC16 s).2 = t := by rw [h]
    rw [← h2]
    exact StepOK_ReadPC16 (StepOK_refl s)
  · split at h
    · exact absurd h (by simp)
    · rename_i EA t0 he
      simp at h
      rw [← h.2]
      exact ReadEA16_step _ _ _ _ he

theorem OpLD8_step (mode : AddressingMode) (r : Reg8) (s t : CpuImpl M)
    (h : OpLD8 mode r s = some t) : StepOK s t := by
  unfold OpLD8 at h
  split at h
  · exact absurd h (by simp)
  · rename_i v s1 hop
    have hf := ReadOperandValue8_step _ _ _ _ hop
    simp only [Option.some.injEq] at h
    rw [← h]
    exact StepOK_set8 (StepOK_setCC (StepOK_setCC (StepOK_setCC hf)))

theorem OpLD16_step (mode : AddressingMode) (r : Reg16) (s t : CpuImpl M)
    (h : OpLD16 mode r s = some t) : StepOK s t := by
  unfold OpLD16 at h
  split at h
  · exact absurd h (by simp)
  · rename_i v s1 hop
    have hf := ReadOperandValue16_step _ _ _ _ hop
    simp only [Option.some.injEq] at h
    rw [← h]
    exact StepOK_set16 (StepOK_setCC (StepOK_setCC (StepOK_setCC hf)))

theorem OpST8_step (mode : AddressingMode) (r : Reg8) (s t : CpuImpl M)
    (h : OpST8 mode r s = some t) : StepOK s t := by
  unfold OpST8 at h
  split at h
  · exact absurd h (by simp)
  · rename_i v s1 hop
    have hf := ReadEA16_step _ _ _ _ hop
    simp only [Option.some.injEq] at h
    rw [← h]
    exact StepOK_setCC (StepOK_setCC (StepOK_setCC (StepOK_Write8 hf)))

theorem OpST16_step (mode : AddressingMode) (r : Reg16) (s t : CpuImpl M)
    (h : OpST16 mode r s = some t) : StepOK s t := by
  unfold OpST16 at h
  split at h
  · exact absurd h (by simp)
  · rename_i v s1 hop
    have hf := ReadEA16_step _ _ _ _ hop
    simp only [Option.some.injEq] at h
    rw [← h]
    exact StepOK_setCC (StepOK_setCC (StepOK_setCC (StepOK_Write8 (StepOK_Write8 hf))))

theorem OpJSR_step (mode : AddressingMode) (s t : CpuImpl M)
    (h : OpJSR mode s = some t) : StepOK s t := by
  unfold OpJSR at h
  split at h
  · exact absurd h (by simp)
  · rename_i v s1 hop
    have hf := ReadEA16_step _ _ _ _ hop
    simp only [Option.some.injEq] at h
    rw [← h]
    exact StepOK_set16 (StepOK_Push16 hf)

theorem OpCLRm_step (mode : AddressingMode) (s t : CpuImpl M)
    (h : OpCLRm mode s = some t) : StepOK s t := by
  unfold OpCLRm at h
  split at h
  · exact absurd h (by simp)
  · rename_i v s1 hop
    have hf := ReadEA16_step _ _ _ _ hop
    simp only [Option.some.injEq] at h
    rw [← h]
    exact StepOK_setCC (StepOK_Write8 hf)

theorem OpADD8_step (mode : AddressingMode) (r : Reg8) (s t : CpuImpl M)
    (h : OpADD8 mode r s = some t) : StepOK s t := by
  unfold OpADD8 at h
  split at h
  · exact absurd h (by simp)
  · rename_i v s1 hop
    have hf := ReadOperandValue8_step _ _ _ _ hop
    simp only [Option.some.injEq] at h
    rw [← h]
    exact StepOK_set8 (StepOK_setCC hf)

theorem OpSUB8_step (mode : AddressingMode) (r : Reg8) (s t : CpuImpl M)
    (h : OpSUB8 mode r s = some t) : StepOK s t := by
  unfold OpSUB8 at h
  split at h
  · exact absurd h (by simp)
  · rename_i v s1 hop
    have hf := ReadOperandValue8_step _ _ _ _ hop
    simp only [Option.some.injEq] at h
    rw [← h]
    exact StepOK_set8 (StepOK_setCC hf)

theorem OpADC_step (mode : AddressingMode) (r : Reg8) (s t : CpuImpl M)
    (h : OpADC mode r s = some t) : StepOK s t := by
  unfold OpADC at h
  split at h
  · exact absurd h (by simp)
  · rename_i v s1 hop
    have hf := ReadOperandValue8_step _ _ _ _ hop
    simp only [Option.some.injEq] at h
    rw [← h]
    exact StepOK_set8 (StepOK_setCC hf)

theorem onMem8_step (f : Nat → ConditionCode → Nat × ConditionCode) (mode : AddressingMode) (s t : CpuImpl M)
    (h : onMem8 f mode s = some t) : StepOK s t := by
  unfold onMem8 at h
  split at h
  · exact absurd h (by simp)
  · rename_i v s1 hop
    have hf := ReadEA16_step _ _ _ _ hop
    simp only [Option.some.injEq] at h
    rw [← h]
    exact StepOK_Write8 (StepOK_setCC hf)

theorem OpINCm_step (mode : AddressingMode) (s t : CpuImpl M)
    (h : OpINCm mode s = some t) : StepOK s t := by
  unfold OpINCm at h
  split at h
  · exact absurd h (by simp)
  · rename_i v s1 hop
    have hf := ReadEA16_step _ _ _ _ hop
    simp only [Option.some.injEq] at h
    rw [← h]
    exact StepOK_setCC (StepOK_setCC (StepOK_setCC (StepOK_Write8 hf)))

theorem OpDECm_step (mode : AddressingMode) (s t : CpuImpl M)
    (h : OpDECm mode s = some t) : StepOK s t := by
  unfold OpDECm at h
  split at h
  · exact absurd h (by simp)
  · rename_i v s1 hop
    have hf := ReadEA16_step _ _ _ _ hop
    simp only [Option.some.injEq] at h
    rw [← h]
    exact StepOK_setCC (StepOK_setCC (StepOK_setCC (StepOK_Write8 hf)))

theorem OpJMP_step (mode : AddressingMode) (s t : CpuImpl M)
    (h : OpJMP mode s = some t) : StepOK s t := by
  unfold OpJMP at h
  split at h
  · exact absurd h (by simp)
  · rename_i v s1 hop
    have hf := ReadEA16_step _ _ _ _ hop
    simp only [Option.some.injEq] at h
    rw [← h]
    exact StepOK_set16 hf

theorem OpTSTm_step (mode : AddressingMode) (s t : CpuImpl M)
    (h : OpTSTm mode s = some t) : StepOK s t := by
  unfold OpTSTm at h
  split at h
  · exact absurd h (by simp)
  · rename_i v s1 hop
    have hf := ReadOperandValue8_step _ _ _ _ hop
    simp only [Option.some.injEq] at h
    rw [← h]
    exact StepOK_setCC hf

theorem OpCMP8_step (mode : AddressingMode) (r : Reg8) (s t : CpuImpl M)
    (h : OpCMP8 mode r s = some t) : StepOK s t := by
  unfold OpCMP8 at h
  split at h
  · exact absurd h (by simp)
  · rename_i v s1 hop
    have hf := ReadOperandValue8_step _ _ _ _ hop
    simp only [Option.some.injEq] at h
    rw [← h]
    exact StepOK_setCC hf

theorem OpBIT_step (mode : AddressingMode) (r : Reg8) (s t : CpuImpl M)
    (h : OpBIT mode r s = some t) : StepOK s t := by
  unfold OpBIT at h
  split at h
  · exact absurd h (by simp)
  · rename_i v s1 hop
    have hf := ReadOperandValue8_step _ _ _ _ hop
    simp only [Option.some.injEq] at h
    rw [← h]
    exact StepOK_setCC (StepOK_setCC (StepOK_setCC hf))

theorem OpLEA_step (mode : AddressingMode) (r : Reg16) (s t : CpuImpl M)
    (h : OpLEA mode r s = some t) : StepOK s t := by
  unfold OpLEA at h
  split at h
  · exact absurd h (by simp)
  · rename_i v s1 hop
    have hf := ReadEA16_step _ _ _ _ hop
    split at h <;> simp only [Option.some.injEq] at h <;> rw [← h]
    · exact StepOK_setCC (StepOK_set16 hf)
    · exact StepOK_set16 hf

theorem OpOR_step (mode : AddressingMode) (r : Reg8) (s t : CpuImpl M)
    (h : OpOR mode r s = some t) : StepOK s t := by
  unfold OpOR at h
  split at h
  · exact absurd h (by simp)
  · rename_i v s1 hop
    have hf := ReadOperandValue8_step _ _ _ _ hop
    split at h <;> simp only [Option.some.injEq] at h <;> rw [← h]
    · exact StepOK_setCC (StepOK_setCC (StepOK_setCC (StepOK_set8 hf)))
    · exact StepOK_set8 hf

theorem OpAND_step (mode : AddressingMode) (r : Reg8) (s t : CpuImpl M)
    (h : OpAND mode r s = some t) : StepOK s t := by
  unfold OpAND at h
  split at h
  · exact absurd h (by simp)
  · rename_i v s1 hop
    have hf := ReadOperandValue8_step _ _ _ _ hop
    split at h <;> simp only [Option.some.injEq] at h <;> rw [← h]
    · exact StepOK_setCC (StepOK_setCC (StepOK_setCC (StepOK_set8 hf)))
    · exact StepOK_set8 hf

theorem OpADD16_step (mode : AddressingMode) (r : Reg16) (s t : CpuImpl M)
    (h : OpADD16 mode r s = some t) : StepOK s t := by
  unfold OpADD16 at h
  split at h
  · exact absurd h (by simp)
  · rename_i v s1 hop
    have hf := ReadOperandValue16_step _ _ _ _ hop
    split at h
    · exact absurd h (by simp)
    · simp only [Option.some.injEq] at h
      rw [← h]
      exact StepOK_set16 (StepOK_setCC hf)

theorem OpSUB16_step (rf : Bool) (mode : AddressingMode) (r : Reg16) (s t : CpuImpl M)
    (h : OpSUB16 rf mode r s = some t) : StepOK s t := by
  unfold OpSUB16 at h
  split at h
  · exact absurd h (by simp)
  · rename_i v s1 hop
    have hf := ReadOperandValue16_step _ _ _ _ hop
    split at h
    · exact absurd h (by simp)
    · simp only [Option.some.injEq] at h
      rw [← h]
      exact StepOK_set16 (StepOK_setCC hf)

theorem OpCMP16_step (rf : Bool) (mode : AddressingMode) (r : Reg16) (s t : CpuImpl M)
    (h : OpCMP16 rf mode r s = some t) : StepOK s t := by
  unfold OpCMP16 at h
  split at h
  · exact absurd h (by simp)
  · rename_i v s1 hop
    have hf := ReadOperandValue16_step _ _ _ _ hop
    split at h
    · exact absurd h (by simp)
    · simp only [Option.some.injEq] at h
      rw [← h]
      exact StepOK_setCC hf

theorem OpCLR8_step (r : Reg8) (s t : CpuImpl M) (h : OpCLR8 r s = some t) : StepOK s t := by
  unfold OpCLR8 at h
  simp only [Option.some.injEq] at h
  rw [← h]
  exact StepOK_setCC (StepOK_set8 (StepOK_refl s))

theorem onReg8_step (f : Nat → ConditionCode → Nat × ConditionCode) (r : Reg8)
    (s t : CpuImpl M) (h : onReg8 f r s = some t) : StepOK s t := by
  unfold onReg8 at h
  simp only [Option.some.injEq] at h
  rw [← h]
  exact StepOK_set8 (StepOK_setCC (StepOK_refl s))

theorem OpINC8_step (r : Reg8) (s t : CpuImpl M) (h : OpINC8 r s = some t) : StepOK s t := by
  unfold OpINC8 at h
  simp only [Option.some.injEq] at h
  rw [← h]
  exact StepOK_setCC (StepOK_setCC (StepOK_setCC (StepOK_set8 (StepOK_refl s))))

theorem OpDEC8_step (r : Reg8) (s t : CpuImpl M) (h : OpDEC8 r s = some t) : StepOK s t := by
  unfold OpDEC8 at h
  simp only [Option.some.injEq] at h
  rw [← h]
  exact StepOK_setCC (StepOK_setCC (StepOK_setCC (StepOK_set8 (StepOK_refl s))))

theorem OpTST8_step (r : Reg8) (s t : CpuImpl M) (h : OpTST8 r s = some t) : StepOK s t := by
  unfold OpTST8 at h
  simp only [Option.some.injEq] at h
  rw [← h]
  exact StepOK_setCC (StepOK_refl s)

theorem OpPSH_step (mode : AddressingMode) (r : Reg16) (s t : CpuImpl M)
    (h : OpPSH mode r s = some t) : StepOK s t := by
  unfold OpPSH at h
  split at h
  · split at h
    · exact absurd h (by simp)
    · rename_i v s1 hop
      have hf := ReadOperandValue8_step _ _ _ _ hop
      simp only [Option.some.injEq] at h
      rw [← h]
      have h7 := StepOK_ite (c := v &&& BITS 7 ≠ 0) (StepOK_pushReg16 (q := .PC) (r := r) hf) hf
      have h6 := StepOK_ite (c := v &&& BITS 6 ≠ 0)
        (StepOK_pushReg16 (q := if r = .S then .U else .S) (r := r) h7) h7
      have h5 := StepOK_ite (c := v &&& BITS 5 ≠ 0) (StepOK_pushReg16 (q := .Y) (r := r) h6) h6
      have h4 := StepOK_ite (c := v &&& BITS 4 ≠ 0) (StepOK_pushReg16 (q := .X) (r := r) h5) h5
      have h3 := StepOK_ite (c := v &&& BITS 3 ≠ 0) (StepOK_pushReg8 (q := .DP) (r := r) h4) h4
      have h2 := StepOK_ite (c := v &&& BITS 2 ≠ 0) (StepOK_pushReg8 (q := .B) (r := r) h3) h3
      have h1 := StepOK_ite (c := v &&& BITS 1 ≠ 0) (StepOK_pushReg8 (q := .A) (r := r) h2) h2
      have h0 := StepOK_ite (c := v &&& BITS 0 ≠ 0)
        (StepOK_pushReg8 (q := .CCValue) (r := r) h1) h1
      exact StepOK_addCycles h0
  · exact absurd h (by simp)

theorem OpPUL_step (mode : AddressingMode) (r : Reg16) (s t : CpuImpl M)
    (h : OpPUL mode r s = some t) : StepOK s t := by
  unfold OpPUL at h
  split at h
  · split at h
    · exact absurd h (by simp)
    · rename_i v s1 hop
      have hf := ReadOperandValue8_step _ _ _ _ hop
      simp only [Option.some.injEq] at h
      rw [← h]
      have h0 := StepOK_ite (c := v &&& BITS 0 ≠ 0)
        (StepOK_pull8 (t := .CCValue) (r := r) hf) hf
      have h1 := StepOK_ite (c := v &&& BITS 1 ≠ 0) (StepOK_pull8 (t := .A) (r := r) h0) h0
      have h2 := StepOK_ite (c := v &&& BITS 2 ≠ 0) (StepOK_pull8 (t := .B) (r := r) h1) h1
      have h3 := StepOK_ite (c := v &&& BITS 3 ≠ 0) (StepOK_pull8 (t := .DP) (r := r) h2) h2
      have h4 := StepOK_ite (c := v &&& BITS 4 ≠ 0) (StepOK_pull16 (t := .X) (r := r) h3) h3
      have h5 := StepOK_ite (c := v &&& BITS 5 ≠ 0) (StepOK_pull16 (t := .Y) (r := r) h4) h4
      have h6 := StepOK_ite (c := v &&& BITS 6 ≠ 0)
        (StepOK_pull16 (t := if r = .S then .U else .S) (r := r) h5) h5
      have h7 := StepOK_ite (c := v &&& BITS 7 ≠ 0) (StepOK_pull16 (t := .PC) (r := r) h6) h6
      exact StepOK_addCycles h7
  · exact absurd h (by simp)

theorem OpBranch_step (f : ConditionCode → Bool) (s t : CpuImpl M)
    (h : OpBranch f s = some t) : StepOK s t := by
  unfold OpBranch ReadRelativeOffset8 at h
  simp only at h
  have hf : StepOK s (ReadPC8 s).2 := StepOK_ReadPC8 (StepOK_refl s)
  split at h <;> simp only [Option.some.injEq] at h <;> rw [← h]
  · exact StepOK_addCycles (StepOK_set16 hf)
  · exact hf

theorem OpBSR_step (s t : CpuImpl M) (h : OpBSR s = some t) : StepOK s t := by
  unfold OpBSR ReadRelativeOffset8 at h
  simp only [Option.some.injEq] at h
  rw [← h]
  exact StepOK_set16 (StepOK_Push16 (StepOK_ReadPC8 (StepOK_refl s)))

theorem OpLBSR_step (s t : CpuImpl M) (h : OpLBSR s = some t) : StepOK s t := by
  unfold OpLBSR ReadRelativeOffset16 at h
  simp only [Option.some.injEq] at h
  rw [← h]
  exact StepOK_set16 (StepOK_Push16 (StepOK_ReadPC16 (StepOK_refl s)))

theorem OpRTS_step (s t : CpuImpl M) (h : OpRTS s = some t) : StepOK s t := by
  unfold OpRTS at h
  simp only [Option.some.injEq] at h
  rw [← h]
  exact StepOK_pull16 (StepOK_refl s)

theorem ExchangeOrTransferRegs_step (exchange : Bool) (p : Nat) (s t : CpuImpl M)
    (h : ExchangeOrTransferRegs exchange p s = some t) : StepOK s t := by
  unfold ExchangeOrTransferRegs at h
  split at h
  · exact absurd h (by simp)
  · simp only at h
    split at h
    · split at h
      · split at h <;> simp only [Option.some.injEq] at h <;> rw [← h]
        · exact StepOK_set8 (StepOK_set8 (StepOK_refl s))
        · exact StepOK_set8 (StepOK_refl s)
      · exact absurd h (by simp)
    · split at h
      · split at h <;> simp only [Option.some.injEq] at h <;> rw [← h]
        · exact StepOK_set16 (StepOK_set16 (StepOK_refl s))
        · exact StepOK_set16 (StepOK_refl s)
      · exact absurd h (by simp)

theorem ExchangeOrTransfer_step (exchange : Bool) (s t : CpuImpl M)
    (h : ExchangeOrTransfer exchange s = some t) : StepOK s t := by
  unfold ExchangeOrTransfer at h
  exact StepOK_trans (StepOK_ReadPC8 (StepOK_refl s)) (ExchangeOrTransferRegs_step _ _ _ _ h)

theorem Handler_run_step (hd : Handler) (mode : AddressingMode) (s t : CpuImpl M)
    (h : hd.run mode s = some t) : StepOK s t := by
  cases hd <;> simp only [Handler.run] at h
  case NOP => simp only [Option.some.injEq] at h; rw [← h]; exact StepOK_refl s
  case JSR => exact OpJSR_step _ _ _ h
  case BSR => exact OpBSR_step _ _ h
  case LBSR => exact OpLBSR_step _ _ h
  case EXG => exact ExchangeOrTransfer_step _ _ _ h
  case TFR => exact ExchangeOrTransfer_step _ _ _ h
  case RTS => exact OpRTS_step _ _ h
  case JMP => exact OpJMP_step _ _ _ h
  case LD8 => exact OpLD8_step _ _ _ _ h
  case LD16 => exact OpLD16_step _ _ _ _ h
  case ST8 => exact OpST8_step _ _ _ _ h
  case ST16 => exact OpST16_step _ _ _ _ h
  case LEA => exact OpLEA_step _ _ _ _ h
  case Branch => exact OpBranch_step _ _ _ h
  case CLR8 => exact OpCLR8_step _ _ _ h
  case CLRm => exact OpCLRm_step _ _ _ h
  case ADD8 => exact OpADD8_step _ _ _ _ h
  case ADD16 => exact OpADD16_step _ _ _ _ h
  case SUB8 => exact OpSUB8_step _ _ _ _ h
  case SUB16 => exact OpSUB16_step _ _ _ _ _ h
  case ADC => exact OpADC_step _ _ _ _ h
  case NEG8 => exact onReg8_step _ _ _ _ h
  case NEGm => exact onMem8_step _ _ _ _ h
  case INC8 => exact OpINC8_step _ _ _ h
  case INCm => exact OpINCm_step _ _ _ h
  case DEC8 => exact OpDEC8_step _ _ _ h
  case DECm => exact OpDECm_step _ _ _ h
  case ASR8 => exact onReg8_step _ _ _ _ h
  case ASRm => exact onMem8_step _ _ _ _ h
  case ASL8 => exact onReg8_step _ _ _ _ h
  case ASLm => exact onMem8_step _ _ _ _ h
  case LSR8 => exact onReg8_step _ _ _ _ h
  case LSRm => exact onMem8_step _ _ _ _ h
  case COM8 => exact onReg8_step _ _ _ _ h
  case COMm => exact onMem8_step _ _ _ _ h
  case PSH => exact OpPSH_step _ _ _ _ h
  case PUL => exact OpPUL_step _ _ _ _ h
  case TST8 => exact OpTST8_step _ _ _ h
  case TSTm => exact OpTSTm_step _ _ _ h
  case OR => exact OpOR_step _ _ _ _ h
  case AND => exact OpAND_step _ _ _ _ h
  case CMP8 => exact OpCMP8_step _ _ _ _ h
  case CMP16 => exact OpCMP16_step _ _ _ _ _ h
  case BIT => exact OpBIT_step _ _ _ _ h

theorem FetchOpCode_step (s : CpuImpl M) : StepOK s (FetchOpCode s).2.2 := by
  unfold FetchOpCode
  simp only
  split
  · exact StepOK_ReadPC8 (StepOK_ReadPC8 (StepOK_refl s))
  · split
    · exact StepOK_ReadPC8 (StepOK_ReadPC8 (StepOK_refl s))
    · exact StepOK_ReadPC8 (StepOK_refl s)

theorem ExecuteInstruction_step (tbl : Nat → Nat → CpuOp) (s t : CpuImpl M) (c : Nat)
    (h : ExecuteInstruction tbl s = some (c, t)) :
    (s.toCpuRegisters.WF → t.toCpuRegisters.WF) ∧ c = t.m_cycles ∧
      (tbl (FetchOpCode s).1 (FetchOpCode s).2.1).cycles ≤ c ∧
      0 < (tbl (FetchOpCode s).1 (FetchOpCode s).2.1).cycles := by
  unfold ExecuteInstruction at h
  simp only at h
  have hfs : (FetchOpCode ({ s with m_cycles := 0 } : CpuImpl M)).1 = (FetchOpCode s).1 ∧
      (FetchOpCode ({ s with m_cycles := 0 } : CpuImpl M)).2.1 = (FetchOpCode s).2.1 := by
    unfold FetchOpCode ReadPC8
    simp only [Read8]
    split <;> [skip; split] <;> exact ⟨rfl, rfl⟩
  have hcyc0 : (FetchOpCode ({ s with m_cycles := 0 } : CpuImpl M)).2.2.m_cycles = 0 := by
    unfold FetchOpCode ReadPC8
    simp only
    split <;> [skip; split] <;> simp [CpuImpl.set16]
  have hstep := FetchOpCode_step ({ s with m_cycles := 0 } : CpuImpl M)
  rw [hfs.1, hfs.2] at h
  split at h
  · exact absurd h (by simp)
  · rename_i hne
    split at h
    · exact absurd h (by simp)
    · split at h
      · exact absurd h (by simp)
      · split at h
        · exact absurd h (by simp)
        · rename_i hd hdisp t' hrun
          simp only [Option.some.injEq, Prod.mk.injEq] at h
          obtain ⟨hc, ht⟩ := h
          subst ht
          have hr := Handler_run_step _ _ _ _ hrun
          refine ⟨fun hwf => hr.1 (hstep.1 hwf), hc.symm, ?_, Nat.pos_of_ne_zero hne⟩
          have h2 := hr.2
          simp only [CpuImpl.addCycles, hcyc0] at h2
          omega

theorem ExecuteInstruction_page0 (tbl : Nat → Nat → CpuOp) (s : CpuImpl M) (op : Nat)
    (h : Handler) (hfetch : Read8 s s.PC = op) (h10 : op ≠ 0x10) (h11 : op ≠ 0x11)
    (hentry : (tbl 0 op).opCode = op) (hcyc : 0 < (tbl 0 op).cycles)
    (hmode : (tbl 0 op).addrMode ≠ .Illegal ∧ (tbl 0 op).addrMode ≠ .Variant)
    (hd : dispatchPage0 op = some h) :
    ExecuteInstruction tbl s =
      (h.run (tbl 0 op).addrMode (afterFetch s (tbl 0 op).cycles)).map
        (fun t => (t.m_cycles, t)) := by
  have hfetch' : Read8 ({ s with m_cycles := 0 } : CpuImpl M) s.PC = op := hfetch
  have hc : (tbl 0 op).cycles ≠ 0 := by omega
  have hF : FetchOpCode ({ s with m_cycles := 0 } : CpuImpl M) =
      (0, op, (ReadPC8 ({ s with m_cycles := 0 } : CpuImpl M)).2) := by
    simp only [FetchOpCode, ReadPC8, hfetch', IsOpCodePage1, IsOpCodePage2, beq_iff_eq, h10,
      h11, if_false]
  simp only [ExecuteInstruction, hF, hentry, hc, dispatch, hd, hmode.1, hmode.2, or_self,
    if_false]
  show (match h.run (tbl 0 op).addrMode (afterFetch s (tbl 0 op).cycles) with
    | none => none
    | some s => some (s.m_cycles, s)) = _
  cases h.run (tbl 0 op).addrMode (afterFetch s (tbl 0 op).cycles) <;> rfl

/-! ## Register exchange and transfer -/

theorem valid_postbyte_decodes : ∀ p, p < 256 → specValidTransferPostbyte p = true →
    (decide (p &&& BITS 3 ≠ 0) = decide (p &&& BITS 7 ≠ 0)) ∧
    (if p &&& BITS 3 ≠ 0 then
      (exgReg8 ((p >>> 4) &&& 0b111)).isSome = true ∧ (exgReg8 (p &&& 0b111)).isSome = true
     else
      (exgReg16 ((p >>> 4) &&& 0b111)).isSome = true ∧
        (exgReg16 (p &&& 0b111)).isSome = true) := by
  decide!

theorem swap8_twice (rs rd : Reg8) (s : CpuImpl M) (hwf : s.toCpuRegisters.WF) :
    (((s.set8 rd (s.get8 rs)).set8 rs (s.get8 rd)).set8 rd
        (((s.set8 rd (s.get8 rs)).set8 rs (s.get8 rd)).get8 rs)).set8 rs
        (((s.set8 rd (s.get8 rs)).set8 rs (s.get8 rd)).get8 rd) = s := by
  obtain ⟨-, -, -, -, -, hDP, hA, hB⟩ := hwf
  have eA : U8 s.A = s.A := Nat.mod_eq_of_lt hA
  have eB : U8 s.B = s.B := Nat.mod_eq_of_lt hB
  have eD : U8 s.DP = s.DP := Nat.mod_eq_of_lt hDP
  have vA := Value_ofValue s.A hA
  have vB := Value_ofValue s.B hB
  have vD := Value_ofValue s.DP hDP
  have oV : ConditionCode.ofValue s.CC.Value = s.CC := by
    have h := ofValue_Value s.CC
    rwa [U8_U8_Value] at h
  cases rs <;> cases rd <;>
    simp [CpuImpl.get8, CpuImpl.set8, eA, eB, eD, vA, vB, vD, U8_U8_Value, oV]

theorem swap16_twice (rs rd : Reg16) (s : CpuImpl M) (hwf : s.toCpuRegisters.WF) :
    (((s.set16 rd (s.get16 rs)).set16 rs (s.get16 rd)).set16 rd
        (((s.set16 rd (s.get16 rs)).set16 rs (s.get16 rd)).get16 rs)).set16 rs
        (((s.set16 rd (s.get16 rs)).set16 rs (s.get16 rd)).get16 rd) = s := by
  obtain ⟨hX, hY, hU, hS, hPC, -, hA, hB⟩ := hwf
  have eX : U16 s.X = s.X := Nat.mod_eq_of_lt hX
  have eY : U16 s.Y = s.Y := Nat.mod_eq_of_lt hY
  have eU : U16 s.U = s.U := Nat.mod_eq_of_lt hU
  have eS : U16 s.S = s.S := Nat.mod_eq_of_lt hS
  have eP : U16 s.PC = s.PC := Nat.mod_eq_of_lt hPC
  have eA : U8 s.A = s.A := Nat.mod_eq_of_lt hA
  have eB : U8 s.B = s.B := Nat.mod_eq_of_lt hB
  cases rs <;> cases rd <;>
    simp [CpuImpl.get16, CpuImpl.set16, CpuRegisters.D, U16_U16, U16_CombineToU16,
      CombineToU16_high, CombineToU16_low, CombineToU16_split, eX, eY, eU, eS, eP, eA, eB]

theorem set8_get8_self (r : Reg8) (s : CpuImpl M) (hwf : s.toCpuRegisters.WF) :
    s.set8 r (s.get8 r) = s := by
  obtain ⟨-, -, -, -, -, hDP, hA, hB⟩ := hwf
  have eA : U8 s.A = s.A := Nat.mod_eq_of_lt hA
  have eB : U8 s.B = s.B := Nat.mod_eq_of_lt hB
  have eD : U8 s.DP = s.DP := Nat.mod_eq_of_lt hDP
  cases r <;> simp [CpuImpl.get8, CpuImpl.set8, eA, eB, eD, ofValue_Value]

theorem set16_get16_self (r : Reg16) (s : CpuImpl M) (hwf : s.toCpuRegisters.WF) :
    s.set16 r (s.get16 r) = s := by
  obtain ⟨hX, hY, hU, hS, hPC, -, hA, hB⟩ := hwf
  have eX : U16 s.X = s.X := Nat.mod_eq_of_lt hX
  have eY : U16 s.Y = s.Y := Nat.mod_eq_of_lt hY
  have eU : U16 s.U = s.U := Nat.mod_eq_of_lt hU
  have eS : U16 s.S = s.S := Nat.mod_eq_of_lt hS
  have eP : U16 s.PC = s.PC := Nat.mod_eq_of_lt hPC
  have eA : U8 s.A = s.A := Nat.mod_eq_of_lt hA
  have eB : U8 s.B = s.B := Nat.mod_eq_of_lt hB
  cases r <;>
    simp [CpuImpl.get16, CpuImpl.set16, CpuRegisters.D, U16_CombineToU16,
      CombineToU16_high, CombineToU16_low, eX, eY, eU, eS, eP, eA, eB]

theorem ExchangeOrTransferRegs_valid (exchange : Bool) (p : Nat) (hp : p < 256)
    (hv : specValidTransferPostbyte p = true) :
    (∃ rs rd : Reg8, exgReg8 ((p >>> 4) &&& 0b111) = some rs ∧
        exgReg8 (p &&& 0b111) = some rd ∧ ∀ x : CpuImpl M,
        ExchangeOrTransferRegs exchange p x =
          some (if exchange then (x.set8 rd (x.get8 rs)).set8 rs (x.get8 rd)
            else x.set8 rd (x.get8 rs))) ∨
    (∃ rs rd : Reg16, exgReg16 ((p >>> 4) &&& 0b111) = some rs ∧
        exgReg16 (p &&& 0b111) = some rd ∧ ∀ x : CpuImpl M,
        ExchangeOrTransferRegs exchange p x =
          some (if exchange then (x.set16 rd (x.get16 rs)).set16 rs (x.get16 rd)
            else x.set16 rd (x.get16 rs))) := by
  obtain ⟨h1, h2⟩ := valid_postbyte_decodes p hp hv
  by_cases hb : p &&& BITS 3 ≠ 0
  · rw [if_pos hb] at h2
    obtain ⟨rs, hrs⟩ := Option.isSome_iff_exists.1 h2.1
    obtain ⟨rd, hrd⟩ := Option.isSome_iff_exists.1 h2.2
    refine Or.inl ⟨rs, rd, hrs, hrd, fun x => ?_⟩
    unfold ExchangeOrTransferRegs
    simp only [h1, ne_eq, not_true_eq_false, if_false, hrs, hrd]
    rw [if_pos hb]
    cases exchange <;> simp
  · rw [if_neg hb] at h2
    obtain ⟨rs, hrs⟩ := Option.isSome_iff_exists.1 h2.1
    obtain ⟨rd, hrd⟩ := Option.isSome_iff_exists.1 h2.2
    refine Or.inr ⟨rs, rd, hrs, hrd, fun x => ?_⟩
    unfold ExchangeOrTransferRegs
    simp only [h1, ne_eq, not_true_eq_false, if_false, hrs, hrd]
    rw [if_neg hb]
    cases exchange <;> simp

/-! ## Stack discipline -/

theorem InStack_mono {sp n a : Nat} (k : Nat) (h : InStack sp n a) : InStack sp (n + k) a := by
  unfold InStack at h ⊢
  omega

theorem InStack_top {sp t : Nat} (n : Nat) (ht : t < 65536) (hb : (t + 1) % 65536 = sp) :
    InStack sp (n + 1) t := by
  unfold InStack
  omega

theorem InStack_shift {sp t n a : Nat} (hb : (t + 1) % 65536 = sp)
    (ha : a < 65536) (h : InStack t n a) : InStack sp (n + 1) a := by
  unfold InStack at h ⊢
  omega

theorem InStack_out {sp t n a : Nat} (hb : (t + 1) % 65536 = sp)
    (ha : a < 65536) (h : ¬ InStack sp (n + 1) a) : a ≠ t ∧ ¬ InStack t n a := by
  unfold InStack at h ⊢
  omega

theorem InStack_self {t n : Nat} (hn : n < 65536) : ¬ InStack t n t := by
  unfold InStack
  omega

theorem StackOK_mono {keep : Nat → Prop} {sp n k : Nat} (h : StackOK M keep sp (n + k)) :
    StackOK M keep sp n := by
  intro a ha hin
  exact h a ha (InStack_mono k hin)

theorem StackOK_shift {keep : Nat → Prop} {sp t n : Nat}
    (hb : (t + 1) % 65536 = sp) (h : StackOK M keep sp (n + 1)) : StackOK M keep t n := by
  intro a ha hin
  exact h a ha (InStack_shift hb ha hin)

theorem Restores_mono {keep : Nat → Prop} {n : Nat} (k : Nat) {f : CpuImpl M → CpuImpl M}
    (h : Restores keep n f) : Restores keep (n + k) f := by
  intro x hwf hst
  obtain ⟨h1, h2⟩ := h x hwf (StackOK_mono hst)
  exact ⟨h1, fun a ha hk hn => h2 a ha hk (fun hin => hn (InStack_mono k hin))⟩

theorem pushReg8_S (x : CpuImpl M) (r : Reg8) :
    pushReg8 .S r x =
      { x with S := U16 (dec16 x.S),
               m_memoryBus := MemoryBus.Write x.m_memoryBus (U16 (U16 (dec16 x.S)))
                 (U8 (x.get8 r)) } := rfl

theorem pushReg16_S (x : CpuImpl M) (r : Reg16) :
    pushReg16 .S r x =
      { x with S := U16 (dec16 (U16 (dec16 x.S))),
               m_memoryBus := MemoryBus.Write
                 (MemoryBus.Write x.m_memoryBus (U16 (U16 (dec16 x.S)))
                   (U8 (U8 (x.get16 r &&& 0xFF))))
                 (U16 (U16 (dec16 (U16 (dec16 x.S)))))
                 (U8 (U8 (x.get16 r >>> 8))) } := rfl

theorem pull8_S (y : CpuImpl M) (r : Reg8) :
    pull8 .S r y =
      (({ y with S := U16 (y.S + 1) } : CpuImpl M).set8 r
        (U8 (MemoryBus.Read y.m_memoryBus (U16 y.S)))) := rfl

theorem pull16_S (y : CpuImpl M) (r : Reg16) :
    pull16 .S r y =
      (({ y with S := U16 (U16 (y.S + 1) + 1) } : CpuImpl M).set16 r
        (CombineToU16 (U8 (MemoryBus.Read y.m_memoryBus (U16 y.S)))
          (U8 (MemoryBus.Read y.m_memoryBus (U16 (U16 (y.S + 1))))))) := by
  cases r <;> rfl

theorem set8_restores (x y : CpuImpl M) (r : Reg8) (hwf : x.toCpuRegisters.WF)
    (heq : y.X = x.X ∧ y.Y = x.Y ∧ y.U = x.U ∧ y.DP = x.DP ∧ y.A = x.A ∧ y.B = x.B ∧
      y.CC = x.CC) :
    EqExceptPC x (({ y with S := x.S } : CpuImpl M).set8 r (U8 (U8 (x.get8 r)))) := by
  obtain ⟨hX, hY, hU, hS, hPC, hDP, hA, hB⟩ := hwf
  obtain ⟨eX, eY, eU, eDP, eA, eB, eCC⟩ := heq
  have oV : ConditionCode.ofValue x.CC.Value = x.CC := by
    have h := ofValue_Value x.CC
    rwa [U8_U8_Value] at h
  cases r <;>
    simp [EqExceptPC, CpuImpl.set8, CpuImpl.get8, U8, eX, eY, eU, eDP, eA, eB, eCC,
      Nat.mod_eq_of_lt hA, Nat.mod_eq_of_lt hB, Nat.mod_eq_of_lt hDP,
      Nat.mod_eq_of_lt (Value_lt x.CC), oV]

theorem set16_restores (x y : CpuImpl M) (r : Reg16)
    (hr : r = .X ∨ r = .Y ∨ r = .U ∨ r = .PC) (hwf : x.toCpuRegisters.WF)
    (heq : y.X = x.X ∧ y.Y = x.Y ∧ y.U = x.U ∧ y.DP = x.DP ∧ y.A = x.A ∧ y.B = x.B ∧
      y.CC = x.CC) :
    EqExceptPC x (({ y with S := x.S } : CpuImpl M).set16 r (U16 (x.get16 r))) := by
  obtain ⟨hX, hY, hU, hS, hPC, hDP, hA, hB⟩ := hwf
  obtain ⟨eX, eY, eU, eDP, eA, eB, eCC⟩ := heq
  rcases hr with hr | hr | hr | hr <;> subst hr <;>
    simp [EqExceptPC, CpuImpl.set16, CpuImpl.get16, U16, eX, eY, eU, eDP, eA, eB, eCC,
      Nat.mod_eq_of_lt hX, Nat.mod_eq_of_lt hY, Nat.mod_eq_of_lt hU]

theorem Restores_pull8 {keep : Nat → Prop} {n : Nat} {f : CpuImpl M → CpuImpl M} (r : Reg8)
    (hn : n < 65536) (h : Restores keep n f) :
    Restores keep (n + 1) (fun x => pull8 .S r (f (pushReg8 .S r x))) := by
  intro x hwf hst
  beta_reduce
  have hS : x.S < 65536 := hwf.2.2.2.1
  obtain ⟨hlt, hback'⟩ := dec16_spec x.S
  have hback := hback' hS
  rw [pushReg8_S, pull8_S]
  generalize U16 (dec16 x.S) = t at hlt hback ⊢
  have hU16 : U16 t = t := Nat.mod_eq_of_lt hlt
  rw [hU16]
  obtain ⟨hkeep, hram⟩ := hst t hlt (InStack_top n hlt hback)
  obtain ⟨heq, hag⟩ := h
    { x with S := t, m_memoryBus := MemoryBus.Write x.m_memoryBus t (U8 (x.get8 r)) }
    ⟨hwf.1, hwf.2.1, hwf.2.2.1, hlt, hwf.2.2.2.2⟩ (StackOK_shift hback hst)
  generalize f { x with S := t,
                        m_memoryBus := MemoryBus.Write x.m_memoryBus t (U8 (x.get8 r)) } = y
    at heq hag ⊢
  obtain ⟨eX, eY, eU, eS, eDP, eA, eB, eCC⟩ := heq
  simp only at eX eY eU eS eDP eA eB eCC hag
  have hread : MemoryBus.Read y.m_memoryBus t = U8 (x.get8 r) :=
    (hag t hlt hkeep (InStack_self hn)).trans (hram _ _ (U8_lt _)).1
  have hSb : U16 (t + 1) = x.S := hback
  rw [eS, hU16, hread, hSb]
  refine ⟨set8_restores x y r hwf ⟨eX, eY, eU, eDP, eA, eB, eCC⟩, fun a ha hk hnin => ?_⟩
  obtain ⟨hne, hnot⟩ := InStack_out hback ha hnin
  have hbus : (({ y with S := x.S } : CpuImpl M).set8 r (U8 (U8 (x.get8 r)))).m_memoryBus =
      y.m_memoryBus := by
    cases r <;> rfl
  exact (congrArg (fun b => MemoryBus.Read b a) hbus).trans
    ((hag a ha hk hnot).trans ((hram _ _ (U8_lt _)).2 a ha hk hne))

theorem Restores_pull16 {keep : Nat → Prop} {n : Nat} {f : CpuImpl M → CpuImpl M} (r : Reg16)
    (hr : r = .X ∨ r = .Y ∨ r = .U ∨ r = .PC) (hn : n < 65535) (h : Restores keep n f) :
    Restores keep (n + 2) (fun x => pull16 .S r (f (pushReg16 .S r x))) := by
  intro x hwf hst
  beta_reduce
  have hS : x.S < 65536 := hwf.2.2.2.1
  obtain ⟨hlt1, hback1'⟩ := dec16_spec x.S
  have hback1 := hback1' hS
  rw [pushReg16_S, pull16_S]
  generalize U16 (dec16 x.S) = t1 at hlt1 hback1 ⊢
  obtain ⟨hlt2, hback2'⟩ := dec16_spec t1
  have hback2 := hback2' hlt1
  generalize U16 (dec16 t1) = t2 at hlt2 hback2 ⊢
  have hU1 : U16 t1 = t1 := Nat.mod_eq_of_lt hlt1
  have hU2 : U16 t2 = t2 := Nat.mod_eq_of_lt hlt2
  have hU3 : U16 (t2 + 1) = t1 := hback2
  have hU4 : U16 (t1 + 1) = x.S := hback1
  rw [hU1, hU2]
  have hst1 : StackOK M keep t1 (n + 1) := StackOK_shift hback1 hst
  have htop1 : InStack x.S (n + 1 + 1) t1 := InStack_top (n + 1) hlt1 hback1
  have htop2 : InStack x.S (n + 1 + 1) t2 :=
    InStack_shift hback1 hlt2 (InStack_top n hlt2 hback2)
  obtain ⟨hkeep1, hram1⟩ := hst t1 hlt1 htop1
  obtain ⟨hkeep2, hram2⟩ := hst t2 hlt2 htop2
  have hne12 : t1 ≠ t2 := by
    intro he
    have h1 : InStack t1 (n + 1) t2 := InStack_top n hlt2 hback2
    rw [he] at h1
    exact InStack_self (by omega) h1
  obtain ⟨heq, hag⟩ := h
    { x with S := t2,
             m_memoryBus := MemoryBus.Write
               (MemoryBus.Write x.m_memoryBus t1 (U8 (U8 (x.get16 r &&& 0xFF)))) t2
               (U8 (U8 (x.get16 r >>> 8))) }
    ⟨hwf.1, hwf.2.1, hwf.2.2.1, hlt2, hwf.2.2.2.2⟩ (StackOK_shift hback2 hst1)
  generalize f { x with S := t2,
                        m_memoryBus := MemoryBus.Write
                          (MemoryBus.Write x.m_memoryBus t1 (U8 (U8 (x.get16 r &&& 0xFF)))) t2
                          (U8 (U8 (x.get16 r >>> 8))) } = y
    at heq hag ⊢
  obtain ⟨eX, eY, eU, eS, eDP, eA, eB, eCC⟩ := heq
  simp only at eX eY eU eS eDP eA eB eCC hag
  have hreadHi : MemoryBus.Read y.m_memoryBus t2 = U8 (U8 (x.get16 r >>> 8)) :=
    (hag t2 hlt2 hkeep2 (InStack_self (by omega))).trans (hram2 _ _ (U8_lt _)).1
  have hnot1 : ¬ InStack t2 n t1 := by
    intro hin
    exact InStack_self (t := t1) (n := n + 1) (by omega) (InStack_shift hback2 hlt1 hin)
  have hreadLo : MemoryBus.Read y.m_memoryBus t1 = U8 (U8 (x.get16 r &&& 0xFF)) :=
    (hag t1 hlt1 hkeep1 hnot1).trans
      (((hram2 _ _ (U8_lt _)).2 t1 hlt1 hkeep1 hne12).trans (hram1 _ _ (U8_lt _)).1)
  have hval : CombineToU16 (U8 (U8 (U8 (x.get16 r >>> 8))))
      (U8 (U8 (U8 (x.get16 r &&& 0xFF)))) = U16 (x.get16 r) := by
    rw [U8_U8, U8_U8, U8_U8, U8_U8, and_FF, ← CombineToU16_split]
    simp only [U8, Nat.mod_mod]
  rw [eS, hU2, hU3, hU1, hU4, hreadHi, hreadLo, hval]
  refine ⟨set16_restores x y r hr hwf ⟨eX, eY, eU, eDP, eA, eB, eCC⟩, fun a ha hk hnin => ?_⟩
  obtain ⟨hne1, hnot1'⟩ := InStack_out hback1 ha hnin
  obtain ⟨hne2, hnot2⟩ := InStack_out hback2 ha hnot1'
  have hbus : (({ y with S := x.S } : CpuImpl M).set16 r (U16 (x.get16 r))).m_memoryBus =
      y.m_memoryBus := by
    cases r <;> rfl
  exact (congrArg (fun b => MemoryBus.Read b a) hbus).trans
    ((hag a ha hk hnot2).trans
      (((hram2 _ _ (U8_lt _)).2 a ha hk hne2).trans ((hram1 _ _ (U8_lt _)).2 a ha hk hne1)))

theorem Restores_step8 {keep : Nat → Prop} {n : Nat} {f : CpuImpl M → CpuImpl M}
    (c : Prop) [Decidable c] (r : Reg8) (hn : n < 65536) (h : Restores keep n f) :
    Restores keep (n + 1) (fun x =>
      if c then pull8 .S r (f (if c then pushReg8 .S r x else x))
      else f (if c then pushReg8 .S r x else x)) := by
  by_cases hc : c
  · simp only [hc, if_true]
    exact Restores_pull8 r hn h
  · simp only [hc, if_false]
    exact Restores_mono 1 h

theorem Restores_step16 {keep : Nat → Prop} {n : Nat} {f : CpuImpl M → CpuImpl M}
    (c : Prop) [Decidable c] (r : Reg16) (hr : r = .X ∨ r = .Y ∨ r = .U ∨ r = .PC)
    (hn : n < 65535) (h : Restores keep n f) :
    Restores keep (n + 2) (fun x =>
      if c then pull16 .S r (f (if c then pushReg16 .S r x else x))
      else f (if c then pushReg16 .S r x else x)) := by
  by_cases hc : c
  · simp only [hc, if_true]
    exact Restores_pull16 r hr hn h
  · simp only [hc, if_false]
    exact Restores_mono 2 h

theorem OpPSH_S_immediate (x : CpuImpl M) :
    OpPSH .Immediate .S x =
      some ((pushAll .S (Read8 x x.PC) (ReadPC8 x).2).addCycles (NumBitsSet (Read8 x x.PC))) := by
  simp only [OpPSH, ReadOperandValue8, pushAll, ReadPC8]
  rfl

theorem OpPUL_S_immediate (x : CpuImpl M) :
    OpPUL .Immediate .S x =
      some ((pullAll .S (Read8 x x.PC) (ReadPC8 x).2).addCycles (NumBitsSet (Read8 x x.PC))) := by
  simp only [OpPUL, ReadOperandValue8, pullAll, ReadPC8]
  rfl

theorem PushInv_mono {keep : Nat → Prop} {sp l : Nat} {x y : CpuImpl M} (k : Nat)
    (h : PushInv keep sp x (l + k) y) : PushInv keep sp x l y :=
  ⟨h.1, h.2.1, fun a ha hin => h.2.2.1 a ha (InStack_mono k hin), h.2.2.2⟩

theorem PushInv_push8 {keep : Nat → Prop} {sp l : Nat} {x y : CpuImpl M} (r : Reg8)
    (hst : StackOK M keep sp 12) (h : PushInv keep sp x (l + 1) y) :
    PushInv keep sp x l (pushReg8 .S r y) := by
  obtain ⟨hPC, hS, hwin, hag⟩ := h
  obtain ⟨hlt, hback'⟩ := dec16_spec y.S
  have hback := hback' hS
  rw [pushReg8_S]
  generalize U16 (dec16 y.S) = t at hlt hback ⊢
  have hU16 : U16 t = t := Nat.mod_eq_of_lt hlt
  rw [hU16]
  have htin : InStack sp 12 t := hwin t hlt (InStack_top l hlt hback)
  obtain ⟨-, hram⟩ := hst t hlt htin
  refine ⟨hPC, hlt, fun a ha hin => hwin a ha (InStack_shift hback ha hin),
    fun a ha hk hnin => ?_⟩
  have hne : a ≠ t := fun he => hnin (he ▸ htin)
  exact ((hram _ _ (U8_lt _)).2 a ha hk hne).trans (hag a ha hk hnin)

theorem PushInv_push16 {keep : Nat → Prop} {sp l : Nat} {x y : CpuImpl M} (r : Reg16)
    (hst : StackOK M keep sp 12) (h : PushInv keep sp x (l + 2) y) :
    PushInv keep sp x l (pushReg16 .S r y) := by
  obtain ⟨hPC, hS, hwin, hag⟩ := h
  obtain ⟨hlt1, hback1'⟩ := dec16_spec y.S
  have hback1 := hback1' hS
  rw [pushReg16_S]
  generalize U16 (dec16 y.S) = t1 at hlt1 hback1 ⊢
  obtain ⟨hlt2, hback2'⟩ := dec16_spec t1
  have hback2 := hback2' hlt1
  generalize U16 (dec16 t1) = t2 at hlt2 hback2 ⊢
  have hU1 : U16 t1 = t1 := Nat.mod_eq_of_lt hlt1
  have hU2 : U16 t2 = t2 := Nat.mod_eq_of_lt hlt2
  rw [hU1, hU2]
  have htin1 : InStack sp 12 t1 := hwin t1 hlt1 (InStack_top (l + 1) hlt1 hback1)
  have htin2 : InStack sp 12 t2 :=
    hwin t2 hlt2 (InStack_shift hback1 hlt2 (InStack_top l hlt2 hback2))
  obtain ⟨-, hram1⟩ := hst t1 hlt1 htin1
  obtain ⟨-, hram2⟩ := hst t2 hlt2 htin2
  refine ⟨hPC, hlt2,
    fun a ha hin => hwin a ha (InStack_shift hback1 ha (InStack_shift hback2 ha hin)),
    fun a ha hk hnin => ?_⟩
  have hne1 : a ≠ t1 := fun he => hnin (he ▸ htin1)
  have hne2 : a ≠ t2 := fun he => hnin (he ▸ htin2)
  exact ((hram2 _ _ (U8_lt _)).2 a ha hk hne2).trans
    (((hram1 _ _ (U8_lt _)).2 a ha hk hne1).trans (hag a ha hk hnin))

theorem PushInv_step8 {keep : Nat → Prop} {sp l : Nat} {x y : CpuImpl M} (c : Prop)
    [Decidable c] (r : Reg8) (hst : StackOK M keep sp 12)
    (h : PushInv keep sp x (l + 1) y) :
    PushInv keep sp x l (if c then pushReg8 .S r y else y) := by
  split
  · exact PushInv_push8 r hst h
  · exact PushInv_mono 1 h

theorem PushInv_step16 {keep : Nat → Prop} {sp l : Nat} {x y : CpuImpl M} (c : Prop)
    [Decidable c] (r : Reg16) (hst : StackOK M keep sp 12)
    (h : PushInv keep sp x (l + 2) y) :
    PushInv keep sp x l (if c then pushReg16 .S r y else y) := by
  split
  · exact PushInv_push16 r hst h
  · exact PushInv_mono 2 h

theorem PushInv_pushAll {keep : Nat → Prop} (m : Nat) (x : CpuImpl M)
    (hS : x.S < 65536) (hst : StackOK M keep x.S 12) :
    PushInv keep x.S x 0 (pushAll .S m x) := by
  have h0 : PushInv keep x.S x 12 x := ⟨rfl, hS, fun _ _ h => h, fun _ _ _ _ => rfl⟩
  have h7 := PushInv_step16 (l := 10) (m &&& BITS 7 ≠ 0) .PC hst h0
  have h6 := PushInv_step16 (l := 8) (m &&& BITS 6 ≠ 0) .U hst h7
  have h5 := PushInv_step16 (l := 6) (m &&& BITS 5 ≠ 0) .Y hst h6
  have h4 := PushInv_step16 (l := 4) (m &&& BITS 4 ≠ 0) .X hst h5
  have h3 := PushInv_step8 (l := 3) (m &&& BITS 3 ≠ 0) .DP hst h4
  have h2 := PushInv_step8 (l := 2) (m &&& BITS 2 ≠ 0) .B hst h3
  have h1 := PushInv_step8 (l := 1) (m &&& BITS 1 ≠ 0) .A hst h2
  exact PushInv_step8 (l := 0) (m &&& BITS 0 ≠ 0) .CCValue hst h1

theorem Restores_between (keep : Nat → Prop) (k c : Nat) :
    Restores keep 0 (betweenPushAndPull (M := M) k c) := by
  intro x _ _
  exact ⟨⟨rfl, rfl, rfl, rfl, rfl, rfl, rfl, rfl⟩, fun _ _ _ _ => rfl⟩

theorem Restores_pullAll (keep : Nat → Prop) (m k c : Nat) :
    Restores keep 12 (fun x : CpuImpl M =>
      pullAll .S m (betweenPushAndPull k c (pushAll .S m x))) := by
  have h0 := Restores_between (M := M) keep k c
  have h1 := Restores_step8 (m &&& BITS 0 ≠ 0) .CCValue (by decide) h0
  have h2 := Restores_step8 (m &&& BITS 1 ≠ 0) .A (by decide) h1
  have h3 := Restores_step8 (m &&& BITS 2 ≠ 0) .B (by decide) h2
  have h4 := Restores_step8 (m &&& BITS 3 ≠ 0) .DP (by decide) h3
  have h5 := Restores_step16 (m &&& BITS 4 ≠ 0) .X (Or.inl rfl) (by decide) h4
  have h6 := Restores_step16 (m &&& BITS 5 ≠ 0) .Y (Or.inr (Or.inl rfl)) (by decide) h5
  have h7 := Restores_step16 (m &&& BITS 6 ≠ 0) .U (Or.inr (Or.inr (Or.inl rfl)))
    (by decide) h6
  exact Restores_step16 (m &&& BITS 7 ≠ 0) .PC (Or.inr (Or.inr (Or.inr rfl))) (by decide) h7

theorem InCode_offset (pc j : Nat) (hj : j < 4) :
    InCode pc 4 ((pc + j) % 65536) := by
  unfold InCode
  omega

theorem Read8_afterFetch (s : CpuImpl M) (c : Nat) :
    Read8 (afterFetch s c) (afterFetch s c).PC = Read8 s (s.PC + 1) := by
  simp only [Read8, afterFetch, ReadPC8, CpuImpl.set16, CpuImpl.addCycles, U16, Nat.mod_mod]

theorem operand_state (s : CpuImpl M) (c : Nat) :
    (ReadPC8 (afterFetch s c)).2 =
      { s with PC := U16 (U16 (s.PC + 1) + 1), m_cycles := 0 + c } := rfl

theorem FlatRam_StackOK (keep : Nat → Prop) (sp n : Nat)
    (h : ∀ a, InStack sp n a → keep a) : StackOK FlatRam keep sp n := by
  intro a _ hin
  refine ⟨h a hin, fun b v _ => ⟨?_, fun a' _ _ hne => ?_⟩⟩
  · show (if a = a then v else b.bytes a) = v
    rw [if_pos rfl]
  · show (if a' = a then v else b.bytes a') = b.bytes a'
    rw [if_neg hne]

/-! ## Reset and the branch decoder -/

theorem Reset_registers (s : CpuImpl M) (pc : Nat) (hpc : pc < 65536) :
    (Reset s pc).PC = pc ∧ (Reset s pc).CC = ConditionCode.ofValue 0x50 ∧
      (Reset s pc).X = 0 ∧ (Reset s pc).Y = 0 ∧ (Reset s pc).U = 0 ∧ (Reset s pc).S = 0 ∧
      (Reset s pc).DP = 0 ∧ (Reset s pc).A = s.A ∧ (Reset s pc).B = s.B :=
  ⟨Nat.mod_eq_of_lt hpc, rfl, rfl, rfl, rfl, rfl, rfl, rfl, rfl⟩

theorem dispatch_branch (op : Nat) (hlo : 0x20 ≤ op) (hhi : op ≤ 0x2F) :
    ∃ f, dispatchPage0 op = some (.Branch f) ∧ ∀ cc, f cc = specBranchTaken op cc := by
  interval_cases op <;>
    exact ⟨_, rfl, fun cc => by
      rcases cc with ⟨c, v, z, n, i, hc, fi, e⟩
      cases c <;> cases v <;> cases z <;> cases n <;> first | rfl | decide | simp [specBranchTaken]⟩

/-! ## The claims -/

/-- C1: SUBA with `A = a` and operand `b` (fetched in any addressing mode) completes,
leaves `A = (a - b) mod 256`, clears the carry flag exactly when `a ≥ b` (unsigned), sets `Z`
exactly when the result is 0 and sets `N` to bit 7 of the result. -/
theorem SUBA_result_and_flags (mode : AddressingMode) (s s' : CpuImpl M) (b : Nat)
    (hA : s.A < 256) (hop : ReadOperandValue8 mode s = some (b, s')) :
    ∃ t, OpSUB8 mode .A s = some t ∧
      (t.A : Int) = ((s.A : Int) - b) % 256 ∧
      (t.CC.Carry = false ↔ b ≤ s.A) ∧
      (t.CC.Zero = true ↔ t.A = 0) ∧
      t.CC.Negative = t.A.testBit 7 := by
  obtain ⟨hf, hb⟩ := ReadOperandValue8_frame mode s s' b hop
  obtain ⟨hfA, -, -, hfC, -, -⟩ := hf
  have hA' : s'.A < 256 := by rw [hfA]; exact hA
  have hres := SubtractImpl8_result s'.A b s'.CC
  have hlt : (SubtractImpl8 s'.A b s'.CC).1 < 256 := by omega
  refine ⟨_, by simp only [OpSUB8, hop]; rfl, ?_, ?_, ?_, ?_⟩
  · simp only [CpuImpl.get8, CpuImpl.set8, CpuImpl.setCC, U8, Nat.mod_eq_of_lt hlt]
    rw [hres, hfA]
  · simp only [CpuImpl.get8, CpuImpl.set8, CpuImpl.setCC]
    rw [SubtractImpl8_carry _ _ _ hA' hb, hfA]
    simp
  · simp only [CpuImpl.get8, CpuImpl.set8, CpuImpl.setCC, U8, Nat.mod_eq_of_lt hlt]
    simp only [SubtractImpl8, AddImpl8_zero]
    simp
  · simp only [CpuImpl.get8, CpuImpl.set8, CpuImpl.setCC, U8, Nat.mod_eq_of_lt hlt]
    simp only [SubtractImpl8, AddImpl8_negative]

theorem SUBA_result_and_flags_witness :
    ∃ t, OpSUB8 .Immediate .A (machine { zeroRegs with A := 0x10, PC := 1 } 0 [0x80, 0x20])
        = some t ∧
      (t.A : Int) = ((0x10 : Int) - 0x20) % 256 ∧
      (t.CC.Carry = false ↔ 0x20 ≤ 0x10) ∧
      (t.CC.Zero = true ↔ t.A = 0) ∧
      t.CC.Negative = t.A.testBit 7 :=
  SUBA_result_and_flags .Immediate
    (machine { zeroRegs with A := 0x10, PC := 1 } 0 [0x80, 0x20])
    (ReadPC8 (machine { zeroRegs with A := 0x10, PC := 1 } 0 [0x80, 0x20])).2 0x20
    (by decide) rfl

/-- C2: for each of the 16 short branch opcodes `0x20..0x2F` and every value of the flags,
`ExecuteInstruction` takes the branch (adds the signed offset to `PC` and one cycle to the
base count) exactly when the predicate of the spec's table holds, and otherwise only steps
over the two instruction bytes. -/
theorem Bcc_taken_iff_spec_table (tbl : Nat → Nat → CpuOp) (s : CpuImpl M) (op : Nat)
    (hlo : 0x20 ≤ op) (hhi : op ≤ 0x2F) (hfetch : Read8 s s.PC = op)
    (hentry : (tbl 0 op).opCode = op) (hcyc : 0 < (tbl 0 op).cycles)
    (hmode : (tbl 0 op).addrMode = .Relative) :
    ∃ t, ExecuteInstruction tbl s =
        some ((tbl 0 op).cycles + (if specBranchTaken op s.CC then 1 else 0), t) ∧
      t.toCpuRegisters = { s.toCpuRegisters with
        PC := if specBranchTaken op s.CC then
            wrap16 (((s.PC + 2) % 65536 : Nat) + toS8 (Read8 s (s.PC + 1)))
          else (s.PC + 2) % 65536 } ∧
      t.m_memoryBus = s.m_memoryBus := by
  obtain ⟨f, hd, hf⟩ := dispatch_branch op hlo hhi
  have hpc : U16 (U16 (s.PC + 1) + 1) = (s.PC + 2) % 65536 := by
    simp only [U16]; omega
  have hrd : Read8 (afterFetch s (tbl 0 op).cycles) (U16 (s.PC + 1)) = Read8 s (s.PC + 1) := by
    simp only [Read8, afterFetch, ReadPC8, CpuImpl.set16, CpuImpl.addCycles, U16, Nat.mod_mod]
  rw [ExecuteInstruction_page0 tbl s op _ hfetch (by omega) (by omega) hentry hcyc
    (by rw [hmode]; exact ⟨by decide, by decide⟩) hd]
  simp only [Handler.run, OpBranch, ReadRelativeOffset8, ReadPC8]
  have hcc : ((afterFetch s (tbl 0 op).cycles).set16 Reg16.PC
      ((afterFetch s (tbl 0 op).cycles).PC + 1)).CC = s.CC := rfl
  have hpc1 : (afterFetch s (tbl 0 op).cycles).PC = U16 (s.PC + 1) := rfl
  rw [hcc, hf, hpc1, hrd]
  by_cases hb : specBranchTaken op s.CC = true
  · simp only [hb, if_true, Option.map]
    refine ⟨_, congrArg some (Prod.ext ?_ rfl), ?_, rfl⟩
    · simp only [CpuImpl.addCycles, CpuImpl.set16, afterFetch, ReadPC8, Nat.zero_add]
    · have hpc2 : ((s.PC + 1) % 65536 + 1) % 65536 = (s.PC + 2) % 65536 := hpc
      simp only [CpuImpl.addCycles, CpuImpl.set16, afterFetch, ReadPC8, U16,
        Nat.mod_eq_of_lt (wrap16_lt _), hpc2]
  · have hb' : specBranchTaken op s.CC = false := by simpa using hb
    simp only [hb', Option.map]
    refine ⟨_, congrArg some (Prod.ext ?_ rfl), ?_, rfl⟩
    · simp [CpuImpl.addCycles, CpuImpl.set16, afterFetch, ReadPC8]
    · simp only [CpuImpl.addCycles, CpuImpl.set16, afterFetch, ReadPC8, Bool.false_eq_true,
        if_false]
      rw [hpc]

theorem Bcc_taken_iff_spec_table_witness :
    ∃ t, ExecuteInstruction sampleOps beqMachine =
        some ((sampleOps 0 0x27).cycles +
          (if specBranchTaken 0x27 beqMachine.CC then 1 else 0), t) ∧
      t.toCpuRegisters = { beqMachine.toCpuRegisters with
        PC := if specBranchTaken 0x27 beqMachine.CC then
            wrap16 (((beqMachine.PC + 2) % 65536 : Nat) +
              toS8 (Read8 beqMachine (beqMachine.PC + 1)))
          else (beqMachine.PC + 2) % 65536 } ∧
      t.m_memoryBus = beqMachine.m_memoryBus :=
  Bcc_taken_iff_spec_table sampleOps beqMachine 0x27 (by decide) (by decide) (by decide)
    (by decide) (by decide) (by decide)

example : ∃ t, ExecuteInstruction sampleOps beqMachine = some (4, t) ∧ t.PC = 0x100 := 
  ⟨_, rfl, rfl⟩

/-- C3: for every register mask `m` and every register state, when the 12 bytes below `S`
are writable memory that reads back what was written and does not overlap the four
instruction bytes, executing `PSHS m` and then `PULS m` succeeds and leaves `A`, `B`, `DP`,
`CC`, `X`, `Y`, `U` and `S` at their values before the `PSHS`. -/
theorem PSHS_then_PULS_restores (tbl : Nat → Nat → CpuOp) (s : CpuImpl M) (m : Nat)
    (hwf : s.toCpuRegisters.WF)
    (h34 : (tbl 0 0x34).opCode = 0x34 ∧ (tbl 0 0x34).addrMode = .Immediate ∧
      0 < (tbl 0 0x34).cycles)
    (h35 : (tbl 0 0x35).opCode = 0x35 ∧ (tbl 0 0x35).addrMode = .Immediate ∧
      0 < (tbl 0 0x35).cycles)
    (hprog : Read8 s s.PC = 0x34 ∧ Read8 s (s.PC + 1) = m ∧ Read8 s (s.PC + 2) = 0x35 ∧
      Read8 s (s.PC + 3) = m)
    (hstack : StackOK M (fun a => InStack s.S 12 a ∨ InCode s.PC 4 a) s.S 12)
    (hsep : ∀ a, a < 65536 → InStack s.S 12 a → ¬ InCode s.PC 4 a) :
    ∃ c1 t1 c2 t2, ExecuteInstruction tbl s = some (c1, t1) ∧
      ExecuteInstruction tbl t1 = some (c2, t2) ∧
      t2.A = s.A ∧ t2.B = s.B ∧ t2.DP = s.DP ∧ t2.CC = s.CC ∧ t2.X = s.X ∧ t2.Y = s.Y ∧
      t2.U = s.U ∧ t2.S = s.S := by
  obtain ⟨hX, hY, hU, hS, hPC, hDP, hA, hB⟩ := hwf
  -- the PSHS
  have hE1 := ExecuteInstruction_page0 tbl s 0x34 (.PSH .S) hprog.1 (by decide) (by decide)
    h34.1 h34.2.2 (by rw [h34.2.1]; exact ⟨by decide, by decide⟩) rfl
  rw [h34.2.1] at hE1
  simp only [Handler.run, OpPSH_S_immediate, Option.map, Read8_afterFetch, hprog.2.1,
    operand_state] at hE1
  -- the state in which the pushes start
  have hpc2 : U16 (U16 (s.PC + 1) + 1) = (s.PC + 2) % 65536 := by
    simp only [U16]; omega
  rw [hpc2] at hE1
  have hpclt : (s.PC + 2) % 65536 < 65536 := Nat.mod_lt _ (by decide)
  have hpi := @PushInv_pushAll M _ _ (fun a => InStack s.S 12 a ∨ InCode s.PC 4 a) m
    ({ s with PC := (s.PC + 2) % 65536, m_cycles := 0 + (tbl 0 0x34).cycles } : CpuImpl M)
    hS hstack
  have hR := Restores_pullAll (M := M) (fun a => InStack s.S 12 a ∨ InCode s.PC 4 a) m
    (NumBitsSet m) (tbl 0 0x35).cycles
    ({ s with PC := (s.PC + 2) % 65536, m_cycles := 0 + (tbl 0 0x34).cycles } : CpuImpl M)
    ⟨hX, hY, hU, hS, hpclt, hDP, hA, hB⟩ hstack
  beta_reduce at hR
  generalize pushAll Reg16.S m
    ({ s with PC := (s.PC + 2) % 65536, m_cycles := 0 + (tbl 0 0x34).cycles } : CpuImpl M)
    = y at hE1 hpi hR
  obtain ⟨hyPC, -, -, hyag⟩ := hpi
  simp only at hyPC hyag
  -- the PULS is fetched from unchanged memory
  have hcode : ∀ j, j < 4 → Read8 (y.addCycles (NumBitsSet m)) ((s.PC + j) % 65536) =
      Read8 s (s.PC + j) := by
    intro j hj
    have hin := InCode_offset s.PC j hj
    have hlt : (s.PC + j) % 65536 < 65536 := Nat.mod_lt _ (by decide)
    have h1 := hyag _ hlt (Or.inr hin) (fun hst => hsep _ hlt hst hin)
    simp only [Read8, CpuImpl.addCycles, U16, Nat.mod_mod]
    rw [h1]
  have hfetch2 : Read8 (y.addCycles (NumBitsSet m)) (y.addCycles (NumBitsSet m)).PC = 0x35 := by
    have h1 : (y.addCycles (NumBitsSet m)).PC = (s.PC + 2) % 65536 := hyPC
    rw [h1, hcode 2 (by decide)]
    exact hprog.2.2.1
  have hE2 := ExecuteInstruction_page0 tbl (y.addCycles (NumBitsSet m)) 0x35 (.PUL .S) hfetch2
    (by decide) (by decide) h35.1 h35.2.2 (by rw [h35.2.1]; exact ⟨by decide, by decide⟩) rfl
  rw [h35.2.1] at hE2
  have hpb2 : Read8 (y.addCycles (NumBitsSet m)) ((y.addCycles (NumBitsSet m)).PC + 1) = m := by
    have h1 : (y.addCycles (NumBitsSet m)).PC = (s.PC + 2) % 65536 := hyPC
    have h2 : Read8 (y.addCycles (NumBitsSet m)) ((s.PC + 2) % 65536 + 1) =
        Read8 (y.addCycles (NumBitsSet m)) ((s.PC + 3) % 65536) := by
      simp only [Read8, U16]
      have h3 : ((s.PC + 2) % 65536 + 1) % 65536 = (s.PC + 3) % 65536 % 65536 := by omega
      rw [h3]
    rw [h1, h2, hcode 3 (by decide)]
    exact hprog.2.2.2
  simp only [Handler.run, OpPUL_S_immediate, Option.map, Read8_afterFetch, hpb2] at hE2
  refine ⟨_, _, _, _, hE1, hE2, ?_⟩
  obtain ⟨⟨eX, eY, eU, eS, eDP, eA, eB, eCC⟩, -⟩ := hR
  exact ⟨eA, eB, eDP, eCC, eX, eY, eU, eS⟩

theorem PSHS_then_PULS_restores_witness :
    ∃ c1 t1 c2 t2, ExecuteInstruction sampleOps pshsMachine = some (c1, t1) ∧
      ExecuteInstruction sampleOps t1 = some (c2, t2) ∧
      t2.A = pshsMachine.A ∧ t2.B = pshsMachine.B ∧ t2.DP = pshsMachine.DP ∧
      t2.CC = pshsMachine.CC ∧ t2.X = pshsMachine.X ∧ t2.Y = pshsMachine.Y ∧
      t2.U = pshsMachine.U ∧ t2.S = pshsMachine.S :=
  PSHS_then_PULS_restores sampleOps pshsMachine 0x16 (by decide) (by decide) (by decide)
    (by decide) (FlatRam_StackOK _ _ _ (fun _ h => Or.inl h))
    (fun a _ h1 h2 => by
      have e1 : pshsMachine.S = 0xC000 := rfl
      have e2 : pshsMachine.PC = 0x0100 := rfl
      rw [e1] at h1
      rw [e2] at h2
      unfold InStack at h1
      unfold InCode at h2
      omega)

/-- C4 (the code differs): `Reset(0xF000)` on a machine with `A = 0x12`, `B = 0x34` sets
`PC`, clears `X`, `Y`, `U`, `S`, `DP` and sets exactly the two interrupt masks in `CC`, but
leaves `A` and `B` (and so `D = 0x1234`) as they were. -/
theorem Reset_leaves_accumulators :
    (Reset usedMachine 0xF000).toCpuRegisters =
        { X := 0, Y := 0, U := 0, S := 0, PC := 0xF000, DP := 0, A := 0x12, B := 0x34,
          CC := ConditionCode.ofValue 0x50 } ∧
      (Reset usedMachine 0xF000).D = 0x1234 := by
  decide

/-- C5: ADDA and ADDB with register value `a` and operand `op` (fetched in any addressing
mode) complete, leave the register `(a + op) mod 256`, set `C` exactly when `a + op > 255`,
`Z` exactly when the result is 0, `N` to bit 7 of the result and `H` exactly when
`(a & 0xF) + (op & 0xF) > 0xF`. -/
theorem ADD8_result_and_flags (mode : AddressingMode) (reg : Reg8) (s s' : CpuImpl M)
    (op : Nat) (hreg : reg = .A ∨ reg = .B) (ha : s.get8 reg < 256)
    (hop : ReadOperandValue8 mode s = some (op, s')) :
    ∃ t, OpADD8 mode reg s = some t ∧
      t.get8 reg = (s.get8 reg + op) % 256 ∧
      (t.CC.Carry = true ↔ 255 < s.get8 reg + op) ∧
      (t.CC.Zero = true ↔ t.get8 reg = 0) ∧
      t.CC.Negative = (t.get8 reg).testBit 7 ∧
      (t.CC.HalfCarry = true ↔ 0xF < (s.get8 reg &&& 0xF) + (op &&& 0xF)) := by
  obtain ⟨hf, hb⟩ := ReadOperandValue8_frame mode s s' op hop
  obtain ⟨hfA, hfB, -, hfC, -, -⟩ := hf
  have hget : s'.get8 reg = s.get8 reg := by
    rcases hreg with h | h <;> subst h <;> simp only [CpuImpl.get8] <;> assumption
  have hlt : (AddImpl8 (s'.get8 reg) op 0 s'.CC true).1 < 256 := by
    rw [AddImpl8_result]; exact Nat.mod_lt _ (by decide)
  have hsum : s'.get8 reg + op + 0 < 512 := by omega
  have hback : ∀ (v : Nat) (c : ConditionCode), v < 256 →
      ((s'.setCC c).set8 reg v).get8 reg = v ∧ ((s'.setCC c).set8 reg v).CC = c := by
    intro v c hv
    rcases hreg with h | h <;> subst h <;>
      simp [CpuImpl.get8, CpuImpl.set8, CpuImpl.setCC, U8, Nat.mod_eq_of_lt hv]
  obtain ⟨hg, hc⟩ := hback _ (AddImpl8 (s'.get8 reg) op 0 s'.CC true).2 hlt
  refine ⟨_, by simp only [OpADD8, hop]; rfl, ?_, ?_, ?_, ?_, ?_⟩
  · rw [hg, AddImpl8_result, hget]; rfl
  · rw [hc, AddImpl8_carry _ _ _ _ _ hsum, hget]
    simp
    omega
  · rw [hc, hg, AddImpl8_zero]
    simp
  · rw [hc, hg, AddImpl8_negative]
  · rw [hc, AddImpl8_halfCarry, hget]
    simp

theorem ADD8_result_and_flags_witness :
    ∃ t, OpADD8 .Direct .A
        (machine { zeroRegs with A := 0x10, PC := 1 } 0
          ([0x9B, 0x50] ++ List.replicate 0x4E 0 ++ [0x05])) = some t ∧
      t.get8 .A = (0x10 + 0x05) % 256 ∧
      (t.CC.Carry = true ↔ 255 < 0x10 + 0x05) ∧
      (t.CC.Zero = true ↔ t.get8 .A = 0) ∧
      t.CC.Negative = (t.get8 .A).testBit 7 ∧
      (t.CC.HalfCarry = true ↔ 0xF < (0x10 &&& 0xF) + (0x05 &&& 0xF)) :=
  ADD8_result_and_flags .Direct .A
    (machine { zeroRegs with A := 0x10, PC := 1 } 0
      ([0x9B, 0x50] ++ List.replicate 0x4E 0 ++ [0x05]))
    (ReadPC8 (machine { zeroRegs with A := 0x10, PC := 1 } 0
      ([0x9B, 0x50] ++ List.replicate 0x4E 0 ++ [0x05]))).2 0x05
    (Or.inl rfl) (by decide) rfl

/-- C6: for every memory content and every address `a`, `Read16(a)` is
`(Read8(a) << 8) | Read8((a + 1) mod 65536)`: big-endian, the second byte from the next
address. -/
theorem Read16_big_endian (s : CpuImpl M) (a : Nat) :
    Read16 s a = (Read8 s a <<< 8) ||| Read8 s ((a + 1) % 65536) := by
  have h : (a % 65536 + 1) % 65536 = (a + 1) % 65536 % 65536 := by omega
  simp only [Read16, Read8, CombineToU16, U8, U16, Nat.mod_mod, h]

/-- C8: EXG is its own inverse: for every valid post-byte and every register state, the
exchange selected by the post-byte succeeds, and applying it twice gives back the original
value of every register. -/
theorem EXG_twice_restores (p : Nat) (s : CpuImpl M) (hp : p < 256)
    (hwf : s.toCpuRegisters.WF) (hv : specValidTransferPostbyte p = true) :
    ∃ t u, ExchangeOrTransferRegs true p s = some t ∧
      ExchangeOrTransferRegs true p t = some u ∧
      u.toCpuRegisters = s.toCpuRegisters := by
  rcases ExchangeOrTransferRegs_valid (M := M) true p hp hv with
    ⟨rs, rd, -, -, key⟩ | ⟨rs, rd, -, -, key⟩
  · refine ⟨_, _, key s, key _, ?_⟩
    simp only [if_true]
    rw [swap8_twice rs rd s hwf]
  · refine ⟨_, _, key s, key _, ?_⟩
    simp only [if_true]
    rw [swap16_twice rs rd s hwf]

theorem EXG_twice_restores_witness :
    ∃ t u, ExchangeOrTransferRegs true 0x01 (machine mixedRegs 0 []) = some t ∧
      ExchangeOrTransferRegs true 0x01 t = some u ∧
      u.toCpuRegisters = (machine mixedRegs 0 []).toCpuRegisters :=
  EXG_twice_restores 0x01 (machine mixedRegs 0 []) (by decide) (by decide) (by decide)

/-- C9: TFR with the same register as source and destination is a no-op: for every valid
post-byte naming one register twice and every register state, the instruction succeeds,
leaves every register as it was (so `D` too) and `PC` just past the post-byte; memory and
the cycle counter are untouched by the handler. -/
theorem TFR_same_register_noop (s : CpuImpl M) (p : Nat) (hwf : s.toCpuRegisters.WF)
    (hfetch : Read8 s s.PC = p) (hv : specValidTransferPostbyte p = true)
    (hsame : p / 16 % 8 = p % 8) :
    ∃ t, OpTFR s = some t ∧
      t.toCpuRegisters = { s.toCpuRegisters with PC := (s.PC + 1) % 65536 } ∧
      t.D = s.D ∧ t.m_memoryBus = s.m_memoryBus ∧ t.m_cycles = s.m_cycles := by
  have hp : p < 256 := by rw [← hfetch]; exact Nat.mod_lt _ (by decide)
  have hidx : (p >>> 4) &&& 0b111 = p &&& 0b111 := by rw [shr4_and7, and7, hsame]
  have hwf1 : (ReadPC8 s).2.toCpuRegisters.WF := by
    obtain ⟨hX, hY, hU, hS, hPC, hDP, hA, hB⟩ := hwf
    exact ⟨hX, hY, hU, hS, Nat.mod_lt _ (by decide), hDP, hA, hB⟩
  have hrun : OpTFR s = ExchangeOrTransferRegs false p (ReadPC8 s).2 := by
    simp only [OpTFR, ExchangeOrTransfer]
    rw [show (ReadPC8 s).1 = p from hfetch]
  rcases ExchangeOrTransferRegs_valid (M := M) false p hp hv with
    ⟨rs, rd, hrs, hrd, key⟩ | ⟨rs, rd, hrs, hrd, key⟩
  · have hr : rs = rd := by
      rw [hidx, hrd] at hrs
      exact (Option.some.inj hrs).symm
    subst hr
    refine ⟨_, by rw [hrun, key], ?_⟩
    simp only [Bool.false_eq_true, if_false]
    rw [set8_get8_self rs _ hwf1]
    exact ⟨rfl, rfl, rfl, rfl⟩
  · have hr : rs = rd := by
      rw [hidx, hrd] at hrs
      exact (Option.some.inj hrs).symm
    subst hr
    refine ⟨_, by rw [hrun, key], ?_⟩
    simp only [Bool.false_eq_true, if_false]
    rw [set16_get16_self rs _ hwf1]
    exact ⟨rfl, rfl, rfl, rfl⟩

theorem TFR_same_register_noop_witness :
    ∃ t, OpTFR (machine mixedRegs 0x0100 [0x55]) = some t ∧
      t.toCpuRegisters =
        { (machine mixedRegs 0x0100 [0x55]).toCpuRegisters with
          PC := ((machine mixedRegs 0x0100 [0x55]).PC + 1) % 65536 } ∧
      t.D = (machine mixedRegs 0x0100 [0x55]).D ∧
      t.m_memoryBus = (machine mixedRegs 0x0100 [0x55]).m_memoryBus ∧
      t.m_cycles = (machine mixedRegs 0x0100 [0x55]).m_cycles :=
  TFR_same_register_noop (machine mixedRegs 0x0100 [0x55]) 0x55 (by decide) (by decide)
    (by decide) (by decide)

/-- C10: for every instruction that `ExecuteInstruction` executes without failing, the
returned cycle count is the final value of the cycle counter, is at least the base cycle
count of the opcode fetched, and is at least 1. -/
theorem cycles_at_least_base (tbl : Nat → Nat → CpuOp) (s t : CpuImpl M) (c : Nat)
    (h : ExecuteInstruction tbl s = some (c, t)) :
    1 ≤ c ∧ (tbl (FetchOpCode s).1 (FetchOpCode s).2.1).cycles ≤ c ∧ c = t.m_cycles := by
  obtain ⟨-, hc, hbase, hpos⟩ := ExecuteInstruction_step tbl s t c h
  exact ⟨by omega, hbase, hc⟩

theorem cycles_at_least_base_witness :
    1 ≤ 3 ∧ (sampleOps (FetchOpCode lddMachine).1 (FetchOpCode lddMachine).2.1).cycles ≤ 3 ∧
      3 = lddResult.m_cycles :=
  cycles_at_least_base sampleOps lddMachine lddResult 3 rfl

/-! ## Indexed addressing -/

theorem BITS_7 : BITS 7 = 0x80 := rfl

theorem BITS_4 : BITS 4 = 0x10 := rfl

theorem ReadIndexedEABase_none_iff (p : Nat) (x : CpuImpl M) :
    ReadIndexedEABase p x = none ↔
      (p &&& 0x80 ≠ 0 ∧ (p &&& 0xF = 0b0111 ∨ p &&& 0xF = 0b1010 ∨ p &&& 0xF = 0b1110)) := by
  unfold ReadIndexedEABase
  rw [BITS_7]
  by_cases h7 : p &&& 0x80 = 0
  · simp [h7]
  · rw [if_neg h7]
    have hk : p &&& 0b1111 < 16 := by rw [and_0F]; exact Nat.mod_lt _ (by decide)
    have e : p &&& 0xF = p &&& 0b1111 := rfl
    rw [e]
    generalize p &&& 0b1111 = k at hk
    interval_cases k <;> simp [h7, ReadPC8]

theorem ReadIndexedEA_of_base (s : CpuImpl M) (EA n : Nat) (ind : Bool) (s1 : CpuImpl M)
    (h : ReadIndexedEABase (Read8 s s.PC) (ReadPC8 s).2 = some (EA, ind, n, s1)) :
    ReadIndexedEA s =
      if ind && decide (Read8 s s.PC &&& BITS 4 ≠ 0) then
        some (CombineToU16 (Read8 s1 EA) (Read8 s1 (EA + 1)), s1.addCycles (n + 3))
      else some (EA, s1.addCycles n) := by
  have e : ReadIndexedEA s = (match ReadIndexedEABase (Read8 s s.PC) (ReadPC8 s).2 with
      | none => none
      | some (EA, supportsIndirect, extraCycles, s1) =>
        if supportsIndirect && decide (Read8 s s.PC &&& BITS 4 ≠ 0) then
          some (CombineToU16 (Read8 s1 EA) (Read8 s1 (EA + 1)), s1.addCycles (extraCycles + 3))
        else some (EA, s1.addCycles extraCycles)) := rfl
  rw [e, h]

theorem RegisterSelect_eq_spec (p : Nat) : RegisterSelect p = specIndexRegister p := by
  unfold RegisterSelect specIndexRegister
  have e : (p >>> 5) &&& 0b11 = p / 32 % 4 := by
    rw [Nat.shiftRight_eq_div_pow]
    exact Nat.and_pow_two_sub_one_eq_mod _ 2
  rw [e]
  have hk : p / 32 % 4 < 4 := Nat.mod_lt _ (by decide)
  generalize p / 32 % 4 = k at hk
  interval_cases k <;> rfl

theorem specIndexRegister_cases (p : Nat) :
    specIndexRegister p = .X ∨ specIndexRegister p = .Y ∨ specIndexRegister p = .U ∨
      specIndexRegister p = .S := by
  unfold specIndexRegister
  split
  · exact Or.inl rfl
  · split
    · exact Or.inr (Or.inl rfl)
    · split
      · exact Or.inr (Or.inr (Or.inl rfl))
      · exact Or.inr (Or.inr (Or.inr rfl))

theorem ReadIndexedEABase_post_increment (p : Nat) (x : CpuImpl M) (h7 : p &&& 0x80 ≠ 0)
    (h0 : p &&& 0xF = 0) :
    ReadIndexedEABase p x =
      some (x.get16 (specIndexRegister p), false, 2,
        x.set16 (specIndexRegister p) (x.get16 (specIndexRegister p) + 1)) := by
  unfold ReadIndexedEABase
  rw [BITS_7, if_neg h7, ← RegisterSelect_eq_spec]
  have e : p &&& 0b1111 = 0 := h0
  rw [e]

theorem get16_index_ReadPC8 (p : Nat) (x : CpuImpl M) :
    (ReadPC8 x).2.get16 (specIndexRegister p) = x.get16 (specIndexRegister p) := by
  rcases specIndexRegister_cases p with h | h | h | h <;> rw [h] <;> rfl

theorem OpLD8_A_effect (mode : AddressingMode) (s s1 : CpuImpl M) (v : Nat)
    (h : ReadOperandValue8 mode s = some (v, s1)) :
    ∃ t, OpLD8 mode .A s = some t ∧ t.A = U8 v ∧ t.X = s1.X ∧ t.Y = s1.Y ∧ t.U = s1.U ∧
      t.S = s1.S ∧ t.PC = s1.PC ∧ t.m_memoryBus = s1.m_memoryBus ∧
      t.m_cycles = s1.m_cycles := by
  unfold OpLD8
  rw [h]
  dsimp only
  refine ⟨_, rfl, ?_, ?_, ?_, ?_, ?_, ?_, ?_, ?_⟩ <;> rfl

theorem offset5_bits : ∀ p, p < 128 → p &&& 0x80 = 0 ∧
    S16of8 (if p &&& BITS 4 ≠ 0 then (p &&& 0b00001111) ||| 0b11100000 else p &&& 0b00001111)
      = if p % 32 < 16 then specOffset5 p else specOffset5 p - 16 := by
  decide!

theorem ReadIndexedEABase_offset5 (p : Nat) (x : CpuImpl M) (hp : p < 128) :
    ReadIndexedEABase p x =
      some (wrap16 (x.get16 (specIndexRegister p) +
          (if p % 32 < 16 then specOffset5 p else specOffset5 p - 16)), false, 1, x) := by
  obtain ⟨h7, hoff⟩ := offset5_bits p hp
  unfold ReadIndexedEABase
  rw [BITS_7, if_pos h7, ← RegisterSelect_eq_spec, ← hoff]

theorem ReadIndexedEABase_indirect_allowed (p : Nat) (x : CpuImpl M) (h7 : p &&& 0x80 ≠ 0)
    (hyes : specIndirectAllowed (p &&& 0xF) = true) :
    ∃ EA s1, ReadIndexedEABase p x
      = some (EA, true, specIndexedExtraCycles (p &&& 0xF), s1) := by
  unfold ReadIndexedEABase
  rw [BITS_7, if_neg h7]
  have hk : p &&& 0b1111 < 16 := by rw [and_0F]; exact Nat.mod_lt _ (by decide)
  have e : p &&& 0xF = p &&& 0b1111 := rfl
  rw [e] at hyes ⊢
  generalize p &&& 0b1111 = k at hk hyes
  interval_cases k <;> first
    | exact absurd hyes (by decide)
    | exact ⟨_, _, rfl⟩

theorem ReadIndexedEABase_congr (p q : Nat) (x : CpuImpl M) (hp : p &&& 0x80 ≠ 0)
    (hq : q &&& 0x80 ≠ 0) (hsub : q &&& 0xF = p &&& 0xF)
    (hreg : RegisterSelect q = RegisterSelect p) :
    ReadIndexedEABase q x = ReadIndexedEABase p x := by
  unfold ReadIndexedEABase
  rw [BITS_7, if_neg hp, if_neg hq, hreg]
  have e : q &&& 0b1111 = p &&& 0b1111 := hsub
  rw [e]

theorem bit4_irrelevant : ∀ p, p < 256 →
    ((p ||| 0x10) &&& 0x80 = p &&& 0x80 ∧ (p ||| 0x10) &&& 0xF = p &&& 0xF ∧
      ((p ||| 0x10) >>> 5) &&& 0b11 = (p >>> 5) &&& 0b11) ∧
    ((p &&& 0xEF) &&& 0x80 = p &&& 0x80 ∧ (p &&& 0xEF) &&& 0xF = p &&& 0xF ∧
      ((p &&& 0xEF) >>> 5) &&& 0b11 = (p >>> 5) &&& 0b11) := by
  decide!

theorem ReadIndexedEABase_not_indirect (p : Nat) (x : CpuImpl M) (h7 : p &&& 0x80 ≠ 0)
    (hno : p &&& 0xF = 0b0000 ∨ p &&& 0xF = 0b0010) :
    ∃ EA s1, ReadIndexedEABase p x = some (EA, false, 2, s1) := by
  unfold ReadIndexedEABase
  rw [BITS_7, if_neg h7]
  have e : p &&& 0xF = p &&& 0b1111 := rfl
  rw [e] at hno
  rcases hno with h | h <;> rw [h] <;> exact ⟨_, _, rfl⟩

theorem Read8_succ_wrap (s : CpuImpl M) (a : Nat) :
    Read8 s (a + 1) = Read8 s ((a + 1) % 65536) := by
  simp only [Read8, U16, Nat.mod_mod]

theorem CombineToU16_Read8 (s : CpuImpl M) (a b : Nat) :
    CombineToU16 (Read8 s a) (Read8 s b) = (Read8 s a <<< 8) ||| Read8 s b := by
  simp only [CombineToU16, Read8, U8_U8]

/-! ## Register access and transfer post-bytes -/

theorem invalid_postbyte_fails : ∀ p, p < 256 → specValidTransferPostbyte p = false →
    (decide (p &&& BITS 3 ≠ 0) ≠ decide (p &&& BITS 7 ≠ 0)) ∨
    (if p &&& BITS 3 ≠ 0 then
      exgReg8 ((p >>> 4) &&& 0b111) = none ∨ exgReg8 (p &&& 0b111) = none
     else
      exgReg16 ((p >>> 4) &&& 0b111) = none ∨ exgReg16 (p &&& 0b111) = none) := by
  decide!

theorem get8_lt (x : CpuImpl M) (r : Reg8) (hwf : x.toCpuRegisters.WF) : x.get8 r < 256 := by
  obtain ⟨-, -, -, -, -, hDP, hA, hB⟩ := hwf
  cases r
  · exact hA
  · exact hB
  · exact Value_lt _
  · exact hDP

theorem get16_lt (x : CpuImpl M) (r : Reg16) (hwf : x.toCpuRegisters.WF) :
    x.get16 r < 65536 := by
  obtain ⟨hX, hY, hU, hS, hPC, -, -, -⟩ := hwf
  cases r
  · exact CombineToU16_lt _ _
  · exact hX
  · exact hY
  · exact hU
  · exact hS
  · exact hPC

theorem get8_set8 (x : CpuImpl M) (r q : Reg8) (v : Nat) (hv : v < 256) :
    (x.set8 r v).get8 q = if q = r then v else x.get8 q := by
  have e : U8 v = v := Nat.mod_eq_of_lt hv
  have c := Value_ofValue v hv
  cases r <;> cases q <;> simp [CpuImpl.get8, CpuImpl.set8, e, c]

theorem get16_set16 (x : CpuImpl M) (r q : Reg16) (v : Nat) (hv : v < 65536) :
    (x.set16 r v).get16 q = if q = r then v else x.get16 q := by
  have e : U16 v = v := Nat.mod_eq_of_lt hv
  have d : CombineToU16 (U8 (v >>> 8)) (U8 v) = v := (CombineToU16_split v).trans e
  cases r <;> cases q <;> simp [CpuImpl.get16, CpuImpl.set16, CpuRegisters.D, e, d]

theorem specValid_false_iff : ∀ p, p < 256 → (specValidTransferPostbyte p = false ↔
    (p.testBit 3 ≠ p.testBit 7 ∨ (p.testBit 3 = true ∧ (3 < p / 16 % 8 ∨ 3 < p % 8)) ∨
      (p.testBit 3 = false ∧ (5 < p / 16 % 8 ∨ 5 < p % 8)))) := by
  decide!

theorem testBit3_iff : ∀ p, p < 256 → (p &&& BITS 3 ≠ 0 ↔ p.testBit 3 = true) := by
  decide!

theorem exgReg8_eq_getElem (i : Nat) : exgReg8 i = [Reg8.A, .B, .CCValue, .DP][i]? := by
  rcases i with _ | _ | _ | _ | _ <;> rfl

theorem exgReg16_eq_getElem (i : Nat) :
    exgReg16 i = [Reg16.D, .X, .Y, .U, .S, .PC][i]? := by
  rcases i with _ | _ | _ | _ | _ | _ | _ <;> rfl

theorem transfer8_effect (x : CpuImpl M) (rs rd : Reg8) (hwf : x.toCpuRegisters.WF) :
    (x.set8 rd (x.get8 rs)).get8 rd = x.get8 rs ∧
      (x.set8 rd (x.get8 rs)).get8 rs = x.get8 rs := by
  rw [get8_set8 x rd rd _ (get8_lt x rs hwf), get8_set8 x rd rs _ (get8_lt x rs hwf)]
  refine ⟨if_pos rfl, ?_⟩
  split <;> rfl

theorem exchange8_effect (x : CpuImpl M) (rs rd : Reg8) (hwf : x.toCpuRegisters.WF) :
    ((x.set8 rd (x.get8 rs)).set8 rs (x.get8 rd)).get8 rd = x.get8 rs ∧
      ((x.set8 rd (x.get8 rs)).set8 rs (x.get8 rd)).get8 rs = x.get8 rd := by
  rw [get8_set8 _ rs rd _ (get8_lt x rd hwf), get8_set8 _ rs rs _ (get8_lt x rd hwf),
    get8_set8 x rd rd _ (get8_lt x rs hwf)]
  refine ⟨?_, if_pos rfl⟩
  by_cases h : rd = rs
  · rw [if_pos h, h]
  · rw [if_neg h, if_pos rfl]

theorem transfer16_effect (x : CpuImpl M) (rs rd : Reg16) (hwf : x.toCpuRegisters.WF) :
    (x.set16 rd (x.get16 rs)).get16 rd = x.get16 rs ∧
      (x.set16 rd (x.get16 rs)).get16 rs = x.get16 rs := by
  rw [get16_set16 x rd rd _ (get16_lt x rs hwf), get16_set16 x rd rs _ (get16_lt x rs hwf)]
  refine ⟨if_pos rfl, ?_⟩
  split <;> rfl

theorem exchange16_effect (x : CpuImpl M) (rs rd : Reg16) (hwf : x.toCpuRegisters.WF) :
    ((x.set16 rd (x.get16 rs)).set16 rs (x.get16 rd)).get16 rd = x.get16 rs ∧
      ((x.set16 rd (x.get16 rs)).set16 rs (x.get16 rd)).get16 rs = x.get16 rd := by
  rw [get16_set16 _ rs rd _ (get16_lt x rd hwf), get16_set16 _ rs rs _ (get16_lt x rd hwf),
    get16_set16 x rd rd _ (get16_lt x rs hwf)]
  refine ⟨?_, if_pos rfl⟩
  by_cases h : rd = rs
  · rw [if_pos h, h]
  · rw [if_neg h, if_pos rfl]

theorem ExchangeOrTransferRegs_valid8 (exchange : Bool) (p : Nat) (hp : p < 256)
    (hv : specValidTransferPostbyte p = true) (hb : p &&& BITS 3 ≠ 0) :
    ∃ rs rd : Reg8, exgReg8 ((p >>> 4) &&& 0b111) = some rs ∧
      exgReg8 (p &&& 0b111) = some rd ∧ ∀ x : CpuImpl M,
      ExchangeOrTransferRegs exchange p x =
        some (if exchange then (x.set8 rd (x.get8 rs)).set8 rs (x.get8 rd)
          else x.set8 rd (x.get8 rs)) := by
  obtain ⟨h1, h2⟩ := valid_postbyte_decodes p hp hv
  rw [if_pos hb] at h2
  obtain ⟨rs, hrs⟩ := Option.isSome_iff_exists.1 h2.1
  obtain ⟨rd, hrd⟩ := Option.isSome_iff_exists.1 h2.2
  refine ⟨rs, rd, hrs, hrd, fun x => ?_⟩
  unfold ExchangeOrTransferRegs
  simp only [h1, ne_eq, not_true_eq_false, if_false, hrs, hrd]
  rw [if_pos hb]
  cases exchange <;> simp

theorem ExchangeOrTransferRegs_valid16 (exchange : Bool) (p : Nat) (hp : p < 256)
    (hv : specValidTransferPostbyte p = true) (hb : ¬ p &&& BITS 3 ≠ 0) :
    ∃ rs rd : Reg16, exgReg16 ((p >>> 4) &&& 0b111) = some rs ∧
      exgReg16 (p &&& 0b111) = some rd ∧ ∀ x : CpuImpl M,
      ExchangeOrTransferRegs exchange p x =
        some (if exchange then (x.set16 rd (x.get16 rs)).set16 rs (x.get16 rd)
          else x.set16 rd (x.get16 rs)) := by
  obtain ⟨h1, h2⟩ := valid_postbyte_decodes p hp hv
  rw [if_neg hb] at h2
  obtain ⟨rs, hrs⟩ := Option.isSome_iff_exists.1 h2.1
  obtain ⟨rd, hrd⟩ := Option.isSome_iff_exists.1 h2.2
  refine ⟨rs, rd, hrs, hrd, fun x => ?_⟩
  unfold ExchangeOrTransferRegs
  simp only [h1, ne_eq, not_true_eq_false, if_false, hrs, hrd]
  rw [if_neg hb]
  cases exchange <;> simp

/-! ## Flags of shifts and of subtraction -/

theorem and_80_even (v : Nat) : (v &&& 0b10000000) % 2 = 0 := by
  have h : v &&& 0b10000000 = (v.testBit 7).toNat * 2 ^ 7 := Nat.and_two_pow v 7
  rw [h]
  cases v.testBit 7 <;> decide

theorem and_FFFF0000_ne_zero (v : Nat) (hv : v < 4294967296) :
    (v &&& 0xFFFF0000 ≠ 0) ↔ 65536 ≤ v := by
  have hsplit : v = (v &&& 0xFFFF0000) ||| (v % 65536) := by
    have h1 : v &&& 0xFFFFFFFF = v % 4294967296 := Nat.and_pow_two_sub_one_eq_mod v 32
    have h2 : v &&& 0xFFFF = v % 65536 := Nat.and_pow_two_sub_one_eq_mod v 16
    have h3 : (0xFFFFFFFF : Nat) = 0xFFFF0000 ||| 0xFFFF := by decide
    rw [h3, Nat.and_or_distrib_left, h2, Nat.mod_eq_of_lt hv] at h1
    exact h1.symm
  constructor
  · intro hne
    by_contra hlt
    have hlt' : v < 65536 := Nat.lt_of_not_le hlt
    have hle : v &&& 0xFFFF0000 ≤ v := Nat.and_le_left
    have h4 : (v &&& 0xFFFF0000) &&& 0xFFFF = (v &&& 0xFFFF0000) % 65536 :=
      Nat.and_pow_two_sub_one_eq_mod _ 16
    have h5 : (v &&& 0xFFFF0000) &&& 0xFFFF = 0 := by
      rw [Nat.and_assoc]
      have : (0xFFFF0000 : Nat) &&& 0xFFFF = 0 := by decide
      rw [this, Nat.and_zero]
    rw [h5, Nat.mod_eq_of_lt (by omega)] at h4
    exact hne h4.symm
  · intro hge hz
    rw [hz, Nat.zero_or] at hsplit
    omega

theorem and_bit15_ne_zero (v : Nat) : (v &&& BITS 15 ≠ 0) ↔ v.testBit 15 = true := by
  have h : v &&& BITS 15 = (v.testBit 15).toNat * 2 ^ 15 := Nat.and_two_pow v 15
  rw [h]
  cases v.testBit 15 <;> decide

theorem bit1_ite (c : Prop) [Decidable c] : bit1 (if c then 1 else 0) = decide c := by
  by_cases h : c <;> simp [h, bit1]

theorem SubtractImpl8_flags (a b : Nat) (cc : ConditionCode) (ha : a < 256) (hb : b < 256) :
    (SubtractImpl8 a b cc).2.Carry = decide (a < b) ∧
      (SubtractImpl8 a b cc).2.Zero = decide (a = b) ∧
      (SubtractImpl8 a b cc).2.Negative
        = ((((a : Nat) : Int) - b) % 256).toNat.testBit 7 := by
  have hres := SubtractImpl8_result a b cc
  have hlt : (SubtractImpl8 a b cc).1 < 256 := by omega
  refine ⟨SubtractImpl8_carry a b cc ha hb, ?_, ?_⟩
  · have hz : (SubtractImpl8 a b cc).2.Zero = decide ((SubtractImpl8 a b cc).1 = 0) := by
      simp only [SubtractImpl8, AddImpl8_zero]
    rw [hz]
    have : (SubtractImpl8 a b cc).1 = 0 ↔ a = b := by omega
    simp only [this]
  · have hn : (SubtractImpl8 a b cc).2.Negative = (SubtractImpl8 a b cc).1.testBit 7 := by
      simp only [SubtractImpl8, AddImpl8_negative]
    rw [hn]
    congr 1
    omega

theorem SubtractImpl16_flags (a b : Nat) (cc : ConditionCode) (ha : a < 65536)
    (hb : b < 65536) :
    ∃ r cc', SubtractImpl16 a b cc = some (r, cc') ∧
      (r : Int) = (((a : Nat) : Int) - b) % 65536 ∧
      cc'.Carry = decide (a < b) ∧ cc'.Zero = decide (a = b) ∧
      cc'.Negative = ((((a : Nat) : Int) - b) % 65536).toNat.testBit 15 := by
  have e1 : U16 (65535 - U16 b) = 65535 - b := by simp only [U16]; omega
  have e2 : (a + (65535 - b) + 1) % 4294967296 = a + (65535 - b) + 1 :=
    Nat.mod_eq_of_lt (by omega)
  have hc := and_FFFF0000_ne_zero (a + (65535 - b) + 1) (by omega)
  have hr : ((U16 (a + (65535 - b) + 1) : Nat) : Int) = (((a : Nat) : Int) - b) % 65536 := by
    simp only [U16]; omega
  refine ⟨_, _, rfl, ?_, ?_, ?_, ?_⟩
  · show ((U16 ((a + U16 (65535 - U16 b) + 1) % 4294967296) : Nat) : Int) = _
    rw [e1, e2]
    exact hr
  · show (!bit1 (CalcCarry32 ((a + U16 (65535 - U16 b) + 1) % 4294967296))) = decide (a < b)
    rw [e1, e2, CalcCarry32, bit1_ite]
    by_cases h : a < b
    · have : ¬ 65536 ≤ a + (65535 - b) + 1 := by omega
      simp [h, hc, this]
    · have : 65536 ≤ a + (65535 - b) + 1 := by omega
      simp [h, hc, this]
  · show bit1 (CalcZero (U16 ((a + U16 (65535 - U16 b) + 1) % 4294967296))) = decide (a = b)
    rw [e1, e2, CalcZero, bit1_ite]
    have : U16 (a + (65535 - b) + 1) = 0 ↔ a = b := by simp only [U16]; omega
    simp only [this]
  · show bit1 (CalcNegative16 (U16 ((a + U16 (65535 - U16 b) + 1) % 4294967296))) = _
    rw [e1, e2, CalcNegative16, bit1_ite]
    have e : ((((a : Nat) : Int) - b) % 65536).toNat = U16 (a + (65535 - b) + 1) := by
      rw [← hr]; rfl
    rw [e]
    by_cases h : (U16 (a + (65535 - b) + 1)).testBit 15 = true
    · simp [h, and_bit15_ne_zero]
    · simp [h, and_bit15_ne_zero]

theorem ReadOperandValue16_not_indexed (mode : AddressingMode) (s t : CpuImpl M) (v : Nat)
    (hm : mode ≠ .Indexed) (h : ReadOperandValue16 mode s = some (v, t)) :
    t.X = s.X ∧ t.Y = s.Y ∧ t.U = s.U ∧ t.S = s.S := by
  cases mode <;>
    simp only [ReadOperandValue16, ReadEA16, ReadPC16, ReadExtendedEA, ReadDirectEA, ReadPC8,
      Option.some.injEq, Prod.mk.injEq, reduceCtorEq, ne_eq, not_true_eq_false] at h hm <;>
    (obtain ⟨-, rfl⟩ := h; exact ⟨rfl, rfl, rfl, rfl⟩)

/-! ## The claims on addressing, transfers, logic, stores, shifts and compares -/

/-- C11 (the code differs): with `X = 0x1000` and the post-byte `0x1F` (5-bit offset `-1`)
`ReadIndexedEA` returns `0x0FEF`, where `(X + (-1)) mod 65536` is `0x0FFF`: the sign
extension keeps bits 3-0 and sets bits 7-5, so bit 4 of the offset is lost. -/
theorem ReadIndexedEA_offset5_at_minus_one :
    (ReadIndexedEA offset5Machine).map Prod.fst = some 0x0FEF ∧
      specOffset5 0x1F = -1 ∧
      wrap16 ((offset5Machine.get16 (specIndexRegister 0x1F) : Int) + specOffset5 0x1F)
        = 0x0FFF := by
  decide

/-- C12: for every post-byte `p` of the post-increment submode (bit 7 set, bits 3-0 zero),
with `R` the index register that bits 6-5 select (`X`, `Y`, `U`, `S` for `00`, `01`, `10`,
`11`) and `r` its value: `ReadIndexedEA` returns `EA = r`, leaves `R = (r + 1) mod 65536` and
adds 2 cycles; `LDA` through it (`0xA6 p`) completes with the base cycle count plus 2 and `A`
the byte at address `r`. -/
theorem LDA_post_increment (tbl : Nat → Nat → CpuOp) (s : CpuImpl M) (p : Nat)
    (hwf : s.toCpuRegisters.WF)
    (hrow : (tbl 0 0xA6).opCode = 0xA6 ∧ (tbl 0 0xA6).addrMode = .Indexed ∧
      0 < (tbl 0 0xA6).cycles)
    (hop : Read8 s s.PC = 0xA6) (hpb : Read8 s (s.PC + 1) = p)
    (h7 : p &&& 0x80 ≠ 0) (h0 : p &&& 0xF = 0) :
    (∃ x, ReadIndexedEA (afterFetch s (tbl 0 0xA6).cycles)
        = some (s.get16 (specIndexRegister p), x) ∧
      x.get16 (specIndexRegister p) = (s.get16 (specIndexRegister p) + 1) % 65536 ∧
      x.m_cycles = (tbl 0 0xA6).cycles + 2) ∧
    ∃ t, ExecuteInstruction tbl s = some ((tbl 0 0xA6).cycles + 2, t) ∧
      t.A = Read8 s (s.get16 (specIndexRegister p)) ∧
      t.get16 (specIndexRegister p) = (s.get16 (specIndexRegister p) + 1) % 65536 ∧
      t.PC = (s.PC + 2) % 65536 ∧ t.m_memoryBus = s.m_memoryBus := by
  obtain ⟨hX, hY, hU, hS, hPC, -, -, -⟩ := hwf
  have hfetch : Read8 (afterFetch s (tbl 0 0xA6).cycles) (afterFetch s (tbl 0 0xA6).cycles).PC
      = p := (Read8_afterFetch s _).trans hpb
  have hbase := ReadIndexedEABase_post_increment p
    (ReadPC8 (afterFetch s (tbl 0 0xA6).cycles)).2 h7 h0
  rw [← hfetch] at hbase
  have hEA := ReadIndexedEA_of_base _ _ _ _ _ hbase
  rw [hfetch] at hEA hbase
  simp only [Bool.false_and, Bool.false_eq_true, if_false] at hEA
  rw [get16_index_ReadPC8] at hEA
  have hreg : (afterFetch s (tbl 0 0xA6).cycles).get16 (specIndexRegister p)
      = s.get16 (specIndexRegister p) := by
    rcases specIndexRegister_cases p with h | h | h | h <;> rw [h] <;> rfl
  rw [hreg] at hEA
  have hnew : (((ReadPC8 (afterFetch s (tbl 0 0xA6).cycles)).2.set16 (specIndexRegister p)
      (s.get16 (specIndexRegister p) + 1)).addCycles 2).get16 (specIndexRegister p)
      = (s.get16 (specIndexRegister p) + 1) % 65536 := by
    rcases specIndexRegister_cases p with h | h | h | h <;> rw [h] <;> rfl
  have hpc : (((ReadPC8 (afterFetch s (tbl 0 0xA6).cycles)).2.set16 (specIndexRegister p)
      (s.get16 (specIndexRegister p) + 1)).addCycles 2).PC = (s.PC + 2) % 65536 := by
    have e : U16 (U16 (s.PC + 1) + 1) = (s.PC + 2) % 65536 := by
      simp only [U16]
      omega
    rw [operand_state]
    rcases specIndexRegister_cases p with h | h | h | h <;> rw [h] <;> exact e
  have hcyc : (((ReadPC8 (afterFetch s (tbl 0 0xA6).cycles)).2.set16 (specIndexRegister p)
      (s.get16 (specIndexRegister p) + 1)).addCycles 2).m_cycles = (tbl 0 0xA6).cycles + 2 := by
    have e : 0 + (tbl 0 0xA6).cycles + 2 = (tbl 0 0xA6).cycles + 2 := by omega
    rw [operand_state]
    rcases specIndexRegister_cases p with h | h | h | h <;> rw [h] <;> exact e
  have hbus : (((ReadPC8 (afterFetch s (tbl 0 0xA6).cycles)).2.set16 (specIndexRegister p)
      (s.get16 (specIndexRegister p) + 1)).addCycles 2).m_memoryBus = s.m_memoryBus := by
    rcases specIndexRegister_cases p with h | h | h | h <;> rw [h] <;> rfl
  refine ⟨⟨_, hEA, hnew, hcyc⟩, ?_⟩
  have hexec := ExecuteInstruction_page0 tbl s 0xA6 (.LD8 .A) hop (by decide) (by decide)
    hrow.1 hrow.2.2 (by rw [hrow.2.1]; exact ⟨by decide, by decide⟩) rfl
  rw [hexec, hrow.2.1]
  generalize afterFetch s (tbl 0 0xA6).cycles = y at hEA hnew hpc hcyc hbus
  generalize (((ReadPC8 y).2.set16 (specIndexRegister p)
      (s.get16 (specIndexRegister p) + 1)).addCycles 2) = z at hEA hnew hpc hcyc hbus
  have hopnd : ReadOperandValue8 .Indexed y
      = some (Read8 z (s.get16 (specIndexRegister p)), z) := by
    simp only [ReadOperandValue8, ReadEA16, hEA]
  obtain ⟨t, ht, hA, hX', hY', hU', hS', hPC', hbus', hcyc'⟩ := OpLD8_A_effect _ _ _ _ hopnd
  have hz : Read8 z (s.get16 (specIndexRegister p))
      = Read8 s (s.get16 (specIndexRegister p)) := by
    simp only [Read8, hbus]
  refine ⟨t, ?_, ?_, ?_, ?_, ?_⟩
  · show Option.map (fun t => (t.m_cycles, t)) (OpLD8 .Indexed .A y) = _
    rw [ht]
    exact congrArg some (Prod.ext (hcyc'.trans hcyc) rfl)
  · rw [hA, hz]
    exact U8_U8 _
  · rw [← hnew]
    rcases specIndexRegister_cases p with h | h | h | h <;> rw [h]
    · exact hX'
    · exact hY'
    · exact hU'
    · exact hS'
  · exact hPC'.trans hpc
  · exact hbus'.trans hbus

theorem LDA_post_increment_witness :
    (∃ x, ReadIndexedEA (afterFetch postIncMachine 4) = some (0x1000, x) ∧
      x.get16 .X = 0x1001 ∧ x.m_cycles = 4 + 2) ∧
    ∃ t, ExecuteInstruction sampleOps postIncMachine = some (4 + 2, t) ∧
      t.A = 0xAA ∧ t.get16 .X = 0x1001 ∧ t.PC = 0x0102 ∧
      t.m_memoryBus = postIncMachine.m_memoryBus :=
  LDA_post_increment sampleOps postIncMachine 0x80 (by decide) (by decide) (by decide)
    (by decide) (by decide) (by decide)

/-- C13: for a post-byte `p` with bit 7 set, read at `PC`: when its submode (bits 3-0) is one
of those marked "indirect allowed: yes", the part of `ReadIndexedEA` before the indirection
computes an address `EA` with the extra cycles of the spec's table, and `ReadIndexedEA`
returns the big-endian word read at `EA` and `EA + 1` with 3 more cycles when bit 4 is
set, and `EA` itself with the table's cycles when bit 4 is clear; when the submode is `,R+`
or `,-R`, the post-byte with bit 4 set and the post-byte with bit 4 clear compute the same
address and state, and `ReadIndexedEA` returns that address and adds 2 cycles. -/
theorem indexed_indirection_by_bit4 (s : CpuImpl M) (p : Nat) (hfetch : Read8 s s.PC = p)
    (h7 : p &&& 0x80 ≠ 0) :
    (specIndirectAllowed (p &&& 0xF) = true →
      ∃ EA s1, ReadIndexedEABase p (ReadPC8 s).2
          = some (EA, true, specIndexedExtraCycles (p &&& 0xF), s1) ∧
        ReadIndexedEA s =
          some (if p &&& 0x10 ≠ 0 then (Read8 s1 EA <<< 8) ||| Read8 s1 ((EA + 1) % 65536)
                else EA,
            s1.addCycles (specIndexedExtraCycles (p &&& 0xF) +
              if p &&& 0x10 ≠ 0 then 3 else 0))) ∧
    ((p &&& 0xF = 0b0000 ∨ p &&& 0xF = 0b0010) →
      ∃ EA s1, ReadIndexedEABase (p ||| 0x10) (ReadPC8 s).2 = some (EA, false, 2, s1) ∧
        ReadIndexedEABase (p &&& 0xEF) (ReadPC8 s).2 = some (EA, false, 2, s1) ∧
        ReadIndexedEA s = some (EA, s1.addCycles 2)) := by
  have hp : p < 256 := by rw [← hfetch]; exact U8_lt _
  constructor
  · intro hyes
    obtain ⟨EA, s1, hb⟩ := ReadIndexedEABase_indirect_allowed p (ReadPC8 s).2 h7 hyes
    refine ⟨EA, s1, hb, ?_⟩
    rw [← hfetch] at hb
    have h := ReadIndexedEA_of_base s _ _ _ _ hb
    rw [hfetch, BITS_4] at h
    rw [h]
    by_cases h4 : p &&& 0x10 ≠ 0
    · simp only [h4, decide_True, Bool.and_self, if_true, ne_eq, not_false_eq_true]
      rw [CombineToU16_Read8, Read8_succ_wrap]
    · simp only [h4, decide_False, Bool.and_false, Bool.false_eq_true, if_false, Nat.add_zero]
  · intro hno
    obtain ⟨EA, s1, hb⟩ := ReadIndexedEABase_not_indirect p (ReadPC8 s).2 h7 hno
    obtain ⟨⟨a1, a2, a3⟩, b1, b2, b3⟩ := bit4_irrelevant p hp
    refine ⟨EA, s1, ?_, ?_, ?_⟩
    · rw [← hb]
      exact ReadIndexedEABase_congr p _ _ h7 (by rw [a1]; exact h7) a2
        (by unfold RegisterSelect; rw [a3])
    · rw [← hb]
      exact ReadIndexedEABase_congr p _ _ h7 (by rw [b1]; exact h7) b2
        (by unfold RegisterSelect; rw [b3])
    · rw [← hfetch] at hb
      have h := ReadIndexedEA_of_base s _ _ _ _ hb
      rw [h]
      simp only [Bool.false_and, Bool.false_eq_true, if_false]

theorem indexed_indirection_by_bit4_witness :
    (∃ EA s1, ReadIndexedEABase 0x94 (ReadPC8 indirectMachine).2 = some (EA, true, 0, s1) ∧
      ReadIndexedEA indirectMachine =
        some ((Read8 s1 EA <<< 8) ||| Read8 s1 ((EA + 1) % 65536), s1.addCycles (0 + 3))) ∧
    (∃ EA s1,
      ReadIndexedEABase 0x90 (ReadPC8 (afterFetch postIncMachine 4)).2
        = some (EA, false, 2, s1) ∧
      ReadIndexedEABase 0x80 (ReadPC8 (afterFetch postIncMachine 4)).2
        = some (EA, false, 2, s1) ∧
      ReadIndexedEA (afterFetch postIncMachine 4) = some (EA, s1.addCycles 2)) :=
  ⟨(indexed_indirection_by_bit4 indirectMachine 0x94 (by decide) (by decide)).1 (by decide),
    (indexed_indirection_by_bit4 (afterFetch postIncMachine 4) 0x80 (by decide)
      (by decide)).2 (Or.inl (by decide))⟩

/-- C14 (the code differs): with the post-byte `0x9F` followed by `0x02 0x00` and the word
`0x1234` at `0x0200`, `ReadIndexedEA` returns `0x1234` and adds 8 cycles (5 for the submode
and 3 for the indirection) instead of 5; with bit 4 clear (`0x8F`) it adds 5 cycles and
returns the address `0x0200` itself, not the word stored there. -/
theorem ReadIndexedEA_extended_indirect_at_9F :
    (ReadIndexedEA extIndirectMachine).map (fun r => (r.1, r.2.m_cycles, r.2.PC))
        = some (0x1234, 8, 0x0103) ∧
      (ReadIndexedEA extDirectMachine).map (fun r => (r.1, r.2.m_cycles, r.2.PC))
        = some (0x0200, 5, 0x0103) ∧
      Read16 extDirectMachine 0x0200 = 0x1234 := by
  decide

/-- C15: `ReadIndexedEA` fails exactly for the post-bytes with bit 7 set whose bits 3-0
are `0b0111`, `0b1010` or `0b1110`, and it returns an effective address exactly for the
other post-bytes. -/
theorem ReadIndexedEA_fails_iff_illegal (s : CpuImpl M) :
    (ReadIndexedEA s = none ↔
        (Read8 s s.PC &&& 0x80 ≠ 0 ∧
          (Read8 s s.PC &&& 0xF = 0b0111 ∨ Read8 s s.PC &&& 0xF = 0b1010 ∨
            Read8 s s.PC &&& 0xF = 0b1110))) ∧
      ((∃ EA t, ReadIndexedEA s = some (EA, t)) ↔
        ¬ (Read8 s s.PC &&& 0x80 ≠ 0 ∧
          (Read8 s s.PC &&& 0xF = 0b0111 ∨ Read8 s s.PC &&& 0xF = 0b1010 ∨
            Read8 s s.PC &&& 0xF = 0b1110))) := by
  have key : ReadIndexedEA s = none ↔
      ReadIndexedEABase (Read8 s s.PC) (ReadPC8 s).2 = none := by
    cases hb : ReadIndexedEABase (Read8 s s.PC) (ReadPC8 s).2 with
    | none =>
      have e : ReadIndexedEA s = (match ReadIndexedEABase (Read8 s s.PC) (ReadPC8 s).2 with
        | none => none
        | some (EA, supportsIndirect, extraCycles, s1) =>
          if supportsIndirect && decide (Read8 s s.PC &&& BITS 4 ≠ 0) then
            some (CombineToU16 (Read8 s1 EA) (Read8 s1 (EA + 1)),
              s1.addCycles (extraCycles + 3))
          else some (EA, s1.addCycles extraCycles)) := rfl
      rw [e, hb]
      exact ⟨fun _ => rfl, fun _ => rfl⟩
    | some r =>
      obtain ⟨EA, ind, n, s1⟩ := r
      rw [ReadIndexedEA_of_base s EA n ind s1 hb]
      simp only [reduceCtorEq, iff_false]
      split <;> simp
  have main := key.trans (ReadIndexedEABase_none_iff (Read8 s s.PC) (ReadPC8 s).2)
  refine ⟨main, ⟨fun ⟨EA, t, h⟩ hill => ?_, fun h => ?_⟩⟩
  · rw [main.2 hill] at h
    exact Option.noConfusion h
  · have hne : ReadIndexedEA s ≠ none := fun hn => h (main.1 hn)
    obtain ⟨r, hr⟩ := Option.ne_none_iff_exists'.1 hne
    exact ⟨r.1, r.2, hr⟩

/-- C16: `EXG` and `TFR` with the post-byte `p` fail exactly when `p` is not a valid
transfer post-byte (bit 3 differs from bit 7, or a register index is above 3 in the 8-bit set
`{A, B, CC, DP}` or above 5 in the 16-bit set `{D, X, Y, U, S, PC}`); for a valid `p` bits
6-4 select the source and bits 2-0 the destination from the set of that width, `TFR`
leaves the destination equal to the source and the source unchanged, and `EXG` leaves each
with the other's value (register values as they are once the post-byte has been read). -/
theorem EXG_TFR_fail_iff_invalid (exchange : Bool) (s : CpuImpl M) (p : Nat)
    (hwf : s.toCpuRegisters.WF) (hfetch : Read8 s s.PC = p) :
    (ExchangeOrTransfer exchange s = none ↔
      (p.testBit 3 ≠ p.testBit 7 ∨ (p.testBit 3 = true ∧ (3 < p / 16 % 8 ∨ 3 < p % 8)) ∨
        (p.testBit 3 = false ∧ (5 < p / 16 % 8 ∨ 5 < p % 8)))) ∧
    (specValidTransferPostbyte p = true → p.testBit 3 = true →
      ∃ rs rd t, [Reg8.A, .B, .CCValue, .DP][p / 16 % 8]? = some rs ∧
        [Reg8.A, .B, .CCValue, .DP][p % 8]? = some rd ∧
        ExchangeOrTransfer exchange s = some t ∧
        t.get8 rd = (ReadPC8 s).2.get8 rs ∧
        t.get8 rs = if exchange then (ReadPC8 s).2.get8 rd else (ReadPC8 s).2.get8 rs) ∧
    (specValidTransferPostbyte p = true → p.testBit 3 = false →
      ∃ rs rd t, [Reg16.D, .X, .Y, .U, .S, .PC][p / 16 % 8]? = some rs ∧
        [Reg16.D, .X, .Y, .U, .S, .PC][p % 8]? = some rd ∧
        ExchangeOrTransfer exchange s = some t ∧
        t.get16 rd = (ReadPC8 s).2.get16 rs ∧
        t.get16 rs = if exchange then (ReadPC8 s).2.get16 rd else (ReadPC8 s).2.get16 rs) := by
  have hp : p < 256 := by rw [← hfetch]; exact U8_lt _
  have hE : ExchangeOrTransfer exchange s
      = ExchangeOrTransferRegs exchange p (ReadPC8 s).2 := by
    rw [← hfetch]; rfl
  have hwf1 : (ReadPC8 s).2.toCpuRegisters.WF := (StepOK_ReadPC8 (StepOK_refl s)).1 hwf
  generalize (ReadPC8 s).2 = x at hE hwf1
  rw [hE]
  refine ⟨?_, ?_, ?_⟩
  · rw [← specValid_false_iff p hp]
    constructor
    · intro hnone
      cases hv : specValidTransferPostbyte p with
      | false => rfl
      | true =>
        rcases ExchangeOrTransferRegs_valid (M := M) exchange p hp hv with
          ⟨rs, rd, -, -, h⟩ | ⟨rs, rd, -, -, h⟩ <;>
        · rw [h x] at hnone
          exact Option.noConfusion hnone
    · intro hinv
      unfold ExchangeOrTransferRegs
      rcases invalid_postbyte_fails p hp hinv with h | h
      · rw [if_pos h]
      · by_cases hb : p &&& BITS 3 ≠ 0
        · rw [if_pos hb] at h
          rw [if_pos hb]
          split
          · rfl
          · rcases h with h | h <;> rw [h]
            cases exgReg8 (p >>> 4 &&& 7) <;> rfl
        · rw [if_neg hb] at h
          rw [if_neg hb]
          split
          · rfl
          · rcases h with h | h <;> rw [h]
            cases exgReg16 (p >>> 4 &&& 7) <;> rfl
  · intro hv h3
    have hb : p &&& BITS 3 ≠ 0 := (testBit3_iff p hp).2 h3
    obtain ⟨rs, rd, hrs, hrd, h⟩ := ExchangeOrTransferRegs_valid8 (M := M) exchange p hp hv hb
    rw [shr4_and7, exgReg8_eq_getElem] at hrs
    rw [and7, exgReg8_eq_getElem] at hrd
    refine ⟨rs, rd, _, hrs, hrd, h x, ?_⟩
    cases exchange
    · exact transfer8_effect x rs rd hwf1
    · exact exchange8_effect x rs rd hwf1
  · intro hv h3
    have hb : ¬ p &&& BITS 3 ≠ 0 := fun h => by
      rw [(testBit3_iff p hp).1 h] at h3
      exact Bool.noConfusion h3
    obtain ⟨rs, rd, hrs, hrd, h⟩ := ExchangeOrTransferRegs_valid16 (M := M) exchange p hp hv hb
    rw [shr4_and7, exgReg16_eq_getElem] at hrs
    rw [and7, exgReg16_eq_getElem] at hrd
    refine ⟨rs, rd, _, hrs, hrd, h x, ?_⟩
    cases exchange
    · exact transfer16_effect x rs rd hwf1
    · exact exchange16_effect x rs rd hwf1

theorem EXG_TFR_fail_iff_invalid_witness :
    (ExchangeOrTransfer false tfrMachine = none ↔
      ((0x89).testBit 3 ≠ (0x89).testBit 7 ∨
        ((0x89).testBit 3 = true ∧ (3 < 0x89 / 16 % 8 ∨ 3 < 0x89 % 8)) ∨
        ((0x89).testBit 3 = false ∧ (5 < 0x89 / 16 % 8 ∨ 5 < 0x89 % 8)))) ∧
    (∃ rs rd t, [Reg8.A, .B, .CCValue, .DP][0x89 / 16 % 8]? = some rs ∧
      [Reg8.A, .B, .CCValue, .DP][0x89 % 8]? = some rd ∧
      ExchangeOrTransfer false tfrMachine = some t ∧
      t.get8 rd = (ReadPC8 tfrMachine).2.get8 rs ∧
      t.get8 rs = if false then (ReadPC8 tfrMachine).2.get8 rd
        else (ReadPC8 tfrMachine).2.get8 rs) :=
  ⟨(EXG_TFR_fail_iff_invalid false tfrMachine 0x89 (by decide) (by decide)).1,
    (EXG_TFR_fail_iff_invalid false tfrMachine 0x89 (by decide) (by decide)).2.1
      (by decide) (by decide)⟩

/-- C17 (the code differs): `ORA #$01` with `A = 0x80` leaves `A = 0x81` but `N = 0`, and
`ANDA #$F0` with `A = 0x0F` leaves `A = 0` but `N = 1`, `Z = 0`: `N` and `Z` are computed
from the operand, not from the result. -/
theorem OpOR_flags_at_80_or_01 :
    (OpOR .Immediate .A oraMachine).map (fun t => (t.A, t.CC.Negative, t.CC.Zero))
        = some (0x81, false, false) ∧
      (OpAND .Immediate .A andaMachine).map (fun t => (t.A, t.CC.Negative, t.CC.Zero))
        = some (0x00, true, false) := by
  decide

/-- C18 (the code differs): the 16-bit store of `X = 0x8000` to `0x0200` writes `0x80` and
`0x00` and leaves `X`, `Z = 0`, `V = 0`, but leaves `N = 0` although bit 15 of `X` is set:
`N` is computed from bit 7. -/
theorem OpST16_negative_at_8000 :
    (OpST16 .Extended .X stxMachine).map
        (fun t => (t.X, Read8 t 0x0200, Read8 t 0x0201, t.CC.Negative, t.CC.Zero,
          t.CC.Overflow))
      = some (0x8000, 0x80, 0x00, false, false, false) := by
  decide

/-- C19 (the code differs): `ASL` never sets the carry: for every value `v` and all flags
the 1-bit field `Carry` receives `v & 0x80`, whose low bit is 0; `ASLA` with `A = 0x80`
leaves `A = 0`, `Z = 1`, `V = 1` and `C = 0`, where bit 7 of `v` is 1. -/
theorem ASL_never_sets_carry (v : Nat) (CC : ConditionCode) :
    (AslValue v CC).2.Carry = false ∧
      (onReg8 AslValue .A aslMachine).map
          (fun t => (t.A, t.CC.Carry, t.CC.Zero, t.CC.Overflow, t.CC.Negative))
        = some (0, false, true, true, false) := by
  refine ⟨?_, by decide⟩
  simp only [AslValue, bit1, and_80_even]
  rfl

/-! ## Memory images of pushes and pulls -/

theorem and_BITS_ne_zero_iff (v i : Nat) : (v &&& BITS i ≠ 0) ↔ v.testBit i = true := by
  have e : BITS i = 2 ^ i := by
    unfold BITS
    rw [Nat.shiftLeft_eq, Nat.one_mul]
  have h : v &&& 2 ^ i = (v.testBit i).toNat * 2 ^ i := Nat.and_two_pow v i
  rw [e, h]
  have hp : 0 < 2 ^ i := Nat.pos_pow_of_pos i (by decide)
  cases v.testBit i
  · simp
  · simp only [Bool.toNat_true, Nat.one_mul, ne_eq, iff_true]
    omega

theorem pushAll_eq_spec (r : Reg16) (m : Nat) (s : CpuImpl M) :
    pushAll r m s = specPushAll r m s := by
  unfold pushAll
  simp only [and_BITS_ne_zero_iff]
  rfl

theorem pullAll_eq_spec (r : Reg16) (m : Nat) (s : CpuImpl M) :
    pullAll r m s = specPullAll r m s := by
  unfold pullAll
  simp only [and_BITS_ne_zero_iff]
  rfl

theorem readBytes_bus (x y : CpuImpl M) (h : x.m_memoryBus = y.m_memoryBus) (a n : Nat) :
    readBytes x a n = readBytes y a n := by
  induction n generalizing a with
  | zero => rfl
  | succ n ih =>
    show Read8 x a :: readBytes x (a + 1) n = Read8 y a :: readBytes y (a + 1) n
    rw [ih (a + 1)]
    simp only [Read8, h]

theorem readBytes_mod (x : CpuImpl M) (a b n : Nat) (h : a % 65536 = b % 65536) :
    readBytes x a n = readBytes x b n := by
  induction n generalizing a b with
  | zero => rfl
  | succ n ih =>
    show Read8 x a :: readBytes x (a + 1) n = Read8 x b :: readBytes x (b + 1) n
    rw [ih (a + 1) (b + 1) (by omega)]
    simp only [Read8, U16, h]

theorem readBytes_length (x : CpuImpl M) (a n : Nat) : (readBytes x a n).length = n := by
  induction n generalizing a with
  | zero => rfl
  | succ n ih =>
    show (Read8 x a :: readBytes x (a + 1) n).length = n + 1
    rw [List.length_cons, ih]

theorem readBytes_append (x : CpuImpl M) (a n k : Nat) :
    readBytes x a (n + k) = readBytes x a n ++ readBytes x (a + n) k := by
  induction n generalizing a with
  | zero => simp [readBytes]
  | succ n ih =>
    have e : n + 1 + k = (n + k) + 1 := by omega
    rw [e]
    show Read8 x a :: readBytes x (a + 1) (n + k) = (Read8 x a :: readBytes x (a + 1) n) ++ _
    rw [ih (a + 1)]
    have e2 : a + 1 + n = a + (n + 1) := by omega
    rw [e2]
    rfl

theorem readBytes_write_other (x : CpuImpl M) (a0 v a n : Nat) (h0 : a0 < 65536)
    (hram : RamAt M a0) (hne : ∀ i, i < n → (a + i) % 65536 ≠ a0) :
    readBytes (Write8 x a0 v) a n = readBytes x a n := by
  induction n generalizing a with
  | zero => rfl
  | succ n ih =>
    show Read8 (Write8 x a0 v) a :: readBytes (Write8 x a0 v) (a + 1) n
      = Read8 x a :: readBytes x (a + 1) n
    rw [ih (a + 1) (fun i hi => by
      have := hne (i + 1) (by omega)
      have e : a + 1 + i = a + (i + 1) := by omega
      rw [e]; exact this)]
    have h1 := hne 0 (by omega)
    rw [Nat.add_zero] at h1
    have hr := (hram x.m_memoryBus (U8 v) (U8_lt v)).2 (a % 65536)
      (Nat.mod_lt _ (by decide)) h1
    simp only [Read8, Write8, U16, Nat.mod_eq_of_lt h0, hr]

theorem Push8_image (r : Reg16) (hr : r = .S ∨ r = .U) (t : CpuImpl M) (v k : Nat)
    (ha : t.get16 r < 65536) (hk : k < 65536)
    (hram : RamAt M ((t.get16 r + 65535) % 65536)) :
    (Push8 r v t).get16 r = (t.get16 r + 65535) % 65536 ∧
      readBytes (Push8 r v t) ((Push8 r v t).get16 r) (k + 1)
        = U8 v :: readBytes t (t.get16 r) k ∧
      SameExceptStack r t (Push8 r v t) := by
  have hd : U16 (dec16 (t.get16 r)) = (t.get16 r + 65535) % 65536 := by
    unfold dec16 U16
    split <;> omega
  have hS : (Push8 r v t).get16 r = (t.get16 r + 65535) % 65536 := by
    rcases hr with rfl | rfl <;> exact hd
  have hbus : (Push8 r v t).m_memoryBus
      = MemoryBus.Write t.m_memoryBus ((t.get16 r + 65535) % 65536) (U8 v) := by
    rw [← hd, ← U16_U16]
    rcases hr with rfl | rfl <;> rfl
  refine ⟨hS, ?_, ?_⟩
  · rw [hS]
    show Read8 (Push8 r v t) _ :: readBytes (Push8 r v t) _ k = _
    have h1 : Read8 (Push8 r v t) ((t.get16 r + 65535) % 65536) = U8 v := by
      simp only [Read8, hbus, U16, Nat.mod_mod]
      rw [(hram t.m_memoryBus (U8 v) (U8_lt v)).1]
      exact U8_U8 v
    have h2 : readBytes (Push8 r v t) ((t.get16 r + 65535) % 65536 + 1) k
        = readBytes t (t.get16 r) k := by
      have hb : (Push8 r v t).m_memoryBus
          = (Write8 t ((t.get16 r + 65535) % 65536) v).m_memoryBus := by
        rw [hbus]
        simp only [Write8, U16, Nat.mod_mod]
      rw [readBytes_bus _ _ hb, readBytes_mod _ _ (t.get16 r) k (by omega)]
      exact readBytes_write_other t _ v _ k (Nat.mod_lt _ (by decide)) hram
        (fun i hi => by omega)
    rw [h1, h2]
  · rcases hr with rfl | rfl <;> exact ⟨rfl, rfl, rfl, rfl, rfl, rfl, rfl, rfl⟩

theorem Push16_eq_two_Push8 (r : Reg16) (v : Nat) (t : CpuImpl M) :
    Push16 r v t = Push8 r (U8 (v >>> 8)) (Push8 r (U8 (v &&& 0xFF)) t) := rfl

theorem bytes_length_le (s : CpuImpl M) (it : StackItem) :
    1 ≤ (it.bytes s).length ∧ (it.bytes s).length ≤ 2 := by
  cases it
  · exact ⟨Nat.le_refl 1, Nat.le_succ 1⟩
  · exact ⟨Nat.le_succ 1, Nat.le_refl 2⟩

theorem bytes_eq_of_value (s t : CpuImpl M) (it : StackItem) (h : it.value t = it.value s) :
    it.bytes t = it.bytes s := by
  cases it with
  | r8 q => show [t.get8 q] = [s.get8 q]; rw [show t.get8 q = s.get8 q from h]
  | r16 q =>
    show [t.get16 q / 256, t.get16 q % 256] = [s.get16 q / 256, s.get16 q % 256]
    rw [show t.get16 q = s.get16 q from h]

theorem value_of_SameExceptStack (r : Reg16) (hr : r = .S ∨ r = .U) (s t : CpuImpl M)
    (h : SameExceptStack r s t) (it : StackItem) (hit : it ≠ .r16 r) :
    it.value t = it.value s := by
  obtain ⟨hA, hB, hDP, hCC, hX, hY, hPC, hO⟩ := h
  cases it with
  | r8 q =>
    cases q
    · exact hA
    · exact hB
    · show t.CC.Value = s.CC.Value; rw [hCC]
    · exact hDP
  | r16 q =>
    rcases hr with rfl | rfl <;> cases q
    · show CombineToU16 t.A t.B = CombineToU16 s.A s.B; rw [hA, hB]
    · exact hX
    · exact hY
    · exact hO
    · exact absurd rfl hit
    · exact hPC
    · show CombineToU16 t.A t.B = CombineToU16 s.A s.B; rw [hA, hB]
    · exact hX
    · exact hY
    · exact absurd rfl hit
    · exact hO
    · exact hPC

theorem SameExceptStack_trans (r : Reg16) (s t u : CpuImpl M) (h1 : SameExceptStack r s t)
    (h2 : SameExceptStack r t u) : SameExceptStack r s u := by
  obtain ⟨a1, a2, a3, a4, a5, a6, a7, a8⟩ := h1
  obtain ⟨b1, b2, b3, b4, b5, b6, b7, b8⟩ := h2
  exact ⟨b1.trans a1, b2.trans a2, b3.trans a3, b4.trans a4, b5.trans a5, b6.trans a6,
    b7.trans a7, b8.trans a8⟩

theorem value_lt (s : CpuImpl M) (hwf : s.toCpuRegisters.WF) (it : StackItem) :
    (∀ q, it = .r8 q → it.value s < 256) ∧ it.value s < 65536 := by
  cases it with
  | r8 q =>
    have h := get8_lt s q hwf
    exact ⟨fun _ _ => h, Nat.lt_trans h (by decide)⟩
  | r16 q => exact ⟨fun _ h => StackItem.noConfusion h, get16_lt s q hwf⟩

theorem pushItem_image (r : Reg16) (hr : r = .S ∨ r = .U) (t : CpuImpl M) (it : StackItem)
    (k : Nat) (hwf : t.toCpuRegisters.WF) (hk : k + 2 < 65536)
    (hram : ∀ j, j < (it.bytes t).length → RamAt M ((t.get16 r + 65535 - j) % 65536)) :
    (pushItem r it t).get16 r = (t.get16 r + 65536 - (it.bytes t).length) % 65536 ∧
      readBytes (pushItem r it t) ((pushItem r it t).get16 r) (k + (it.bytes t).length)
        = it.bytes t ++ readBytes t (t.get16 r) k ∧
      SameExceptStack r t (pushItem r it t) := by
  have ha : t.get16 r < 65536 := get16_lt t r hwf
  cases it with
  | r8 q =>
    have h0 := hram 0 (Nat.zero_lt_succ 0)
    rw [Nat.sub_zero] at h0
    obtain ⟨h1, h2, h3⟩ := Push8_image r hr t (t.get8 q) k ha (by omega) h0
    have e : U8 (t.get8 q) = t.get8 q := Nat.mod_eq_of_lt (get8_lt t q hwf)
    rw [e] at h2
    refine ⟨?_, h2, h3⟩
    show (Push8 r (t.get8 q) t).get16 r = (t.get16 r + 65536 - 1) % 65536
    rw [h1]
    rfl
  | r16 q =>
    have hv : t.get16 q < 65536 := get16_lt t q hwf
    have h0 := hram 0 (Nat.zero_lt_succ 1)
    rw [Nat.sub_zero] at h0
    obtain ⟨h1, h2, h3⟩ := Push8_image r hr t (U8 (t.get16 q &&& 0xFF)) k ha (by omega) h0
    have hr1 := hram 1 (Nat.lt_succ_self 1)
    have e1 : (t.get16 r + 65535 - 1) % 65536
        = ((Push8 r (U8 (t.get16 q &&& 0xFF)) t).get16 r + 65535) % 65536 := by
      rw [h1]; omega
    rw [e1] at hr1
    obtain ⟨g1, g2, g3⟩ := Push8_image r hr (Push8 r (U8 (t.get16 q &&& 0xFF)) t)
      (U8 (t.get16 q >>> 8)) (k + 1) (by rw [h1]; exact Nat.mod_lt _ (by decide)) (by omega) hr1
    have elo : U8 (U8 (t.get16 q &&& 0xFF)) = t.get16 q % 256 := by
      rw [U8_U8, and_FF]
      simp only [U8, Nat.mod_mod]
    have ehi : U8 (U8 (t.get16 q >>> 8)) = t.get16 q / 256 := by
      rw [U8_U8, Nat.shiftRight_eq_div_pow]
      simp only [U8]
      omega
    rw [h2, elo, ehi] at g2
    refine ⟨?_, g2, SameExceptStack_trans r _ _ _ h3 g3⟩
    show (Push8 r (U8 (t.get16 q >>> 8)) (Push8 r (U8 (t.get16 q &&& 0xFF)) t)).get16 r
      = (t.get16 r + 65536 - 2) % 65536
    rw [g1, h1]
    omega

theorem stackImage_append (ps qs : List (Nat × StackItem)) (m : Nat) (s : CpuImpl M) :
    stackImage (ps ++ qs) m s = stackImage ps m s ++ stackImage qs m s := by
  induction ps with
  | nil => rfl
  | cons p ps ih =>
    show (if m.testBit p.1 then p.2.bytes s else []) ++ stackImage (ps ++ qs) m s = _
    rw [ih]
    show _ = ((if m.testBit p.1 then p.2.bytes s else []) ++ stackImage ps m s) ++ _
    rw [List.append_assoc]

theorem stackImage_length_le (ps : List (Nat × StackItem)) (m : Nat) (s : CpuImpl M) :
    (stackImage ps m s).length ≤ 2 * ps.length := by
  induction ps with
  | nil => exact Nat.le_refl _
  | cons p ps ih =>
    show ((if m.testBit p.1 then p.2.bytes s else []) ++ stackImage ps m s).length ≤ _
    rw [List.length_append, List.length_cons]
    have := (bytes_length_le s p.2).2
    split
    · omega
    · rw [List.length_nil]; omega

theorem stackImage_length_reverse (ps : List (Nat × StackItem)) (m : Nat) (s : CpuImpl M) :
    (stackImage ps.reverse m s).length = (stackImage ps m s).length := by
  induction ps with
  | nil => rfl
  | cons p ps ih =>
    rw [List.reverse_cons, stackImage_append, List.length_append, ih]
    show _ + ((if m.testBit p.1 then p.2.bytes s else []) ++ []).length
      = ((if m.testBit p.1 then p.2.bytes s else []) ++ stackImage ps m s).length
    rw [List.length_append, List.length_append, List.length_nil]
    omega

theorem push_fold_image (r : Reg16) (hr : r = .S ∨ r = .U) (m : Nat) (s : CpuImpl M)
    (hs : s.get16 r < 65536) (n : Nat) (hn : n ≤ 65533)
    (hram : ∀ a, a < 65536 → InStack (s.get16 r) n a → RamAt M a) :
    ∀ (ps : List (Nat × StackItem)) (t : CpuImpl M) (k : Nat),
      (∀ p, p ∈ ps → p.2 ≠ .r16 r) → t.toCpuRegisters.WF → SameExceptStack r s t →
      t.get16 r = (s.get16 r + 65536 - k) % 65536 →
      k + (stackImage ps m s).length ≤ n →
      (ps.foldl (fun acc p => if m.testBit p.1 then pushItem r p.2 acc else acc)
          t).toCpuRegisters.WF ∧
        SameExceptStack r s
          (ps.foldl (fun acc p => if m.testBit p.1 then pushItem r p.2 acc else acc) t) ∧
        (ps.foldl (fun acc p => if m.testBit p.1 then pushItem r p.2 acc else acc) t).get16 r
          = (s.get16 r + 65536 - (k + (stackImage ps m s).length)) % 65536 ∧
        readBytes (ps.foldl (fun acc p => if m.testBit p.1 then pushItem r p.2 acc else acc) t)
            ((ps.foldl (fun acc p => if m.testBit p.1 then pushItem r p.2 acc else acc)
              t).get16 r) (k + (stackImage ps m s).length)
          = stackImage ps.reverse m s ++ readBytes t (t.get16 r) k := by
  intro ps
  induction ps with
  | nil =>
    intro t k _ hwf hsame hptr _
    exact ⟨hwf, hsame, hptr, rfl⟩
  | cons p ps ih =>
    intro t k hval hwf hsame hptr hlen
    have hval' : ∀ q, q ∈ ps → q.2 ≠ .r16 r := fun q hq => hval q (List.mem_cons_of_mem _ hq)
    have himg : stackImage (p :: ps) m s
        = (if m.testBit p.1 then p.2.bytes s else []) ++ stackImage ps m s := rfl
    have hrev : stackImage (p :: ps).reverse m s
        = stackImage ps.reverse m s ++ (if m.testBit p.1 then p.2.bytes s else []) := by
      rw [List.reverse_cons, stackImage_append]
      show _ ++ ((if m.testBit p.1 then p.2.bytes s else []) ++ []) = _
      rw [List.append_nil]
    rw [List.foldl_cons, himg, hrev]
    rw [himg, List.length_append] at hlen
    by_cases hb : m.testBit p.1 = true
    · simp only [hb, if_true, List.length_append] at hlen ⊢
      have hbs : p.2.bytes t = p.2.bytes s :=
        bytes_eq_of_value s t p.2
          (value_of_SameExceptStack r hr s t hsame p.2 (hval p (List.mem_cons_self _ _)))
      have hl := bytes_length_le s p.2
      obtain ⟨h1, h2, h3⟩ := pushItem_image r hr t p.2 k hwf (by omega) (fun j hj => by
        rw [hbs] at hj
        apply hram _ (Nat.mod_lt _ (by decide))
        unfold InStack
        rw [hptr]
        omega)
      rw [hbs] at h1 h2
      have hwf1 : (pushItem r p.2 t).toCpuRegisters.WF := by
        cases p.2 with
        | r8 q => exact (StepOK_pushReg8 (StepOK_refl t)).1 hwf
        | r16 q => exact (StepOK_pushReg16 (StepOK_refl t)).1 hwf
      obtain ⟨g1, g2, g3, g4⟩ := ih (pushItem r p.2 t) (k + (p.2.bytes s).length) hval' hwf1
        (SameExceptStack_trans r _ _ _ hsame h3) (by rw [h1, hptr]; omega) (by omega)
      refine ⟨g1, g2, ?_, ?_⟩
      · rw [g3]
        congr 2
        omega
      · have e : k + ((p.2.bytes s).length + (stackImage ps m s).length)
            = k + (p.2.bytes s).length + (stackImage ps m s).length := by omega
        rw [e, g4, h2, List.append_assoc]
    · have hb' : m.testBit p.1 = false := by
        cases h : m.testBit p.1
        · rfl
        · exact absurd h hb
      simp only [hb', Bool.false_eq_true, if_false, List.length_nil, Nat.zero_add,
        List.append_nil, List.length_append, List.nil_append] at hlen ⊢
      exact ih t k hval' hwf hsame hptr hlen

theorem value_set16_pointer (r : Reg16) (hr : r = .S ∨ r = .U) (x : CpuImpl M) (v : Nat)
    (it : StackItem) (hit : it ≠ .r16 r) : it.value (x.set16 r v) = it.value x := by
  rcases hr with rfl | rfl <;> cases it with
  | r8 q => cases q <;> rfl
  | r16 q =>
    cases q <;> first
      | rfl
      | exact absurd rfl hit

theorem value_set8_other (x : CpuImpl M) (q : Reg8) (v : Nat) (it : StackItem)
    (hit : it ≠ .r8 q) (hD : it ≠ .r16 .D) : it.value (x.set8 q v) = it.value x := by
  cases it with
  | r8 q' =>
    cases q <;> cases q' <;> first
      | rfl
      | exact absurd rfl hit
  | r16 q' =>
    cases q' <;> first
      | exact absurd rfl hD
      | (cases q <;> rfl)

theorem value_set16_other (x : CpuImpl M) (q : Reg16) (v : Nat) (hq : q ≠ .D)
    (it : StackItem) (hit : it ≠ .r16 q) (hD : it ≠ .r16 .D) :
    it.value (x.set16 q v) = it.value x := by
  cases it with
  | r8 q' =>
    cases q <;> first
      | exact absurd rfl hq
      | (cases q' <;> rfl)
  | r16 q' =>
    cases q <;> cases q' <;> first
      | rfl
      | exact absurd rfl hit

theorem pointer_after_set16 (r : Reg16) (hr : r = .S ∨ r = .U) (x : CpuImpl M) (v : Nat) :
    (x.set16 r v).get16 r = U16 v ∧ (x.set16 r v).m_memoryBus = x.m_memoryBus := by
  rcases hr with rfl | rfl <;> exact ⟨rfl, rfl⟩

theorem pull8_eq (r : Reg16) (q : Reg8) (u : CpuImpl M) :
    pull8 r q u = (u.set16 r (u.get16 r + 1)).set8 q (Read8 u (u.get16 r)) := rfl

theorem bus_set8 (x : CpuImpl M) (q : Reg8) (v : Nat) :
    (x.set8 q v).m_memoryBus = x.m_memoryBus := by
  cases q <;> rfl

theorem bus_set16 (x : CpuImpl M) (q : Reg16) (v : Nat) :
    (x.set16 q v).m_memoryBus = x.m_memoryBus := by
  cases q <;> rfl

theorem pull16_eq (r : Reg16) (hr : r = .S ∨ r = .U) (q : Reg16) (u : CpuImpl M) :
    pull16 r q u = ((u.set16 r (u.get16 r + 1)).set16 r (U16 (u.get16 r + 1) + 1)).set16 q
      (CombineToU16 (Read8 u (u.get16 r)) (Read8 u (u.get16 r + 1))) := by
  have h := pointer_after_set16 r hr u (u.get16 r + 1)
  have e : Read8 u (u.get16 r + 1) = Read8 (u.set16 r (u.get16 r + 1))
      ((u.set16 r (u.get16 r + 1)).get16 r) := by
    rw [h.1]
    simp only [Read8, h.2, U16, Nat.mod_mod]
  rw [e, ← h.1]
  rfl

theorem pullItem_decode (r : Reg16) (hr : r = .S ∨ r = .U) (u s0 : CpuImpl M)
    (it : StackItem) (hit : it ≠ .r16 r) (hD : it ≠ .r16 .D)
    (hwf0 : s0.toCpuRegisters.WF) :
    (pullItem r it u).m_memoryBus = u.m_memoryBus ∧
      (pullItem r it u).get16 r = (u.get16 r + (it.bytes s0).length) % 65536 ∧
      (readBytes u (u.get16 r) (it.bytes s0).length = it.bytes s0 →
        it.value (pullItem r it u) = it.value s0) ∧
      ∀ it', it' ≠ it → it' ≠ .r16 r → it' ≠ .r16 .D →
        it'.value (pullItem r it u) = it'.value u := by
  have hrD : StackItem.r16 r ≠ .r16 .D := by
    rcases hr with rfl | rfl <;> exact fun h => Reg16.noConfusion (StackItem.r16.inj h)
  cases it with
  | r8 q =>
    show (pull8 r q u).m_memoryBus = _ ∧ (pull8 r q u).get16 r = (u.get16 r + 1) % 65536 ∧
      (readBytes u (u.get16 r) 1 = [s0.get8 q] → (pull8 r q u).get8 q = s0.get8 q) ∧
      ∀ it' : StackItem, it' ≠ .r8 q → it' ≠ .r16 r → it' ≠ .r16 .D →
        it'.value (pull8 r q u) = it'.value u
    rw [pull8_eq]
    have hp := pointer_after_set16 r hr u (u.get16 r + 1)
    refine ⟨?_, ?_, ?_, ?_⟩
    · rw [bus_set8, hp.2]
    · have h := value_set8_other (u.set16 r (u.get16 r + 1)) q (Read8 u (u.get16 r))
        (.r16 r) (fun h => StackItem.noConfusion h) hrD
      exact h.trans hp.1
    · intro himg
      have hv : Read8 u (u.get16 r) = s0.get8 q := List.head_eq_of_cons_eq himg
      rw [get8_set8 _ q q _ (by rw [hv]; exact get8_lt s0 q hwf0), if_pos rfl, hv]
    · intro it' h1 h2 h3
      rw [value_set8_other _ q _ it' h1 h3, value_set16_pointer r hr u _ it' h2]
  | r16 q =>
    have hq : q ≠ .D := fun h => hD (by rw [h])
    show (pull16 r q u).m_memoryBus = _ ∧ (pull16 r q u).get16 r = (u.get16 r + 2) % 65536 ∧
      (readBytes u (u.get16 r) 2 = [s0.get16 q / 256, s0.get16 q % 256] →
        (pull16 r q u).get16 q = s0.get16 q) ∧
      ∀ it' : StackItem, it' ≠ .r16 q → it' ≠ .r16 r → it' ≠ .r16 .D →
        it'.value (pull16 r q u) = it'.value u
    rw [pull16_eq r hr]
    have hp := pointer_after_set16 r hr (u.set16 r (u.get16 r + 1)) (U16 (u.get16 r + 1) + 1)
    refine ⟨?_, ?_, ?_, ?_⟩
    · rw [bus_set16, bus_set16, bus_set16]
    · have h := value_set16_other ((u.set16 r (u.get16 r + 1)).set16 r
        (U16 (u.get16 r + 1) + 1)) q
        (CombineToU16 (Read8 u (u.get16 r)) (Read8 u (u.get16 r + 1))) hq (.r16 r)
        (fun h => hit h.symm) hrD
      refine h.trans (hp.1.trans ?_)
      simp only [U16]
      omega
    · intro himg
      have hv := get16_lt s0 q hwf0
      have h1 : Read8 u (u.get16 r) = s0.get16 q / 256 := List.head_eq_of_cons_eq himg
      have h2 : Read8 u (u.get16 r + 1) = s0.get16 q % 256 :=
        List.head_eq_of_cons_eq (List.tail_eq_of_cons_eq himg)
      have hc : CombineToU16 (Read8 u (u.get16 r)) (Read8 u (u.get16 r + 1)) = s0.get16 q := by
        rw [h1, h2, CombineToU16_eq]
        omega
      rw [hc, get16_set16 _ q q _ hv, if_pos rfl]
    · intro it' h1 h2 h3
      rw [value_set16_other _ q _ hq it' h1 h3, value_set16_pointer r hr _ _ it' h2,
        value_set16_pointer r hr u _ it' h2]

theorem pull_fold_decode (r : Reg16) (hr : r = .S ∨ r = .U) (m : Nat) (s0 : CpuImpl M)
    (hwf0 : s0.toCpuRegisters.WF) :
    ∀ (ps : List (Nat × StackItem)) (u : CpuImpl M),
      (∀ p, p ∈ ps → p.2 ≠ .r16 r ∧ p.2 ≠ .r16 .D) → (ps.map Prod.snd).Nodup →
      readBytes u (u.get16 r) (stackImage ps m s0).length = stackImage ps m s0 →
      (ps.foldl (fun acc p => if m.testBit p.1 then pullItem r p.2 acc else acc)
          u).m_memoryBus = u.m_memoryBus ∧
        (ps.foldl (fun acc p => if m.testBit p.1 then pullItem r p.2 acc else acc) u).get16 r
          % 65536 = (u.get16 r + (stackImage ps m s0).length) % 65536 ∧
        (∀ p, p ∈ ps → m.testBit p.1 = true →
          p.2.value (ps.foldl (fun acc p => if m.testBit p.1 then pullItem r p.2 acc else acc)
            u) = p.2.value s0) ∧
        ∀ it : StackItem, it ≠ .r16 r → it ≠ .r16 .D →
          (∀ p, p ∈ ps → m.testBit p.1 = true → p.2 ≠ it) →
          it.value (ps.foldl (fun acc p => if m.testBit p.1 then pullItem r p.2 acc else acc)
            u) = it.value u := by
  intro ps
  induction ps with
  | nil =>
    intro u _ _ _
    exact ⟨rfl, rfl, fun p hp => absurd hp (List.not_mem_nil p), fun _ _ _ _ => rfl⟩
  | cons p ps ih =>
    intro u hval hnd himg
    have hval' : ∀ q, q ∈ ps → q.2 ≠ .r16 r ∧ q.2 ≠ .r16 .D :=
      fun q hq => hval q (List.mem_cons_of_mem _ hq)
    have hnd' : (ps.map Prod.snd).Nodup := (List.nodup_cons.mp hnd).2
    have hnot : ∀ q, q ∈ ps → q.2 ≠ p.2 := fun q hq h =>
      (List.nodup_cons.mp hnd).1 (h ▸ List.mem_map_of_mem Prod.snd hq)
    have hsi : stackImage (p :: ps) m s0
        = (if m.testBit p.1 then p.2.bytes s0 else []) ++ stackImage ps m s0 := rfl
    rw [List.foldl_cons, hsi]
    rw [hsi] at himg
    by_cases hb : m.testBit p.1 = true
    · simp only [hb, if_true, List.length_append] at himg ⊢
      obtain ⟨d1, d2, d3, d4⟩ :=
        pullItem_decode r hr u s0 p.2 (hval p (List.mem_cons_self _ _)).1
          (hval p (List.mem_cons_self _ _)).2 hwf0
      rw [readBytes_append] at himg
      have hsplit := List.append_inj himg (readBytes_length u _ _)
      have hrest : readBytes (pullItem r p.2 u) ((pullItem r p.2 u).get16 r)
          (stackImage ps m s0).length = stackImage ps m s0 := by
        rw [readBytes_bus _ u d1, readBytes_mod u _ (u.get16 r + (p.2.bytes s0).length) _
          (by rw [d2, Nat.mod_mod])]
        exact hsplit.2
      obtain ⟨g1, g2, g3, g4⟩ := ih (pullItem r p.2 u) hval' hnd' hrest
      refine ⟨g1.trans d1, ?_, ?_, ?_⟩
      · rw [g2, d2]
        omega
      · intro q hq hqb
        rcases List.mem_cons.mp hq with rfl | hq'
        · rw [g4 q.2 (hval q (List.mem_cons_self _ _)).1 (hval q (List.mem_cons_self _ _)).2
            (fun q' hq' _ => hnot q' hq')]
          exact d3 hsplit.1
        · exact g3 q hq' hqb
      · intro it h1 h2 h3
        rw [g4 it h1 h2 (fun q hq hqb => h3 q (List.mem_cons_of_mem _ hq) hqb)]
        exact d4 it (fun h => h3 p (List.mem_cons_self _ _) hb h.symm) h1 h2
    · simp only [hb, List.nil_append] at himg ⊢
      obtain ⟨g1, g2, g3, g4⟩ := ih u hval' hnd' himg
      refine ⟨g1, g2, ?_, ?_⟩
      · intro q hq hqb
        rcases List.mem_cons.mp hq with rfl | hq'
        · exact absurd hqb hb
        · exact g3 q hq' hqb
      · intro it h1 h2 h3
        exact g4 it h1 h2 (fun q hq hqb => h3 q (List.mem_cons_of_mem _ hq) hqb)

theorem specPullOrder_valid (r : Reg16) (hr : r = .S ∨ r = .U) :
    (∀ p, p ∈ specPullOrder r → p.2 ≠ .r16 r ∧ p.2 ≠ .r16 .D) ∧
      ((specPullOrder r).map Prod.snd).Nodup := by
  rcases hr with rfl | rfl <;> exact ⟨by decide, by decide⟩

theorem stackImage_specPullOrder_length (r : Reg16) (m : Nat) (s : CpuImpl M) :
    (stackImage (specPullOrder r) m s).length ≤ 12 := by
  have h : ∀ (c : Bool) (it : StackItem) (n : Nat), (it.bytes s).length ≤ n →
      (if c = true then it.bytes s else []).length ≤ n := by
    intro c it n hn
    cases c
    · exact Nat.zero_le _
    · exact hn
  have h0 := h (m.testBit 0) (.r8 .CCValue) 1 (Nat.le_refl _)
  have h1 := h (m.testBit 1) (.r8 .A) 1 (Nat.le_refl _)
  have h2 := h (m.testBit 2) (.r8 .B) 1 (Nat.le_refl _)
  have h3 := h (m.testBit 3) (.r8 .DP) 1 (Nat.le_refl _)
  have h4 := h (m.testBit 4) (.r16 .X) 2 (Nat.le_refl _)
  have h5 := h (m.testBit 5) (.r16 .Y) 2 (Nat.le_refl _)
  have h6 := h (m.testBit 6) (.r16 (if r = .S then .U else .S)) 2 (Nat.le_refl _)
  have h7 := h (m.testBit 7) (.r16 .PC) 2 (Nat.le_refl _)
  simp only [specPullOrder, stackImage, List.length_append, List.length_nil]
  omega

theorem FlatRam_RamAt (a0 : Nat) : RamAt FlatRam a0 := by
  intro b v _
  refine ⟨?_, ?_⟩
  · show (if a0 = a0 then v else b.bytes a0) = v
    rw [if_pos rfl]
  · intro a' _ hne
    show (if a' = a0 then v else b.bytes a') = b.bytes a'
    rw [if_neg hne]

/-! ## The claims on increments, stack order, calls and long branches -/

theorem decide_and_BITS (v i : Nat) : decide (v &&& BITS i ≠ 0) = v.testBit i := by
  by_cases h : v.testBit i = true
  · rw [h]
    exact decide_eq_true ((and_BITS_ne_zero_iff v i).mpr h)
  · rw [Bool.eq_false_iff.mpr h]
    exact decide_eq_false (fun hc => h ((and_BITS_ne_zero_iff v i).mp hc))

theorem dec_result (v : Nat) : U8 (v + 255) = (((v : Int) - 1) % 256).toNat := by
  unfold U8
  omega

/-- C21: for the value `v` of an accumulator and for the byte at an effective
address, `INC` gives `(v + 1) mod 256` with `V` set iff the result is 0 and `DEC` gives
`(v - 1) mod 256` with `V` set iff `v = 0x80`; both set `N` to bit 7 of the result and `Z`
iff the result is 0 and leave `C` and the other flags as they were. The register forms put
the result into the register, the memory forms write it to the effective address, and both
follow the same rule. -/
theorem INC_DEC_result_and_flags (s : CpuImpl M) (reg : Reg8) (hreg : reg = .A ∨ reg = .B) :
    (∃ t, OpINC8 reg s = some t ∧ t.get8 reg = (specINC (s.get8 reg) s.CC).1 ∧
        t.CC = (specINC (s.get8 reg) s.CC).2) ∧
      (∃ t, OpDEC8 reg s = some t ∧ t.get8 reg = (specDEC (s.get8 reg) s.CC).1 ∧
        t.CC = (specDEC (s.get8 reg) s.CC).2) ∧
      ∀ mode EA s1, ReadEA16 mode s = some (EA, s1) →
        OpINCm mode s = some ((Write8 s1 EA (specINC (Read8 s1 EA) s1.CC).1).setCC
          (specINC (Read8 s1 EA) s1.CC).2) ∧
        OpDECm mode s = some ((Write8 s1 EA (specDEC (Read8 s1 EA) s1.CC).1).setCC
          (specDEC (Read8 s1 EA) s1.CC).2) := by
  refine ⟨?_, ?_, ?_⟩
  · refine ⟨_, rfl, ?_, ?_⟩
    · rcases hreg with rfl | rfl <;> rfl
    · rcases hreg with rfl | rfl <;>
        simp only [CpuImpl.set8, CpuImpl.get8, CpuImpl.setCC, specINC, decide_and_BITS, U8]
  · refine ⟨_, rfl, ?_, ?_⟩
    · rcases hreg with rfl | rfl <;> exact dec_result _
    · rcases hreg with rfl | rfl <;>
        simp only [CpuImpl.set8, CpuImpl.get8, CpuImpl.setCC, specDEC, decide_and_BITS,
          dec_result]
  · intro mode EA s1 hea
    refine ⟨?_, ?_⟩
    · unfold OpINCm
      rw [hea]
      simp only [CpuImpl.setCC, Write8, specINC, decide_and_BITS, U8]
    · unfold OpDECm
      rw [hea]
      simp only [CpuImpl.setCC, Write8, specDEC, decide_and_BITS, dec_result]

theorem INC_DEC_result_and_flags_witness :
    (∃ t, OpINC8 .A pshsMachine = some t ∧
        t.get8 .A = (specINC (pshsMachine.get8 .A) pshsMachine.CC).1 ∧
        t.CC = (specINC (pshsMachine.get8 .A) pshsMachine.CC).2) ∧
      (∃ t, OpDEC8 .A pshsMachine = some t ∧
        t.get8 .A = (specDEC (pshsMachine.get8 .A) pshsMachine.CC).1 ∧
        t.CC = (specDEC (pshsMachine.get8 .A) pshsMachine.CC).2) ∧
      ∀ mode EA s1, ReadEA16 mode pshsMachine = some (EA, s1) →
        OpINCm mode pshsMachine = some ((Write8 s1 EA (specINC (Read8 s1 EA) s1.CC).1).setCC
          (specINC (Read8 s1 EA) s1.CC).2) ∧
        OpDECm mode pshsMachine = some ((Write8 s1 EA (specDEC (Read8 s1 EA) s1.CC).1).setCC
          (specDEC (Read8 s1 EA) s1.CC).2) :=
  INC_DEC_result_and_flags pshsMachine .A (Or.inl rfl)

/-- C22: for every mask `m`, the pushes of `OpPSH` on the stack `r` (`S` or `U`) are the
pushes of the selected registers in the order `PC, U/S, Y, X, DP, B, A, CC`; over writable
stack memory they leave, from the new stack pointer upwards, the bytes of the selected
registers in the order `CC, A, B, DP, X, Y, U/S, PC`, each 16-bit value big-endian, and
change no other register. The pulls of `OpPUL` are the pulls in the reverse order, `CC`
first and `PC` last: from such an image every selected register gets its pushed value,
every other register of the list keeps its own, and the stack pointer moves up by the
length of the image. -/
theorem PSH_PUL_canonical_order (r : Reg16) (hr : r = .S ∨ r = .U) (m : Nat) (s : CpuImpl M)
    (hwf : s.toCpuRegisters.WF)
    (hram : ∀ a, a < 65536 → InStack (s.get16 r) 12 a → RamAt M a) :
    pushAll r m s = specPushAll r m s ∧
      SameExceptStack r s (pushAll r m s) ∧
      (pushAll r m s).get16 r
        = (s.get16 r + 65536 - (stackImage (specPullOrder r) m s).length) % 65536 ∧
      readBytes (pushAll r m s) ((pushAll r m s).get16 r)
          (stackImage (specPullOrder r) m s).length = stackImage (specPullOrder r) m s ∧
      ∀ u : CpuImpl M, pullAll r m u = specPullAll r m u ∧
        (readBytes u (u.get16 r) (stackImage (specPullOrder r) m s).length
            = stackImage (specPullOrder r) m s →
          (pullAll r m u).m_memoryBus = u.m_memoryBus ∧
          (pullAll r m u).get16 r % 65536
            = (u.get16 r + (stackImage (specPullOrder r) m s).length) % 65536 ∧
          ∀ p, p ∈ specPullOrder r →
            p.2.value (pullAll r m u)
              = if m.testBit p.1 = true then p.2.value s else p.2.value u) := by
  obtain ⟨hval, hnd⟩ := specPullOrder_valid r hr
  have hlen := stackImage_specPullOrder_length r m s
  have hlenr := stackImage_length_reverse (specPullOrder r) m s
  have hpush := push_fold_image r hr m s (get16_lt s r hwf) 12 (by decide) hram
    (specPullOrder r).reverse s 0
    (fun p hp => (hval p (List.mem_reverse.mp hp)).1) hwf
    ⟨rfl, rfl, rfl, rfl, rfl, rfl, rfl, rfl⟩
    (by have := get16_lt s r hwf; omega)
    (by rw [hlenr]; omega)
  rw [hlenr, List.reverse_reverse, Nat.zero_add] at hpush
  obtain ⟨-, p2, p3, p4⟩ := hpush
  rw [pushAll_eq_spec]
  refine ⟨rfl, p2, p3, ?_, ?_⟩
  · exact p4.trans (List.append_nil _)
  · intro u
    rw [pullAll_eq_spec]
    refine ⟨rfl, fun himg => ?_⟩
    obtain ⟨g1, g2, g3, g4⟩ := pull_fold_decode r hr m s hwf (specPullOrder r) u hval hnd himg
    refine ⟨g1, g2, fun p hp => ?_⟩
    by_cases hb : m.testBit p.1 = true
    · rw [if_pos hb]
      exact g3 p hp hb
    · rw [if_neg hb]
      refine g4 p.2 (hval p hp).1 (hval p hp).2 (fun q hq hqb h => hb ?_)
      have e : q = p := List.inj_on_of_nodup_map hnd hq hp h
      rw [← e]
      exact hqb

theorem PSH_PUL_canonical_order_witness :
    pushAll .S 0x16 pshsMachine = specPushAll .S 0x16 pshsMachine ∧
      SameExceptStack .S pshsMachine (pushAll .S 0x16 pshsMachine) ∧
      (pushAll .S 0x16 pshsMachine).get16 .S
        = (pshsMachine.get16 .S + 65536
            - (stackImage (specPullOrder .S) 0x16 pshsMachine).length) % 65536 ∧
      readBytes (pushAll .S 0x16 pshsMachine) ((pushAll .S 0x16 pshsMachine).get16 .S)
          (stackImage (specPullOrder .S) 0x16 pshsMachine).length
        = stackImage (specPullOrder .S) 0x16 pshsMachine ∧
      ∀ u : CpuImpl FlatRam, pullAll .S 0x16 u = specPullAll .S 0x16 u ∧
        (readBytes u (u.get16 .S) (stackImage (specPullOrder .S) 0x16 pshsMachine).length
            = stackImage (specPullOrder .S) 0x16 pshsMachine →
          (pullAll .S 0x16 u).m_memoryBus = u.m_memoryBus ∧
          (pullAll .S 0x16 u).get16 .S % 65536
            = (u.get16 .S + (stackImage (specPullOrder .S) 0x16 pshsMachine).length)
              % 65536 ∧
          ∀ p, p ∈ specPullOrder .S →
            p.2.value (pullAll .S 0x16 u)
              = if Nat.testBit 0x16 p.1 = true then p.2.value pshsMachine
                else p.2.value u) :=
  PSH_PUL_canonical_order .S (Or.inl rfl) 0x16 pshsMachine (by decide)
    (fun a _ _ => FlatRam_RamAt a)

theorem call_then_return (tbl : Nat → Nat → CpuOp) (s : CpuImpl M) (op : Nat) (h : Handler)
    (hfetch : Read8 s s.PC = op) (h10 : op ≠ 0x10) (h11 : op ≠ 0x11)
    (hentry : (tbl 0 op).opCode = op) (hcyc : 0 < (tbl 0 op).cycles)
    (hmode : (tbl 0 op).addrMode ≠ .Illegal ∧ (tbl 0 op).addrMode ≠ .Variant)
    (hd : dispatchPage0 op = some h) (s1 : CpuImpl M) (target : Nat)
    (hwf1 : s1.toCpuRegisters.WF)
    (hrun : h.run (tbl 0 op).addrMode (afterFetch s (tbl 0 op).cycles)
      = some ((Push16 .S s1.PC s1).set16 .PC target))
    (hram : ∀ a, a < 65536 → InStack s1.S 2 a → RamAt M a)
    (hrts : (tbl 0 0x39).opCode = 0x39 ∧ 0 < (tbl 0 0x39).cycles ∧
      (tbl 0 0x39).addrMode = .Inherent) :
    ∃ c1 t1, ExecuteInstruction tbl s = some (c1, t1) ∧ t1.PC = target % 65536 ∧
      t1.S = (s1.S + 65536 - 2) % 65536 ∧
      readBytes t1 t1.S 2 = [s1.PC / 256, s1.PC % 256] ∧
      (Read8 t1 t1.PC = 0x39 →
        ∃ c2 t2, ExecuteInstruction tbl t1 = some (c2, t2) ∧ t2.PC = s1.PC ∧ t2.S = s1.S) := by
  have hE1 := ExecuteInstruction_page0 tbl s op h hfetch h10 h11 hentry hcyc hmode hd
  rw [hrun] at hE1
  have hS1 : s1.S < 65536 := hwf1.2.2.2.1
  have hram' : ∀ j, j < 2 → RamAt M ((s1.S + 65535 - j) % 65536) := by
    intro j hj
    apply hram _ (Nat.mod_lt _ (by decide))
    unfold InStack
    omega
  obtain ⟨p1, p2, -⟩ := pushItem_image .S (Or.inl rfl) s1 (.r16 .PC) 0 hwf1 (by decide) hram'
  have p1' : (Push16 .S s1.PC s1).S = (s1.S + 65536 - 2) % 65536 := p1
  have p2' : readBytes (Push16 .S s1.PC s1) (Push16 .S s1.PC s1).S 2
      = [s1.PC / 256, s1.PC % 256] := p2
  refine ⟨_, _, hE1, rfl, p1', ?_, ?_⟩
  · rw [← p2']
    exact readBytes_bus _ _ rfl _ _
  · intro hret
    have hE2 := ExecuteInstruction_page0 tbl ((Push16 .S s1.PC s1).set16 .PC target) 0x39 .RTS
      hret (by decide) (by decide) hrts.1 hrts.2.1
      (by rw [hrts.2.2]; exact ⟨by decide, by decide⟩) rfl
    obtain ⟨-, d2, d3, -⟩ := pullItem_decode .S (Or.inl rfl)
      (afterFetch ((Push16 .S s1.PC s1).set16 .PC target) (tbl 0 0x39).cycles) s1 (.r16 .PC)
      (by decide) (by decide) hwf1
    have hb : readBytes (afterFetch ((Push16 .S s1.PC s1).set16 .PC target)
        (tbl 0 0x39).cycles) (Push16 .S s1.PC s1).S 2 = [s1.PC / 256, s1.PC % 256] := by
      rw [← p2']
      exact readBytes_bus _ _ rfl _ _
    refine ⟨_, _, hE2, d3 hb, ?_⟩
    refine d2.trans ?_
    show ((Push16 .S s1.PC s1).S + 2) % 65536 = s1.S
    rw [p1']
    omega

theorem afterFetch_regs (s : CpuImpl M) (c : Nat) :
    (afterFetch s c).S = s.S ∧ (afterFetch s c).PC = (s.PC + 1) % 65536 ∧
      (s.toCpuRegisters.WF → (afterFetch s c).toCpuRegisters.WF) := by
  refine ⟨rfl, rfl, fun hwf => ?_⟩
  exact (StepOK_addCycles (StepOK_ReadPC8 (StepOK_refl _))).1 hwf

theorem callOperand_fixed (op : Nat) (hop : op = 0x8D ∨ op = 0x17 ∨ op = 0x9D ∨ op = 0xBD)
    (x : CpuImpl M) :
    ∃ target s1, callOperand op x = some (target, s1) ∧ s1.S = x.S ∧
      s1.PC = (x.PC + (if op = 0x8D ∨ op = 0x9D then 1 else 2)) % 65536 := by
  rcases hop with rfl | rfl | rfl | rfl
  · exact ⟨_, _, rfl, rfl, rfl⟩
  · exact ⟨_, _, rfl, rfl, rfl⟩
  · exact ⟨_, _, rfl, rfl, rfl⟩
  · refine ⟨_, _, rfl, rfl, ?_⟩
    show ((x.PC + 1) % 65536 + 1) % 65536 = (x.PC + 2) % 65536
    omega

theorem callOperand_run (op : Nat) (hop : op ∈ [0x8D, 0x17, 0x9D, 0xAD, 0xBD])
    (mode : AddressingMode) (hmode : mode = callMode op) (x s1 : CpuImpl M) (target : Nat)
    (h : callOperand op x = some (target, s1)) :
    StepOK x s1 ∧ ∃ hd, dispatchPage0 op = some hd ∧
      hd.run mode x = some ((Push16 .S s1.PC s1).set16 .PC target) := by
  simp only [List.mem_cons, List.mem_singleton, List.not_mem_nil, or_false] at hop
  rcases hop with rfl | rfl | rfl | rfl | rfl
  · simp only [callOperand, Option.some.injEq, Prod.mk.injEq] at h
    obtain ⟨h1, h2⟩ := h
    subst h2
    subst h1
    exact ⟨StepOK_ReadPC8 (StepOK_refl x), .BSR, rfl, rfl⟩
  · simp only [callOperand, Option.some.injEq, Prod.mk.injEq] at h
    obtain ⟨h1, h2⟩ := h
    subst h2
    subst h1
    exact ⟨StepOK_ReadPC16 (StepOK_refl x), .LBSR, rfl, rfl⟩
  · have h' : ReadEA16 .Direct x = some (target, s1) := h
    refine ⟨ReadEA16_step _ _ _ _ h', .JSR, rfl, ?_⟩
    subst hmode
    show OpJSR .Direct x = _
    unfold OpJSR
    rw [h']
  · have h' : ReadEA16 .Indexed x = some (target, s1) := h
    refine ⟨ReadEA16_step _ _ _ _ h', .JSR, rfl, ?_⟩
    subst hmode
    show OpJSR .Indexed x = _
    unfold OpJSR
    rw [h']
  · have h' : ReadEA16 .Extended x = some (target, s1) := h
    refine ⟨ReadEA16_step _ _ _ _ h', .JSR, rfl, ?_⟩
    subst hmode
    show OpJSR .Extended x = _
    unfold OpJSR
    rw [h']

theorem dispatchPage1_long_branch (op : Nat) (h1 : 0x21 ≤ op) (h2 : op ≤ 0x2F) :
    dispatchPage1 op = none := by
  interval_cases op <;> rfl

theorem ExecuteInstruction_page1_unhandled (tbl : Nat → Nat → CpuOp) (s : CpuImpl M) (op : Nat)
    (hpre : Read8 s s.PC = 0x10) (hop : Read8 s (s.PC + 1) = op)
    (hentry : (tbl 1 op).opCode = op) (hd : dispatchPage1 op = none) :
    ExecuteInstruction tbl s = none := by
  have hp : Read8 ({ s with m_cycles := 0 } : CpuImpl M) s.PC = 0x10 := hpre
  have ho : Read8 ((ReadPC8 ({ s with m_cycles := 0 } : CpuImpl M)).2)
      (ReadPC8 ({ s with m_cycles := 0 } : CpuImpl M)).2.PC = op := by
    rw [← hop]
    show Read8 s (U16 (s.PC + 1)) = Read8 s (s.PC + 1)
    simp only [Read8, U16, Nat.mod_mod]
  have hF : FetchOpCode ({ s with m_cycles := 0 } : CpuImpl M) =
      (1, op, (ReadPC8 (ReadPC8 ({ s with m_cycles := 0 } : CpuImpl M)).2).2) := by
    unfold FetchOpCode
    simp only [ReadPC8] at ho ⊢
    simp only [hp, ho, IsOpCodePage1, beq_self_eq_true, if_true]
  simp only [ExecuteInstruction, hF, hentry, dispatch, hd]
  split
  · rfl
  · split <;> rfl

/-- C24, the input on which the claim fails: at an `LBEQ` (`0x10 0x27`) with `Z` set, under
a table that has the long branches on page 1, `ExecuteInstruction` fails: the switch of
page 1 has no case for `0x27` and ends in `UnhandledOp`. -/
theorem LBEQ_is_unhandled : ExecuteInstruction callOps lbeqMachine = none :=
  ExecuteInstruction_page1_unhandled callOps lbeqMachine 0x27 (by decide) (by decide)
    (by decide) rfl

/-- C24, amended: for each long conditional branch (the page-1 opcodes `0x21` to `0x2F`
after the prefix `0x10`), every state and so every value of `CC`, and every opcode table
whose page-1 row carries the opcode, `ExecuteInstruction` fails: the switch of page 1 has
no case for these opcodes and ends in `UnhandledOp`. -/
theorem long_branches_are_unhandled (tbl : Nat → Nat → CpuOp) (s : CpuImpl M) (op : Nat)
    (hpre : Read8 s s.PC = 0x10) (hop : Read8 s (s.PC + 1) = op)
    (h1 : 0x21 ≤ op) (h2 : op ≤ 0x2F) (hentry : (tbl 1 op).opCode = op) :
    ExecuteInstruction tbl s = none :=
  ExecuteInstruction_page1_unhandled tbl s op hpre hop hentry
    (dispatchPage1_long_branch op h1 h2)

theorem long_branches_are_unhandled_witness :
    ExecuteInstruction callOps lbeqMachine = none :=
  long_branches_are_unhandled callOps lbeqMachine 0x27 (by decide) (by decide) (by decide)
    (by decide) (by decide)

/-! ## The VIA: peripheral control, ports and plain registers -/

theorem periph_fields : ∀ v, v < 256 →
    (v &&& 0b00001110) >>> 1 = v / 2 % 8 ∧ (v &&& 0b11100000) >>> 5 = v / 32 % 8 ∧
      ((v &&& 0b01100000 = 0) ↔ (v.testBit 6 = false ∧ v.testBit 5 = false)) := by
  decide!

theorem Write_index12 [FloatLike F] [TimerLike T] (s : Via F T) (address value : Nat)
    (haddr : Via.MapAddress (U16 address) = 12) (hv : value < 256) :
    Via.Write s address value = Via.writePeriphCntl { s with PeriphCntl := value } := by
  simp only [Via.Write, haddr, U8, Nat.mod_eq_of_lt hv]

theorem writePeriphCntl_cases [FloatLike F] (s : Via F T) (hv : s.PeriphCntl < 256) :
    (s.PeriphCntl / 2 % 8 = 6 →
      (Via.writePeriphCntl s).state.m_pos = { x := FloatLike.zero, y := FloatLike.zero } ∧
      (Via.writePeriphCntl s).state.m_lines = []) ∧
    (s.PeriphCntl / 2 % 8 = 7 →
      (Via.writePeriphCntl s).state.m_pos = s.m_pos ∧
      (Via.writePeriphCntl s).state.m_lines = s.m_lines) ∧
    (s.PeriphCntl / 32 % 8 = 6 → (Via.writePeriphCntl s).state.m_blank = s.m_blank) ∧
    (s.PeriphCntl / 2 % 8 = 6 ∨ s.PeriphCntl / 2 % 8 = 7 → s.PeriphCntl / 32 % 8 = 7 →
      (Via.writePeriphCntl s).state.m_blank = false) ∧
    ((Via.writePeriphCntl s).faulted = true ↔
      ¬ (s.PeriphCntl / 2 % 8 = 6 ∨ s.PeriphCntl / 2 % 8 = 7) ∨
      ¬ (s.PeriphCntl / 32 % 8 = 6 ∨ s.PeriphCntl / 32 % 8 = 7)) ∧
    (Via.writePeriphCntl s).state.PeriphCntl = s.PeriphCntl := by
  obtain ⟨e1, e2, -⟩ := periph_fields s.PeriphCntl hv
  unfold Via.writePeriphCntl
  by_cases a6 : s.PeriphCntl / 2 % 8 = 6
  · have a7 : ¬ s.PeriphCntl / 2 % 8 = 7 := by omega
    by_cases b6 : s.PeriphCntl / 32 % 8 = 6
    · have b7 : ¬ s.PeriphCntl / 32 % 8 = 7 := by omega
      simp [e1, e2, a6, b6, Outcome.state, Outcome.faulted]
    · by_cases b7 : s.PeriphCntl / 32 % 8 = 7
      · simp [e1, e2, a6, b7, Outcome.state, Outcome.faulted]
      · simp [e1, e2, a6, b6, b7, Outcome.state, Outcome.faulted]
  · by_cases a7 : s.PeriphCntl / 2 % 8 = 7
    · by_cases b6 : s.PeriphCntl / 32 % 8 = 6
      · have b7 : ¬ s.PeriphCntl / 32 % 8 = 7 := by omega
        simp [e1, e2, a7, b6, Outcome.state, Outcome.faulted]
      · by_cases b7 : s.PeriphCntl / 32 % 8 = 7
        · simp [e1, e2, a7, b7, Outcome.state, Outcome.faulted]
        · simp [e1, e2, a7, b6, b7, Outcome.state, Outcome.faulted]
    · simp [e1, a6, a7, Outcome.state, Outcome.faulted]

/-- C25: for every VIA state and every byte written to the peripheral-control register
(index 12): when the CA2 field (bits 3-1) is `0b110`, the write ends with the beam position
at `(0, 0)` and the line buffer empty; when CA2 is `0b111` it ends with the beam position and
the line buffer as they were.  (The write then completes when the CB2 field is `0b110` or
`0b111`, and otherwise stops in the fault of the CB2 decode, after the CA2 effect.) -/
theorem Write_PeriphCntl_CA2 [FloatLike F] [TimerLike T] (s : Via F T) (address value : Nat)
    (haddr : Via.MapAddress (U16 address) = 12) (hv : value < 256) :
    (value / 2 % 8 = 0b110 →
      (Via.Write s address value).state.m_pos
          = { x := FloatLike.zero, y := FloatLike.zero } ∧
        (Via.Write s address value).state.m_lines = []) ∧
    (value / 2 % 8 = 0b111 →
      (Via.Write s address value).state.m_pos = s.m_pos ∧
        (Via.Write s address value).state.m_lines = s.m_lines) ∧
    (value / 2 % 8 = 0b110 ∨ value / 2 % 8 = 0b111 →
      ((Via.Write s address value).faulted = false ↔
        (value / 32 % 8 = 0b110 ∨ value / 32 % 8 = 0b111))) := by
  rw [Write_index12 s address value haddr hv]
  obtain ⟨h1, h2, -, -, h5, -⟩ := writePeriphCntl_cases { s with PeriphCntl := value } hv
  refine ⟨h1, h2, fun hca => ?_⟩
  have h5' : (Via.writePeriphCntl { s with PeriphCntl := value }).faulted = true ↔
      ¬ (value / 32 % 8 = 6 ∨ value / 32 % 8 = 7) := by
    rw [h5]
    exact ⟨fun h => h.resolve_left (fun hn => hn hca), Or.inr⟩
  cases hf : (Via.writePeriphCntl { s with PeriphCntl := value }).faulted
  · rw [hf] at h5'
    constructor
    · intro _
      by_contra hn
      exact Bool.noConfusion (h5'.2 hn)
    · intro _; rfl
  · rw [hf] at h5'
    constructor
    · intro h; exact Bool.noConfusion h
    · intro h; exact absurd h (h5'.1 rfl)

theorem Write_PeriphCntl_CA2_witness :
    ((Via.Write sampleVia 0x0C 0b11001100).state.m_pos = { x := 0, y := 0 } ∧
        (Via.Write sampleVia 0x0C 0b11001100).state.m_lines = []) ∧
      (Via.Write sampleVia 0x0C 0b11001100).faulted = false :=
  ⟨(Write_PeriphCntl_CA2 sampleVia 0x0C 0b11001100 (by decide) (by decide)).1 (by decide),
    ((Write_PeriphCntl_CA2 sampleVia 0x0C 0b11001100 (by decide) (by decide)).2.2
      (Or.inl (by decide))).2 (Or.inl (by decide))⟩

theorem Write_PeriphCntl_CB2_keeps_blank [FloatLike F] [TimerLike T] (s : Via F T)
    (address value : Nat) (haddr : Via.MapAddress (U16 address) = 12) (hv : value < 256)
    (hcb : value / 32 % 8 = 0b110) :
    (Via.Write s address value).state.m_blank = s.m_blank := by
  rw [Write_index12 s address value haddr hv]
  exact (writePeriphCntl_cases { s with PeriphCntl := value } hv).2.2.1 hcb

/-- C26 (the code differs): with the beam on (`blank = false`), writing `0b11001110` (CB2 =
`0b110`, CA2 = `0b111`) to the peripheral-control register completes and leaves
`blank = false`: the assignment `m_blank = true` of the case `0b110` is a comment in the
source.  Writing `0b11101110` (CB2 = `0b111`) leaves `blank = false` as claimed. -/
theorem Write_PeriphCntl_CB2_at_beam_off :
    sampleVia.m_blank = false ∧
      (Via.Write sampleVia 0x0C 0b11001110).faulted = false ∧
      (Via.Write sampleVia 0x0C 0b11001110).state.m_blank = false ∧
      (Via.Write { sampleVia with m_blank := true } 0x0C 0b11101110).state.m_blank = false := by
  decide

/-- C27: a write of a byte to the peripheral-control register (index 12) is a fault exactly
when its CA2 field (bits 3-1) or its CB2 field (bits 7-5) is neither `0b110` nor `0b111`; a
write to the auxiliary-control register (index 11) is a fault exactly when bit 6 or bit 5 of
the value is set; a write that is no fault is read back unchanged from the same address. -/
theorem Write_control_registers_fault_iff [FloatLike F] [TimerLike T] (s : Via F T)
    (address value : Nat) (hv : value < 256) :
    (Via.MapAddress (U16 address) = 12 →
      ((Via.Write s address value).faulted = true ↔
        ¬ (value / 2 % 8 = 0b110 ∨ value / 2 % 8 = 0b111) ∨
        ¬ (value / 32 % 8 = 0b110 ∨ value / 32 % 8 = 0b111)) ∧
      ((Via.Write s address value).faulted = false →
        Via.Read (Via.Write s address value).state address = some value)) ∧
    (Via.MapAddress (U16 address) = 11 →
      ((Via.Write s address value).faulted = true ↔
        (value.testBit 6 = true ∨ value.testBit 5 = true)) ∧
      ((Via.Write s address value).faulted = false →
        Via.Read (Via.Write s address value).state address = some value)) := by
  constructor
  · intro haddr
    rw [Write_index12 s address value haddr hv]
    obtain ⟨-, -, -, -, h5, h6⟩ := writePeriphCntl_cases { s with PeriphCntl := value } hv
    refine ⟨h5, fun _ => ?_⟩
    simp only [Via.Read, haddr, h6]
  · intro haddr
    obtain ⟨-, -, hb⟩ := periph_fields value hv
    have hW : Via.Write s address value =
        if value &&& 0b01100000 = 0 then .done { s with AuxCntl := value } else .fault s := by
      simp only [Via.Write, haddr, U8, Nat.mod_eq_of_lt hv]
    rw [hW]
    by_cases h0 : value &&& 0b01100000 = 0
    · rw [if_pos h0]
      obtain ⟨h6, h5⟩ := hb.1 h0
      refine ⟨?_, fun _ => ?_⟩
      · simp [Outcome.faulted, h6, h5]
      · simp only [Via.Read, haddr, Outcome.state]
    · rw [if_neg h0]
      refine ⟨?_, fun h => Bool.noConfusion h⟩
      have : ¬ (value.testBit 6 = false ∧ value.testBit 5 = false) := fun h => h0 (hb.2 h)
      simp only [Outcome.faulted, true_iff]
      by_contra hn
      simp only [not_or, Bool.not_eq_true] at hn
      exact this hn

theorem Write_control_registers_fault_iff_witness :
    (((Via.Write sampleVia 0x0C 0b11001100).faulted = true ↔
        ¬ (0b11001100 / 2 % 8 = 0b110 ∨ 0b11001100 / 2 % 8 = 0b111) ∨
        ¬ (0b11001100 / 32 % 8 = 0b110 ∨ 0b11001100 / 32 % 8 = 0b111)) ∧
      ((Via.Write sampleVia 0x0C 0b11001100).faulted = false →
        Via.Read (Via.Write sampleVia 0x0C 0b11001100).state 0x0C = some 0b11001100)) ∧
    (((Via.Write sampleVia 0x0B 0x40).faulted = true ↔
        ((0x40).testBit 6 = true ∨ (0x40).testBit 5 = true)) ∧
      ((Via.Write sampleVia 0x0B 0x40).faulted = false →
        Via.Read (Via.Write sampleVia 0x0B 0x40).state 0x0B = some 0x40)) :=
  ⟨(Write_control_registers_fault_iff sampleVia 0x0C 0b11001100 (by decide)).1 (by decide),
    (Write_control_registers_fault_iff sampleVia 0x0B 0x40 (by decide)).2 (by decide)⟩

theorem mux_fields (b : Nat) :
    ((b &&& 0b00000001 = 0) ↔ b % 2 = 0) ∧ (b &&& 0b00000110) >>> 1 = b / 2 % 4 := by
  constructor
  · have h : b &&& 0b00000001 = b % 2 := Nat.and_pow_two_sub_one_eq_mod b 1
    rw [h]
  · have h : (b &&& 0b00000110) >>> 1 = (b >>> 1) &&& 0b11 := by
      have e : (0b11 : Nat) = 0b00000110 >>> 1 := by decide
      apply Nat.eq_of_testBit_eq
      intro j
      rw [e]
      simp only [Nat.testBit_shiftRight, Nat.testBit_and]
    rw [h, Nat.shiftRight_eq_div_pow]
    exact Nat.and_pow_two_sub_one_eq_mod _ 2

/-- C28: a write of the byte `a` to Port A (index 1) completes, stores `a` in `A` and: when
bit 0 of Port B is 1 the X velocity becomes `a`; when it is 0, bits 2-1 of Port B select:
0 the Y velocity becomes `a`, 1 the XY offset becomes `a`, 2 the brightness becomes `a`,
3 no analog quantity changes.  In every case the quantities not selected among X velocity,
Y velocity, offset and brightness, as well as the beam position, the blank flag and the line
buffer, are as before. -/
theorem Write_PortA_routes_by_PortB [FloatLike F] [TimerLike T] (s : Via F T)
    (address a : Nat) (haddr : Via.MapAddress (U16 address) = 1) (ha : a < 256) :
    ∃ t, Via.Write s address a = .done t ∧ t.A = a ∧ t.B = s.B ∧
      t.m_pos = s.m_pos ∧ t.m_lines = s.m_lines ∧ t.m_blank = s.m_blank ∧
      t.m_velocity.x = (if s.B % 2 = 1 then FloatLike.ofU8 a else s.m_velocity.x) ∧
      t.m_velocity.y
        = (if s.B % 2 = 0 ∧ s.B / 2 % 4 = 0 then FloatLike.ofU8 a else s.m_velocity.y) ∧
      t.m_xyOffset
        = (if s.B % 2 = 0 ∧ s.B / 2 % 4 = 1 then FloatLike.ofU8 a else s.m_xyOffset) ∧
      t.m_brightness
        = (if s.B % 2 = 0 ∧ s.B / 2 % 4 = 2 then FloatLike.ofU8 a else s.m_brightness) := by
  obtain ⟨e1, e2⟩ := mux_fields s.B
  have hW : Via.Write s address a = Via.updateIntegrators { s with A := a } := by
    simp only [Via.Write, haddr, U8, Nat.mod_eq_of_lt ha]
  rw [hW]
  unfold Via.updateIntegrators
  by_cases h0 : s.B % 2 = 0
  · have h1 : ¬ s.B % 2 = 1 := by omega
    have hk : s.B / 2 % 4 < 4 := Nat.mod_lt _ (by decide)
    simp only [e1, e2, h0, h1, if_true, if_false, true_and]
    generalize s.B / 2 % 4 = k at hk
    interval_cases k <;> exact ⟨_, rfl, rfl, rfl, rfl, rfl, rfl, rfl, rfl, rfl, rfl⟩
  · have h1 : s.B % 2 = 1 := by omega
    simp only [e1, h0, h1, if_true, if_false, false_and]
    exact ⟨_, rfl, rfl, rfl, rfl, rfl, rfl, rfl, rfl, rfl, rfl⟩

theorem Write_PortA_routes_by_PortB_witness :
    ∃ t, Via.Write { sampleVia with B := 0b00000100 } 0x01 0x40 = .done t ∧ t.A = 0x40 ∧
      t.B = 0b00000100 ∧
      t.m_pos = sampleVia.m_pos ∧ t.m_lines = sampleVia.m_lines ∧ t.m_blank = false ∧
      t.m_velocity.x = 128 ∧ t.m_velocity.y = 128 ∧ t.m_xyOffset = 0 ∧
      t.m_brightness = 0x40 :=
  Write_PortA_routes_by_PortB { sampleVia with B := 0b00000100 } 0x01 0x40 (by decide)
    (by decide)

/-- C30, as stated, fails at index 6: a write of `0x55` to the Timer1 latch (index 6, and
likewise index 7) completes, but the read of the same index is a fault and returns
nothing. -/
theorem Read_latch_after_write_faults :
    (Via.Write sampleVia 6 0x55).faulted = false ∧
      (Via.Write sampleVia 6 0x55).state.Timer1LatchLow = 0x55 ∧
      Via.Read (Via.Write sampleVia 6 0x55).state 6 = none ∧
      (Via.Write sampleVia 7 0x55).faulted = false ∧
      Via.Read (Via.Write sampleVia 7 0x55).state 7 = none := by
  decide

/-- C30 (amended): for the registers DDRB, DDRA (index 2, 3), Timer1 low, high (4, 5) and
Shift (10) and every byte `v`, a write of `v` completes and a read of the same address
returns `v`; for the Timer1 latches (6, 7) the write completes and stores `v`, and the read
of that address is a fault. -/
theorem Write_then_Read_plain_registers [FloatLike F] [TimerLike T] (s : Via F T)
    (address v : Nat) (hv : v < 256) :
    (Via.MapAddress (U16 address) ∈ [2, 3, 4, 5, 10] →
      (Via.Write s address v).faulted = false ∧
        Via.Read (Via.Write s address v).state address = some v) ∧
    (Via.MapAddress (U16 address) = 6 →
      (Via.Write s address v).faulted = false ∧
        (Via.Write s address v).state.Timer1LatchLow = v ∧
        Via.Read (Via.Write s address v).state address = none) ∧
    (Via.MapAddress (U16 address) = 7 →
      (Via.Write s address v).faulted = false ∧
        (Via.Write s address v).state.Timer1LatchHigh = v ∧
        Via.Read (Via.Write s address v).state address = none) := by
  have e : U8 v = v := Nat.mod_eq_of_lt hv
  refine ⟨fun h => ?_, fun h => ?_, fun h => ?_⟩
  · simp only [List.mem_cons, List.mem_singleton, List.not_mem_nil, or_false] at h
    rcases h with h | h | h | h | h <;>
      simp only [Via.Write, Via.Read, h, e, Outcome.state, Outcome.faulted, and_self]
  · simp only [Via.Write, Via.Read, h, e, Outcome.state, Outcome.faulted, and_self]
  · simp only [Via.Write, Via.Read, h, e, Outcome.state, Outcome.faulted, and_self]

theorem Write_then_Read_plain_registers_witness :
    ((Via.Write sampleVia 0xD002 0x55).faulted = false ∧
        Via.Read (Via.Write sampleVia 0xD002 0x55).state 0xD002 = some 0x55) ∧
      ((Via.Write sampleVia 0xD006 0x55).faulted = false ∧
        (Via.Write sampleVia 0xD006 0x55).state.Timer1LatchLow = 0x55 ∧
        Via.Read (Via.Write sampleVia 0xD006 0x55).state 0xD006 = none) :=
  ⟨(Write_then_Read_plain_registers sampleVia 0xD002 0x55 (by decide)).1 (by decide),
    (Write_then_Read_plain_registers sampleVia 0xD006 0x55 (by decide)).2.1 (by decide)⟩

/-! ## Signed overflow of additions and subtractions -/

theorem overflow_bits (a b r i : Nat) :
    ((a ^^^ r) &&& (b ^^^ r) &&& BITS i ≠ 0) ↔
      (a.testBit i ≠ r.testBit i ∧ b.testBit i ≠ r.testBit i) := by
  rw [and_BITS_ne_zero_iff, Nat.testBit_and, Nat.testBit_xor, Nat.testBit_xor]
  cases a.testBit i <;> cases b.testBit i <;> cases r.testBit i <;> decide

theorem testBit7_div (x : Nat) : x.testBit 7 = decide (x / 128 % 2 = 1) :=
  Nat.testBit_to_div_mod

theorem testBit15_div (x : Nat) : x.testBit 15 = decide (x / 32768 % 2 = 1) :=
  Nat.testBit_to_div_mod

theorem toS8_eq (v : Nat) (hv : v < 256) :
    toS8 v = if v < 128 then (v : Int) else (v : Int) - 256 := by
  unfold toS8
  rw [Nat.mod_eq_of_lt hv]

theorem toS16_eq (v : Nat) (hv : v < 65536) :
    toS16 v = if v < 32768 then (v : Int) else (v : Int) - 65536 := by
  unfold toS16
  rw [Nat.mod_eq_of_lt hv]

theorem CalcOverflow8_signed (a b c : Nat) (ha : a < 256) (hb : b < 256) (hc : c ≤ 1) :
    (bit1 (CalcOverflow8 a b (U16 (a + b + c))) = true) ↔
      ¬ (-128 ≤ toS8 a + toS8 b + (c : Int) ∧ toS8 a + toS8 b + (c : Int) ≤ 127) := by
  have hr : U16 (a + b + c) = a + b + c := Nat.mod_eq_of_lt (by omega)
  rw [hr, CalcOverflow8, bit1_ite, decide_eq_true_iff, overflow_bits, testBit7_div,
    testBit7_div, testBit7_div, toS8_eq a ha, toS8_eq b hb]
  have h1 : a / 128 % 2 = 1 ↔ 128 ≤ a := by omega
  have h2 : b / 128 % 2 = 1 ↔ 128 ≤ b := by omega
  have h3 : (a + b + c) / 128 % 2 = 1 ↔ 128 ≤ (a + b + c) % 256 := by omega
  simp only [h1, h2, h3, ne_eq, decide_eq_decide]
  split_ifs <;> omega

theorem CalcOverflow16_signed (a b c : Nat) (ha : a < 65536) (hb : b < 65536) (hc : c ≤ 1) :
    (bit1 (CalcOverflow16 a b ((a + b + c) % 4294967296)) = true) ↔
      ¬ (-32768 ≤ toS16 a + toS16 b + (c : Int) ∧ toS16 a + toS16 b + (c : Int) ≤ 32767) := by
  have hr : (a + b + c) % 4294967296 = a + b + c := Nat.mod_eq_of_lt (by omega)
  rw [hr, CalcOverflow16, bit1_ite, decide_eq_true_iff, overflow_bits, testBit15_div,
    testBit15_div, testBit15_div, toS16_eq a ha, toS16_eq b hb]
  have h1 : a / 32768 % 2 = 1 ↔ 32768 ≤ a := by omega
  have h2 : b / 32768 % 2 = 1 ↔ 32768 ≤ b := by omega
  have h3 : (a + b + c) / 32768 % 2 = 1 ↔ 32768 ≤ (a + b + c) % 65536 := by omega
  simp only [h1, h2, h3, ne_eq, decide_eq_decide]
  split_ifs <;> omega

theorem AddImpl8_overflow (a b c : Nat) (cc : ConditionCode) (u : Bool) :
    (AddImpl8 a b c cc u).2.Overflow = bit1 (CalcOverflow8 a b (U16 (a + b + c))) := by
  cases u <;> rfl

theorem AddImpl8_keeps_halfCarry (a b c : Nat) (cc : ConditionCode) :
    (AddImpl8 a b c cc false).2.HalfCarry = cc.HalfCarry := rfl

theorem Op8_result_CC (s1 : CpuImpl M) (reg : Reg8) (hreg : reg = .A ∨ reg = .B)
    (v : Nat) (c : ConditionCode) : ((s1.setCC c).set8 reg v).CC = c := by
  rcases hreg with rfl | rfl <;> rfl

theorem get8_of_frame (s s1 : CpuImpl M) (h : OperandFrame s s1) (reg : Reg8)
    (hreg : reg = .A ∨ reg = .B) : s1.get8 reg = s.get8 reg := by
  rcases hreg with rfl | rfl
  · exact h.1
  · exact h.2.1

theorem Bool_eq_of_iff {x : Bool} {p : Prop} [Decidable p] (h : x = true ↔ p) :
    x = decide p := by
  by_cases hp : p
  · rw [decide_eq_true hp]
    exact h.mpr hp
  · rw [decide_eq_false hp]
    cases x
    · rfl
    · exact absurd (h.mp rfl) hp

theorem AddImpl8_overflow_spec (a b c : Nat) (cc : ConditionCode) (u : Bool) (ha : a < 256)
    (hb : b < 256) (hc : c ≤ 1) :
    (AddImpl8 a b c cc u).2.Overflow = specOverflow8 (toS8 a + toS8 b + (c : Int)) := by
  rw [AddImpl8_overflow]
  exact Bool_eq_of_iff (CalcOverflow8_signed a b c ha hb hc)

theorem AddImpl16_overflow_spec (a b c : Nat) (cc : ConditionCode) (ha : a < 65536)
    (hb : b < 65536) (hc : c ≤ 1) :
    ∃ r cc', AddImpl16 a b c cc false = some (r, cc') ∧
      cc'.Overflow = specOverflow16 (toS16 a + toS16 b + (c : Int)) :=
  ⟨_, _, rfl, Bool_eq_of_iff (CalcOverflow16_signed a b c ha hb hc)⟩

theorem Bool_toNat_le_one (x : Bool) : x.toNat ≤ 1 := by
  cases x <;> decide

/-- C35: for all 8-bit `a`, `b` and a carry-in `c` of 0 or 1, the `V` flag that the 8-bit
`AddImpl` computes is set exactly when the true signed sum `signed(a) + signed(b) + c` lies
outside `[-128, 127]`, and for all 16-bit `a`, `b` the `V` flag of the 16-bit `AddImpl` is
set exactly when `signed(a) + signed(b) + c` lies outside `[-32768, 32767]`.  ADDA and ADDB
complete with this flag for `c = 0`, ADCA and ADCB for `c = C`, and ADDD for `c = 0` on
16 bits, with the register value before the instruction and the operand fetched. -/
theorem ADD_overflow_is_signed_overflow (mode : AddressingMode) (s : CpuImpl M)
    (hwf : s.toCpuRegisters.WF) :
    (∀ (a b c : Nat) (cc : ConditionCode) (u : Bool), a < 256 → b < 256 → c ≤ 1 →
      (AddImpl8 a b c cc u).2.Overflow = specOverflow8 (toS8 a + toS8 b + (c : Int))) ∧
    (∀ (a b : Nat) (cc : ConditionCode), a < 65536 → b < 65536 →
      ∃ r cc', AddImpl16 a b 0 cc false = some (r, cc') ∧
        cc'.Overflow = specOverflow16 (toS16 a + toS16 b)) ∧
    (∀ (reg : Reg8) (b : Nat) (s1 : CpuImpl M), reg = .A ∨ reg = .B →
      ReadOperandValue8 mode s = some (b, s1) →
      (∃ t, OpADD8 mode reg s = some t ∧
        t.CC.Overflow = specOverflow8 (toS8 (s.get8 reg) + toS8 b)) ∧
      (∃ t, OpADC mode reg s = some t ∧
        t.CC.Overflow
          = specOverflow8 (toS8 (s.get8 reg) + toS8 b + (s.CC.Carry.toNat : Int)))) ∧
    (∀ (b : Nat) (s1 : CpuImpl M), ReadOperandValue16 mode s = some (b, s1) →
      ∃ t, OpADD16 mode .D s = some t ∧
        t.CC.Overflow = specOverflow16 (toS16 (s.get16 .D) + toS16 b)) := by
  refine ⟨fun a b c cc u ha hb hc => AddImpl8_overflow_spec a b c cc u ha hb hc, ?_, ?_, ?_⟩
  · intro a b cc ha hb
    obtain ⟨r, cc', h1, h2⟩ := AddImpl16_overflow_spec a b 0 cc ha hb (Nat.zero_le 1)
    refine ⟨r, cc', h1, ?_⟩
    rw [h2]
    simp only [Nat.cast_zero, add_zero]
  · intro reg b s1 hreg hop
    obtain ⟨hf, hb⟩ := ReadOperandValue8_frame mode s s1 b hop
    have hget := get8_of_frame s s1 hf reg hreg
    have ha : s.get8 reg < 256 := get8_lt s reg hwf
    have hcc : s1.CC = s.CC := hf.2.2.2.1
    refine ⟨⟨_, by simp only [OpADD8, hop]; rfl, ?_⟩, ⟨_, by simp only [OpADC, hop]; rfl, ?_⟩⟩
    · rw [Op8_result_CC s1 reg hreg, hget,
        AddImpl8_overflow_spec _ b 0 _ true ha hb (Nat.zero_le 1)]
      simp only [Nat.cast_zero, add_zero]
    · rw [Op8_result_CC s1 reg hreg, hget, hcc,
        AddImpl8_overflow_spec _ b _ _ true ha hb (Bool_toNat_le_one _)]
  · intro b s1 hop
    obtain ⟨hf, hb⟩ := ReadOperandValue16_frame mode s s1 b hop
    have hD : s1.get16 .D = s.get16 .D := by
      show CombineToU16 s1.A s1.B = CombineToU16 s.A s.B
      rw [hf.1, hf.2.1]
    have ha : s.get16 .D < 65536 := get16_lt s .D hwf
    obtain ⟨r, cc', h1, h2⟩ := AddImpl16_overflow_spec (s.get16 .D) b 0 s1.CC ha hb
      (Nat.zero_le 1)
    refine ⟨(s1.setCC cc').set16 .D r, by simp only [OpADD16, hop, hD, h1], ?_⟩
    show cc'.Overflow = _
    rw [h2]
    simp only [Nat.cast_zero, add_zero]

theorem ADD_overflow_is_signed_overflow_witness :
    (AddImpl8 0x7F 0x00 1 (ConditionCode.ofValue 0) true).2.Overflow
        = specOverflow8 (toS8 0x7F + toS8 0x00 + ((1 : Nat) : Int)) ∧
      ∃ r cc', AddImpl16 0x7FFF 0x0001 0 (ConditionCode.ofValue 0) false = some (r, cc') ∧
        cc'.Overflow = specOverflow16 (toS16 0x7FFF + toS16 0x0001) :=
  ⟨(ADD_overflow_is_signed_overflow .Immediate cmpMachine (by decide)).1 0x7F 0x00 1
      (ConditionCode.ofValue 0) true (by decide) (by decide) (by decide),
    (ADD_overflow_is_signed_overflow .Immediate cmpMachine (by decide)).2.1 0x7FFF 0x0001
      (ConditionCode.ofValue 0) (by decide) (by decide)⟩

theorem SubtractImpl8_overflow_spec (a b : Nat) (cc : ConditionCode) (ha : a < 256)
    (hb : b < 256) :
    (SubtractImpl8 a b cc).2.Overflow = specOverflow8 (toS8 a - toS8 b) ∧
      (SubtractImpl8 a b cc).2.HalfCarry = cc.HalfCarry := by
  have e : U8 (255 - U8 b) = 255 - b := by
    simp only [U8]
    omega
  have hb' : 255 - b < 256 := by omega
  have hs : toS8 a + toS8 (255 - b) + ((1 : Nat) : Int) = toS8 a - toS8 b := by
    rw [toS8_eq b hb, toS8_eq (255 - b) hb']
    split_ifs <;> omega
  refine ⟨?_, ?_⟩
  · show (AddImpl8 a (U8 (255 - U8 b)) 1 cc false).2.Overflow = _
    rw [e, AddImpl8_overflow_spec a (255 - b) 1 cc false ha hb' (Nat.le_refl 1), hs]
  · show (AddImpl8 a (U8 (255 - U8 b)) 1 cc false).2.HalfCarry = _
    exact AddImpl8_keeps_halfCarry _ _ _ _

/-- C37: for all 8-bit `a` and `b`, the `V` flag that the 8-bit `SubtractImpl` leaves (the
addition of the complement of `b` and 1) is set exactly when the true signed difference
`signed(a) - signed(b)` lies outside `[-128, 127]`, and the `H` flag is as before.  SUBA,
SUBB, CMPA and CMPB complete with these flags for the register value before the instruction
and the operand fetched. -/
theorem SUB_overflow_is_signed_overflow (mode : AddressingMode) (s : CpuImpl M)
    (hwf : s.toCpuRegisters.WF) :
    (∀ (a b : Nat) (cc : ConditionCode), a < 256 → b < 256 →
      (SubtractImpl8 a b cc).2.Overflow = specOverflow8 (toS8 a - toS8 b) ∧
      (SubtractImpl8 a b cc).2.HalfCarry = cc.HalfCarry) ∧
    (∀ (reg : Reg8) (b : Nat) (s1 : CpuImpl M), reg = .A ∨ reg = .B →
      ReadOperandValue8 mode s = some (b, s1) →
      (∃ t, OpSUB8 mode reg s = some t ∧
        t.CC.Overflow = specOverflow8 (toS8 (s.get8 reg) - toS8 b) ∧
        t.CC.HalfCarry = s.CC.HalfCarry) ∧
      (∃ t, OpCMP8 mode reg s = some t ∧
        t.CC.Overflow = specOverflow8 (toS8 (s.get8 reg) - toS8 b) ∧
        t.CC.HalfCarry = s.CC.HalfCarry)) := by
  refine ⟨fun a b cc ha hb => SubtractImpl8_overflow_spec a b cc ha hb, ?_⟩
  intro reg b s1 hreg hop
  obtain ⟨hf, hb⟩ := ReadOperandValue8_frame mode s s1 b hop
  have hget := get8_of_frame s s1 hf reg hreg
  have ha : s.get8 reg < 256 := get8_lt s reg hwf
  have hcc : s1.CC = s.CC := hf.2.2.2.1
  obtain ⟨h1, h2⟩ := SubtractImpl8_overflow_spec (s.get8 reg) b s.CC ha hb
  refine ⟨⟨_, by simp only [OpSUB8, hop]; rfl, ?_, ?_⟩,
    ⟨_, by simp only [OpCMP8, hop]; rfl, ?_, ?_⟩⟩
  · rw [Op8_result_CC s1 reg hreg, hget, hcc]
    exact h1
  · rw [Op8_result_CC s1 reg hreg, hget, hcc]
    exact h2
  · show (SubtractImpl8 (s1.get8 reg) b s1.CC).2.Overflow = _
    rw [hget, hcc]
    exact h1
  · show (SubtractImpl8 (s1.get8 reg) b s1.CC).2.HalfCarry = _
    rw [hget, hcc]
    exact h2

theorem SUB_overflow_is_signed_overflow_witness :
    (SubtractImpl8 0x00 0x80 (ConditionCode.ofValue 0x20)).2.Overflow
        = specOverflow8 (toS8 0x00 - toS8 0x80) ∧
      (SubtractImpl8 0x00 0x80 (ConditionCode.ofValue 0x20)).2.HalfCarry
        = (ConditionCode.ofValue 0x20).HalfCarry :=
  (SUB_overflow_is_signed_overflow .Immediate cmpMachine (by decide)).1 0x00 0x80
    (ConditionCode.ofValue 0x20) (by decide) (by decide)

/-! ## The count of mask bits and the cycles of pushes and pulls -/

theorem NumBitsSetLoop_fuel (fuel : Nat) :
    ∀ (value count extra : Nat), value < 2 ^ fuel →
      NumBitsSetLoop (fuel + extra) value count = NumBitsSetLoop fuel value count := by
  induction fuel with
  | zero =>
    intro value count extra h
    have hv : value = 0 := by omega
    subst hv
    cases extra
    · rfl
    · rfl
  | succ fuel ih =>
    intro value count extra h
    have e : fuel + 1 + extra = (fuel + extra) + 1 := by omega
    rw [e]
    unfold NumBitsSetLoop
    by_cases hv : value = 0
    · rw [if_pos hv, if_pos hv]
    · rw [if_neg hv, if_neg hv]
      apply ih
      rw [Nat.shiftRight_eq_div_pow]
      omega

theorem NumBitsSetLoop_popcount : ∀ m, m < 256 → NumBitsSetLoop 8 m 0 = specPopCount m := by
  decide!

theorem NumBitsSet_popcount (m : Nat) (hm : m < 256) :
    NumBitsSet m = specPopCount m ∧
      ∀ fuel, 8 ≤ fuel → NumBitsSetLoop fuel m 0 = specPopCount m := by
  have h8 : m < 2 ^ 8 := hm
  have hfuel : ∀ fuel, 8 ≤ fuel → NumBitsSetLoop fuel m 0 = specPopCount m := by
    intro fuel hf
    have e : fuel = 8 + (fuel - 8) := by omega
    rw [e, NumBitsSetLoop_fuel 8 m 0 _ h8]
    exact NumBitsSetLoop_popcount m hm
  refine ⟨?_, hfuel⟩
  have h1 := NumBitsSetLoop_fuel m m 0 8 (Nat.lt_two_pow m)
  show NumBitsSetLoop m m 0 = _
  rw [← h1]
  exact hfuel _ (by omega)

theorem pushItem_cycles (r : Reg16) (it : StackItem) (t : CpuImpl M) :
    (pushItem r it t).m_cycles = t.m_cycles := by
  cases it <;> cases r <;> rfl

theorem pullItem_cycles (r : Reg16) (it : StackItem) (t : CpuImpl M) :
    (pullItem r it t).m_cycles = t.m_cycles := by
  cases it with
  | r8 q => cases q <;> cases r <;> rfl
  | r16 q => cases q <;> cases r <;> rfl

theorem fold_keeps_cycles (f : StackItem → CpuImpl M → CpuImpl M)
    (hf : ∀ it t, (f it t).m_cycles = t.m_cycles) (m : Nat) :
    ∀ (ps : List (Nat × StackItem)) (t : CpuImpl M),
      (ps.foldl (fun acc p => if m.testBit p.1 then f p.2 acc else acc) t).m_cycles
        = t.m_cycles := by
  intro ps
  induction ps with
  | nil => intro t; rfl
  | cons p ps ih =>
    intro t
    rw [List.foldl_cons, ih]
    by_cases hb : m.testBit p.1 = true
    · rw [if_pos hb, hf]
    · rw [if_neg hb]

theorem pushAll_pullAll_cycles (r : Reg16) (m : Nat) (t : CpuImpl M) :
    (pushAll r m t).m_cycles = t.m_cycles ∧ (pullAll r m t).m_cycles = t.m_cycles := by
  rw [pushAll_eq_spec, pullAll_eq_spec]
  exact ⟨fold_keeps_cycles (pushItem r) (pushItem_cycles r) m _ t,
    fold_keeps_cycles (pullItem r) (pullItem_cycles r) m _ t⟩

theorem stack_op_run (op : Nat) (hop : op ∈ [0x34, 0x35, 0x36, 0x37]) (x : CpuImpl M) :
    ∃ hd t, dispatchPage0 op = some hd ∧ hd.run .Immediate x = some t ∧
      t.m_cycles = x.m_cycles + NumBitsSet (Read8 x x.PC) := by
  simp only [List.mem_cons, List.mem_singleton, List.not_mem_nil, or_false] at hop
  have hc := @pushAll_pullAll_cycles M _ _
  rcases hop with rfl | rfl | rfl | rfl
  · refine ⟨.PSH .S, _, rfl, rfl, ?_⟩
    show (pushAll .S (Read8 x x.PC) (ReadPC8 x).2).m_cycles + _ = _
    rw [(hc _ _ _).1]
    rfl
  · refine ⟨.PUL .S, _, rfl, rfl, ?_⟩
    show (pullAll .S (Read8 x x.PC) (ReadPC8 x).2).m_cycles + _ = _
    rw [(hc _ _ _).2]
    rfl
  · refine ⟨.PSH .U, _, rfl, rfl, ?_⟩
    show (pushAll .U (Read8 x x.PC) (ReadPC8 x).2).m_cycles + _ = _
    rw [(hc _ _ _).1]
    rfl
  · refine ⟨.PUL .U, _, rfl, rfl, ?_⟩
    show (pullAll .U (Read8 x x.PC) (ReadPC8 x).2).m_cycles + _ = _
    rw [(hc _ _ _).2]
    rfl

/-- C36: for every 8-bit mask `m`, `NumBitsSet(m)` is the number of 1 bits of `m`, and its
loop has ended after 8 iterations (more fuel gives the same count).  For PSHS, PULS, PSHU
and PULU (`0x34` to `0x37`, immediate post-byte `m`) `ExecuteInstruction` completes and
returns the base cycle count of the opcode plus the number of 1 bits of `m`. -/
theorem PSH_PUL_cycles_are_base_plus_popcount (tbl : Nat → Nat → CpuOp) (s : CpuImpl M)
    (op : Nat) (hop : op ∈ [0x34, 0x35, 0x36, 0x37]) (hfetch : Read8 s s.PC = op)
    (hrow : (tbl 0 op).opCode = op ∧ 0 < (tbl 0 op).cycles ∧
      (tbl 0 op).addrMode = .Immediate) :
    (∀ m, m < 256 → NumBitsSet m = specPopCount m ∧
      ∀ fuel, 8 ≤ fuel → NumBitsSetLoop fuel m 0 = specPopCount m) ∧
    ∃ t, ExecuteInstruction tbl s
      = some ((tbl 0 op).cycles + specPopCount (Read8 s (s.PC + 1)), t) := by
  refine ⟨NumBitsSet_popcount, ?_⟩
  obtain ⟨hd, t, h1, h2, h3⟩ := stack_op_run op hop (afterFetch s (tbl 0 op).cycles)
  have hop' := hop
  simp only [List.mem_cons, List.mem_singleton, List.not_mem_nil, or_false] at hop'
  have h10 : op ≠ 0x10 ∧ op ≠ 0x11 := by
    rcases hop' with rfl | rfl | rfl | rfl <;> exact ⟨by decide, by decide⟩
  have hE := ExecuteInstruction_page0 tbl s op hd hfetch h10.1 h10.2 hrow.1 hrow.2.1
    (by rw [hrow.2.2]; exact ⟨by decide, by decide⟩) h1
  rw [hrow.2.2, h2] at hE
  refine ⟨t, ?_⟩
  rw [hE]
  have hlt : Read8 s (s.PC + 1) < 256 := Nat.mod_lt _ (by decide)
  have hc : t.m_cycles = (tbl 0 op).cycles + specPopCount (Read8 s (s.PC + 1)) := by
    rw [h3, Read8_afterFetch, (NumBitsSet_popcount _ hlt).1]
    show 0 + (tbl 0 op).cycles + _ = _
    rw [Nat.zero_add]
  show some (t.m_cycles, t) = _
  rw [hc]

theorem PSH_PUL_cycles_are_base_plus_popcount_witness :
    (∀ m, m < 256 → NumBitsSet m = specPopCount m ∧
      ∀ fuel, 8 ≤ fuel → NumBitsSetLoop fuel m 0 = specPopCount m) ∧
    ∃ t, ExecuteInstruction sampleOps pshsMachine
      = some ((sampleOps 0 0x34).cycles + specPopCount (Read8 pshsMachine (pshsMachine.PC + 1)),
          t) :=
  PSH_PUL_cycles_are_base_plus_popcount sampleOps pshsMachine 0x34 (by decide) (by decide)
    (by decide)

/-! ## The PSG: modes, period registers, reset and the latched address -/

theorem and_15 (a : Nat) : a &&& 15 = a % 16 := Nat.and_pow_two_sub_one_eq_mod a 4

theorem PeriodLow_SetPeriodLow (g : ToneGenerator) (v : Nat) :
    (g.SetPeriodLow v).PeriodLow = v % 256 := by
  show ((g.m_period &&& 0xF00) ||| U8 v) &&& 0xFF = v % 256
  have h0 : (0xF00 : Nat) &&& 0xFF = 0 := by decide
  rw [Nat.and_comm, Nat.and_or_distrib_left, Nat.and_comm 0xFF (g.m_period &&& 0xF00),
    Nat.and_assoc, h0, Nat.and_zero, Nat.zero_or, Nat.and_comm, and_FF, U8, Nat.mod_mod]

theorem PeriodHigh_SetPeriodHigh (g : ToneGenerator) (v : Nat) :
    (g.SetPeriodHigh v).PeriodHigh = v % 16 := by
  show ((((v &&& 0x0F) <<< 8) ||| (g.m_period &&& 0x0FF)) >>> 8) &&& 0x0F = v % 16
  have h1 : g.m_period &&& 0x0FF = g.m_period % 256 := and_FF _
  have h2 : v &&& 0x0F = v % 16 := and_15 v
  rw [h1, h2, shl8_or _ _ (Nat.mod_lt _ (by decide)), Nat.shiftRight_eq_div_pow]
  have h3 : (v % 16 * 256 + g.m_period % 256) / 2 ^ 8 = v % 16 := by omega
  rw [h3]
  show v % 16 &&& 15 = v % 16
  rw [and_15, Nat.mod_mod]

theorem Clock_keeps_period (g : ToneGenerator) :
    g.Clock.PeriodLow = g.PeriodLow ∧ g.Clock.PeriodHigh = g.PeriodHigh := by
  unfold ToneGenerator.Clock
  split <;> exact ⟨rfl, rfl⟩

theorem clockGenerators_eq (u : Psg) :
    u.clockGenerators =
      if 16 ≤ u.m_masterDivider.m_counter + 1 then
        { u with
          m_masterDivider := { m_counter := 0 },
          m_toneGenerators :=
            { g0 := u.m_toneGenerators.g0.Clock, g1 := u.m_toneGenerators.g1.Clock,
              g2 := u.m_toneGenerators.g2.Clock } }
      else { u with m_masterDivider := { m_counter := u.m_masterDivider.m_counter + 1 } } := by
  by_cases h : 16 ≤ u.m_masterDivider.m_counter + 1
  · simp only [Psg.clockGenerators, Divider.Clock, if_pos h, if_true]
  · simp only [Psg.clockGenerators, Divider.Clock, if_neg h, Bool.false_eq_true, if_false]

theorem clockGenerators_keeps (u : Psg) :
    u.clockGenerators.m_DA = u.m_DA ∧
      u.clockGenerators.m_latchedAddress = u.m_latchedAddress ∧
      u.clockGenerators.m_registers = u.m_registers ∧
      u.clockGenerators.m_mode = u.m_mode ∧
      ∀ i, u.clockGenerators.register i = u.register i := by
  rw [clockGenerators_eq]
  split
  · refine ⟨rfl, rfl, rfl, rfl, fun i => ?_⟩
    have h0 := Clock_keeps_period u.m_toneGenerators.g0
    have h1 := Clock_keeps_period u.m_toneGenerators.g1
    have h2 := Clock_keeps_period u.m_toneGenerators.g2
    simp only [Psg.register, Psg.Read]
    split <;> first
      | rfl
      | simp only [h0.1, h0.2, h1.1, h1.2, h2.1, h2.2]
  · exact ⟨rfl, rfl, rfl, rfl, fun _ => rfl⟩

theorem setRegisterAt_keeps (u v : Psg) (address value : Nat)
    (h : u.setRegisterAt address value = .ok v) :
    v.m_latchedAddress = u.m_latchedAddress ∧ address < 16 := by
  unfold Psg.setRegisterAt at h
  split at h
  · rename_i ha
    injection h with h
    subst h
    exact ⟨rfl, ha⟩
  · exact absurd h (by simp)

theorem Write_keeps_latched (u v : Psg) (address value : Nat)
    (h : u.Write address value = .ok v) : v.m_latchedAddress = u.m_latchedAddress := by
  unfold Psg.Write at h
  simp only at h
  split at h
  · injection h with h; subst h; rfl
  · injection h with h; subst h; rfl
  · injection h with h; subst h; rfl
  · injection h with h; subst h; rfl
  · injection h with h; subst h; rfl
  · injection h with h; subst h; rfl
  · split at h
    · exact (setRegisterAt_keeps u v address value h).1
    · exact absurd h (by simp)
  · exact (setRegisterAt_keeps u v address value h).1

theorem Read_Write_in_range (u : Psg) (address value : Nat) (ha : address < 16) :
    u.Read address ≠ .error .outOfRange ∧ u.Write address value ≠ .error .outOfRange := by
  constructor
  · unfold Psg.Read Psg.registerAt
    split <;> simp [ha]
  · unfold Psg.Write Psg.setRegisterAt
    simp only
    split <;> simp [ha]
    split <;> simp

theorem modeSwitch_in_range (lastMode : PsgMode) (u : Psg) (hu : u.m_latchedAddress < 16) :
    u.modeSwitch lastMode ≠ .error .outOfRange ∧
      ∀ v, u.modeSwitch lastMode = .ok v → v.m_latchedAddress < 16 := by
  obtain ⟨hR, hW⟩ := Read_Write_in_range u u.m_latchedAddress u.m_DA hu
  unfold Psg.modeSwitch
  split
  · exact ⟨by simp, fun v h => by injection h with h; subst h; exact hu⟩
  · split
    · split
      · exact ⟨by simp, fun v h => by injection h with h; subst h; exact hu⟩
      · rename_i e he
        refine ⟨fun h => hR ?_, fun v h => by simp at h⟩
        rw [he]
        injection h with h
        rw [h]
    · exact ⟨by simp, fun v h => by injection h with h; subst h; exact hu⟩
  · split
    · exact ⟨hW, fun v h => by rw [Write_keeps_latched u v _ _ h]; exact hu⟩
    · exact ⟨by simp, fun v h => by injection h with h; subst h; exact hu⟩
  · split
    · refine ⟨by simp, fun v h => ?_⟩
      injection h with h
      subst h
      show u.m_DA &&& 15 < 16
      rw [and_15]
      exact Nat.mod_lt _ (by decide)
    · exact ⟨by simp, fun v h => by injection h with h; subst h; exact hu⟩

theorem Clock_in_range (u : Psg) (hu : u.m_latchedAddress < 16) :
    u.Clock ≠ .error .outOfRange ∧ ∀ v, u.Clock = .ok v → v.m_latchedAddress < 16 := by
  obtain ⟨h1, h2⟩ := modeSwitch_in_range u.m_mode
    { u with m_mode := ModeFromBDIRandBC1 u.m_BDIR u.m_BC1 } hu
  unfold Psg.Clock
  simp only
  split
  · rename_i w hw
    refine ⟨by simp, fun v h => ?_⟩
    injection h with h
    subst h
    rw [(clockGenerators_keeps w).2.1]
    exact h2 w hw
  · rename_i e he
    refine ⟨fun h => h1 ?_, fun v h => by simp at h⟩
    rw [he]
    injection h with h
    rw [h]

/-- C31 (the code differs): the mode that `Psg::Clock` derives from the pins is `Inactive`
for BDIR = 0 and `Read` for BDIR = 1, whatever BC1 is: `SetBits(value, 1, BDIR)` sets the
mask `1`, bit 0, and `SetBits(value, 0, BC1)` sets the empty mask.  So (BDIR = 0, BC1 = 1)
gives `Inactive` where the table has `Read`, (1, 0) gives `Read` where it has `Write`, and
(1, 1) gives `Read` where it has `LatchAddress`. -/
theorem ModeFromBDIRandBC1_ignores_BC1 :
    ModeFromBDIRandBC1 false false = .Inactive ∧ ModeFromBDIRandBC1 false true = .Inactive ∧
      ModeFromBDIRandBC1 true false = .Read ∧ ModeFromBDIRandBC1 true true = .Read ∧
      (∀ BDIR BC1, ModeFromBDIRandBC1 BDIR BC1 = ModeFromBDIRandBC1 BDIR false) ∧
      specMode false true = .Read ∧ specMode true false = .Write ∧
      specMode true true = .LatchAddress := by
  decide

theorem Write_period_register (u : Psg) (a v a' : Nat) (hi : u.m_latchedAddress < 6) :
    ∃ t, u.Write a v = .ok t ∧ t.m_latchedAddress = u.m_latchedAddress ∧
      t.m_mode = u.m_mode ∧
      t.Read a' = .ok (if u.m_latchedAddress % 2 = 0 then v % 256 else v % 16) := by
  obtain ⟨mode, da, regs, div, tg, la, bdir, bc1⟩ := u
  simp only at hi
  interval_cases la <;> refine ⟨_, rfl, rfl, rfl, ?_⟩ <;>
    simp [Psg.Read, PeriodLow_SetPeriodLow, PeriodHigh_SetPeriodHigh]

/-- C32: with the index `i` of a tone-period register (0 to 5) latched, `Psg::Write` of a
byte `v` completes and a `Psg::Read` then returns `v` for the period-low registers (even
`i`) and the low 4 bits of `v` for the period-high registers (odd `i`).  The same holds
through the mode switch of `Clock`: from any state, the action of `LatchAddress` with
`DA = i`, then of `Write` with `DA = v`, then of `Read` leaves that value on `DA`. -/
theorem period_register_write_then_read (s : Psg) (i v address address' : Nat) (hi : i < 6)
    (hv : v < 256) :
    (s.m_latchedAddress = i →
      ∃ t, s.Write address v = .ok t ∧ t.m_latchedAddress = i ∧
        t.Read address' = .ok (if i % 2 = 0 then v else v % 16)) ∧
    ∃ s1 s2 s3,
      Psg.modeSwitch .Inactive { s with m_mode := .LatchAddress, m_DA := i } = .ok s1 ∧
      Psg.modeSwitch .Inactive { s1 with m_mode := .Write, m_DA := v } = .ok s2 ∧
      Psg.modeSwitch .Inactive { s2 with m_mode := .Read } = .ok s3 ∧
      s3.m_DA = (if i % 2 = 0 then v else v % 16) := by
  have key : ∀ u : Psg, u.m_latchedAddress = i → ∀ a a',
      ∃ t, u.Write a v = .ok t ∧ t.m_latchedAddress = i ∧ t.m_mode = u.m_mode ∧
        t.Read a' = .ok (if i % 2 = 0 then v else v % 16) := by
    intro u hl a a'
    obtain ⟨t, h1, h2, h3, h4⟩ := Write_period_register u a v a' (by rw [hl]; exact hi)
    rw [hl] at h4
    rw [Nat.mod_eq_of_lt hv] at h4
    exact ⟨t, h1, h2.trans hl, h3, h4⟩
  refine ⟨fun hl => ?_, ?_⟩
  · obtain ⟨t, h1, h2, -, h3⟩ := key s hl address address'
    exact ⟨t, h1, h2, h3⟩
  · have hi16 : i &&& 15 = i := by
      rw [and_15]
      exact Nat.mod_eq_of_lt (by omega)
    obtain ⟨t, h1, h2, hm, h3⟩ := key
      { s with m_mode := .Write, m_DA := v, m_latchedAddress := i } rfl i i
    refine ⟨{ s with m_mode := .LatchAddress, m_DA := i, m_latchedAddress := i }, t,
      { t with m_mode := .Read, m_DA := (if i % 2 = 0 then v else v % 16) }, ?_, h1, ?_, rfl⟩
    · simp only [Psg.modeSwitch, ReadBits, hi16, if_true]
    · have h3' : Psg.Read { t with m_mode := .Read } t.m_latchedAddress
          = .ok (if i % 2 = 0 then v else v % 16) := by
        rw [show Psg.Read { t with m_mode := .Read } t.m_latchedAddress
          = Psg.Read t t.m_latchedAddress from rfl, h2]
        exact h3
      simp only [Psg.modeSwitch, if_true, h3']

theorem period_register_write_then_read_witness :
    (samplePsg.m_latchedAddress = 0 →
      ∃ t, samplePsg.Write 0 0x80 = .ok t ∧ t.m_latchedAddress = 0 ∧
        t.Read 0 = .ok (if 0 % 2 = 0 then 0x80 else 0x80 % 16)) ∧
    ∃ s1 s2 s3,
      Psg.modeSwitch .Inactive { samplePsg with m_mode := .LatchAddress, m_DA := 0 }
        = .ok s1 ∧
      Psg.modeSwitch .Inactive { s1 with m_mode := .Write, m_DA := 0x80 } = .ok s2 ∧
      Psg.modeSwitch .Inactive { s2 with m_mode := .Read } = .ok s3 ∧
      s3.m_DA = (if 0 % 2 = 0 then 0x80 else 0x80 % 16) :=
  period_register_write_then_read samplePsg 0 0x80 0 0 (by decide) (by decide)

/-- C34 (the code differs): `Psg::Reset` sets the mode to `Inactive`, `DA` to 0, the sixteen
registers to 0 and the divider and the three tone generators to their initial state, but it
has no assignment to the latched address: for every state it is after `Reset` what it was
before, 5 for the state `usedPsg`. -/
theorem Reset_keeps_latched_address :
    (∀ s : Psg, (Psg.Reset s).m_latchedAddress = s.m_latchedAddress) ∧
      usedPsg.m_latchedAddress = 5 ∧ (Psg.Reset usedPsg).m_latchedAddress = 5 ∧
      (Psg.Reset usedPsg).m_mode = .Inactive ∧ (Psg.Reset usedPsg).m_DA = 0 ∧
      (Psg.Reset usedPsg).m_registers = List.replicate 16 0 ∧
      (Psg.Reset usedPsg).m_toneGenerators = samplePsg.m_toneGenerators :=
  ⟨fun _ => rfl, by decide⟩

/-- C38: from a state whose latched address is below 16, every state reached by `WriteDA`,
changes of the pins and calls of `Clock` that return has its latched address below 16, and
there neither `Clock` nor a `Psg::Read` or `Psg::Write` at the latched address leaves the
sixteen entries of the register file. -/
theorem latched_address_stays_below_16 (s t : Psg) (hs : s.m_latchedAddress < 16)
    (h : PsgReachable s t) :
    t.m_latchedAddress < 16 ∧ t.Clock ≠ .error .outOfRange ∧
      t.Read t.m_latchedAddress ≠ .error .outOfRange ∧
      ∀ v, t.Write t.m_latchedAddress v ≠ .error .outOfRange := by
  have hlt : t.m_latchedAddress < 16 := by
    induction h with
    | start => exact hs
    | step t u _ hstep ih =>
      cases hstep
      · exact ih
      · exact ih
      · exact ih
      · rename_i hc
        exact (Clock_in_range t ih).2 u hc
  exact ⟨hlt, (Clock_in_range t hlt).1, (Read_Write_in_range t _ 0 hlt).1,
    fun v => (Read_Write_in_range t _ v hlt).2⟩

theorem latched_address_stays_below_16_witness :
    clockedPsg.m_latchedAddress < 16 ∧ clockedPsg.Clock ≠ .error .outOfRange ∧
      clockedPsg.Read clockedPsg.m_latchedAddress ≠ .error .outOfRange ∧
      ∀ v, clockedPsg.Write clockedPsg.m_latchedAddress v ≠ .error .outOfRange :=
  latched_address_stays_below_16 samplePsg clockedPsg (by decide)
    (.step _ _ (.step _ _ (.step _ _ .start (.writeDA samplePsg 5))
      (.setBDIR (samplePsg.WriteDA 5) true))
      (.clock ((samplePsg.WriteDA 5).SetBDIR true) clockedPsg rfl))

/-! ## Breakpoints: positions follow the order of the addresses -/

theorem sorted_position (l : List (Nat × Breakpoint))
    (hs : l.Pairwise (fun x y => x.1 < y.1)) (e : Nat × Breakpoint) (he : e ∈ l) :
    l.findIdx (fun x => x.1 == e.1) = (l.filter (fun x => decide (x.1 < e.1))).length ∧
      l[(l.filter (fun x => decide (x.1 < e.1))).length]? = some e := by
  induction l with
  | nil => exact absurd he (List.not_mem_nil e)
  | cons x xs ih =>
    obtain ⟨hx, hxs⟩ := List.pairwise_cons.mp hs
    rcases List.mem_cons.mp he with rfl | hmem
    · have hnil : xs.filter (fun y => decide (y.1 < e.1)) = [] := by
        rw [List.filter_eq_nil_iff]
        intro y hy
        have := hx y hy
        simp only [decide_eq_true_eq]
        omega
      rw [List.findIdx_cons, List.filter_cons, hnil]
      simp only [beq_self_eq_true, cond_true, Nat.lt_irrefl, decide_False, Bool.false_eq_true,
        if_false, List.length_nil, List.getElem?_cons_zero, and_self]
    · have hlt : x.1 < e.1 := hx e hmem
      have hne : (x.1 == e.1) = false := by
        rw [beq_eq_false_iff_ne]
        omega
      obtain ⟨h1, h2⟩ := ih hxs hmem
      rw [List.findIdx_cons, List.filter_cons, hne, if_pos (decide_eq_true hlt)]
      simp only [cond_false, List.length_cons, List.getElem?_cons_succ]
      exact ⟨by rw [h1], h2⟩

theorem find_absent (l : List (Nat × Breakpoint)) (a : Nat)
    (h : ∀ e, e ∈ l → e.1 ≠ a) : l.findIdx (fun x => x.1 == a) = l.length := by
  apply List.findIdx_eq_length_of_false
  intro e he
  rw [beq_eq_false_iff_ne]
  exact h e he

theorem filter_length_lt (l : List (Nat × Breakpoint)) (e : Nat × Breakpoint)
    (h : l[(l.filter (fun x => decide (x.1 < e.1))).length]? = some e) :
    (l.filter (fun x => decide (x.1 < e.1))).length < l.length := by
  by_contra hc
  rw [List.getElem?_eq_none (Nat.le_of_not_lt hc)] at h
  exact Option.noConfusion h

/-- C39: for a breakpoint set and an address `a` stored in it, with the breakpoint `e`,
`GetIndex(a)` is the number of stored addresses strictly smaller than `a`, `GetAtIndex` of
that index is `e`, the breakpoint that `Get(a)` gives, and the address of `e` is `a`; for
an address that is not stored `GetIndex` returns nothing. -/
theorem GetIndex_is_rank_of_address (b : Breakpoints) (hwf : b.WF) (a : Nat)
    (ha : a < 65536) :
    (∀ e, e ∈ b.m_breakpoints → e.1 = a →
      b.GetIndex a = some (b.rank a) ∧ b.GetAtIndex (b.rank a) = some (some e.2) ∧
      b.Get a = some e.2 ∧ e.2.address = a) ∧
    ((∀ e, e ∈ b.m_breakpoints → e.1 ≠ a) → b.GetIndex a = none) := by
  have hU : U16 a = a := Nat.mod_eq_of_lt ha
  refine ⟨fun e he hea => ?_, fun h => ?_⟩
  · subst hea
    obtain ⟨h1, h2⟩ := sorted_position b.m_breakpoints hwf.1 e he
    have hlt : b.rank e.1 < b.m_breakpoints.length := filter_length_lt b.m_breakpoints e h2
    have hne : b.rank e.1 ≠ b.m_breakpoints.length := Nat.ne_of_lt hlt
    have hfind : b.find e.1 = b.rank e.1 := h1
    have hget : b.m_breakpoints[b.rank e.1]? = some e := h2
    refine ⟨?_, ?_, ?_, (hwf.2 e he).2⟩
    · simp only [Breakpoints.GetIndex, hU, hfind, hne, ne_eq, not_false_eq_true, if_true]
    · have hiter : b.GetBreakpointIterAtIndex (b.rank e.1) = some (b.rank e.1) := by
        have h0 : 0 ≠ b.m_breakpoints.length := by omega
        have hle : b.rank e.1 ≤ b.m_breakpoints.length := by omega
        simp only [Breakpoints.GetBreakpointIterAtIndex, h0, hle, ne_eq, not_false_eq_true,
          if_true, Nat.zero_add]
      simp only [Breakpoints.GetAtIndex, hiter, hne, hget, ne_eq, not_false_eq_true, if_true,
        Option.map_some']
    · simp only [Breakpoints.Get, hU, hfind, hne, hget, ne_eq, not_false_eq_true, if_true,
        Option.map_some']
  · have hfind : b.find a = b.m_breakpoints.length := find_absent b.m_breakpoints a h
    simp only [Breakpoints.GetIndex, hU, hfind, ne_eq, not_true_eq_false, if_false]

theorem GetIndex_is_rank_of_address_witness :
    (∀ e, e ∈ sampleBreakpoints.m_breakpoints → e.1 = 0x2000 →
      sampleBreakpoints.GetIndex 0x2000 = some (sampleBreakpoints.rank 0x2000) ∧
      sampleBreakpoints.GetAtIndex (sampleBreakpoints.rank 0x2000) = some (some e.2) ∧
      sampleBreakpoints.Get 0x2000 = some e.2 ∧ e.2.address = 0x2000) ∧
    ((∀ e, e ∈ sampleBreakpoints.m_breakpoints → e.1 ≠ 0x2000) →
      sampleBreakpoints.GetIndex 0x2000 = none) :=
  GetIndex_is_rank_of_address sampleBreakpoints (by decide) 0x2000 (by decide)

theorem AtIndex_cases (b : Breakpoints) (i : Nat) :
    (i < b.Num →
      b.GetAtIndex i = some (b.m_breakpoints[i]?.map Prod.snd) ∧
      b.RemoveAtIndex i = some (b.m_breakpoints[i]?.map Prod.snd,
        { m_breakpoints := b.m_breakpoints.eraseIdx i }) ∧
      (Breakpoints.mk (b.m_breakpoints.eraseIdx i)).Num + 1 = b.Num) ∧
    (i = b.Num → b.GetAtIndex i = some none ∧ b.RemoveAtIndex i = some (none, b)) ∧
    (b.Num < i → 0 < b.Num → b.GetAtIndex i = none ∧ b.RemoveAtIndex i = none) ∧
    (b.Num = 0 → b.GetAtIndex i = some none ∧ b.RemoveAtIndex i = some (none, b)) := by
  unfold Breakpoints.Num
  refine ⟨fun h => ?_, fun h => ?_, fun h h0 => ?_, fun h => ?_⟩
  · have h0 : 0 ≠ b.m_breakpoints.length := by omega
    have hle : i ≤ b.m_breakpoints.length := by omega
    have hne : i ≠ b.m_breakpoints.length := by omega
    have hiter : b.GetBreakpointIterAtIndex i = some i := by
      simp only [Breakpoints.GetBreakpointIterAtIndex, h0, hle, ne_eq, not_false_eq_true,
        if_true, Nat.zero_add]
    refine ⟨?_, ?_, ?_⟩
    · simp only [Breakpoints.GetAtIndex, hiter, hne, ne_eq, not_false_eq_true, if_true]
    · simp only [Breakpoints.RemoveAtIndex, hiter, hne, ne_eq, not_false_eq_true, if_true]
    · show (b.m_breakpoints.eraseIdx i).length + 1 = _
      rw [List.length_eraseIdx_of_lt h]
      omega
  · subst h
    by_cases h0 : 0 = b.m_breakpoints.length
    · have hiter : b.GetBreakpointIterAtIndex b.m_breakpoints.length = some 0 := by
        simp only [Breakpoints.GetBreakpointIterAtIndex, h0.symm, ne_eq, not_true_eq_false,
          if_false]
      simp only [Breakpoints.GetAtIndex, Breakpoints.RemoveAtIndex, hiter, h0, ne_eq,
        not_true_eq_false, if_false, and_self]
    · have hiter : b.GetBreakpointIterAtIndex b.m_breakpoints.length
          = some b.m_breakpoints.length := by
        simp only [Breakpoints.GetBreakpointIterAtIndex, h0, ne_eq, not_false_eq_true,
          if_true, Nat.zero_add, Nat.le_refl]
      simp only [Breakpoints.GetAtIndex, Breakpoints.RemoveAtIndex, hiter, ne_eq,
        not_true_eq_false, if_false, and_self]
  · have h0' : 0 ≠ b.m_breakpoints.length := by omega
    have hle : ¬ i ≤ b.m_breakpoints.length := by omega
    have hiter : b.GetBreakpointIterAtIndex i = none := by
      simp only [Breakpoints.GetBreakpointIterAtIndex, h0', hle, ne_eq, not_false_eq_true,
        if_true, if_false, Nat.zero_add]
    simp only [Breakpoints.GetAtIndex, Breakpoints.RemoveAtIndex, hiter, and_self]
  · have hiter : b.GetBreakpointIterAtIndex i = some 0 := by
      simp only [Breakpoints.GetBreakpointIterAtIndex, h, ne_eq, not_true_eq_false, if_false]
    simp only [Breakpoints.GetAtIndex, Breakpoints.RemoveAtIndex, hiter, h, ne_eq,
      not_true_eq_false, if_false, and_self]

theorem index_is_rank (b : Breakpoints) (hwf : b.WF) (i : Nat) (e : Nat × Breakpoint)
    (h : b.m_breakpoints[i]? = some e) : b.rank e.1 = i ∧ e.2.address = e.1 := by
  have hmem : e ∈ b.m_breakpoints := List.getElem?_mem h
  obtain ⟨-, h2⟩ := sorted_position b.m_breakpoints hwf.1 e hmem
  refine ⟨?_, (hwf.2 e hmem).2⟩
  have hnd : b.m_breakpoints.Nodup :=
    hwf.1.imp (fun {x y} hxy hEq => by rw [hEq] at hxy; exact Nat.lt_irrefl _ hxy)
  have hr : b.rank e.1 < b.m_breakpoints.length := filter_length_lt b.m_breakpoints e h2
  exact List.getElem?_inj hr hnd (h2.trans h.symm)

/-- C40 (the code differs): for an index above `Num()` on a set that is not empty,
`GetBreakpointIterAtIndex` advances the iterator of the map beyond `end()`, which is
undefined: on the set of the three addresses `0x1000`, `0x2000`, `0x3000`, `GetAtIndex(4)`
and `RemoveAtIndex(4)` have no defined result, while `GetAtIndex(3)` is null and
`RemoveAtIndex(3)` returns nothing and leaves the set as it was. -/
theorem GetAtIndex_beyond_Num_is_undefined :
    sampleBreakpoints.Num = 3 ∧ sampleBreakpoints.GetAtIndex 3 = some none ∧
      sampleBreakpoints.RemoveAtIndex 3 = some (none, sampleBreakpoints) ∧
      sampleBreakpoints.GetBreakpointIterAtIndex 4 = none ∧
      sampleBreakpoints.GetAtIndex 4 = none ∧ sampleBreakpoints.RemoveAtIndex 4 = none := by
  decide

/-! ## The index register after an indexed operand fetch -/

theorem specAutoStep_of_clear (p : Nat) (h : p &&& BITS 7 = 0) : specAutoStep p = 0 := by
  have h7 : p.testBit 7 = false := by
    by_contra hc
    exact ((and_BITS_ne_zero_iff p 7).2 (by simpa using hc)) h
  rw [Nat.testBit_to_div_mod] at h7
  have h7' : ¬ p / 128 % 2 = 1 := by simpa using h7
  unfold specAutoStep
  rw [if_neg h7']

theorem specAutoStep_of_set (p : Nat) (h : ¬ p &&& BITS 7 = 0) :
    specAutoStep p =
      if p % 16 = 0 then 1 else if p % 16 = 1 then 2 else if p % 16 = 2 then -1
      else if p % 16 = 3 then -2 else 0 := by
  have h7 : p.testBit 7 = true := (and_BITS_ne_zero_iff p 7).1 h
  rw [Nat.testBit_to_div_mod] at h7
  have h7' : p / 128 % 2 = 1 := by simpa using h7
  unfold specAutoStep
  rw [if_pos h7']

theorem get16_set16_index (s : CpuImpl M) (q reg : Reg16) (v : Nat)
    (hq : q = .X ∨ q = .Y ∨ q = .U ∨ q = .S) :
    (s.set16 q v).get16 reg = if q = reg then v % 65536 else s.get16 reg := by
  rcases hq with h | h | h | h <;> rw [h] <;> cases reg <;> rfl

theorem get16_ReadPC8 (s : CpuImpl M) (reg : Reg16) (hreg : reg ≠ .PC) :
    (ReadPC8 s).2.get16 reg = s.get16 reg := by
  cases reg
  · rfl
  · rfl
  · rfl
  · rfl
  · rfl
  · exact absurd rfl hreg

theorem specIndexAfter_zero (p : Nat) (reg : Reg16) (r : Nat) (hr : r < 65536)
    (h : specAutoStep p = 0) : specIndexAfter p reg r = r := by
  unfold specIndexAfter
  rw [h]
  split
  · omega
  · rfl

theorem dec16_U16 (r : Nat) (hr : r < 65536) :
    U16 (dec16 r) = (((r : Int) + -1) % 65536).toNat := by
  unfold dec16 U16
  split <;> omega

theorem dec16_twice (r : Nat) (hr : r < 65536) :
    U16 (dec16 (U16 (dec16 r))) = (((r : Int) + -2) % 65536).toNat := by
  unfold dec16 U16
  split <;> split <;> omega

theorem ReadIndexedEABase_index (p : Nat) (s t : CpuImpl M) (EA : Nat) (ind : Bool) (c : Nat)
    (reg : Reg16) (hreg : reg ≠ .PC) (hwf : s.toCpuRegisters.WF)
    (h : ReadIndexedEABase p s = some (EA, ind, c, t)) :
    t.get16 reg = specIndexAfter p reg (s.get16 reg) := by
  have hr : s.get16 reg < 65536 := get16_lt s reg hwf
  have hsel := specIndexRegister_cases p
  unfold ReadIndexedEABase at h
  split at h
  · rename_i h7
    simp only [Option.some.injEq, Prod.mk.injEq] at h
    rw [← h.2.2.2, specIndexAfter_zero p reg _ hr (specAutoStep_of_clear p h7)]
  · rename_i h7
    have hstep := specAutoStep_of_set p h7
    have e16 : p &&& 0b1111 = p % 16 := and_0F p
    rw [e16] at h
    split at h
    all_goals rename_i hk
    all_goals try (simp only [reduceCtorEq] at h)
    all_goals simp only [Option.some.injEq, Prod.mk.injEq] at h
    all_goals rw [← h.2.2.2]
    · have hs : specAutoStep p = 1 := by rw [hstep]; simp [hk]
      rw [RegisterSelect_eq_spec, get16_set16_index _ _ _ _ hsel]
      unfold specIndexAfter
      rw [hs]
      by_cases e : specIndexRegister p = reg
      · rw [if_pos e, if_pos e, e]; omega
      · rw [if_neg e, if_neg e]
    · have hs : specAutoStep p = 2 := by rw [hstep]; simp [hk]
      rw [RegisterSelect_eq_spec, get16_set16_index _ _ _ _ hsel]
      unfold specIndexAfter
      rw [hs]
      by_cases e : specIndexRegister p = reg
      · rw [if_pos e, if_pos e, e]; omega
      · rw [if_neg e, if_neg e]
    · have hs : specAutoStep p = -1 := by rw [hstep]; simp [hk]
      rw [RegisterSelect_eq_spec, get16_set16_index _ _ _ _ hsel]
      unfold specIndexAfter
      rw [hs]
      by_cases e : specIndexRegister p = reg
      · rw [if_pos e, if_pos e, ← dec16_U16 _ (get16_lt s _ hwf), e]
        rfl
      · rw [if_neg e, if_neg e]
    · have hs : specAutoStep p = -2 := by rw [hstep]; simp [hk]
      rw [RegisterSelect_eq_spec, get16_set16_index _ _ _ _ hsel]
      unfold specIndexAfter
      rw [hs]
      by_cases e : specIndexRegister p = reg
      · rw [if_pos e, if_pos e, ← dec16_twice _ (get16_lt s _ hwf), e]
        rfl
      · rw [if_neg e, if_neg e]
    all_goals have hs : specAutoStep p = 0 := by rw [hstep]; simp [hk]
    all_goals rw [specIndexAfter_zero p reg _ hr hs]
    all_goals first
      | rfl
      | exact get16_ReadPC8 _ _ hreg
      | exact (get16_ReadPC8 _ _ hreg).trans (get16_ReadPC8 _ _ hreg)

theorem ReadIndexedEA_index (s t : CpuImpl M) (EA : Nat) (reg : Reg16) (hreg : reg ≠ .PC)
    (hwf : s.toCpuRegisters.WF) (h : ReadIndexedEA s = some (EA, t)) :
    t.get16 reg = specIndexAfter (Read8 s s.PC) reg (s.get16 reg) := by
  have e : ReadIndexedEA s = (match ReadIndexedEABase (Read8 s s.PC) (ReadPC8 s).2 with
      | none => none
      | some (EA, supportsIndirect, extraCycles, s1) =>
        if supportsIndirect && decide (Read8 s s.PC &&& BITS 4 ≠ 0) then
          some (CombineToU16 (Read8 s1 EA) (Read8 s1 (EA + 1)), s1.addCycles (extraCycles + 3))
        else some (EA, s1.addCycles extraCycles)) := rfl
  rw [e] at h
  have hwf1 : (ReadPC8 s).2.toCpuRegisters.WF := (StepOK_ReadPC8 (StepOK_refl s)).1 hwf
  split at h
  · exact absurd h (by simp)
  · rename_i EA0 ind c s1 hb
    have hi := ReadIndexedEABase_index _ _ _ _ _ _ reg hreg hwf1 hb
    rw [get16_ReadPC8 _ _ hreg] at hi
    have ht : t.get16 reg = s1.get16 reg := by
      split at h <;> simp only [Option.some.injEq, Prod.mk.injEq] at h <;> rw [← h.2] <;>
        cases reg <;> rfl
    rw [ht, hi]

theorem ReadOperandValue16_index (mode : AddressingMode) (s t : CpuImpl M) (v : Nat)
    (reg : Reg16) (hreg : reg ≠ .PC) (hwf : s.toCpuRegisters.WF)
    (h : ReadOperandValue16 mode s = some (v, t)) :
    t.get16 reg =
      if mode = .Indexed then specIndexAfter (Read8 s s.PC) reg (s.get16 reg)
      else s.get16 reg := by
  by_cases hm : mode = .Indexed
  · rw [if_pos hm]
    rw [hm] at h
    have e : ReadOperandValue16 .Indexed s = (match ReadIndexedEA s with
        | none => none
        | some (EA, s) => some (Read16 s EA, s)) := rfl
    rw [e] at h
    split at h
    · exact absurd h (by simp)
    · rename_i EA t0 he
      simp only [Option.some.injEq, Prod.mk.injEq] at h
      rw [← h.2]
      exact ReadIndexedEA_index s t0 EA reg hreg hwf he
  · rw [if_neg hm]
    obtain ⟨eX, eY, eU, eS⟩ := ReadOperandValue16_not_indexed mode s t v hm h
    obtain ⟨⟨hfA, hfB, -⟩, -⟩ := ReadOperandValue16_frame mode s t v h
    cases reg
    · show CombineToU16 t.A t.B = CombineToU16 s.A s.B
      rw [hfA, hfB]
    · exact eX
    · exact eY
    · exact eU
    · exact eS
    · exact absurd rfl hreg

theorem specExtraOperandBytes_of_clear (p : Nat) (h : p &&& BITS 7 = 0) :
    specExtraOperandBytes p = 0 := by
  have h7 : p.testBit 7 = false := by
    by_contra hc
    exact ((and_BITS_ne_zero_iff p 7).2 (by simpa using hc)) h
  rw [Nat.testBit_to_div_mod] at h7
  have h7' : ¬ p / 128 % 2 = 1 := by simpa using h7
  unfold specExtraOperandBytes
  rw [if_neg h7']

theorem specExtraOperandBytes_of_set (p : Nat) (h : ¬ p &&& BITS 7 = 0) :
    specExtraOperandBytes p =
      if p % 16 = 8 ∨ p % 16 = 12 then 1
      else if p % 16 = 9 ∨ p % 16 = 13 ∨ p % 16 = 15 then 2 else 0 := by
  have h7 : p.testBit 7 = true := (and_BITS_ne_zero_iff p 7).1 h
  rw [Nat.testBit_to_div_mod] at h7
  have h7' : p / 128 % 2 = 1 := by simpa using h7
  unfold specExtraOperandBytes
  rw [if_pos h7']

theorem PC_set16_index (s : CpuImpl M) (p v : Nat) :
    (s.set16 (RegisterSelect p) v).PC = s.PC := by
  rcases RegisterSelect_cases p with h | h | h | h <;> rw [h] <;> rfl

theorem ReadIndexedEABase_PC (p : Nat) (s t : CpuImpl M) (EA : Nat) (ind : Bool) (c : Nat)
    (hpc : s.PC < 65536) (h : ReadIndexedEABase p s = some (EA, ind, c, t)) :
    t.PC = (s.PC + specExtraOperandBytes p) % 65536 := by
  have h1 : (ReadPC8 s).2.PC = (s.PC + 1) % 65536 := rfl
  have h2 : (ReadPC8 (ReadPC8 s).2).2.PC = (s.PC + 2) % 65536 := by
    show U16 (U16 (s.PC + 1) + 1) = _
    simp only [U16]
    omega
  unfold ReadIndexedEABase at h
  split at h
  · rename_i h7
    simp only [Option.some.injEq, Prod.mk.injEq] at h
    rw [← h.2.2.2, specExtraOperandBytes_of_clear p h7]
    omega
  · rename_i h7
    have hstep := specExtraOperandBytes_of_set p h7
    have e16 : p &&& 0b1111 = p % 16 := and_0F p
    rw [e16] at h
    split at h
    all_goals rename_i hk
    all_goals try (simp only [reduceCtorEq] at h)
    all_goals simp only [Option.some.injEq, Prod.mk.injEq] at h
    all_goals rw [← h.2.2.2, hstep]
    all_goals simp only [hk, PC_set16_index]
    all_goals (simp; omega)

theorem ReadIndexedEA_PC (s t : CpuImpl M) (EA : Nat) (h : ReadIndexedEA s = some (EA, t)) :
    t.PC = (s.PC + 1 + specExtraOperandBytes (Read8 s s.PC)) % 65536 := by
  have e : ReadIndexedEA s = (match ReadIndexedEABase (Read8 s s.PC) (ReadPC8 s).2 with
      | none => none
      | some (EA, supportsIndirect, extraCycles, s1) =>
        if supportsIndirect && decide (Read8 s s.PC &&& BITS 4 ≠ 0) then
          some (CombineToU16 (Read8 s1 EA) (Read8 s1 (EA + 1)), s1.addCycles (extraCycles + 3))
        else some (EA, s1.addCycles extraCycles)) := rfl
  rw [e] at h
  have h1 : (ReadPC8 s).2.PC = (s.PC + 1) % 65536 := rfl
  split at h
  · exact absurd h (by simp)
  · rename_i EA0 ind c s1 hb
    have hi := ReadIndexedEABase_PC _ _ _ _ _ _ (by rw [h1]; exact Nat.mod_lt _ (by decide)) hb
    have ht : t.PC = s1.PC := by
      split at h <;> simp only [Option.some.injEq, Prod.mk.injEq] at h <;> rw [← h.2] <;> rfl
    rw [ht, hi, h1]
    omega

/-- C20 (counterexample): `CMPX ,X++` with `X = 0x1000` and the operand word `0x1000` at that
address.  The compare completes with `X = 0x1002`, so the register is not left unchanged,
in either order of evaluating the arguments of `SubtractImpl`; and when the register is read
after the operand fetch, `Z` is clear although the register before the instruction equals the
operand. -/
theorem CMPX_post_increment_moves_X :
    cmpxMachine.X = 0x1000 ∧
      (ReadOperandValue16 .Indexed cmpxMachine).map Prod.fst = some 0x1000 ∧
      (OpCMP16 true .Indexed .X cmpxMachine).map (fun t => (t.X, t.CC.Zero))
        = some (0x1002, true) ∧
      (OpCMP16 false .Indexed .X cmpxMachine).map (fun t => (t.X, t.CC.Zero))
        = some (0x1002, false) := by
  decide

/-- C20 (amended): `CMP` of a register with an operand `v` (fetched in any addressing mode,
leaving the state `s1`) completes and changes nothing but the flags on top of the operand
fetch; memory is unchanged.  The fetch leaves `A`, `B`, `D` alone, and `X`, `Y`, `U`, `S` in
every mode but the indexed one, where the index register that the post-byte selects moves by
its auto-increment or auto-decrement.  With `r` the compared value, `Z = 1` iff `r = v`,
`C = 1` iff `r < v` (unsigned) and `N` is the top bit of `(r - v) mod 2^w`; the flags are
those that the subtraction `SUB` leaves on the same state.  For `A` and `B` (`w = 8`) `r` is
the value before the instruction; for a 16-bit register (`w = 16`) `r` is the value before
the instruction when the register argument is evaluated first and the value after the
operand fetch otherwise, the same value unless the post-byte moves the compared register. -/
theorem CMP_flags_of_subtraction (mode : AddressingMode) (s : CpuImpl M)
    (hwf : s.toCpuRegisters.WF) :
    (∀ (reg : Reg8) (v : Nat) (s1 : CpuImpl M), reg = .A ∨ reg = .B →
      ReadOperandValue8 mode s = some (v, s1) →
      ∃ t, OpCMP8 mode reg s = some t ∧ t = s1.setCC t.CC ∧
        t.get8 reg = s.get8 reg ∧ t.m_memoryBus = s.m_memoryBus ∧
        (t.CC.Zero = true ↔ s.get8 reg = v) ∧
        (t.CC.Carry = true ↔ s.get8 reg < v) ∧
        t.CC.Negative = ((((s.get8 reg : Nat) : Int) - v) % 256).toNat.testBit 7 ∧
        ∃ u, OpSUB8 mode reg s = some u ∧ u.CC = t.CC) ∧
    (∀ (registerFirst : Bool) (reg : Reg16) (v : Nat) (s1 : CpuImpl M),
      ReadOperandValue16 mode s = some (v, s1) →
      ∃ t, OpCMP16 registerFirst mode reg s = some t ∧ t = s1.setCC t.CC ∧
        t.get16 reg = s1.get16 reg ∧ t.m_memoryBus = s.m_memoryBus ∧
        (reg ≠ .PC → s1.get16 reg =
          if mode = .Indexed then specIndexAfter (Read8 s s.PC) reg (s.get16 reg)
          else s.get16 reg) ∧
        (reg ≠ .PC → mode ≠ .Indexed ∨ reg = .D ∨ specIndexRegister (Read8 s s.PC) ≠ reg ∨
          specAutoStep (Read8 s s.PC) = 0 → s1.get16 reg = s.get16 reg) ∧
        (t.CC.Zero = true ↔ (if registerFirst then s.get16 reg else s1.get16 reg) = v) ∧
        (t.CC.Carry = true ↔ (if registerFirst then s.get16 reg else s1.get16 reg) < v) ∧
        t.CC.Negative = (((((if registerFirst then s.get16 reg else s1.get16 reg : Nat) : Int)
          - v) % 65536).toNat.testBit 15) ∧
        ∃ u, OpSUB16 registerFirst mode reg s = some u ∧ u.CC = t.CC) := by
  constructor
  · intro reg v s1 hreg hop
    obtain ⟨hf, hv⟩ := ReadOperandValue8_frame mode s s1 v hop
    obtain ⟨hfA, hfB, -, -, hbus, -⟩ := hf
    have hwf1 := (ReadOperandValue8_step mode s s1 v hop).1 hwf
    have hr1 : s1.get8 reg = s.get8 reg := by
      rcases hreg with h | h <;> rw [h]
      · exact hfA
      · exact hfB
    have hlt : s1.get8 reg < 256 := get8_lt s1 reg hwf1
    obtain ⟨hC, hZ, hN⟩ := SubtractImpl8_flags (s1.get8 reg) v s1.CC hlt hv
    refine ⟨s1.setCC (SubtractImpl8 (s1.get8 reg) v s1.CC).2, ?_, rfl, ?_, hbus, ?_, ?_, ?_, ?_⟩
    · simp only [OpCMP8, hop]
    · rcases hreg with h | h <;> rw [h] <;> [exact hfA; exact hfB]
    · show (SubtractImpl8 (s1.get8 reg) v s1.CC).2.Zero = true ↔ _
      rw [hZ, hr1, decide_eq_true_iff]
    · show (SubtractImpl8 (s1.get8 reg) v s1.CC).2.Carry = true ↔ _
      rw [hC, hr1, decide_eq_true_iff]
    · show (SubtractImpl8 (s1.get8 reg) v s1.CC).2.Negative = _
      rw [hN, hr1]
    · refine ⟨_, by simp only [OpSUB8, hop]; rfl, ?_⟩
      rcases hreg with h | h <;> rw [h] <;> rfl
  · intro rf reg v s1 hop
    obtain ⟨hf, hv⟩ := ReadOperandValue16_frame mode s s1 v hop
    obtain ⟨hfA, hfB, -, -, hbus, -⟩ := hf
    have hwf1 := (ReadOperandValue16_step mode s s1 v hop).1 hwf
    have hlt : (if rf then s.get16 reg else s1.get16 reg) < 65536 := by
      cases rf
      · exact get16_lt s1 reg hwf1
      · exact get16_lt s reg hwf
    obtain ⟨r, cc', hS, -, hC, hZ, hN⟩ :=
      SubtractImpl16_flags (if rf then s.get16 reg else s1.get16 reg) v s1.CC hlt hv
    have hidx := fun hpc => ReadOperandValue16_index mode s s1 v reg hpc hwf hop
    refine ⟨s1.setCC cc', ?_, rfl, ?_, hbus, hidx, ?_, ?_, ?_, ?_, ?_⟩
    · simp only [OpCMP16, hop, hS]
    · cases reg <;> rfl
    · intro hpc hcase
      rw [hidx hpc]
      by_cases hm : mode = .Indexed
      · rw [if_pos hm]
        rcases hcase with h | h | h | h
        · exact absurd hm h
        · unfold specIndexAfter
          rw [if_neg]
          rw [h]
          rcases specIndexRegister_cases (Read8 s s.PC) with k | k | k | k <;> rw [k] <;>
            decide
        · unfold specIndexAfter
          rw [if_neg h]
        · exact specIndexAfter_zero _ _ _ (get16_lt s reg hwf) h
      · rw [if_neg hm]
    · show cc'.Zero = true ↔ _
      rw [hZ, decide_eq_true_iff]
    · show cc'.Carry = true ↔ _
      rw [hC, decide_eq_true_iff]
    · exact hN
    · refine ⟨(s1.setCC cc').set16 reg r, by simp only [OpSUB16, hop, hS], ?_⟩
      cases reg <;> rfl

theorem CMP_flags_of_subtraction_witness :
    (∃ t, OpCMP8 .Immediate .A cmpMachine = some t ∧
      t = (ReadPC8 cmpMachine).2.setCC t.CC ∧
      t.get8 .A = 0x11 ∧ t.m_memoryBus = cmpMachine.m_memoryBus ∧
      (t.CC.Zero = true ↔ 0x11 = 0x20) ∧
      (t.CC.Carry = true ↔ 0x11 < 0x20) ∧
      t.CC.Negative = ((((0x11 : Nat) : Int) - (0x20 : Nat)) % 256).toNat.testBit 7 ∧
      ∃ u, OpSUB8 .Immediate .A cmpMachine = some u ∧ u.CC = t.CC) ∧
    (∃ t, OpCMP16 false .Immediate .X cmpMachine = some t ∧
      t = (ReadPC16 cmpMachine).2.setCC t.CC ∧
      t.get16 .X = 0x3344 ∧ t.m_memoryBus = cmpMachine.m_memoryBus ∧
      (Reg16.X ≠ .PC → (ReadPC16 cmpMachine).2.get16 .X =
        if AddressingMode.Immediate = .Indexed then
          specIndexAfter (Read8 cmpMachine cmpMachine.PC) .X (cmpMachine.get16 .X)
        else cmpMachine.get16 .X) ∧
      (Reg16.X ≠ .PC → AddressingMode.Immediate ≠ .Indexed ∨ Reg16.X = .D ∨
          specIndexRegister (Read8 cmpMachine cmpMachine.PC) ≠ .X ∨
          specAutoStep (Read8 cmpMachine cmpMachine.PC) = 0 →
        (ReadPC16 cmpMachine).2.get16 .X = cmpMachine.get16 .X) ∧
      (t.CC.Zero = true ↔ 0x3344 = 0x2030) ∧
      (t.CC.Carry = true ↔ 0x3344 < 0x2030) ∧
      t.CC.Negative = ((((0x3344 : Nat) : Int) - (0x2030 : Nat)) % 65536).toNat.testBit 15 ∧
      ∃ u, OpSUB16 false .Immediate .X cmpMachine = some u ∧ u.CC = t.CC) :=
  ⟨(CMP_flags_of_subtraction .Immediate cmpMachine (by decide)).1 .A 0x20
      (ReadPC8 cmpMachine).2 (Or.inl rfl) rfl,
    (CMP_flags_of_subtraction .Immediate cmpMachine (by decide)).2 false .X 0x2030
      (ReadPC16 cmpMachine).2 rfl⟩

/-- C23 (counterexample): `JSR ,--S` executed with `S = 0xC000`: the effective-address
calculation first moves `S` to `0xBFFE`, the call target, and the push of the return address
`0x0102` leaves `S = 0xBFFC`, four below its value before the call; the `RTS` fetched at the
target returns to `0x0102` with `S = 0xBFFE`, not with the value `0xC000` that `S` had before
the call. -/
theorem JSR_predecrement_moves_S_by_four :
    jsrMachine.S = 0xC000 ∧ jsrMachine.PC = 0x0100 ∧
      (ExecuteInstruction callOps jsrMachine).map
          (fun r => (r.2.S, r.2.PC, readBytes r.2 r.2.S 2))
        = some (0xBFFC, 0xBFFE, [0x01, 0x02]) ∧
      ((ExecuteInstruction callOps jsrMachine).bind
          (fun r => ExecuteInstruction callOps r.2)).map (fun r => (r.2.S, r.2.PC))
        = some (0xBFFE, 0x0102) := by
  decide

/-- C23 (amended): for each call opcode, `BSR` (`0x8D`), `LBSR` (`0x17`) and `JSR` direct,
indexed and extended (`0x9D`, `0xAD`, `0xBD`), `ExecuteInstruction` succeeds once the operand
is read, it leaves `S` two below its value at the push and the return address, the `PC` after
the last operand byte, big-endian at the new `S`, with `PC` at the call target; an `RTS`
executed next at the target leaves `PC` at the return address and `S` at its value at the
push.  For all forms but the indexed one the operand read always succeeds, the value of `S`
at the push is its value before the instruction, and the return address is the address of
the instruction plus its length, 2 or 3.  For the indexed form the return address is the
address of the instruction plus 2 plus the number of offset bytes of the post-byte, and the
value of `S` at the push is the value before the instruction moved by the auto-increment or
auto-decrement of the post-byte when that selects `S` (`,S+`, `,S++`, `,-S`, `,--S`), and
the value before the instruction for every other post-byte. -/
theorem call_pushes_return_RTS_returns (tbl : Nat → Nat → CpuOp) (s : CpuImpl M) (op : Nat)
    (hop : op ∈ [0x8D, 0x17, 0x9D, 0xAD, 0xBD]) (hwf : s.toCpuRegisters.WF)
    (hfetch : Read8 s s.PC = op)
    (hrow : (tbl 0 op).opCode = op ∧ 0 < (tbl 0 op).cycles ∧ (tbl 0 op).addrMode = callMode op)
    (hrts : (tbl 0 0x39).opCode = 0x39 ∧ 0 < (tbl 0 0x39).cycles ∧
      (tbl 0 0x39).addrMode = .Inherent) :
    (op ≠ 0xAD → ∃ target s1,
        callOperand op (afterFetch s (tbl 0 op).cycles) = some (target, s1) ∧ s1.S = s.S ∧
        s1.PC = (s.PC + (if op = 0x8D ∨ op = 0x9D then 2 else 3)) % 65536) ∧
      (op = 0xAD → ∀ target s1,
        callOperand op (afterFetch s (tbl 0 op).cycles) = some (target, s1) →
        s1.PC = (s.PC + 2 + specExtraOperandBytes (Read8 s (s.PC + 1))) % 65536 ∧
        s1.S = specIndexAfter (Read8 s (s.PC + 1)) .S s.S ∧
        (specIndexRegister (Read8 s (s.PC + 1)) ≠ .S ∨ specAutoStep (Read8 s (s.PC + 1)) = 0 →
          s1.S = s.S)) ∧
      ∀ target s1, callOperand op (afterFetch s (tbl 0 op).cycles) = some (target, s1) →
        (∀ a, a < 65536 → InStack s1.S 2 a → RamAt M a) →
        ∃ c1 t1, ExecuteInstruction tbl s = some (c1, t1) ∧ t1.PC = target % 65536 ∧
          t1.S = (s1.S + 65536 - 2) % 65536 ∧
          readBytes t1 t1.S 2 = [s1.PC / 256, s1.PC % 256] ∧
          (Read8 t1 t1.PC = 0x39 →
            ∃ c2 t2, ExecuteInstruction tbl t1 = some (c2, t2) ∧ t2.PC = s1.PC ∧
              t2.S = s1.S) := by
  have haf := afterFetch_regs s (tbl 0 op).cycles
  have hop' := hop
  simp only [List.mem_cons, List.mem_singleton, List.not_mem_nil, or_false] at hop'
  refine ⟨fun hne => ?_, fun hAD target s1 hoper => ?_, fun target s1 hoper hram => ?_⟩
  · have hfix : op = 0x8D ∨ op = 0x17 ∨ op = 0x9D ∨ op = 0xBD := by
      rcases hop' with h | h | h | h | h
      · exact Or.inl h
      · exact Or.inr (Or.inl h)
      · exact Or.inr (Or.inr (Or.inl h))
      · exact absurd h hne
      · exact Or.inr (Or.inr (Or.inr h))
    obtain ⟨target, s1, e1, e2, e3⟩ := callOperand_fixed op hfix (afterFetch s (tbl 0 op).cycles)
    refine ⟨target, s1, e1, e2.trans haf.1, ?_⟩
    rw [e3, haf.2.1]
    by_cases hc : op = 0x8D ∨ op = 0x9D
    · rw [if_pos hc, if_pos hc]
      omega
    · rw [if_neg hc, if_neg hc]
      omega
  · subst hAD
    have hE : ReadIndexedEA (afterFetch s (tbl 0 0xAD).cycles) = some (target, s1) := hoper
    have hi := ReadIndexedEA_index _ _ _ .S (by decide) (haf.2.2 hwf) hE
    have hpb : Read8 (afterFetch s (tbl 0 0xAD).cycles) (afterFetch s (tbl 0 0xAD).cycles).PC
        = Read8 s (s.PC + 1) := by
      show U8 (MemoryBus.Read s.m_memoryBus (U16 (U16 (s.PC + 1))))
        = U8 (MemoryBus.Read s.m_memoryBus (U16 (s.PC + 1)))
      simp only [U16, Nat.mod_mod]
    rw [hpb] at hi
    have hi' : s1.S = specIndexAfter (Read8 s (s.PC + 1)) .S s.S := hi
    have hp := ReadIndexedEA_PC _ _ _ hE
    rw [hpb, haf.2.1] at hp
    refine ⟨by rw [hp]; omega, hi', fun hcase => ?_⟩
    rw [hi']
    rcases hcase with h | h
    · unfold specIndexAfter
      rw [if_neg h]
    · exact specIndexAfter_zero _ _ _ hwf.2.2.2.1 h
  · obtain ⟨hstep, hd, hdisp, hrun⟩ := callOperand_run op hop (tbl 0 op).addrMode hrow.2.2
      (afterFetch s (tbl 0 op).cycles) s1 target hoper
    have hmode : (tbl 0 op).addrMode ≠ .Illegal ∧ (tbl 0 op).addrMode ≠ .Variant := by
      rw [hrow.2.2]
      rcases hop' with rfl | rfl | rfl | rfl | rfl <;> exact ⟨by decide, by decide⟩
    have h10 : op ≠ 0x10 ∧ op ≠ 0x11 := by
      rcases hop' with rfl | rfl | rfl | rfl | rfl <;> exact ⟨by decide, by decide⟩
    exact call_then_return tbl s op hd hfetch h10.1 h10.2 hrow.1 hrow.2.1 hmode hdisp s1 target
      (hstep.1 (haf.2.2 hwf)) hrun hram hrts

theorem call_pushes_return_RTS_returns_witness :
    (0xAD ≠ 0xAD → ∃ target s1,
        callOperand 0xAD (afterFetch jsrMachine (callOps 0 0xAD).cycles) = some (target, s1) ∧
        s1.S = jsrMachine.S ∧
        s1.PC = (jsrMachine.PC + (if 0xAD = 0x8D ∨ 0xAD = 0x9D then 2 else 3)) % 65536) ∧
      (0xAD = 0xAD → ∀ target s1,
        callOperand 0xAD (afterFetch jsrMachine (callOps 0 0xAD).cycles) = some (target, s1) →
        s1.PC = (jsrMachine.PC + 2 +
          specExtraOperandBytes (Read8 jsrMachine (jsrMachine.PC + 1))) % 65536 ∧
        s1.S = specIndexAfter (Read8 jsrMachine (jsrMachine.PC + 1)) .S jsrMachine.S ∧
        (specIndexRegister (Read8 jsrMachine (jsrMachine.PC + 1)) ≠ .S ∨
            specAutoStep (Read8 jsrMachine (jsrMachine.PC + 1)) = 0 →
          s1.S = jsrMachine.S)) ∧
      ∀ target s1,
        callOperand 0xAD (afterFetch jsrMachine (callOps 0 0xAD).cycles) = some (target, s1) →
        (∀ a, a < 65536 → InStack s1.S 2 a → RamAt FlatRam a) →
        ∃ c1 t1, ExecuteInstruction callOps jsrMachine = some (c1, t1) ∧
          t1.PC = target % 65536 ∧ t1.S = (s1.S + 65536 - 2) % 65536 ∧
          readBytes t1 t1.S 2 = [s1.PC / 256, s1.PC % 256] ∧
          (Read8 t1 t1.PC = 0x39 →
            ∃ c2 t2, ExecuteInstruction callOps t1 = some (c2, t2) ∧ t2.PC = s1.PC ∧
              t2.S = s1.S) :=
  call_pushes_return_RTS_returns callOps jsrMachine 0xAD (by decide) (by decide) (by decide)
    (by decide) (by decide)

/-- C29 (counterexample): the state `rampVia` has bit 7 of Port B clear, blank false,
brightness 80 and a non-zero integrator input, yet an update by 10 cycles leaves the beam at
`(100, 100)` and the line buffer with the one segment it had: the position is not moved and
no segment is appended. -/
theorem Update_leaves_ramping_beam :
    rampVia.B.testBit 7 = false ∧ rampVia.m_blank = false ∧ 0 < rampVia.m_brightness ∧
      rampVia.m_velocity.x - 128 - rampVia.m_xyOffset ≠ 0 ∧
      rampVia.m_velocity.y - 128 - rampVia.m_xyOffset ≠ 0 ∧
      rampVia.m_pos = { x := 100, y := 100 } ∧
      (Via.Update rampVia 10).m_pos = { x := 100, y := 100 } ∧
      (Via.Update rampVia 10).m_lines = rampVia.m_lines ∧
      (Via.Update rampVia 10).m_lines.length = 1 := by
  decide

/-- C29 (amended): `Via::Update` never moves the beam and never appends to the line buffer.
For every state and cycle count, whatever `/RAMP`, blank and brightness are, the update
changes only timer 1 (advanced by the cycles) and the interrupt flag (bit 6 set when the
timer's interrupt is enabled after the advance); the beam position, the line buffer,
velocity, offset, brightness, blank and every other register are as before. -/
theorem Update_keeps_beam_and_lines [TimerLike T] (s : Via F T) (cycles : Nat) :
    Via.Update s cycles =
        { s with
          m_timer1 := TimerLike.Update s.m_timer1 cycles
          InterruptFlag := (s.InterruptFlag |||
            (if TimerLike.InterruptEnabled (TimerLike.Update s.m_timer1 cycles) then 64
              else 0)) % 256 } ∧
      (Via.Update s cycles).m_pos = s.m_pos ∧ (Via.Update s cycles).m_lines = s.m_lines ∧
      (Via.Update s cycles).m_velocity = s.m_velocity ∧
      (Via.Update s cycles).m_xyOffset = s.m_xyOffset ∧
      (Via.Update s cycles).m_brightness = s.m_brightness ∧
      (Via.Update s cycles).m_blank = s.m_blank ∧
      (Via.Update s cycles).B = s.B ∧ (Via.Update s cycles).A = s.A :=
  ⟨rfl, rfl, rfl, rfl, rfl, rfl, rfl, rfl, rfl⟩

/-! ## The accumulator pair after the instructions that write it -/

theorem ExecuteInstruction_page0_inv (tbl : Nat → Nat → CpuOp) (s t : CpuImpl M) (c op : Nat)
    (hd : Handler) (hfetch : Read8 s s.PC = op) (h10 : op ≠ 0x10) (h11 : op ≠ 0x11)
    (hentry : (tbl 0 op).opCode = op) (hdisp : dispatchPage0 op = some hd)
    (h : ExecuteInstruction tbl s = some (c, t)) :
    hd.run (tbl 0 op).addrMode (afterFetch s (tbl 0 op).cycles) = some t := by
  have hfetch' : Read8 ({ s with m_cycles := 0 } : CpuImpl M) s.PC = op := hfetch
  have hF : FetchOpCode ({ s with m_cycles := 0 } : CpuImpl M) =
      (0, op, (ReadPC8 ({ s with m_cycles := 0 } : CpuImpl M)).2) := by
    simp only [FetchOpCode, ReadPC8, hfetch', IsOpCodePage1, IsOpCodePage2, beq_iff_eq, h10,
      h11, if_false]
  by_cases hc : (tbl 0 op).cycles = 0
  · simp only [ExecuteInstruction, hF, hc, if_true, reduceCtorEq] at h
  · by_cases hm : (tbl 0 op).addrMode = .Illegal ∨ (tbl 0 op).addrMode = .Variant
    · simp only [ExecuteInstruction, hF, hc, hm, if_true, if_false, reduceCtorEq] at h
    · have hE := ExecuteInstruction_page0 tbl s op hd hfetch h10 h11 hentry
        (Nat.pos_of_ne_zero hc) ⟨fun e => hm (Or.inl e), fun e => hm (Or.inr e)⟩ hdisp
      rw [hE] at h
      cases hr : hd.run (tbl 0 op).addrMode (afterFetch s (tbl 0 op).cycles) with
      | none => rw [hr] at h; exact absurd h (by simp)
      | some u =>
        rw [hr] at h
        simp only [Option.map_some', Option.some.injEq, Prod.mk.injEq] at h
        rw [h.2]

theorem set16_D_bytes (x : CpuImpl M) (v : Nat) (hv : v < 65536) :
    (x.set16 .D v).D = v ∧ (x.set16 .D v).A = v / 256 ∧ (x.set16 .D v).B = v % 256 := by
  refine ⟨?_, ?_, ?_⟩
  · simp only [CpuRegisters.D, CpuImpl.set16, CombineToU16_eq, U8, U16,
      Nat.shiftRight_eq_div_pow]
    omega
  · simp only [CpuImpl.set16, U8, U16, Nat.shiftRight_eq_div_pow]
    omega
  · simp only [CpuImpl.set16, U8, U16]
    omega

theorem OpLD16_D_effect (mode : AddressingMode) (x t : CpuImpl M)
    (h : OpLD16 mode .D x = some t) :
    ∃ v s1, ReadOperandValue16 mode x = some (v, s1) ∧ t.D = v ∧ t.A = v / 256 ∧
      t.B = v % 256 := by
  unfold OpLD16 at h
  split at h
  · exact absurd h (by simp)
  · rename_i v s1 hop
    have hv := (ReadOperandValue16_frame mode x s1 v hop).2
    simp only [Option.some.injEq] at h
    rw [← h]
    exact ⟨v, s1, hop, set16_D_bytes _ v hv⟩

theorem OpADD16_D_effect (mode : AddressingMode) (x t : CpuImpl M)
    (h : OpADD16 mode .D x = some t) :
    ∃ v s1, ReadOperandValue16 mode x = some (v, s1) ∧ t.D = (x.D + v) % 65536 ∧
      t.A = (x.D + v) % 65536 / 256 ∧ t.B = (x.D + v) % 65536 % 256 := by
  unfold OpADD16 at h
  split at h
  · exact absurd h (by simp)
  · rename_i v s1 hop
    obtain ⟨⟨hfA, hfB, -⟩, hv⟩ := ReadOperandValue16_frame mode x s1 v hop
    have hD : s1.get16 .D = x.D := by
      show CombineToU16 s1.A s1.B = CombineToU16 x.A x.B
      rw [hfA, hfB]
    have hDlt : x.D < 65536 := CombineToU16_lt _ _
    obtain ⟨cc', hadd⟩ : ∃ cc', AddImpl16 (s1.get16 .D) v 0 s1.CC false
        = some (U16 ((s1.get16 .D + v + 0) % 4294967296), cc') := ⟨_, rfl⟩
    rw [hadd] at h
    simp only [Option.some.injEq] at h
    have hr : U16 ((s1.get16 .D + v + 0) % 4294967296) = (x.D + v) % 65536 := by
      rw [hD]
      simp only [U16]
      omega
    rw [hr] at h
    rw [← h]
    exact ⟨v, s1, hop, set16_D_bytes _ _ (Nat.mod_lt _ (by decide))⟩

theorem OpSUB16_D_effect (rf : Bool) (mode : AddressingMode) (x t : CpuImpl M)
    (h : OpSUB16 rf mode .D x = some t) :
    ∃ v s1, ReadOperandValue16 mode x = some (v, s1) ∧ t.D = (x.D + 65536 - v) % 65536 ∧
      t.A = (x.D + 65536 - v) % 65536 / 256 ∧ t.B = (x.D + 65536 - v) % 65536 % 256 := by
  unfold OpSUB16 at h
  split at h
  · exact absurd h (by simp)
  · rename_i v s1 hop
    obtain ⟨⟨hfA, hfB, -⟩, hv⟩ := ReadOperandValue16_frame mode x s1 v hop
    have hD : s1.get16 .D = x.get16 .D := by
      show CombineToU16 s1.A s1.B = CombineToU16 x.A x.B
      rw [hfA, hfB]
    have ha : (if rf then x.get16 .D else s1.get16 .D) = x.D := by
      cases rf
      · exact hD
      · rfl
    have hDlt : x.D < 65536 := CombineToU16_lt _ _
    rw [ha] at h
    obtain ⟨r, cc', hS, hr, -⟩ := SubtractImpl16_flags x.D v s1.CC hDlt hv
    rw [hS] at h
    simp only [Option.some.injEq] at h
    have hr' : r = (x.D + 65536 - v) % 65536 := by omega
    rw [hr'] at h
    rw [← h]
    exact ⟨v, s1, hop, set16_D_bytes _ _ (Nat.mod_lt _ (by decide))⟩

theorem OpLD8_effect (mode : AddressingMode) (reg : Reg8) (x t : CpuImpl M)
    (h : OpLD8 mode reg x = some t) :
    ∃ v s1, ReadOperandValue8 mode x = some (v, s1) ∧
      t = ((((s1.setCC { s1.CC with Negative := decide (v &&& BITS 7 ≠ 0) }).setCC
        { s1.CC with Negative := decide (v &&& BITS 7 ≠ 0), Zero := decide (v = 0) }).setCC
        { s1.CC with Negative := decide (v &&& BITS 7 ≠ 0), Zero := decide (v = 0),
                     Overflow := bit1 0 }).set8 reg v) ∧
      v < 256 ∧ s1.A = x.A ∧ s1.B = x.B := by
  unfold OpLD8 at h
  split at h
  · exact absurd h (by simp)
  · rename_i v s1 hop
    obtain ⟨⟨hfA, hfB, -⟩, hv⟩ := ReadOperandValue8_frame mode x s1 v hop
    simp only [Option.some.injEq] at h
    exact ⟨v, s1, hop, h.symm, hv, hfA, hfB⟩

theorem ExchangeOrTransfer_16 (exchange : Bool) (x t : CpuImpl M)
    (hb : (Read8 x x.PC).testBit 3 = false) (h : ExchangeOrTransfer exchange x = some t) :
    ∃ rs rd, [Reg16.D, .X, .Y, .U, .S, .PC][Read8 x x.PC / 16 % 8]? = some rs ∧
      [Reg16.D, .X, .Y, .U, .S, .PC][Read8 x x.PC % 8]? = some rd ∧
      t = if exchange then
          ((ReadPC8 x).2.set16 rd ((ReadPC8 x).2.get16 rs)).set16 rs ((ReadPC8 x).2.get16 rd)
        else (ReadPC8 x).2.set16 rd ((ReadPC8 x).2.get16 rs) := by
  have e : ExchangeOrTransfer exchange x
      = ExchangeOrTransferRegs exchange (Read8 x x.PC) (ReadPC8 x).2 := rfl
  rw [e] at h
  have hb' : ¬ (Read8 x x.PC &&& BITS 3 ≠ 0) := by
    rw [and_BITS_ne_zero_iff, hb]
    simp
  unfold ExchangeOrTransferRegs at h
  split at h
  · exact absurd h (by simp)
  · simp only [if_neg hb', shr4_and7, and7, exgReg16_eq_getElem, Nat.shiftRight_eq_div_pow] at h
    split at h
    · rename_i rs rd hrs hrd
      refine ⟨rs, rd, hrs, hrd, ?_⟩
      cases exchange
      · simp only [Bool.false_eq_true, if_false, Option.some.injEq] at h ⊢
        exact h.symm
      · simp only [if_true, Option.some.injEq] at h ⊢
        exact h.symm
    · exact absurd h (by simp)

theorem afterFetch_post_byte (s : CpuImpl M) (c : Nat) (r : Reg16) :
    (ReadPC8 (afterFetch s c)).2.get16 r
      = if r = .PC then U16 (U16 (s.PC + 1) + 1) else s.get16 r := by
  cases r <;> rfl

theorem written_value_lt (s : CpuImpl M) (hwf : s.toCpuRegisters.WF) (r : Reg16) :
    (if r = .PC then (s.PC + 2) % 65536 else s.get16 r) < 65536 := by
  split
  · exact Nat.mod_lt _ (by decide)
  · exact get16_lt s r hwf

/-- C7: after every instruction that `ExecuteInstruction` completes from a well-formed
register state, `D` is `(A << 8) | B` with `A` its high and `B` its low byte, so that an
instruction that leaves `B` (or `A`) alone changes `D` to the new `A` (or `B`) next to the
old other half.  With `op` the opcode at `PC`, whose table row carries its own opcode:
`LDD` (`0xCC`, `0xDC`, `0xEC`, `0xFC`) reads its operand `v` and leaves `D = v`; `ADDD`
(`0xC3`, `0xD3`, `0xE3`, `0xF3`) leaves `D = (D + v) mod 65536`; `SUBD` (`0x83`, `0x93`,
`0xA3`, `0xB3`) leaves `D = (D - v) mod 65536`; `TFR` (`0x1F`) and `EXG` (`0x1E`) with a
16-bit post-byte whose destination index is 0, and `EXG` with source index 0, leave in `D`
the value of the other register (for `PC` the address after the post-byte); in each case
`A` is the high byte and `B` the low byte of the value written.  `LDA` (`0x86`, `0x96`,
`0xA6`, `0xB6`) leaves `A = v`, `B` unchanged and `D = v * 256 + B`; `LDB` (`0xC6`, `0xD6`,
`0xE6`, `0xF6`) leaves `B = v`, `A` unchanged and `D = A * 256 + v`. -/
theorem D_is_A_B_after_instruction (tbl : Nat → Nat → CpuOp) (s t : CpuImpl M) (c : Nat)
    (hwf : s.toCpuRegisters.WF) (h : ExecuteInstruction tbl s = some (c, t)) :
    (t.D = (t.A <<< 8) ||| t.B ∧ t.D / 256 = t.A ∧ t.D % 256 = t.B) ∧
      ((t.B = s.B → t.D = t.A * 256 + s.B) ∧ (t.A = s.A → t.D = s.A * 256 + t.B)) ∧
      ∀ (op : Nat) (mode : AddressingMode) (x : CpuImpl M), op = Read8 s s.PC →
        (tbl 0 op).opCode = op → mode = (tbl 0 op).addrMode →
        x = afterFetch s (tbl 0 op).cycles →
        (op ∈ [0xCC, 0xDC, 0xEC, 0xFC] →
          ∃ v s1, ReadOperandValue16 mode x = some (v, s1) ∧
            t.D = v ∧ t.A = v / 256 ∧ t.B = v % 256) ∧
        (op ∈ [0xC3, 0xD3, 0xE3, 0xF3] →
          ∃ v s1, ReadOperandValue16 mode x = some (v, s1) ∧
            t.D = (s.D + v) % 65536 ∧ t.A = (s.D + v) % 65536 / 256 ∧
            t.B = (s.D + v) % 65536 % 256) ∧
        (op ∈ [0x83, 0x93, 0xA3, 0xB3] →
          ∃ v s1, ReadOperandValue16 mode x = some (v, s1) ∧
            t.D = (s.D + 65536 - v) % 65536 ∧ t.A = (s.D + 65536 - v) % 65536 / 256 ∧
            t.B = (s.D + 65536 - v) % 65536 % 256) ∧
        (op = 0x1F ∨ op = 0x1E → ∀ p, p = Read8 s (s.PC + 1) → p.testBit 3 = false →
          p % 8 = 0 →
          ∃ rs v, [Reg16.D, .X, .Y, .U, .S, .PC][p / 16 % 8]? = some rs ∧
            v = (if rs = .PC then (s.PC + 2) % 65536 else s.get16 rs) ∧
            t.D = v ∧ t.A = v / 256 ∧ t.B = v % 256) ∧
        (op = 0x1E → ∀ p, p = Read8 s (s.PC + 1) → p.testBit 3 = false → p / 16 % 8 = 0 →
          ∃ rd v, [Reg16.D, .X, .Y, .U, .S, .PC][p % 8]? = some rd ∧
            v = (if rd = .PC then (s.PC + 2) % 65536 else s.get16 rd) ∧
            t.D = v ∧ t.A = v / 256 ∧ t.B = v % 256) ∧
        (op ∈ [0x86, 0x96, 0xA6, 0xB6] →
          ∃ v s1, ReadOperandValue8 mode x = some (v, s1) ∧
            t.A = v ∧ t.B = s.B ∧ t.D = v * 256 + s.B) ∧
        (op ∈ [0xC6, 0xD6, 0xE6, 0xF6] →
          ∃ v s1, ReadOperandValue8 mode x = some (v, s1) ∧
            t.B = v ∧ t.A = s.A ∧ t.D = s.A * 256 + v) := by
  obtain ⟨-, -, -, -, -, -, hA, hB⟩ := (ExecuteInstruction_step tbl s t c h).1 hwf
  have hsA : s.A < 256 := hwf.2.2.2.2.2.2.1
  have hsB : s.B < 256 := hwf.2.2.2.2.2.2.2
  have hD : t.D = t.A * 256 + t.B := by
    simp only [CpuRegisters.D, CombineToU16_eq, Nat.mod_eq_of_lt hA, Nat.mod_eq_of_lt hB]
  have e2 : U16 (U16 (s.PC + 1) + 1) = (s.PC + 2) % 65536 := by
    simp only [U16]
    omega
  refine ⟨⟨?_, ?_, ?_⟩, ⟨fun e => ?_, fun e => ?_⟩, ?_⟩
  · simp only [CpuRegisters.D, CombineToU16, U8, Nat.mod_eq_of_lt hA, Nat.mod_eq_of_lt hB]
  · rw [hD]; omega
  · rw [hD]; omega
  · rw [hD, e]
  · rw [hD, e]
  intro op mode x hop hentry hmode hx
  have hfetch : Read8 s s.PC = op := hop.symm
  have hxwf : x.toCpuRegisters.WF := by
    rw [hx]
    exact (afterFetch_regs s _).2.2 hwf
  have hxD : x.D = s.D := by rw [hx]; rfl
  have hxA : x.A = s.A := by rw [hx]; rfl
  have hxB : x.B = s.B := by rw [hx]; rfl
  have hinv := fun (hd : Handler) (h10 : op ≠ 0x10) (h11 : op ≠ 0x11)
      (hdisp : dispatchPage0 op = some hd) =>
    ExecuteInstruction_page0_inv tbl s t c op hd hfetch h10 h11 hentry hdisp h
  rw [← hmode, ← hx] at hinv
  have hxfer : ∀ exchange : Bool, ExchangeOrTransfer exchange x = some t →
      ∀ p, p = Read8 s (s.PC + 1) → p.testBit 3 = false →
      ∃ rs rd, [Reg16.D, .X, .Y, .U, .S, .PC][p / 16 % 8]? = some rs ∧
        [Reg16.D, .X, .Y, .U, .S, .PC][p % 8]? = some rd ∧
        t = if exchange then
            ((ReadPC8 x).2.set16 rd ((ReadPC8 x).2.get16 rs)).set16 rs ((ReadPC8 x).2.get16 rd)
          else (ReadPC8 x).2.set16 rd ((ReadPC8 x).2.get16 rs) := by
    intro exchange hrun p hp hb
    have hpx : Read8 x x.PC = p := by
      rw [hx, hp]
      exact Read8_afterFetch s _
    have := ExchangeOrTransfer_16 exchange x t (by rw [hpx]; exact hb) hrun
    rw [hpx] at this
    exact this
  have hval : ∀ r : Reg16, (ReadPC8 x).2.get16 r
      = if r = .PC then (s.PC + 2) % 65536 else s.get16 r := by
    intro r
    rw [hx, afterFetch_post_byte, e2]
  have hx1wf : (ReadPC8 x).2.toCpuRegisters.WF := (StepOK_ReadPC8 (StepOK_refl x)).1 hxwf
  refine ⟨fun hm => ?_, fun hm => ?_, fun hm => ?_, fun hm p hp hb hdst => ?_,
    fun hm p hp hb hsrc => ?_, fun hm => ?_, fun hm => ?_⟩
  · simp only [List.mem_cons, List.mem_singleton, List.not_mem_nil, or_false] at hm
    have hrun : OpLD16 mode .D x = some t := by
      rcases hm with e | e | e | e <;>
        exact hinv (.LD16 .D) (by rw [e]; decide) (by rw [e]; decide) (by rw [e]; rfl)
    exact OpLD16_D_effect mode x t hrun
  · simp only [List.mem_cons, List.mem_singleton, List.not_mem_nil, or_false] at hm
    have hrun : OpADD16 mode .D x = some t := by
      rcases hm with e | e | e | e <;>
        exact hinv (.ADD16 .D) (by rw [e]; decide) (by rw [e]; decide) (by rw [e]; rfl)
    have := OpADD16_D_effect mode x t hrun
    rw [hxD] at this
    exact this
  · simp only [List.mem_cons, List.mem_singleton, List.not_mem_nil, or_false] at hm
    have hrun : OpSUB16 (ArgumentOrder.registerFirst M (.SUB16 .D) mode) mode .D x = some t := by
      rcases hm with e | e | e | e <;>
        exact hinv (.SUB16 .D) (by rw [e]; decide) (by rw [e]; decide) (by rw [e]; rfl)
    have := OpSUB16_D_effect _ mode x t hrun
    rw [hxD] at this
    exact this
  · have hrun : ∃ exchange : Bool, ExchangeOrTransfer exchange x = some t := by
      rcases hm with e | e
      · exact ⟨false, hinv .TFR (by rw [e]; decide) (by rw [e]; decide) (by rw [e]; rfl)⟩
      · exact ⟨true, hinv .EXG (by rw [e]; decide) (by rw [e]; decide) (by rw [e]; rfl)⟩
    obtain ⟨exchange, hrun⟩ := hrun
    obtain ⟨rs, rd, hrs, hrd, ht⟩ := hxfer exchange hrun p hp hb
    rw [hdst] at hrd
    have hrdD : rd = .D := by
      have : some Reg16.D = some rd := hrd
      exact (Option.some.inj this).symm
    refine ⟨rs, _, hrs, rfl, ?_⟩
    have hv := written_value_lt s hwf rs
    have hget : t.get16 .D = (ReadPC8 x).2.get16 rs := by
      rw [ht, hrdD]
      cases exchange
      · exact (transfer16_effect _ rs .D hx1wf).1
      · exact (exchange16_effect _ rs .D hx1wf).1
    rw [hval rs] at hget
    have hDv : t.D = (if rs = .PC then (s.PC + 2) % 65536 else s.get16 rs) := hget
    refine ⟨hDv, ?_, ?_⟩
    · have := hD; omega
    · have := hD; omega
  · have hrun : ExchangeOrTransfer true x = some t :=
      hinv .EXG (by rw [hm]; decide) (by rw [hm]; decide) (by rw [hm]; rfl)
    obtain ⟨rs, rd, hrs, hrd, ht⟩ := hxfer true hrun p hp hb
    rw [hsrc] at hrs
    have hrsD : rs = .D := by
      have : some Reg16.D = some rs := hrs
      exact (Option.some.inj this).symm
    refine ⟨rd, _, hrd, rfl, ?_⟩
    have hv := written_value_lt s hwf rd
    have hget : t.get16 .D = (ReadPC8 x).2.get16 rd := by
      rw [ht, hrsD]
      exact (exchange16_effect _ .D rd hx1wf).2
    rw [hval rd] at hget
    have hDv : t.D = (if rd = .PC then (s.PC + 2) % 65536 else s.get16 rd) := hget
    refine ⟨hDv, ?_, ?_⟩
    · have := hD; omega
    · have := hD; omega
  · simp only [List.mem_cons, List.mem_singleton, List.not_mem_nil, or_false] at hm
    have hrun : OpLD8 mode .A x = some t := by
      rcases hm with e | e | e | e <;>
        exact hinv (.LD8 .A) (by rw [e]; decide) (by rw [e]; decide) (by rw [e]; rfl)
    obtain ⟨v, s1, hread, ht, hv, h1A, h1B⟩ := OpLD8_effect mode .A x t hrun
    have htA : t.A = v := by
      rw [ht]
      exact Nat.mod_eq_of_lt hv
    have htB : t.B = s.B := by
      rw [ht]
      exact h1B.trans hxB
    refine ⟨v, s1, hread, htA, htB, ?_⟩
    rw [hD, htA, htB]
  · simp only [List.mem_cons, List.mem_singleton, List.not_mem_nil, or_false] at hm
    have hrun : OpLD8 mode .B x = some t := by
      rcases hm with e | e | e | e <;>
        exact hinv (.LD8 .B) (by rw [e]; decide) (by rw [e]; decide) (by rw [e]; rfl)
    obtain ⟨v, s1, hread, ht, hv, h1A, h1B⟩ := OpLD8_effect mode .B x t hrun
    have htB : t.B = v := by
      rw [ht]
      exact Nat.mod_eq_of_lt hv
    have htA : t.A = s.A := by
      rw [ht]
      exact h1A.trans hxA
    refine ⟨v, s1, hread, htB, htA, ?_⟩
    rw [hD, htA, htB]

theorem D_is_A_B_after_instruction_witness :
    (lddResult.D = (lddResult.A <<< 8) ||| lddResult.B ∧ lddResult.D / 256 = lddResult.A ∧
        lddResult.D % 256 = lddResult.B) ∧
      ∃ v s1, ReadOperandValue16 .Immediate (afterFetch lddMachine 3) = some (v, s1) ∧
        lddResult.D = v ∧ lddResult.A = v / 256 ∧ lddResult.B = v % 256 :=
  ⟨(D_is_A_B_after_instruction sampleOps lddMachine lddResult 3 (by decide) (by rfl)).1,
    ((D_is_A_B_after_instruction sampleOps lddMachine lddResult 3 (by decide) (by rfl)).2.2
      0xCC .Immediate (afterFetch lddMachine 3) rfl rfl rfl rfl).1 (by decide)⟩

/-! ## The bus actions of the PSG mode switch -/

theorem and_F00 : ∀ q, q < 4096 → q &&& 0xF00 = q / 256 % 16 * 256 := by
  decide!

theorem and_F00_eq (p : Nat) : p &&& 0xF00 = p / 256 % 16 * 256 := by
  have e : p &&& 0xF00 = (p % 4096) &&& 0xF00 := by
    have h : (0xF00 : Nat) = 0xFFF &&& 0xF00 := by decide
    have h2 : p &&& 0xFFF = p % 4096 := Nat.and_pow_two_sub_one_eq_mod p 12
    rw [← h2, Nat.and_assoc, ← h]
  rw [e, and_F00 _ (Nat.mod_lt _ (by decide))]
  omega

theorem SetPeriodLow_period (g : ToneGenerator) (v : Nat) (hv : v < 256) :
    (g.SetPeriodLow v).m_period % 256 = v ∧
      (g.SetPeriodLow v).m_period / 256 % 16 = g.m_period / 256 % 16 := by
  have e : (g.SetPeriodLow v).m_period = g.m_period / 256 % 16 * 256 + v := by
    show (g.m_period &&& 0xF00) ||| U8 v = _
    rw [and_F00_eq, U8, Nat.mod_eq_of_lt hv, ← shl8_or _ _ hv, Nat.shiftLeft_eq]
  rw [e]
  omega

theorem SetPeriodHigh_period (g : ToneGenerator) (v : Nat) :
    (g.SetPeriodHigh v).m_period % 256 = g.m_period % 256 ∧
      (g.SetPeriodHigh v).m_period / 256 % 16 = v % 16 := by
  have e : (g.SetPeriodHigh v).m_period = v % 16 * 256 + g.m_period % 256 := by
    show ((v &&& 0x0F) <<< 8) ||| (g.m_period &&& 0x0FF) = _
    rw [and_FF, and_15, shl8_or _ _ (Nat.mod_lt _ (by decide))]
  rw [e]
  omega

theorem PeriodLow_eq (g : ToneGenerator) : g.PeriodLow = g.m_period % 256 := and_FF _

theorem PeriodHigh_eq (g : ToneGenerator) : g.PeriodHigh = g.m_period / 256 % 16 := by
  show (g.m_period >>> 8) &&& 0x0F = _
  rw [Nat.shiftRight_eq_div_pow, and_15]

theorem getD_set_register (l : List Nat) (a i v : Nat) (ha : a < l.length) :
    (l.set a v).getD i 0 = if i = a then v else l.getD i 0 := by
  rw [List.getD_eq_getElem?_getD, List.getD_eq_getElem?_getD, List.getElem?_set]
  by_cases h : a = i
  · subst h
    simp [ha]
  · have h' : ¬ i = a := fun e => h e.symm
    simp [h, h']

theorem ReadBits_io_bits : ∀ v, v < 256 → (ReadBits v 0b11000000 = 0 ↔ v < 64) := by
  decide!

theorem Read_latched (u : Psg) (hla : u.m_latchedAddress < 16) :
    u.Read u.m_latchedAddress = .ok (specRegister u u.m_latchedAddress) := by
  obtain ⟨mode, da, regs, div, tg, la, bdir, bc1⟩ := u
  simp only at hla
  simp only [Psg.Read, specRegister, PeriodLow_eq, PeriodHigh_eq, Psg.registerAt]
  interval_cases la <;> simp

theorem specRegister_clockGenerators (u : Psg) (i : Nat) :
    specRegister u.clockGenerators i = specRegister u i := by
  rw [clockGenerators_eq]
  split
  · have h : ∀ g : ToneGenerator, g.Clock.m_period = g.m_period := by
      intro g
      unfold ToneGenerator.Clock
      split <;> rfl
    unfold specRegister
    split <;> simp only [h]
  · rfl

theorem Write_latched (u : Psg) (hlen : u.m_registers.length = 16)
    (hla : u.m_latchedAddress < 16) (hda : u.m_DA < 256)
    (hok : ¬ (u.m_latchedAddress = 7 ∧ 64 ≤ u.m_DA)) :
    ∃ t, u.Write u.m_latchedAddress u.m_DA = .ok t ∧ t.m_DA = u.m_DA ∧
      t.m_latchedAddress = u.m_latchedAddress ∧ t.m_mode = u.m_mode ∧
      t.m_registers.length = 16 ∧ t.m_BDIR = u.m_BDIR ∧ t.m_BC1 = u.m_BC1 ∧
      t.m_masterDivider = u.m_masterDivider ∧
      ∀ i, i < 16 → specRegister t i =
        if i = u.m_latchedAddress then specStored i u.m_DA else specRegister u i := by
  obtain ⟨mode, da, regs, div, ⟨g0, g1, g2⟩, la, bdir, bc1⟩ := u
  simp only at hlen hla hda hok
  have hio : la = 7 → ReadBits da 0b11000000 = 0 := by
    intro h7
    rw [ReadBits_io_bits da hda]
    by_contra hc
    exact hok ⟨h7, by omega⟩
  have hset : ∀ a i, a < 16 → (regs.set a (U8 da)).getD i 0
      = if i = a then da else regs.getD i 0 := by
    intro a i ha
    rw [getD_set_register _ _ _ _ (by omega), U8, Nat.mod_eq_of_lt hda]
  have hL := fun g => SetPeriodLow_period g da hda
  have hH := fun g => SetPeriodHigh_period g da
  have h7 : la = 7 → Psg.Write ⟨mode, da, regs, div, ⟨g0, g1, g2⟩, la, bdir, bc1⟩ la da
      = .ok ⟨mode, da, regs.set la (U8 da), div, ⟨g0, g1, g2⟩, la, bdir, bc1⟩ := by
    intro e
    subst e
    simp only [Psg.Write, hio rfl, if_true, Psg.setRegisterAt]
    rfl
  interval_cases la
  case «7» =>
    refine ⟨_, h7 rfl, ?_, ?_, ?_, ?_, ?_, ?_, ?_, ?_⟩
    iterate 3 rfl
    · simp only [List.length_set, hlen]
    iterate 3 rfl
    · intro i hi
      interval_cases i <;> simp (disch := decide) only [specRegister, specStored, hset] <;> simp
  all_goals
    refine ⟨_, rfl, ?_, ?_, ?_, ?_, ?_, ?_, ?_, ?_⟩
  all_goals first
    | rfl
    | exact hlen
    | (simp only [List.length_set]; exact hlen)
    | skip
  all_goals
    intro i hi
    interval_cases i <;>
      simp (disch := decide) only [specRegister, specStored, hset, (hL g0).1, (hL g0).2, (hL g1).1, (hL g1).2,
        (hL g2).1, (hL g2).2, (hH g0).1, (hH g0).2, (hH g1).1, (hH g1).2, (hH g2).1,
        (hH g2).2] <;> simp

/-- C33: `Psg::Clock` sets the mode from the pins, runs the mode switch with the mode of the
previous clock, and then clocks the generators, which changes neither `DA`, nor the latched
address, nor the register file, nor any register.  For a state `u` at the mode switch with
sixteen registers, a latched address below 16 and a byte on `DA`: when the previous mode was
not `Inactive` the switch changes nothing, whatever the current mode; when it was `Inactive`
the switch performs the action of the current mode: none for `Inactive`; for `Read`, `DA`
gets the latched register; for `LatchAddress`, the latched address gets `DA & 0xF`; for
`Write`, the latched register gets `DA` (its low 4 bits for the period-high registers 1, 3,
5) while `DA`, the latched address and every other register stay as they are, except that
a write of a byte with bit 6 or 7 set to the mixer register 7 stops at the assertion.  So a
`Clock` whose previous mode was not `Inactive` completes with `DA`, the register file, the
latched address and every register unchanged, and a `Clock` whose previous mode was
`Inactive` and that derives the mode `Read` completes with the latched register on `DA` and
everything else of these unchanged. -/
theorem Clock_acts_only_after_Inactive (s u : Psg) (hlen : u.m_registers.length = 16)
    (hla : u.m_latchedAddress < 16) (hda : u.m_DA < 256) :
    s.Clock = (Psg.modeSwitch s.m_mode
        { s with m_mode := ModeFromBDIRandBC1 s.m_BDIR s.m_BC1 }).map Psg.clockGenerators ∧
    (∀ w : Psg, w.clockGenerators.m_DA = w.m_DA ∧
      w.clockGenerators.m_latchedAddress = w.m_latchedAddress ∧
      w.clockGenerators.m_registers = w.m_registers ∧
      w.clockGenerators.m_mode = w.m_mode ∧
      ∀ i, specRegister w.clockGenerators i = specRegister w i) ∧
    (∀ lastMode, lastMode ≠ .Inactive → u.modeSwitch lastMode = .ok u) ∧
    (u.m_mode = .Inactive → u.modeSwitch .Inactive = .ok u) ∧
    (u.m_mode = .Read →
      u.modeSwitch .Inactive = .ok { u with m_DA := specRegister u u.m_latchedAddress }) ∧
    (u.m_mode = .LatchAddress →
      u.modeSwitch .Inactive = .ok { u with m_latchedAddress := u.m_DA % 16 }) ∧
    (u.m_mode = .Write → u.m_latchedAddress = 7 ∧ 64 ≤ u.m_DA →
      u.modeSwitch .Inactive = .error .assertion) ∧
    (u.m_mode = .Write → ¬ (u.m_latchedAddress = 7 ∧ 64 ≤ u.m_DA) →
      ∃ t, u.modeSwitch .Inactive = .ok t ∧ t.m_DA = u.m_DA ∧
        t.m_latchedAddress = u.m_latchedAddress ∧ t.m_mode = u.m_mode ∧
        t.m_registers.length = 16 ∧ t.m_BDIR = u.m_BDIR ∧ t.m_BC1 = u.m_BC1 ∧
        t.m_masterDivider = u.m_masterDivider ∧
        ∀ i, i < 16 → specRegister t i =
          if i = u.m_latchedAddress then specStored i u.m_DA else specRegister u i) ∧
    (s.m_mode ≠ .Inactive →
      ∃ t, s.Clock = .ok t ∧ t.m_mode = ModeFromBDIRandBC1 s.m_BDIR s.m_BC1 ∧
        t.m_DA = s.m_DA ∧ t.m_registers = s.m_registers ∧
        t.m_latchedAddress = s.m_latchedAddress ∧ ∀ i, specRegister t i = specRegister s i) ∧
    (s.m_mode = .Inactive → ModeFromBDIRandBC1 s.m_BDIR s.m_BC1 = .Read →
      s.m_latchedAddress < 16 →
      ∃ t, s.Clock = .ok t ∧ t.m_mode = .Read ∧
        t.m_DA = specRegister s s.m_latchedAddress ∧ t.m_registers = s.m_registers ∧
        t.m_latchedAddress = s.m_latchedAddress ∧ ∀ i, specRegister t i = specRegister s i) := by
  have hkeep : ∀ w : Psg, w.clockGenerators.m_DA = w.m_DA ∧
      w.clockGenerators.m_latchedAddress = w.m_latchedAddress ∧
      w.clockGenerators.m_registers = w.m_registers ∧
      w.clockGenerators.m_mode = w.m_mode ∧
      ∀ i, specRegister w.clockGenerators i = specRegister w i := fun w =>
    ⟨(clockGenerators_keeps w).1, (clockGenerators_keeps w).2.1, (clockGenerators_keeps w).2.2.1,
      (clockGenerators_keeps w).2.2.2.1, specRegister_clockGenerators w⟩
  have hidle : ∀ (w : Psg) (lastMode : PsgMode), lastMode ≠ .Inactive →
      w.modeSwitch lastMode = .ok w := by
    intro w lastMode hne
    unfold Psg.modeSwitch
    split <;> simp only [hne, if_false]
  have hclock : s.Clock = (Psg.modeSwitch s.m_mode
      { s with m_mode := ModeFromBDIRandBC1 s.m_BDIR s.m_BC1 }).map Psg.clockGenerators := by
    unfold Psg.Clock
    simp only
    cases Psg.modeSwitch s.m_mode { s with m_mode := ModeFromBDIRandBC1 s.m_BDIR s.m_BC1 } <;>
      rfl
  have hread : ∀ w : Psg, w.m_mode = .Read → w.m_latchedAddress < 16 →
      w.modeSwitch .Inactive = .ok { w with m_DA := specRegister w w.m_latchedAddress } := by
    intro w hm hw
    unfold Psg.modeSwitch
    rw [hm]
    simp only [if_true, Read_latched w hw]
  refine ⟨hclock, hkeep, hidle u, fun hm => ?_, fun hm => hread u hm hla, fun hm => ?_,
    fun hm h7 => ?_, fun hm hok => ?_, fun hne => ?_, fun hin hm hs => ?_⟩
  · unfold Psg.modeSwitch
    rw [hm]
  · unfold Psg.modeSwitch
    rw [hm]
    simp only [if_true, ReadBits, and_15]
  · have hio : ¬ ReadBits u.m_DA 0b11000000 = 0 := by
      rw [ReadBits_io_bits _ hda]
      omega
    unfold Psg.modeSwitch
    rw [hm]
    simp only [if_true, Psg.Write, h7.1, hio, if_false]
  · obtain ⟨t, h1, h2⟩ := Write_latched u hlen hla hda hok
    refine ⟨t, ?_, h2⟩
    unfold Psg.modeSwitch
    rw [hm]
    simp only [if_true, h1]
  · obtain ⟨k1, k2, k3, k4, k5⟩ :=
      hkeep { s with m_mode := ModeFromBDIRandBC1 s.m_BDIR s.m_BC1 }
    refine ⟨_, by rw [hclock, hidle _ _ hne]; rfl, k4, k1, k3, k2, fun i => ?_⟩
    rw [k5 i]
    rfl
  · have hsw := hread { s with m_mode := ModeFromBDIRandBC1 s.m_BDIR s.m_BC1 } hm hs
    rw [← hin] at hsw
    obtain ⟨k1, k2, k3, k4, k5⟩ :=
      hkeep { s with m_mode := ModeFromBDIRandBC1 s.m_BDIR s.m_BC1,
                     m_DA := specRegister s s.m_latchedAddress }
    refine ⟨_, by rw [hclock, hsw]; rfl, k4.trans hm, k1, k3, k2, fun i => ?_⟩
    rw [k5 i]
    rfl

theorem Clock_acts_only_after_Inactive_witness :
    ∃ t, writePsg.modeSwitch .Inactive = .ok t ∧ t.m_DA = 0x42 ∧
      t.m_latchedAddress = 8 ∧ t.m_mode = .Write ∧
      t.m_registers.length = 16 ∧ t.m_BDIR = writePsg.m_BDIR ∧ t.m_BC1 = writePsg.m_BC1 ∧
      t.m_masterDivider = writePsg.m_masterDivider ∧
      ∀ i, i < 16 → specRegister t i =
        if i = 8 then specStored i 0x42 else specRegister writePsg i :=
  (Clock_acts_only_after_Inactive samplePsg writePsg (by decide) (by decide)
    (by decide)).2.2.2.2.2.2.2.1 rfl (by decide)

end Vectrexy
